import Mathlib

/-! # Synet forward kernels of the Simd library (SSE4.1 and AVX2 tiers)

A shallow embedding of `src/Simd/SimdSse41Synet.cpp` and `src/Simd/SimdAvx2Synet.cpp`.

* A read-only buffer reached through a pointer `p` is a function `Nat → α`; `p[i]` is `p i`
  and the pointer `p + n` is `fun i => p (n + i)`.
* An output buffer is a `Buf α`: its contents together with the log of the indices that
  were stored to, in program order.
* A vector register is its lane function `Nat → α`; only the lanes below the vector width
  of the tier are meaningful.
* Floating-point arithmetic is read exactly, in a commutative ring / ordered field `α`.
* A C `for (; j < hi; j += step)` loop is `forLoop step hi body fuel j st`.
-/

namespace Simd

/-! ## Memory model -/

/-- An output buffer: contents and the log of stored indices (oldest first). -/
structure Buf (α : Type) where
  /-- Content of the buffer, by element index. -/
  data : Nat → α
  /-- Element indices stored to so far, in program order. -/
  writes : List Nat

/-- The scalar store `dst[j] = v`. -/
def Buf.set {α : Type} (b : Buf α) (j : Nat) (v : α) : Buf α :=
  ⟨fun x => if x = j then v else b.data x, b.writes ++ [j]⟩

/-- A fresh output buffer with the given content and an empty store log. -/
def Buf.ofFn {α : Type} (f : Nat → α) : Buf α := ⟨f, []⟩

/-- The loop `for (; j < hi; j += step) st = body j st;`, started at counter `j` in state
`st`; the result is the final counter and the final state. `fuel` bounds the number of
iterations (`hi` iterations are always enough when `0 < step`). -/
def forLoop {σ : Type} (step hi : Nat) (body : Nat → σ → σ) : Nat → Nat → σ → Nat × σ
  | 0, j, st => (j, st)
  | fuel + 1, j, st =>
    if j < hi then forLoop step hi body fuel (j + step) (body j st) else (j, st)

/-- Modelled from the spec: `AlignLo` of SimdMemory.h, which is not among the sources at hand.
`AlignLo(size, align)` is the largest whole multiple of `align` not above `size`
(`size & ~(align - 1)` for the powers of two used by the kernels). -/
def AlignLo (size align : Nat) : Nat := size / align * align

/-- Modelled from the spec: `AlignLoAny` of SimdMemory.h, which is not among the sources at
hand: `size / align * align`. -/
def AlignLoAny (size align : Nat) : Nat := size / align * align

/-- Unsigned 64-bit subtraction `a - b` of two `size_t` values (wraps around below zero). -/
def subSizeT (a b : Nat) : Nat := if b ≤ a then a - b else a + 2 ^ 64 - b

/-! ## Vector primitives shared by both tiers

`Load<align>` / `Store<align>` (SimdLoad.h, SimdStore.h) and the lane-wise intrinsics. The
`align` flag selects the aligned or the unaligned instruction; it does not change the value
moved. -/

/-- Modelled from the spec: `Load<align>` of SimdLoad.h, which is not among the sources at
hand; the aligned and the unaligned load move the same values. The vector load
`Load<align>(p + offset)`: lane `l` is `p[offset + l]`. -/
def Load {α : Type} (_align : Bool) (p : Nat → α) (offset : Nat) : Nat → α :=
  fun l => p (offset + l)

/-- Modelled from the spec: `Store<align>` of SimdStore.h, which is not among the sources at
hand; the aligned and the unaligned store move the same values. The vector store
`Store<align>(dst + offset, v)` of `F` lanes. -/
def Store {α : Type} (F : Nat) (_align : Bool) (dst : Buf α) (offset : Nat) (v : Nat → α) :
    Buf α :=
  ⟨fun x => if offset ≤ x ∧ x < offset + F then v (x - offset) else dst.data x,
   dst.writes ++ List.range' offset F⟩

/-- The broadcast `_mm_set1_ps(a)` / `_mm256_set1_ps(a)`. -/
def set1_ps {α : Type} (a : α) : Nat → α := fun _ => a

/-- The all-zero register `_mm_setzero_ps()` / `_mm256_setzero_ps()`. -/
def setzero_ps {α : Type} [Zero α] : Nat → α := fun _ => 0

/-- Lane-wise `_mm_add_ps` / `_mm256_add_ps`. -/
def add_ps {α : Type} [Add α] (a b : Nat → α) : Nat → α := fun l => a l + b l

/-- Lane-wise `_mm_sub_ps` / `_mm256_sub_ps`. -/
def sub_ps {α : Type} [Sub α] (a b : Nat → α) : Nat → α := fun l => a l - b l

/-- Lane-wise `_mm_mul_ps` / `_mm256_mul_ps`. -/
def mul_ps {α : Type} [Mul α] (a b : Nat → α) : Nat → α := fun l => a l * b l

/-- Lane-wise fused multiply-add `_mm256_fmadd_ps(a, b, c) = a * b + c`. -/
def fmadd_ps {α : Type} [Mul α] [Add α] (a b c : Nat → α) : Nat → α :=
  fun l => a l * b l + c l

/-- Lane-wise `_mm_max_ps(a, b)`: `a > b ? a : b`. -/
def max_ps {α : Type} [LT α] [DecidableRel (fun (x y : α) => x < y)] (a b : Nat → α) :
    Nat → α :=
  fun l => if b l < a l then a l else b l

/-- Lane-wise `_mm_min_ps(a, b)`: `a < b ? a : b`. -/
def min_ps {α : Type} [LT α] [DecidableRel (fun (x y : α) => x < y)] (a b : Nat → α) :
    Nat → α :=
  fun l => if a l < b l then a l else b l

/-- Modelled from the spec: `ExtractSum` of SimdExtract.h, which is not among the sources at
hand: the horizontal reduction of the `F` lanes of a register to one scalar. -/
def ExtractSum {α : Type} [AddCommMonoid α] (F : Nat) (v : Nat → α) : α :=
  ∑ l in Finset.range F, v l

/-! ## SSE4.1 tier: element-wise combination -/

namespace Sse41

/-- Number of `float` lanes of a 128-bit register. -/
def F : Nat := 4

/-- Four registers worth of `float` lanes. -/
def QF : Nat := 16

/-- `SynetEltwiseLayerForwardSum<align>(src0, weight0, src1, weight1, dst, offset)`. -/
def SynetEltwiseLayerForwardSum2 {α : Type} [CommRing α] (align : Bool)
    (src0 : Nat → α) (weight0 : Nat → α) (src1 : Nat → α) (weight1 : Nat → α)
    (dst : Buf α) (offset : Nat) : Buf α :=
  Store F align dst offset
    (add_ps (mul_ps (Load align src0 offset) weight0) (mul_ps (Load align src1 offset) weight1))

/-- `SynetEltwiseLayerForwardSum<align>(src, weight, dst, offset)`. -/
def SynetEltwiseLayerForwardSum1 {α : Type} [CommRing α] (align : Bool)
    (src : Nat → α) (weight : Nat → α) (dst : Buf α) (offset : Nat) : Buf α :=
  Store F align dst offset
    (add_ps (mul_ps (Load align src offset) weight) (Load align dst.data offset))

/-- `SynetEltwiseLayerForwardSum<align>(src, weight, count, size, dst)`. -/
def SynetEltwiseLayerForwardSum {α : Type} [CommRing α] (align : Bool)
    (src : Nat → Nat → α) (weight : Nat → α) (count size : Nat) (dst : Buf α) : Buf α :=
  let aligned := AlignLo size QF
  let part := AlignLo size F
  let src0 := src 0
  let src1 := src 1
  let weight0 := set1_ps (weight 0)
  let weight1 := set1_ps (weight 1)
  let r :=
    if part ≠ 0 then
      let r := forLoop QF aligned (fun j dst =>
        let dst := SynetEltwiseLayerForwardSum2 align src0 weight0 src1 weight1 dst (j + F * 0)
        let dst := SynetEltwiseLayerForwardSum2 align src0 weight0 src1 weight1 dst (j + F * 1)
        let dst := SynetEltwiseLayerForwardSum2 align src0 weight0 src1 weight1 dst (j + F * 2)
        SynetEltwiseLayerForwardSum2 align src0 weight0 src1 weight1 dst (j + F * 3))
        aligned 0 dst
      forLoop F part (fun j dst =>
        SynetEltwiseLayerForwardSum2 align src0 weight0 src1 weight1 dst j) part r.1 r.2
    else (0, dst)
  let r := forLoop 1 size (fun j dst =>
    dst.set j (src0 j * weight 0 + src1 j * weight 1)) size r.1 r.2
  (forLoop 1 count (fun i dst =>
    let srci := src i
    let weighti := set1_ps (weight i)
    let r :=
      if part ≠ 0 then
        let r := forLoop QF aligned (fun j dst =>
          let dst := SynetEltwiseLayerForwardSum1 align srci weighti dst (j + F * 0)
          let dst := SynetEltwiseLayerForwardSum1 align srci weighti dst (j + F * 1)
          let dst := SynetEltwiseLayerForwardSum1 align srci weighti dst (j + F * 2)
          SynetEltwiseLayerForwardSum1 align srci weighti dst (j + F * 3))
          aligned 0 dst
        forLoop F part (fun j dst =>
          SynetEltwiseLayerForwardSum1 align srci weighti dst j) part r.1 r.2
      else (0, dst)
    (forLoop 1 size (fun j dst =>
      dst.set j (dst.data j + srci j * weight i)) size r.1 r.2).2) count 2 r.2).2

end Sse41

/-- The operator tag `SimdSynetEltwiseOperationType` of the element-wise combination. -/
inductive SimdSynetEltwiseOperationType where
  | Product
  | Sum
  | Max
  | Min
  deriving DecidableEq, Repr

namespace Base

/-- Modelled from the spec: the scalar `Base::SynetEltwiseLayerForward<Product>(a, b)` of
SimdSynet.h, which is not among the sources at hand: the product of the two inputs. -/
def SynetEltwiseLayerForwardProduct {α : Type} [Mul α] (src0 src1 : α) : α := src0 * src1

/-- Modelled from the spec: the scalar `Base::SynetEltwiseLayerForward<Max>(a, b)` of
SimdSynet.h, which is not among the sources at hand: the larger of the two inputs. -/
def SynetEltwiseLayerForwardMax {α : Type} [LT α] [DecidableRel (fun (x y : α) => x < y)]
    (src0 src1 : α) : α := if src1 < src0 then src0 else src1

/-- Modelled from the spec: the scalar `Base::SynetEltwiseLayerForward<Min>(a, b)` of
SimdSynet.h, which is not among the sources at hand: the smaller of the two inputs. -/
def SynetEltwiseLayerForwardMin {α : Type} [LT α] [DecidableRel (fun (x y : α) => x < y)]
    (src0 src1 : α) : α := if src0 < src1 then src0 else src1

end Base

namespace Sse41

/-- `SynetEltwiseLayerForward<SimdSynetEltwiseOperationProduct>(__m128 src0, __m128 src1)`. -/
def SynetEltwiseLayerForwardProduct {α : Type} [Mul α] (src0 src1 : Nat → α) : Nat → α :=
  mul_ps src0 src1

/-- `SynetEltwiseLayerForward<SimdSynetEltwiseOperationMax>(__m128 src0, __m128 src1)`. -/
def SynetEltwiseLayerForwardMax {α : Type} [LT α] [DecidableRel (fun (x y : α) => x < y)]
    (src0 src1 : Nat → α) : Nat → α :=
  max_ps src0 src1

/-- `SynetEltwiseLayerForward<SimdSynetEltwiseOperationMin>(__m128 src0, __m128 src1)`. -/
def SynetEltwiseLayerForwardMin {α : Type} [LT α] [DecidableRel (fun (x y : α) => x < y)]
    (src0 src1 : Nat → α) : Nat → α :=
  min_ps src0 src1

/-- `SynetEltwiseLayerForward<type, align>(src0, src1, dst, offset)`; the template argument
`type` is the pair of its vector specialisation `opV` and (for the kernel below) the scalar
`Base` function. -/
def SynetEltwiseLayerForwardAt {α : Type} (opV : (Nat → α) → (Nat → α) → Nat → α)
    (align : Bool) (src0 src1 : Nat → α) (dst : Buf α) (offset : Nat) : Buf α :=
  Store F align dst offset (opV (Load align src0 offset) (Load align src1 offset))

/-- `SynetEltwiseLayerForward<type, align>(src, count, size, dst)`. In the passes for the
inputs `i ≥ 2` the first operand is `dst` itself. -/
def SynetEltwiseLayerForwardT {α : Type} (opV : (Nat → α) → (Nat → α) → Nat → α)
    (opS : α → α → α) (align : Bool)
    (src : Nat → Nat → α) (count size : Nat) (dst : Buf α) : Buf α :=
  let aligned := AlignLo size QF
  let part := AlignLo size F
  let src0 := src 0
  let src1 := src 1
  let r :=
    if part ≠ 0 then
      let r := forLoop QF aligned (fun j dst =>
        let dst := SynetEltwiseLayerForwardAt opV align src0 src1 dst (j + F * 0)
        let dst := SynetEltwiseLayerForwardAt opV align src0 src1 dst (j + F * 1)
        let dst := SynetEltwiseLayerForwardAt opV align src0 src1 dst (j + F * 2)
        SynetEltwiseLayerForwardAt opV align src0 src1 dst (j + F * 3))
        aligned 0 dst
      forLoop F part (fun j dst =>
        SynetEltwiseLayerForwardAt opV align src0 src1 dst j) part r.1 r.2
    else (0, dst)
  let r := forLoop 1 size (fun j dst => dst.set j (opS (src0 j) (src1 j))) size r.1 r.2
  (forLoop 1 count (fun i dst =>
    let srci := src i
    let r :=
      if part ≠ 0 then
        let r := forLoop QF aligned (fun j dst =>
          let dst := SynetEltwiseLayerForwardAt opV align dst.data srci dst (j + F * 0)
          let dst := SynetEltwiseLayerForwardAt opV align dst.data srci dst (j + F * 1)
          let dst := SynetEltwiseLayerForwardAt opV align dst.data srci dst (j + F * 2)
          SynetEltwiseLayerForwardAt opV align dst.data srci dst (j + F * 3))
          aligned 0 dst
        forLoop F part (fun j dst =>
          SynetEltwiseLayerForwardAt opV align dst.data srci dst j) part r.1 r.2
      else (0, dst)
    (forLoop 1 size (fun j dst =>
      dst.set j (opS (dst.data j) (srci j))) size r.1 r.2).2) count 2 r.2).2

/-- `SynetEltwiseLayerForward<align>(src, weight, count, size, type, dst)`: the switch over
the operator tag. -/
def SynetEltwiseLayerForward {α : Type} [LinearOrderedCommRing α] (align : Bool)
    (src : Nat → Nat → α) (weight : Nat → α) (count size : Nat)
    (type : SimdSynetEltwiseOperationType) (dst : Buf α) : Buf α :=
  match type with
  | .Product =>
    SynetEltwiseLayerForwardT SynetEltwiseLayerForwardProduct
      Base.SynetEltwiseLayerForwardProduct align src count size dst
  | .Sum => SynetEltwiseLayerForwardSum align src weight count size dst
  | .Max =>
    SynetEltwiseLayerForwardT SynetEltwiseLayerForwardMax
      Base.SynetEltwiseLayerForwardMax align src count size dst
  | .Min =>
    SynetEltwiseLayerForwardT SynetEltwiseLayerForwardMin
      Base.SynetEltwiseLayerForwardMin align src count size dst

end Sse41

/-! ## AVX2 tier: element-wise weighted sum -/

namespace Avx2

/-- Number of `float` lanes of a 256-bit register. -/
def F : Nat := 8

/-- Four registers worth of `float` lanes. -/
def QF : Nat := 32

/-- `SynetEltwiseLayerForwardSum<align>(src0, weight0, src1, weight1, dst, offset)`. -/
def SynetEltwiseLayerForwardSum2 {α : Type} [CommRing α] (align : Bool)
    (src0 : Nat → α) (weight0 : Nat → α) (src1 : Nat → α) (weight1 : Nat → α)
    (dst : Buf α) (offset : Nat) : Buf α :=
  Store F align dst offset
    (fmadd_ps (Load align src0 offset) weight0 (mul_ps (Load align src1 offset) weight1))

/-- `SynetEltwiseLayerForwardSum<align>(src, weight, dst, offset)`. -/
def SynetEltwiseLayerForwardSum1 {α : Type} [CommRing α] (align : Bool)
    (src : Nat → α) (weight : Nat → α) (dst : Buf α) (offset : Nat) : Buf α :=
  Store F align dst offset
    (fmadd_ps (Load align src offset) weight (Load align dst.data offset))

/-- `SynetEltwiseLayerForwardSum<align>(src, weight, count, size, dst)`. -/
def SynetEltwiseLayerForwardSum {α : Type} [CommRing α] (align : Bool)
    (src : Nat → Nat → α) (weight : Nat → α) (count size : Nat) (dst : Buf α) : Buf α :=
  let aligned := AlignLo size QF
  let part := AlignLo size F
  let src0 := src 0
  let src1 := src 1
  let weight0 := set1_ps (weight 0)
  let weight1 := set1_ps (weight 1)
  let r :=
    if part ≠ 0 then
      let r := forLoop QF aligned (fun j dst =>
        let dst := SynetEltwiseLayerForwardSum2 align src0 weight0 src1 weight1 dst (j + F * 0)
        let dst := SynetEltwiseLayerForwardSum2 align src0 weight0 src1 weight1 dst (j + F * 1)
        let dst := SynetEltwiseLayerForwardSum2 align src0 weight0 src1 weight1 dst (j + F * 2)
        SynetEltwiseLayerForwardSum2 align src0 weight0 src1 weight1 dst (j + F * 3))
        aligned 0 dst
      forLoop F part (fun j dst =>
        SynetEltwiseLayerForwardSum2 align src0 weight0 src1 weight1 dst j) part r.1 r.2
    else (0, dst)
  let r := forLoop 1 size (fun j dst =>
    dst.set j (src0 j * weight 0 + src1 j * weight 1)) size r.1 r.2
  (forLoop 1 count (fun i dst =>
    let srci := src i
    let weighti := set1_ps (weight i)
    let r :=
      if part ≠ 0 then
        let r := forLoop QF aligned (fun j dst =>
          let dst := SynetEltwiseLayerForwardSum1 align srci weighti dst (j + F * 0)
          let dst := SynetEltwiseLayerForwardSum1 align srci weighti dst (j + F * 1)
          let dst := SynetEltwiseLayerForwardSum1 align srci weighti dst (j + F * 2)
          SynetEltwiseLayerForwardSum1 align srci weighti dst (j + F * 3))
          aligned 0 dst
        forLoop F part (fun j dst =>
          SynetEltwiseLayerForwardSum1 align srci weighti dst j) part r.1 r.2
      else (0, dst)
    (forLoop 1 size (fun j dst =>
      dst.set j (dst.data j + srci j * weight i)) size r.1 r.2).2) count 2 r.2).2

end Avx2

/-! ## SSE4.1 tier: dense projection -/

/-- Modelled from the spec: `Aligned(x, align)` of SimdMemory.h, which is not among the
sources at hand: an address or a size is aligned when it is a whole multiple of `align`. -/
def Aligned (x align : Nat) : Bool := x = AlignLo x align

/-- Optional bias operand `bias ? bias[i] : 0`. -/
def biasAt {α : Type} [Zero α] (bias : Option (Nat → α)) (i : Nat) : α :=
  match bias with
  | some b => b i
  | none => 0

/-- The pointer operand `(bias ? bias + i : _bias)`. -/
def biasPtr {α : Type} (bias : Option (Nat → α)) (i : Nat) (_bias : Nat → α) : Nat → α :=
  match bias with
  | some b => fun x => b (i + x)
  | none => _bias

namespace Sse41

/-- Bytes of a 128-bit register. -/
def A : Nat := 16

/-- `SynetInnerProductLayerForward<align>(src, weight, offset, sum)`: the new value of
`sum`. -/
def SynetInnerProductLayerForwardAt {α : Type} [CommRing α] (align : Bool)
    (src weight : Nat → α) (offset : Nat) (sum : Nat → α) : Nat → α :=
  let s := Load align src offset
  let w := Load align weight offset
  add_ps (mul_ps s w) sum

/-- `SynetInnerProductLayerForward<align>(src, weight, bias, count, size, dst)`. The state of
the row loop is the moving `weight` pointer and `dst`; `sums` is the array `sums[4]`. -/
def SynetInnerProductLayerForwardA {α : Type} [CommRing α] (align : Bool)
    (src weight : Nat → α) (bias : Option (Nat → α)) (count size : Nat) (dst : Buf α) :
    Buf α :=
  let part := AlignLo size F
  let aligned := AlignLo size QF
  (forLoop 1 count (fun i (st : (Nat → α) × Buf α) =>
    let weight := st.1
    let dst := st.2
    let r : Nat × α :=
      if part ≠ 0 then
        let sums : (Nat → α) × (Nat → α) × (Nat → α) × (Nat → α) :=
          (setzero_ps, setzero_ps, setzero_ps, setzero_ps)
        let r : Nat × (Nat → α) :=
          if aligned ≠ 0 then
            let r := forLoop QF aligned
              (fun j (sums : (Nat → α) × (Nat → α) × (Nat → α) × (Nat → α)) =>
                (SynetInnerProductLayerForwardAt align src weight (j + 0 * F) sums.1,
                 SynetInnerProductLayerForwardAt align src weight (j + 1 * F) sums.2.1,
                 SynetInnerProductLayerForwardAt align src weight (j + 2 * F) sums.2.2.1,
                 SynetInnerProductLayerForwardAt align src weight (j + 3 * F) sums.2.2.2))
              aligned 0 sums
            (r.1, add_ps (add_ps r.2.1 r.2.2.1) (add_ps r.2.2.2.1 r.2.2.2.2))
          else (0, sums.1)
        let r := forLoop F part (fun j sums0 =>
          SynetInnerProductLayerForwardAt align src weight j sums0) part r.1 r.2
        (r.1, ExtractSum F r.2)
      else (0, 0)
    let r := forLoop 1 size (fun j sum => sum + src j * weight j) size r.1 r.2
    (fun x => weight (size + x), dst.set i (r.2 + biasAt bias i))) count 0 (weight, dst)).2.2

/-- `SynetInnerProductLayerForward(src, weight, bias, count, size, dst)`: the entry point.
`pSrc`, `pWeight`, `pDst` are the addresses of the three buffers. -/
def SynetInnerProductLayerForward {α : Type} [CommRing α] (pSrc pWeight pDst : Nat)
    (src weight : Nat → α) (bias : Option (Nat → α)) (count size : Nat) (dst : Buf α) :
    Buf α :=
  if Aligned pSrc A && Aligned pWeight A && Aligned size A && Aligned pDst A then
    SynetInnerProductLayerForwardA true src weight bias count size dst
  else
    SynetInnerProductLayerForwardA false src weight bias count size dst

end Sse41

/-! ## AVX2 tier: dense projection -/

/-- Lane-wise `_mm256_and_ps(mask, x)` for a mask whose lanes are all-ones (`-1`) or zero:
an all-ones lane keeps the lane of `x`, a zero lane gives `0`. -/
def and_ps {α : Type} [Zero α] (mask : Nat → Int) (x : Nat → α) : Nat → α :=
  fun l => if mask l = -1 then x l else 0

/-- Modelled from the spec: `Extract4Sums` of SimdExtract.h, which is not among the sources
at hand: lane `n` of the result is the horizontal sum of the eight lanes of the `n`-th
argument. -/
def Extract4Sums {α : Type} [AddCommMonoid α] (a0 a1 a2 a3 : Nat → α) : Nat → α :=
  fun n =>
    match n with
    | 0 => ExtractSum 8 a0
    | 1 => ExtractSum 8 a1
    | 2 => ExtractSum 8 a2
    | _ => ExtractSum 8 a3

namespace Avx2

/-- Two registers worth of `float` lanes. -/
def DF : Nat := 16

/-- Bytes of a 256-bit register. -/
def A : Nat := 32

/-- The table `mask[DF]` of `Tail`. -/
def TailMask : List Int := [0, 0, 0, 0, 0, 0, 0, 0, -1, -1, -1, -1, -1, -1, -1, -1]

/-- `Tail(tail)`: the unaligned load of eight mask entries from `mask + tail`. -/
def Tail (tail : Nat) : Nat → Int := fun l => TailMask.getD (tail + l) 0

/-- `SynetInnerProductLayerForward1`, the accumulation part: the register `d00` when the
store in the last line of the function is reached. -/
def SynetInnerProductLayerForward1Sum {α : Type} [CommRing α] (S0 W : Nat → α) (K : Nat) :
    Nat → α :=
  let K8 := K / 8 * 8
  let K32 := K / 32 * 32
  let W0 : Nat → α := fun x => W (0 * K + x)
  let d00 : Nat → α := setzero_ps
  let r : Nat × (Nat → α) :=
    if K32 ≠ 0 then
      let d01 : Nat → α := setzero_ps
      let d02 : Nat → α := setzero_ps
      let d03 : Nat → α := setzero_ps
      let r := forLoop 32 K32
        (fun k (d : (Nat → α) × (Nat → α) × (Nat → α) × (Nat → α)) =>
          let s0 := Load false S0 (k + 0 * F)
          let s1 := Load false S0 (k + 1 * F)
          let w0 := Load false W0 (k + 0 * F)
          let w1 := Load false W0 (k + 1 * F)
          let d00 := fmadd_ps s0 w0 d.1
          let d01 := fmadd_ps s1 w1 d.2.1
          let s2 := Load false S0 (k + 2 * F)
          let s3 := Load false S0 (k + 3 * F)
          let w2 := Load false W0 (k + 2 * F)
          let w3 := Load false W0 (k + 3 * F)
          let d02 := fmadd_ps s2 w2 d.2.2.1
          let d03 := fmadd_ps s3 w3 d.2.2.2
          (d00, d01, d02, d03)) K32 0 (d00, d01, d02, d03)
      (r.1, add_ps (add_ps r.2.1 r.2.2.1) (add_ps r.2.2.2.1 r.2.2.2.2))
    else (0, d00)
  let r := forLoop 8 K8 (fun k d00 =>
    let s0 := Load false S0 k
    let w0 := Load false W0 k
    fmadd_ps s0 w0 d00) K8 r.1 r.2
  if K8 < K then
    (fun d00 =>
      let k := subSizeT K 8
      let tail := Tail (K - K8)
      let s0 := and_ps tail (Load false S0 k)
      let w0 := and_ps tail (Load false W0 k)
      fmadd_ps s0 w0 d00) r.2
  else r.2

/-- `SynetInnerProductLayerForward1(S0, W, B, K, D)`, with `D = dst + dOff`: the accumulation
followed by `D[0] = Avx::ExtractSum(d00) + B[0]`. -/
def SynetInnerProductLayerForward1 {α : Type} [CommRing α] (S0 W B : Nat → α) (K : Nat)
    (dst : Buf α) (dOff : Nat) : Buf α :=
  dst.set (dOff + 0) (ExtractSum 8 (SynetInnerProductLayerForward1Sum S0 W K) + B 0)

/-- `SynetInnerProductLayerForward4`, the accumulation part: the registers
`(d00, d10, d20, d30)` when the store in the last line of the function is reached. The state
of the first loop is `((d00, d01), (d10, d11), (d20, d21), (d30, d31))`. -/
def SynetInnerProductLayerForward4Sums {α : Type} [CommRing α] (S0 W : Nat → α) (K : Nat) :
    (Nat → α) × (Nat → α) × (Nat → α) × (Nat → α) :=
  let K8 := K / 8 * 8
  let K16 := K / 16 * 16
  let W0 : Nat → α := fun x => W (0 * K + x)
  let W1 : Nat → α := fun x => W (1 * K + x)
  let W2 : Nat → α := fun x => W (2 * K + x)
  let W3 : Nat → α := fun x => W (3 * K + x)
  let d00 : Nat → α := setzero_ps
  let d10 : Nat → α := setzero_ps
  let d20 : Nat → α := setzero_ps
  let d30 : Nat → α := setzero_ps
  let r : Nat × ((Nat → α) × (Nat → α) × (Nat → α) × (Nat → α)) :=
    if K16 ≠ 0 then
      let d01 : Nat → α := setzero_ps
      let d11 : Nat → α := setzero_ps
      let d21 : Nat → α := setzero_ps
      let d31 : Nat → α := setzero_ps
      let r := forLoop 16 K16
        (fun k (d : ((Nat → α) × (Nat → α)) × ((Nat → α) × (Nat → α)) ×
            ((Nat → α) × (Nat → α)) × ((Nat → α) × (Nat → α))) =>
          let s0 := Load false S0 (k + 0 * F)
          let s1 := Load false S0 (k + 1 * F)
          let w0 := Load false W0 (k + 0 * F)
          let w1 := Load false W0 (k + 1 * F)
          let d00 := fmadd_ps s0 w0 d.1.1
          let d01 := fmadd_ps s1 w1 d.1.2
          let w0 := Load false W1 (k + 0 * F)
          let w1 := Load false W1 (k + 1 * F)
          let d10 := fmadd_ps s0 w0 d.2.1.1
          let d11 := fmadd_ps s1 w1 d.2.1.2
          let w0 := Load false W2 (k + 0 * F)
          let w1 := Load false W2 (k + 1 * F)
          let d20 := fmadd_ps s0 w0 d.2.2.1.1
          let d21 := fmadd_ps s1 w1 d.2.2.1.2
          let w0 := Load false W3 (k + 0 * F)
          let w1 := Load false W3 (k + 1 * F)
          let d30 := fmadd_ps s0 w0 d.2.2.2.1
          let d31 := fmadd_ps s1 w1 d.2.2.2.2
          ((d00, d01), (d10, d11), (d20, d21), (d30, d31)))
        K16 0 ((d00, d01), (d10, d11), (d20, d21), (d30, d31))
      (r.1,
        (fun (d : ((Nat → α) × (Nat → α)) × ((Nat → α) × (Nat → α)) ×
            ((Nat → α) × (Nat → α)) × ((Nat → α) × (Nat → α))) =>
          (add_ps d.1.1 d.1.2, add_ps d.2.1.1 d.2.1.2,
            add_ps d.2.2.1.1 d.2.2.1.2, add_ps d.2.2.2.1 d.2.2.2.2)) r.2)
    else (0, d00, d10, d20, d30)
  let r := forLoop 8 K8 (fun k (d : (Nat → α) × (Nat → α) × (Nat → α) × (Nat → α)) =>
    let s0 := Load false S0 (k + 0 * F)
    let w0 := Load false W0 (k + 0 * F)
    let d00 := fmadd_ps s0 w0 d.1
    let w0 := Load false W1 (k + 0 * F)
    let d10 := fmadd_ps s0 w0 d.2.1
    let w0 := Load false W2 (k + 0 * F)
    let d20 := fmadd_ps s0 w0 d.2.2.1
    let w0 := Load false W3 (k + 0 * F)
    let d30 := fmadd_ps s0 w0 d.2.2.2
    (d00, d10, d20, d30)) K8 r.1 r.2
  if K8 < K then
    (fun (d : (Nat → α) × (Nat → α) × (Nat → α) × (Nat → α)) =>
      let k := subSizeT K 8
      let tail := Tail (K - K8)
      let s0 := and_ps tail (Load false S0 k)
      let w0 := and_ps tail (Load false W0 (k + 0 * F))
      let d00 := fmadd_ps s0 w0 d.1
      let w0 := and_ps tail (Load false W1 (k + 0 * F))
      let d10 := fmadd_ps s0 w0 d.2.1
      let w0 := and_ps tail (Load false W2 (k + 0 * F))
      let d20 := fmadd_ps s0 w0 d.2.2.1
      let w0 := and_ps tail (Load false W3 (k + 0 * F))
      let d30 := fmadd_ps s0 w0 d.2.2.2
      (d00, d10, d20, d30)) r.2
  else r.2

/-- `SynetInnerProductLayerForward4(S0, W, B, K, D)`, with `D = dst + dOff`: the accumulation
followed by `_mm_storeu_ps(D, _mm_add_ps(Extract4Sums(d00, d10, d20, d30), _mm_loadu_ps(B)))`. -/
def SynetInnerProductLayerForward4 {α : Type} [CommRing α] (S0 W B : Nat → α) (K : Nat)
    (dst : Buf α) (dOff : Nat) : Buf α :=
  let d := SynetInnerProductLayerForward4Sums S0 W K
  Store 4 false dst dOff (add_ps (Extract4Sums d.1 d.2.1 d.2.2.1 d.2.2.2) (Load false B 0))

/-- `SynetInnerProductLayerForward(src, weight, bias, count, size, dst)`: the entry point.
`pSrc`, `pWeight`, `pDst` are the addresses of the buffers, which only the SSE4.1 fallback
looks at; `_bias` is the local array `float _bias[4] = { 0, 0, 0, 0 }`. -/
def SynetInnerProductLayerForward {α : Type} [CommRing α] (pSrc pWeight pDst : Nat)
    (src weight : Nat → α) (bias : Option (Nat → α)) (count size : Nat) (dst : Buf α) :
    Buf α :=
  if size < F then
    Sse41.SynetInnerProductLayerForward pSrc pWeight pDst src weight bias count size dst
  else
    let _bias : Nat → α := fun _ => 0
    let count4 := AlignLo count 4
    let r := forLoop 4 count4 (fun i dst =>
      SynetInnerProductLayerForward4 src (fun x => weight (i * size + x))
        (biasPtr bias i _bias) size dst i) count4 0 dst
    (forLoop 1 count (fun i dst =>
      SynetInnerProductLayerForward1 src (fun x => weight (i * size + x))
        (biasPtr bias i _bias) size dst i) count r.1 r.2).2

end Avx2

/-! ## AVX2 tier: quantized dense projection

Bytes and 32-bit lanes are integers: an activation byte is its unsigned value, a weight byte
its signed value, a 32-bit lane its signed value; 32-bit additions wrap around. An integer
register is its lane function, zero beyond its 32 byte lanes / 8 doubleword lanes. -/

/-- The signed value of a 32-bit result: reduction modulo `2^32` into `[-2^31, 2^31)`. -/
def wrap32 (x : Int) : Int := (x + 2 ^ 31) % 2 ^ 32 - 2 ^ 31

/-- Signed saturation to 16 bits. -/
def sat16 (x : Int) : Int := max (-32768) (min 32767 x)

/-- The unaligned 32-byte load `_mm256_loadu_si256((__m256i*)(p + offset))`. -/
def loadu_si256 (p : Nat → Int) (offset : Nat) : Nat → Int :=
  fun b => if b < 32 then p (offset + b) else 0

/-- The all-zero register `_mm256_setzero_si256()`. -/
def setzero_si256 : Nat → Int := fun _ => 0

/-- Lane-wise `_mm_add_epi32` / `_mm256_add_epi32`. -/
def add_epi32 (a b : Nat → Int) : Nat → Int := fun l => wrap32 (a l + b l)

/-- Horizontal pairwise add `_mm256_hadd_epi32(a, b)`, within each 128-bit half. -/
def hadd_epi32 (a b : Nat → Int) : Nat → Int :=
  fun l =>
    match l with
    | 0 => wrap32 (a 0 + a 1)
    | 1 => wrap32 (a 2 + a 3)
    | 2 => wrap32 (b 0 + b 1)
    | 3 => wrap32 (b 2 + b 3)
    | 4 => wrap32 (a 4 + a 5)
    | 5 => wrap32 (a 6 + a 7)
    | 6 => wrap32 (b 4 + b 5)
    | 7 => wrap32 (b 6 + b 7)
    | _ => 0

/-- Half extraction `_mm256_extractf128_si256(a, imm)`: the four lanes of half `imm`. -/
def extractf128_si256 (a : Nat → Int) (imm : Nat) : Nat → Int :=
  fun l => if l < 4 then a (4 * imm + l) else 0

/-- Modelled from the spec: `Madd4<overflow>(i32, u8, i8)`, which is not among the sources at
hand: the multiply-add-pairs primitive. Lane `n` of `i32` receives the products of the bytes
`4n .. 4n+3` of the unsigned `u8` and the signed `i8`. The precise policy (`overflow = false`)
widens the intermediates, so nothing is truncated; the fast policy (`overflow = true`) adds
each adjacent pair of products with signed 16-bit saturation. The 32-bit accumulation wraps
around. -/
def Madd4 (overflow : Bool) (i32 u8 i8 : Nat → Int) : Nat → Int :=
  fun n =>
    if n < 8 then
      if overflow then
        wrap32 (i32 n +
          (sat16 (u8 (4 * n) * i8 (4 * n) + u8 (4 * n + 1) * i8 (4 * n + 1)) +
            sat16 (u8 (4 * n + 2) * i8 (4 * n + 2) + u8 (4 * n + 3) * i8 (4 * n + 3))))
      else
        wrap32 (i32 n +
          ((u8 (4 * n) * i8 (4 * n) + u8 (4 * n + 1) * i8 (4 * n + 1)) +
            (u8 (4 * n + 2) * i8 (4 * n + 2) + u8 (4 * n + 3) * i8 (4 * n + 3))))
    else 0

/-- Modelled from the spec: `ExtractSum<uint32_t>` of SimdExtract.h, which is not among the
sources at hand: the sum of the eight 32-bit lanes, as a 32-bit value. -/
def ExtractSum32 (a : Nat → Int) : Int := wrap32 (∑ l in Finset.range 8, a l)

namespace Avx2

/-- `LoadTail(ptr, tail)`: the zeroed local buffer `buf[A]` receives the first `tail` bytes
of `ptr` and is loaded as one register. -/
def LoadTail (ptr : Nat → Int) (tail : Nat) : Nat → Int :=
  let buf : Nat → Int := setzero_si256
  let r := forLoop 1 tail (fun i (buf : Nat → Int) =>
    fun x => if x = i then ptr i else buf x) tail 0 buf
  loadu_si256 r.2 0

/-- `Save4Sums(sum0, sum1, sum2, sum3, dst)`, with `dst` the output buffer at offset
`dOff`. -/
def Save4Sums (sum0 sum1 sum2 sum3 : Nat → Int) (dst : Buf Int) (dOff : Nat) : Buf Int :=
  let sum := hadd_epi32 (hadd_epi32 sum0 sum1) (hadd_epi32 sum2 sum3)
  Store 4 false dst dOff (add_epi32 (extractf128_si256 sum 0) (extractf128_si256 sum 1))

/-- `SynetInnerProduct8i1x1<overflow>`: the accumulator `d00` when the store is reached. -/
def SynetInnerProduct8i1x1Acc (overflow : Bool) (K : Nat) (S : Nat → Int) (lds : Nat)
    (W : Nat → Int) (ldw : Nat) : Nat → Int :=
  let KA := AlignLo K A
  let S0 : Nat → Int := fun x => S (0 * lds + x)
  let W0 : Nat → Int := fun x => W (0 * ldw + x)
  let d00 : Nat → Int := setzero_si256
  let r := forLoop A KA (fun k d00 =>
    let s0 := loadu_si256 S0 k
    let w0 := loadu_si256 W0 k
    Madd4 overflow d00 s0 w0) KA 0 d00
  if KA < K then
    (fun d00 =>
      let tail := K - KA
      let s0 := LoadTail (fun x => S0 (KA + x)) tail
      let w0 := LoadTail (fun x => W0 (KA + x)) tail
      Madd4 overflow d00 s0 w0) r.2
  else r.2

/-- `SynetInnerProduct8i1x1<overflow>(K, S, lds, W, ldw, D, ldd)`, with `D = dst + dOff`. -/
def SynetInnerProduct8i1x1 (overflow : Bool) (K : Nat) (S : Nat → Int) (lds : Nat)
    (W : Nat → Int) (ldw : Nat) (dst : Buf Int) (dOff : Nat) (_ldd : Nat) : Buf Int :=
  let d00 := SynetInnerProduct8i1x1Acc overflow K S lds W ldw
  dst.set (dOff + 0) (ExtractSum32 d00)

/-- `SynetInnerProduct8i1x4<overflow>`: the accumulators `(d00, d01, d02, d03)` when the
store is reached. -/
def SynetInnerProduct8i1x4Acc (overflow : Bool) (K : Nat) (S : Nat → Int) (lds : Nat)
    (W : Nat → Int) (ldw : Nat) : (Nat → Int) × (Nat → Int) × (Nat → Int) × (Nat → Int) :=
  let KA := AlignLo K A
  let S0 : Nat → Int := fun x => S (0 * lds + x)
  let W0 : Nat → Int := fun x => W (0 * ldw + x)
  let W1 : Nat → Int := fun x => W (1 * ldw + x)
  let W2 : Nat → Int := fun x => W (2 * ldw + x)
  let W3 : Nat → Int := fun x => W (3 * ldw + x)
  let d00 : Nat → Int := setzero_si256
  let d01 : Nat → Int := setzero_si256
  let d02 : Nat → Int := setzero_si256
  let d03 : Nat → Int := setzero_si256
  let r := forLoop A KA
    (fun k (d : (Nat → Int) × (Nat → Int) × (Nat → Int) × (Nat → Int)) =>
      let s0 := loadu_si256 S0 k
      let w0 := loadu_si256 W0 k
      let d00 := Madd4 overflow d.1 s0 w0
      let w0 := loadu_si256 W1 k
      let d01 := Madd4 overflow d.2.1 s0 w0
      let w0 := loadu_si256 W2 k
      let d02 := Madd4 overflow d.2.2.1 s0 w0
      let w0 := loadu_si256 W3 k
      let d03 := Madd4 overflow d.2.2.2 s0 w0
      (d00, d01, d02, d03)) KA 0 (d00, d01, d02, d03)
  if KA < K then
    (fun (d : (Nat → Int) × (Nat → Int) × (Nat → Int) × (Nat → Int)) =>
      let tail := K - KA
      let s0 := LoadTail (fun x => S0 (KA + x)) tail
      let w0 := LoadTail (fun x => W0 (KA + x)) tail
      let d00 := Madd4 overflow d.1 s0 w0
      let w0 := LoadTail (fun x => W1 (KA + x)) tail
      let d01 := Madd4 overflow d.2.1 s0 w0
      let w0 := LoadTail (fun x => W2 (KA + x)) tail
      let d02 := Madd4 overflow d.2.2.1 s0 w0
      let w0 := LoadTail (fun x => W3 (KA + x)) tail
      let d03 := Madd4 overflow d.2.2.2 s0 w0
      (d00, d01, d02, d03)) r.2
  else r.2

/-- `SynetInnerProduct8i1x4<overflow>(K, S, lds, W, ldw, D, ldd)`, with `D = dst + dOff`. -/
def SynetInnerProduct8i1x4 (overflow : Bool) (K : Nat) (S : Nat → Int) (lds : Nat)
    (W : Nat → Int) (ldw : Nat) (dst : Buf Int) (dOff : Nat) (_ldd : Nat) : Buf Int :=
  let d := SynetInnerProduct8i1x4Acc overflow K S lds W ldw
  Save4Sums d.1 d.2.1 d.2.2.1 d.2.2.2 dst dOff

/-- `SynetInnerProduct8i2x1<overflow>`: the accumulators `(d00, d10)` when the stores are
reached. -/
def SynetInnerProduct8i2x1Acc (overflow : Bool) (K : Nat) (S : Nat → Int) (lds : Nat)
    (W : Nat → Int) (ldw : Nat) : (Nat → Int) × (Nat → Int) :=
  let KA := AlignLo K A
  let S0 : Nat → Int := fun x => S (0 * lds + x)
  let S1 : Nat → Int := fun x => S (1 * lds + x)
  let W0 : Nat → Int := fun x => W (0 * ldw + x)
  let d00 : Nat → Int := setzero_si256
  let d10 : Nat → Int := setzero_si256
  let r := forLoop A KA (fun k (d : (Nat → Int) × (Nat → Int)) =>
    let s0 := loadu_si256 S0 k
    let s1 := loadu_si256 S1 k
    let w0 := loadu_si256 W0 k
    let d00 := Madd4 overflow d.1 s0 w0
    let d10 := Madd4 overflow d.2 s1 w0
    (d00, d10)) KA 0 (d00, d10)
  if KA < K then
    (fun (d : (Nat → Int) × (Nat → Int)) =>
      let tail := K - KA
      let s0 := LoadTail (fun x => S0 (KA + x)) tail
      let s1 := LoadTail (fun x => S1 (KA + x)) tail
      let w0 := LoadTail (fun x => W0 (KA + x)) tail
      let d00 := Madd4 overflow d.1 s0 w0
      let d10 := Madd4 overflow d.2 s1 w0
      (d00, d10)) r.2
  else r.2

/-- `SynetInnerProduct8i2x1<overflow>(K, S, lds, W, ldw, D, ldd)`, with `D = dst + dOff`. -/
def SynetInnerProduct8i2x1 (overflow : Bool) (K : Nat) (S : Nat → Int) (lds : Nat)
    (W : Nat → Int) (ldw : Nat) (dst : Buf Int) (dOff : Nat) (ldd : Nat) : Buf Int :=
  let d := SynetInnerProduct8i2x1Acc overflow K S lds W ldw
  let dst := dst.set (dOff + 0 * ldd) (ExtractSum32 d.1)
  dst.set (dOff + 1 * ldd) (ExtractSum32 d.2)

/-- `SynetInnerProduct8i2x4<overflow>`: the accumulators
`((d00, d01, d02, d03), (d10, d11, d12, d13))` when the stores are reached. -/
def SynetInnerProduct8i2x4Acc (overflow : Bool) (K : Nat) (S : Nat → Int) (lds : Nat)
    (W : Nat → Int) (ldw : Nat) :
    ((Nat → Int) × (Nat → Int) × (Nat → Int) × (Nat → Int)) ×
      ((Nat → Int) × (Nat → Int) × (Nat → Int) × (Nat → Int)) :=
  let KA := AlignLo K A
  let S0 : Nat → Int := fun x => S (0 * lds + x)
  let S1 : Nat → Int := fun x => S (1 * lds + x)
  let W0 : Nat → Int := fun x => W (0 * ldw + x)
  let W1 : Nat → Int := fun x => W (1 * ldw + x)
  let W2 : Nat → Int := fun x => W (2 * ldw + x)
  let W3 : Nat → Int := fun x => W (3 * ldw + x)
  let d00 : Nat → Int := setzero_si256
  let d01 : Nat → Int := setzero_si256
  let d02 : Nat → Int := setzero_si256
  let d03 : Nat → Int := setzero_si256
  let d10 : Nat → Int := setzero_si256
  let d11 : Nat → Int := setzero_si256
  let d12 : Nat → Int := setzero_si256
  let d13 : Nat → Int := setzero_si256
  let r := forLoop A KA
    (fun k (d : ((Nat → Int) × (Nat → Int) × (Nat → Int) × (Nat → Int)) ×
        ((Nat → Int) × (Nat → Int) × (Nat → Int) × (Nat → Int))) =>
      let s0 := loadu_si256 S0 k
      let s1 := loadu_si256 S1 k
      let w0 := loadu_si256 W0 k
      let d00 := Madd4 overflow d.1.1 s0 w0
      let d10 := Madd4 overflow d.2.1 s1 w0
      let w0 := loadu_si256 W1 k
      let d01 := Madd4 overflow d.1.2.1 s0 w0
      let d11 := Madd4 overflow d.2.2.1 s1 w0
      let w0 := loadu_si256 W2 k
      let d02 := Madd4 overflow d.1.2.2.1 s0 w0
      let d12 := Madd4 overflow d.2.2.2.1 s1 w0
      let w0 := loadu_si256 W3 k
      let d03 := Madd4 overflow d.1.2.2.2 s0 w0
      let d13 := Madd4 overflow d.2.2.2.2 s1 w0
      ((d00, d01, d02, d03), (d10, d11, d12, d13)))
    KA 0 ((d00, d01, d02, d03), (d10, d11, d12, d13))
  if KA < K then
    (fun (d : ((Nat → Int) × (Nat → Int) × (Nat → Int) × (Nat → Int)) ×
        ((Nat → Int) × (Nat → Int) × (Nat → Int) × (Nat → Int))) =>
      let tail := K - KA
      let s0 := LoadTail (fun x => S0 (KA + x)) tail
      let s1 := LoadTail (fun x => S1 (KA + x)) tail
      let w0 := LoadTail (fun x => W0 (KA + x)) tail
      let d00 := Madd4 overflow d.1.1 s0 w0
      let d10 := Madd4 overflow d.2.1 s1 w0
      let w0 := LoadTail (fun x => W1 (KA + x)) tail
      let d01 := Madd4 overflow d.1.2.1 s0 w0
      let d11 := Madd4 overflow d.2.2.1 s1 w0
      let w0 := LoadTail (fun x => W2 (KA + x)) tail
      let d02 := Madd4 overflow d.1.2.2.1 s0 w0
      let d12 := Madd4 overflow d.2.2.2.1 s1 w0
      let w0 := LoadTail (fun x => W3 (KA + x)) tail
      let d03 := Madd4 overflow d.1.2.2.2 s0 w0
      let d13 := Madd4 overflow d.2.2.2.2 s1 w0
      ((d00, d01, d02, d03), (d10, d11, d12, d13))) r.2
  else r.2

/-- `SynetInnerProduct8i2x4<overflow>(K, S, lds, W, ldw, D, ldd)`, with `D = dst + dOff`. -/
def SynetInnerProduct8i2x4 (overflow : Bool) (K : Nat) (S : Nat → Int) (lds : Nat)
    (W : Nat → Int) (ldw : Nat) (dst : Buf Int) (dOff : Nat) (ldd : Nat) : Buf Int :=
  let d := SynetInnerProduct8i2x4Acc overflow K S lds W ldw
  let dst := Save4Sums d.1.1 d.1.2.1 d.1.2.2.1 d.1.2.2.2 dst (dOff + 0 * ldd)
  Save4Sums d.2.1 d.2.2.1 d.2.2.2.1 d.2.2.2.2 dst (dOff + 1 * ldd)

/-- `SynetInnerProduct8i<overflow>(M, N, K, src, weight, dst)`. The state of the row loops
is the moving `src` pointer, the offset of the moving `dst` pointer, and the output
buffer. -/
def SynetInnerProduct8iT (overflow : Bool) (M N K : Nat) (src weight : Nat → Int)
    (dst : Buf Int) : Buf Int :=
  let M2 := AlignLoAny M 2
  let N4 := AlignLoAny N 4
  let r := forLoop 2 M2 (fun _i (st : (Nat → Int) × Nat × Buf Int) =>
    let src := st.1
    let dOff := st.2.1
    let rj := forLoop 4 N4 (fun j dst =>
      SynetInnerProduct8i2x4 overflow K src K (fun x => weight (j * K + x)) K dst (dOff + j) N)
      N4 0 st.2.2
    let rj := forLoop 1 N (fun j dst =>
      SynetInnerProduct8i2x1 overflow K src K (fun x => weight (j * K + x)) K dst (dOff + j) N)
      N rj.1 rj.2
    (fun x => src (K * 2 + x), dOff + N * 2, rj.2)) M2 0 (src, 0, dst)
  (forLoop 1 M (fun _i (st : (Nat → Int) × Nat × Buf Int) =>
    let src := st.1
    let dOff := st.2.1
    let rj := forLoop 4 N4 (fun j dst =>
      SynetInnerProduct8i1x4 overflow K src K (fun x => weight (j * K + x)) K dst (dOff + j) N)
      N4 0 st.2.2
    let rj := forLoop 1 N (fun j dst =>
      SynetInnerProduct8i1x1 overflow K src K (fun x => weight (j * K + x)) K dst (dOff + j) N)
      N rj.1 rj.2
    (fun x => src (K + x), dOff + N, rj.2)) M r.1 r.2).2.2.2

/-- `SynetInnerProduct8i(M, N, K, src, weight, dst, compatibility)`: `precise` is the value
of `Base::Precise(compatibility)`. -/
def SynetInnerProduct8i (M N K : Nat) (src weight : Nat → Int) (dst : Buf Int)
    (precise : Bool) : Buf Int :=
  if precise then SynetInnerProduct8iT false M N K src weight dst
  else SynetInnerProduct8iT true M N K src weight dst

end Avx2

/-! ## Cross-channel normalization, planar (NCHW) layout, both tiers

The SSE4.1 and the AVX2 function are the same text up to the register type; the embedding
takes the number of lanes `F` of the tier as a parameter. `Pow` (SimdPow.h) is not among the
sources at hand and is a parameter `pow` of the kernel, applied lane-wise in the vector loop
and directly in the scalar loop. -/

/-- Modelled from the spec: `Simd::Square` of SimdMath.h, which is not among the sources at
hand: the square of its argument. -/
def Square {α : Type} [CommRing α] (x : α) : α := x * x

/-- The lane-wise application `pow(x, y)` of the `Pow` functor to two registers. -/
def powV {α : Type} (pow : α → α → α) (x y : Nat → α) : Nat → α := fun l => pow (x l) (y l)

/-- `SynetLrnLayerCrossChannelsNchw<align>(src, half, channels, spatial, k, dst)` for a tier
of `F` lanes. `src` is the memory from the `src` pointer on. The scratch arrays `sum` and
`zero` are zero-initialised; the state of the channel loop is the offset of the moving `src`
pointer, the offset of the moving `dst` pointer, `sum` and the output buffer. -/
def SynetLrnLayerCrossChannelsNchwF {α : Type} [CommRing α] (F : Nat) (pow : α → α → α)
    (align : Bool) (src : Nat → α) (half channels spatial : Nat) (k : Nat → α)
    (dst : Buf α) : Buf α :=
  let k0 := set1_ps (k 0)
  let k1 := set1_ps (k 1)
  let k2 := set1_ps (k 2)
  let sum : Buf α := Buf.ofFn (fun _ => 0)
  let zero : Nat → α := fun _ => 0
  let aligned := AlignLo spatial F
  let sum := (forLoop 1 half (fun c (sum : Buf α) =>
    let pos : Nat → α := fun x => src (c * spatial + x)
    let r := forLoop F aligned (fun s (sum : Buf α) =>
      let _pos := Load align pos s
      Store F true sum s (add_ps (Load true sum.data s) (mul_ps _pos _pos))) aligned 0 sum
    (forLoop 1 spatial (fun s (sum : Buf α) =>
      sum.set s (sum.data s + Square (pos s))) spatial r.1 r.2).2) half 0 sum).2
  (forLoop 1 channels (fun c (st : Nat × Nat × Buf α × Buf α) =>
    let sOff := st.1
    let dOff := st.2.1
    let pos : Nat → α :=
      if c < subSizeT channels half then (fun x => src (sOff + half * spatial + x)) else zero
    let neg : Nat → α :=
      if c > half then (fun x => src (sOff - (half + 1) * spatial + x)) else zero
    let r := forLoop F aligned (fun s (sd : Buf α × Buf α) =>
      let _pos := Load align pos s
      let _neg := Load align neg s
      let _sum := Load true sd.1.data s
      let _sum := add_ps _sum (sub_ps (mul_ps _pos _pos) (mul_ps _neg _neg))
      let _src := Load align (fun x => src (sOff + x)) s
      (Store F true sd.1 s _sum,
       Store F align sd.2 (dOff + s) (mul_ps _src (powV pow (add_ps k0 (mul_ps k1 _sum)) k2))))
      aligned 0 (st.2.2.1, st.2.2.2)
    let r := forLoop 1 spatial (fun s (sd : Buf α × Buf α) =>
      let sum := sd.1.set s (sd.1.data s + Square (pos s))
      let sum := sum.set s (sum.data s - Square (neg s))
      (sum, sd.2.set (dOff + s) (src (sOff + s) * pow (k 0 + k 1 * sum.data s) (k 2))))
      spatial r.1 r.2
    (sOff + spatial, dOff + spatial, r.2.1, r.2.2)) channels 0 (0, 0, sum, dst)).2.2.2.2

namespace Sse41

/-- `Sse41::SynetLrnLayerCrossChannelsNchw<align>`. -/
def SynetLrnLayerCrossChannelsNchw {α : Type} [CommRing α] (pow : α → α → α)
    (align : Bool) (src : Nat → α) (half channels spatial : Nat) (k : Nat → α)
    (dst : Buf α) : Buf α :=
  SynetLrnLayerCrossChannelsNchwF F pow align src half channels spatial k dst

end Sse41

namespace Avx2

/-- `Avx2::SynetLrnLayerCrossChannelsNchw<align>`. -/
def SynetLrnLayerCrossChannelsNchw {α : Type} [CommRing α] (pow : α → α → α)
    (align : Bool) (src : Nat → α) (half channels spatial : Nat) (k : Nat → α)
    (dst : Buf α) : Buf α :=
  SynetLrnLayerCrossChannelsNchwF F pow align src half channels spatial k dst

end Avx2

/-! ## Unary transform

`SynetUnaryOperation32fLayerForward` of both tiers. The vector primitives `Exponent`,
`Logarithm`, `Tanh`, `_mm_rsqrt_ps`, `_mm_sqrt_ps` and the scalar functions
`Base::SynetUnaryOperation32f<type>` are not among the sources at hand; the functions they
apply are parameters of the model. -/

/-- The operator tag `SimdSynetUnaryOperation32fType` of the unary transform. -/
inductive SimdSynetUnaryOperation32fType where
  | Abs
  | Exp
  | Log
  | Neg
  | Rsqrt
  | Sqrt
  | Tanh
  | Zero
  deriving DecidableEq, Repr

/-- The five functions of the unary transform that are computed by code outside the
sources at hand: exponential, natural logarithm, reciprocal square root, square root and
hyperbolic tangent. -/
structure UnaryFns (α : Type) where
  /-- The exponential. -/
  exp : α → α
  /-- The natural logarithm. -/
  log : α → α
  /-- The reciprocal square root. -/
  rsqrt : α → α
  /-- The square root. -/
  sqrt : α → α
  /-- The hyperbolic tangent. -/
  tanh : α → α

/-- The expression `_mm_andnot_ps(_mm_set1_ps(-0.0f), value)`: the bits of `-0.0f` are the
sign bit alone, so every lane of `value` has its sign bit cleared; the lane becomes its
absolute value. -/
def andnot_ps_sign {α : Type} [LinearOrderedCommRing α] (value : Nat → α) : Nat → α :=
  fun l => |value l|

namespace Base

/-- Modelled from the spec: `Base::SynetUnaryOperation32f<type>(value)`, which is not among
the sources at hand: absolute value, exponential, natural logarithm, negation, reciprocal
square root, square root, hyperbolic tangent and constant zero; `B` holds the five
functions that the model does not interpret. -/
def SynetUnaryOperation32f {α : Type} [LinearOrderedCommRing α] (B : UnaryFns α)
    (type : SimdSynetUnaryOperation32fType) (value : α) : α :=
  match type with
  | .Abs => |value|
  | .Exp => B.exp value
  | .Log => B.log value
  | .Neg => -value
  | .Rsqrt => B.rsqrt value
  | .Sqrt => B.sqrt value
  | .Tanh => B.tanh value
  | .Zero => 0

end Base

/-- The vector function `SynetUnaryOperation32f<type>(value)` of both tiers. `V` holds
the lane functions of `Exponent`, `Logarithm`, `_mm_rsqrt_ps`, `_mm_sqrt_ps` and `Tanh`. -/
def SynetUnaryOperation32f {α : Type} [LinearOrderedCommRing α] (V : UnaryFns α)
    (type : SimdSynetUnaryOperation32fType) (value : Nat → α) : Nat → α :=
  match type with
  | .Abs => andnot_ps_sign value
  | .Exp => fun l => V.exp (value l)
  | .Log => fun l => V.log (value l)
  | .Neg => sub_ps setzero_ps value
  | .Rsqrt => fun l => V.rsqrt (value l)
  | .Sqrt => fun l => V.sqrt (value l)
  | .Tanh => fun l => V.tanh (value l)
  | .Zero => setzero_ps

/-- The two vector loops of `SynetUnaryOperation32fLayerForward<type, align>` for a tier of
`F` lanes: blocks of `QF` elements, then single vectors; the result is the counter `i`
reached and the output buffer. -/
def SynetUnaryOperation32fLayerForwardBlocks {α : Type} [LinearOrderedCommRing α]
    (F QF : Nat) (V : UnaryFns α) (type : SimdSynetUnaryOperation32fType) (align : Bool)
    (src : Nat → α) (size : Nat) (dst : Buf α) : Nat × Buf α :=
  let sizeF := AlignLo size F
  let sizeQF := AlignLo size QF
  let r := forLoop QF sizeQF (fun i dst =>
    let dst := Store F align dst (i + 0 * F)
      (SynetUnaryOperation32f V type (Load align src (i + 0 * F)))
    let dst := Store F align dst (i + 1 * F)
      (SynetUnaryOperation32f V type (Load align src (i + 1 * F)))
    let dst := Store F align dst (i + 2 * F)
      (SynetUnaryOperation32f V type (Load align src (i + 2 * F)))
    Store F align dst (i + 3 * F)
      (SynetUnaryOperation32f V type (Load align src (i + 3 * F)))) sizeQF 0 dst
  forLoop F sizeF (fun i dst =>
    Store F align dst i (SynetUnaryOperation32f V type (Load align src i))) sizeF r.1 r.2

/-- `SynetUnaryOperation32fLayerForward<type, align>(src, size, dst)` for a tier of `F`
lanes: the two vector loops, then the scalar loop over the remaining elements. -/
def SynetUnaryOperation32fLayerForwardF {α : Type} [LinearOrderedCommRing α]
    (F QF : Nat) (V B : UnaryFns α) (type : SimdSynetUnaryOperation32fType) (align : Bool)
    (src : Nat → α) (size : Nat) (dst : Buf α) : Buf α :=
  let r := SynetUnaryOperation32fLayerForwardBlocks F QF V type align src size dst
  (forLoop 1 size (fun i dst =>
    dst.set i (Base.SynetUnaryOperation32f B type (src i))) size r.1 r.2).2

namespace Sse41

/-- `Sse41::SynetUnaryOperation32fLayerForward<type, align>`. The switch of
`SynetUnaryOperation32fLayerForward<align>(src, size, type, dst)` passes each of the eight
tags to this template. -/
def SynetUnaryOperation32fLayerForward {α : Type} [LinearOrderedCommRing α]
    (V B : UnaryFns α) (type : SimdSynetUnaryOperation32fType) (align : Bool)
    (src : Nat → α) (size : Nat) (dst : Buf α) : Buf α :=
  SynetUnaryOperation32fLayerForwardF F QF V B type align src size dst

end Sse41

namespace Avx2

/-- `Avx2::SynetUnaryOperation32fLayerForward<type, align>`. The switch of
`SynetUnaryOperation32fLayerForward<align>(src, size, type, dst)` passes each of the eight
tags to this template. -/
def SynetUnaryOperation32fLayerForward {α : Type} [LinearOrderedCommRing α]
    (V B : UnaryFns α) (type : SimdSynetUnaryOperation32fType) (align : Bool)
    (src : Nat → α) (size : Nat) (dst : Buf α) : Buf α :=
  SynetUnaryOperation32fLayerForwardF F QF V B type align src size dst

end Avx2

/-! ## Cross-channel normalization, interleaved layout, radius 2

`SynetLrnLayerCrossChannelsNhwc2h` of both tiers. The kernel reads below its `src`
pointer, so here `src` is the memory relative to the `src` pointer as a function of a signed
offset; `dst` is written at non-negative offsets only. -/

/-- The unaligned load `_mm_loadu_ps(p + offset)` / `_mm256_loadu_ps(p + offset)` from a
memory addressed by signed offsets: lane `l` is `p[offset + l]`. -/
def loadu_ps {α : Type} (p : Int → α) (offset : Int) : Nat → α :=
  fun l => p (offset + l)

/-- Modelled from the spec: `Load<align>` of SimdLoad.h, which is not among the sources at
hand, on a memory addressed by signed offsets: lane `l` of `Load<align>(p + offset)` is
`p[offset + l]`, for either value of `align`. -/
def LoadZ {α : Type} (_align : Bool) (p : Int → α) (offset : Int) : Nat → α :=
  fun l => p (offset + l)

/-- Modelled from the spec: the vector `Square` (`Sse41::Square`, `Avx::Square`) of
SimdMath.h, which is not among the sources at hand: the lane-wise square. -/
def SquareV {α : Type} [Mul α] (x : Nat → α) : Nat → α := mul_ps x x

/-- `LoadAtEdge<shift>(src)` for a tier of `F` lanes and its table `mask[3 * F]`:
`and(loadu(src + shift), loadu((float*)mask + F + shift))`. -/
def LoadAtEdgeF {α : Type} [Zero α] (F : Nat) (mask : List Int) (shift : Int)
    (p : Int → α) (offset : Int) : Nat → α :=
  and_ps (fun l => mask.getD ((F : Int) + shift + l).toNat 0) (loadu_ps p (offset + shift))

/-- `NoseSquareSum(src)`. -/
def NoseSquareSumF {α : Type} [CommRing α] (F : Nat) (mask : List Int)
    (p : Int → α) (offset : Int) : Nat → α :=
  add_ps (add_ps (SquareV (LoadAtEdgeF F mask (-2) p offset))
      (SquareV (LoadAtEdgeF F mask (-1) p offset)))
    (add_ps (SquareV (loadu_ps p offset))
      (add_ps (SquareV (loadu_ps p (offset + 1))) (SquareV (loadu_ps p (offset + 2)))))

/-- `BodySquareSum(src)`. -/
def BodySquareSumF {α : Type} [CommRing α] (p : Int → α) (offset : Int) : Nat → α :=
  add_ps (add_ps (SquareV (loadu_ps p (offset - 2))) (SquareV (loadu_ps p (offset - 1))))
    (add_ps (SquareV (loadu_ps p offset))
      (add_ps (SquareV (loadu_ps p (offset + 1))) (SquareV (loadu_ps p (offset + 2)))))

/-- `TailSquareSum(src)`. -/
def TailSquareSumF {α : Type} [CommRing α] (F : Nat) (mask : List Int)
    (p : Int → α) (offset : Int) : Nat → α :=
  add_ps (add_ps (SquareV (LoadAtEdgeF F mask 2 p offset))
      (SquareV (LoadAtEdgeF F mask 1 p offset)))
    (add_ps (SquareV (loadu_ps p offset))
      (add_ps (SquareV (loadu_ps p (offset - 1))) (SquareV (loadu_ps p (offset - 2)))))

/-- `SynetLrnLayerCrossChannelsNhwc2h<align>(src, half, channels, spatial, k, dst)` for a
tier of `F` lanes with the table `mask` of its `LoadAtEdge`. The state of the loop over the
spatial samples is the offset of the moving `src` pointer, the offset of the moving `dst`
pointer and the output buffer. -/
def SynetLrnLayerCrossChannelsNhwc2hF {α : Type} [CommRing α] (F : Nat) (mask : List Int)
    (pow : α → α → α) (align : Bool) (src : Int → α) (half channels spatial : Nat)
    (k : Nat → α) (dst : Buf α) : Buf α :=
  let k0 := set1_ps (k 0)
  let k1 := set1_ps (k 1)
  let k2 := set1_ps (k 2)
  let aligned := AlignLo (subSizeT channels half) F
  (forLoop 1 spatial (fun _s (st : Int × Nat × Buf α) =>
    let sOff := st.1
    let dOff := st.2.1
    let dst := st.2.2
    let dst := Store F align dst (dOff + 0) (mul_ps (LoadZ align src (sOff + 0))
      (powV pow (add_ps k0 (mul_ps k1 (NoseSquareSumF F mask src (sOff + 0)))) k2))
    let dst := (forLoop F aligned (fun c dst =>
      Store F align dst (dOff + c) (mul_ps (LoadZ align src (sOff + c))
        (powV pow (add_ps k0 (mul_ps k1 (BodySquareSumF src (sOff + c)))) k2)))
      aligned F dst).2
    let dst :=
      if aligned ≠ subSizeT channels half then
        let c := subSizeT (subSizeT channels half) F
        Store F false dst (dOff + c) (mul_ps (LoadZ false src (sOff + c))
          (powV pow (add_ps k0 (mul_ps k1 (BodySquareSumF src (sOff + c)))) k2))
      else dst
    let c := subSizeT channels F
    let dst := Store F false dst (dOff + c) (mul_ps (LoadZ false src (sOff + c))
      (powV pow (add_ps k0 (mul_ps k1 (TailSquareSumF F mask src (sOff + c)))) k2))
    (sOff + channels, dOff + channels, dst)) spatial 0 (0, 0, dst)).2.2.2

namespace Sse41

/-- The table `mask[3 * F]` of `Sse41::LoadAtEdge`. -/
def EdgeMask : List Int := [0, 0, 0, 0, -1, -1, -1, -1, 0, 0, 0, 0]

/-- `Sse41::SynetLrnLayerCrossChannelsNhwc2h<align>`. -/
def SynetLrnLayerCrossChannelsNhwc2h {α : Type} [CommRing α] (pow : α → α → α)
    (align : Bool) (src : Int → α) (half channels spatial : Nat) (k : Nat → α)
    (dst : Buf α) : Buf α :=
  SynetLrnLayerCrossChannelsNhwc2hF F EdgeMask pow align src half channels spatial k dst

end Sse41

namespace Avx2

/-- The table `mask[3 * F]` of `Avx2::LoadAtEdge`. -/
def EdgeMask : List Int :=
  [0, 0, 0, 0, 0, 0, 0, 0, -1, -1, -1, -1, -1, -1, -1, -1, 0, 0, 0, 0, 0, 0, 0, 0]

/-- `Avx2::SynetLrnLayerCrossChannelsNhwc2h<align>`. -/
def SynetLrnLayerCrossChannelsNhwc2h {α : Type} [CommRing α] (pow : α → α → α)
    (align : Bool) (src : Int → α) (half channels spatial : Nat) (k : Nat → α)
    (dst : Buf α) : Buf α :=
  SynetLrnLayerCrossChannelsNhwc2hF F EdgeMask pow align src half channels spatial k dst

end Avx2

/-! ## Address traces of the interleaved radius-2 normalization

The elements of `src` that `SynetLrnLayerCrossChannelsNhwc2h` loads, as signed offsets
relative to the `src` pointer of the call. The trace follows the control flow of the
kernel; the addresses do not depend on the data. -/

/-- The elements read by a vector load of `F` lanes at `src + offset`. -/
def loadAddrs (F : Nat) (offset : Int) : List Int :=
  (List.range F).map (fun (l : Nat) => offset + (l : Int))

/-- The elements of `src` read by `LoadAtEdge<shift>(src)`: the load
`_mm_loadu_ps(src + shift)` is issued in full, the mask is applied to the loaded register.
(The second load of `LoadAtEdge` reads the table `mask`.) -/
def LoadAtEdgeReads (F : Nat) (shift offset : Int) : List Int := loadAddrs F (offset + shift)

/-- The elements of `src` read by `NoseSquareSum(src)`. -/
def NoseSquareSumReads (F : Nat) (offset : Int) : List Int :=
  LoadAtEdgeReads F (-2) offset ++ LoadAtEdgeReads F (-1) offset ++ loadAddrs F offset ++
    loadAddrs F (offset + 1) ++ loadAddrs F (offset + 2)

/-- The elements of `src` read by `BodySquareSum(src)`. -/
def BodySquareSumReads (F : Nat) (offset : Int) : List Int :=
  loadAddrs F (offset - 2) ++ loadAddrs F (offset - 1) ++ loadAddrs F offset ++
    loadAddrs F (offset + 1) ++ loadAddrs F (offset + 2)

/-- The elements of `src` read by `TailSquareSum(src)`. -/
def TailSquareSumReads (F : Nat) (offset : Int) : List Int :=
  LoadAtEdgeReads F 2 offset ++ LoadAtEdgeReads F 1 offset ++ loadAddrs F offset ++
    loadAddrs F (offset - 1) ++ loadAddrs F (offset - 2)

/-- The elements of `src` read by one iteration of the loop over the spatial samples of
`SynetLrnLayerCrossChannelsNhwc2h`, with the moving `src` pointer at offset `sOff`. -/
def SynetLrnLayerCrossChannelsNhwc2hSampleReads (F half channels : Nat) (sOff : Int) :
    List Int :=
  let aligned := AlignLo (subSizeT channels half) F
  let reads := loadAddrs F (sOff + 0) ++ NoseSquareSumReads F (sOff + 0)
  let reads := (forLoop F aligned (fun c (reads : List Int) =>
    reads ++ loadAddrs F (sOff + c) ++ BodySquareSumReads F (sOff + c)) aligned F reads).2
  let reads :=
    if aligned ≠ subSizeT channels half then
      let c := subSizeT (subSizeT channels half) F
      reads ++ loadAddrs F (sOff + c) ++ BodySquareSumReads F (sOff + c)
    else reads
  let c := subSizeT channels F
  reads ++ loadAddrs F (sOff + c) ++ TailSquareSumReads F (sOff + c)

/-- The elements of `src` read by `SynetLrnLayerCrossChannelsNhwc2h(src, half, channels,
spatial, k, dst)`, each with the spatial sample `s` during which it is read. -/
def SynetLrnLayerCrossChannelsNhwc2hReads (F half channels spatial : Nat) :
    List (Nat × Int) :=
  (forLoop 1 spatial (fun s (st : Int × List (Nat × Int)) =>
    (st.1 + channels,
     st.2 ++ (SynetLrnLayerCrossChannelsNhwc2hSampleReads F half channels st.1).map
      (fun a => (s, a)))) spatial 0 (0, [])).2.2

/-! ## Channel shuffle, interleaved layout (SSE4.1)

`Sse41::SynetShuffleLayerForward`, the branch `format == SimdTensorFormatNhwc`. Next to
the two output buffers the model keeps the log of the element indices loaded from `src0`
and from `src1`, in program order. -/

/-- `_mm_shuffle_ps(a, b, imm)`: lanes 0 and 1 select from `a`, lanes 2 and 3 from `b`;
lane `l` takes the element whose index is the `l`-th pair of bits of `imm`. -/
def shuffle_ps {α : Type} (a b : Nat → α) (imm : Nat) : Nat → α :=
  fun l => if l < 2 then a (imm / 4 ^ l % 4) else b (imm / 4 ^ l % 4)

/-- `_mm_unpacklo_ps(a, b)`: `a0, b0, a1, b1`. -/
def unpacklo_ps {α : Type} (a b : Nat → α) : Nat → α :=
  fun l => if l % 2 = 0 then a (l / 2) else b (l / 2)

/-- `_mm_unpackhi_ps(a, b)`: `a2, b2, a3, b3`. -/
def unpackhi_ps {α : Type} (a b : Nat → α) : Nat → α :=
  fun l => if l % 2 = 0 then a (2 + l / 2) else b (2 + l / 2)

namespace Sse41

/-- Two registers worth of `float` lanes. -/
def DF : Nat := 8

/-- The branch `type == 0` of `SynetShuffleLayerForward` for the interleaved layout. The
state of the loop over the spatial samples is the offsets of the moving pointers `src0`,
`src1`, `dst0`, `dst1`, the two output buffers and the logs of the loads from `src0` and
`src1`; the state of a channel loop is `cd`, the two output buffers and the log of the loads
from the source of the loop. The result is `dst0`, `dst1` and the two logs. -/
def SynetShuffleLayerForward0 {α : Type} (src0 src1 : Nat → α)
    (channels0 channels1 spatial : Nat) (dst0 dst1 : Buf α) :
    Buf α × Buf α × List Nat × List Nat :=
  let channels := (channels0 + channels1) / 2
  let channels0DF := AlignLo channels0 DF
  let channels1DF := AlignLo channels1 DF
  (forLoop 1 spatial
    (fun _s (st : (Nat × Nat × Nat × Nat) × Buf α × Buf α × List Nat × List Nat) =>
      let p0 := st.1.1
      let p1 := st.1.2.1
      let q0 := st.1.2.2.1
      let q1 := st.1.2.2.2
      let r := forLoop DF channels0DF (fun cs0 (t : Nat × Buf α × Buf α × List Nat) =>
        let cd := t.1
        let s0 := Load false src0 (p0 + cs0 + 0)
        let s1 := Load false src0 (p0 + cs0 + F)
        (cd + F, Store F false t.2.1 (q0 + cd) (shuffle_ps s0 s1 0x88),
          Store F false t.2.2.1 (q1 + cd) (shuffle_ps s0 s1 0xDD),
          t.2.2.2 ++ List.range' (p0 + cs0 + 0) F ++ List.range' (p0 + cs0 + F) F))
        channels0DF 0 (0, st.2.1, st.2.2.1, st.2.2.2.1)
      let r := forLoop 2 channels0 (fun cs0 (t : Nat × Buf α × Buf α × List Nat) =>
        let cd := t.1
        (cd + 1, t.2.1.set (q0 + cd) (src0 (p0 + cs0 + 0)),
          t.2.2.1.set (q1 + cd) (src0 (p0 + cs0 + 1)),
          t.2.2.2 ++ [p0 + cs0 + 0] ++ [p0 + cs0 + 1]))
        channels0 r.1 r.2
      let reads0 := r.2.2.2.2
      let r := forLoop DF channels1DF (fun cs1 (t : Nat × Buf α × Buf α × List Nat) =>
        let cd := t.1
        let s0 := Load false src1 (p1 + cs1 + 0)
        let s1 := Load false src1 (p1 + cs1 + F)
        (cd + F, Store F false t.2.1 (q0 + cd) (shuffle_ps s0 s1 0x88),
          Store F false t.2.2.1 (q1 + cd) (shuffle_ps s0 s1 0xDD),
          t.2.2.2 ++ List.range' (p1 + cs1 + 0) F ++ List.range' (p1 + cs1 + F) F))
        channels1DF 0 (r.2.1, r.2.2.1, r.2.2.2.1, st.2.2.2.2)
      let r := forLoop 2 channels1 (fun cs1 (t : Nat × Buf α × Buf α × List Nat) =>
        let cd := t.1
        (cd + 1, t.2.1.set (q0 + cd) (src1 (p1 + cs1 + 0)),
          t.2.2.1.set (q1 + cd) (src1 (p1 + cs1 + 1)),
          t.2.2.2 ++ [p1 + cs1 + 0] ++ [p1 + cs1 + 1]))
        channels1 r.1 r.2
      ((p0 + channels0, p1 + channels1, q0 + channels, q1 + channels),
        r.2.2.1, r.2.2.2.1, reads0, r.2.2.2.2))
    spatial 0 ((0, 0, 0, 0), dst0, dst1, [], [])).2.2

/-- The branch `type == 1` of `SynetShuffleLayerForward` for the interleaved layout. The
state of the loop over the spatial samples is as for `type == 0`; the state of a channel
loop is `cs`, the output buffer of the loop and the logs of the loads from `src0` and
`src1`. The result is `dst0`, `dst1` and the two logs. -/
def SynetShuffleLayerForward1 {α : Type} (src0 src1 : Nat → α)
    (channels0 channels1 spatial : Nat) (dst0 dst1 : Buf α) :
    Buf α × Buf α × List Nat × List Nat :=
  let channels := (channels0 + channels1) / 2
  let channels0DF := AlignLo channels0 DF
  let channels1DF := AlignLo channels1 DF
  (forLoop 1 spatial
    (fun _s (st : (Nat × Nat × Nat × Nat) × Buf α × Buf α × List Nat × List Nat) =>
      let p0 := st.1.1
      let p1 := st.1.2.1
      let q0 := st.1.2.2.1
      let q1 := st.1.2.2.2
      let r := forLoop DF channels0DF (fun cd0 (t : Nat × Buf α × List Nat × List Nat) =>
        let cs := t.1
        let s0 := Load false src0 (p0 + cs)
        let s1 := Load false src1 (p1 + cs)
        (cs + F,
          Store F false (Store F false t.2.1 (q0 + cd0 + 0) (unpacklo_ps s0 s1))
            (q0 + cd0 + F) (unpackhi_ps s0 s1),
          t.2.2.1 ++ List.range' (p0 + cs) F, t.2.2.2 ++ List.range' (p1 + cs) F))
        channels0DF 0 (0, st.2.1, st.2.2.2.1, st.2.2.2.2)
      let r := forLoop 2 channels0 (fun cd0 (t : Nat × Buf α × List Nat × List Nat) =>
        let cs := t.1
        (cs + 1, (t.2.1.set (q0 + cd0 + 0) (src0 (p0 + cs))).set (q0 + cd0 + 1) (src1 (p1 + cs)),
          t.2.2.1 ++ [p0 + cs], t.2.2.2 ++ [p1 + cs]))
        channels0 r.1 r.2
      let dst0 := r.2.2.1
      let r := forLoop DF channels1DF (fun cd1 (t : Nat × Buf α × List Nat × List Nat) =>
        let cs := t.1
        let s0 := Load false src0 (p0 + cs)
        let s1 := Load false src1 (p1 + cs)
        (cs + F,
          Store F false (Store F false t.2.1 (q1 + cd1 + 0) (unpacklo_ps s0 s1))
            (q1 + cd1 + F) (unpackhi_ps s0 s1),
          t.2.2.1 ++ List.range' (p0 + cs) F, t.2.2.2 ++ List.range' (p1 + cs) F))
        channels1DF 0 (r.2.1, st.2.2.1, r.2.2.2.1, r.2.2.2.2)
      let r := forLoop 2 channels1 (fun cd1 (t : Nat × Buf α × List Nat × List Nat) =>
        let cs := t.1
        (cs + 1, (t.2.1.set (q1 + cd1 + 0) (src0 (p0 + cs))).set (q1 + cd1 + 1) (src1 (p1 + cs)),
          t.2.2.1 ++ [p0 + cs], t.2.2.2 ++ [p1 + cs]))
        channels1 r.1 r.2
      ((p0 + channels, p1 + channels, q0 + channels0, q1 + channels1),
        dst0, r.2.2.1, r.2.2.2.1, r.2.2.2.2))
    spatial 0 ((0, 0, 0, 0), dst0, dst1, [], [])).2.2

/-- `SynetShuffleLayerForward(src0, src1, channels0, channels1, spatial, dst0, dst1, format,
type)` for `format == SimdTensorFormatNhwc`: `type` 0 and 1 select the two branches, any
other `type` runs into `assert(0)` (no result). -/
def SynetShuffleLayerForward {α : Type} (src0 src1 : Nat → α)
    (channels0 channels1 spatial : Nat) (dst0 dst1 : Buf α) (type : Int) :
    Option (Buf α × Buf α × List Nat × List Nat) :=
  if type = 0 then
    some (SynetShuffleLayerForward0 src0 src1 channels0 channels1 spatial dst0 dst1)
  else if type = 1 then
    some (SynetShuffleLayerForward1 src0 src1 channels0 channels1 spatial dst0 dst1)
  else none

end Sse41

/-! ## Address trace of the planar normalization

The elements of `src` that `SynetLrnLayerCrossChannelsNchw` loads, as indices relative to
the `src` pointer of the call, in program order. The trace follows the control flow of the
kernel. The pointers `pos` and `neg` of the channel loop point into `src` or to the scratch
array `zero`; a load through a pointer into `zero` reads no element of `src`. -/

/-- The elements of `src` read by a load of `n` elements at `p + s`, where `p` is a pointer
into `src` (`some` of its offset) or into the scratch array `zero` (`none`). -/
def srcReads (p : Option Nat) (s n : Nat) : List Nat :=
  match p with
  | some a => List.range' (a + s) n
  | none => []

/-- The elements of `src` read by `SynetLrnLayerCrossChannelsNchw<align>(src, half,
channels, spatial, k, dst)` for a tier of `F` lanes. The state of the channel loop is the
offset of the moving `src` pointer and the log. -/
def SynetLrnLayerCrossChannelsNchwReads (F half channels spatial : Nat) : List Nat :=
  let aligned := AlignLo spatial F
  let reads := (forLoop 1 half (fun c (reads : List Nat) =>
    let pos := c * spatial
    let r := forLoop F aligned (fun s (reads : List Nat) =>
      reads ++ List.range' (pos + s) F) aligned 0 reads
    (forLoop 1 spatial (fun s (reads : List Nat) =>
      reads ++ [pos + s]) spatial r.1 r.2).2) half 0 []).2
  (forLoop 1 channels (fun c (st : Nat × List Nat) =>
    let sOff := st.1
    let pos : Option Nat :=
      if c < subSizeT channels half then some (sOff + half * spatial) else none
    let neg : Option Nat :=
      if c > half then some (sOff - (half + 1) * spatial) else none
    let r := forLoop F aligned (fun s (reads : List Nat) =>
      reads ++ srcReads pos s F ++ srcReads neg s F ++ List.range' (sOff + s) F)
      aligned 0 st.2
    let r := forLoop 1 spatial (fun s (reads : List Nat) =>
      reads ++ srcReads pos s 1 ++ srcReads neg s 1 ++ [sOff + s]) spatial r.1 r.2
    (sOff + spatial, r.2)) channels 0 (0, reads)).2.2

/-! ## AVX2 tier: quantized dense projection, the tile calls

The calls of the tile kernels made by `SynetInnerProduct8i`, in program order. The pointers
passed for `S`, `W` and `D` are recorded as offsets from the `src`, `weight` and `dst` of the
enclosing call. -/

/-- The four tile kernels `SynetInnerProduct8i2x4`, `SynetInnerProduct8i2x1`,
`SynetInnerProduct8i1x4`, `SynetInnerProduct8i1x1`. -/
inductive Tile8i where
  | k2x4
  | k2x1
  | k1x4
  | k1x1
  deriving DecidableEq, Repr

/-- One call `SynetInnerProduct8i{tile}<overflow>(K, src + S, lds, weight + W, ldw, dst + D,
ldd)`. -/
structure TileCall where
  tile : Tile8i
  overflow : Bool
  K : Nat
  S : Nat
  lds : Nat
  W : Nat
  ldw : Nat
  D : Nat
  ldd : Nat
  deriving DecidableEq, Repr

/-- The tile kernel a call runs, on the `src`, `weight` and output buffer of the enclosing
call. -/
def TileCall.run (c : TileCall) (src weight : Nat → Int) (dst : Buf Int) : Buf Int :=
  match c.tile with
  | Tile8i.k2x4 =>
    Avx2.SynetInnerProduct8i2x4 c.overflow c.K (fun x => src (c.S + x)) c.lds
      (fun x => weight (c.W + x)) c.ldw dst c.D c.ldd
  | Tile8i.k2x1 =>
    Avx2.SynetInnerProduct8i2x1 c.overflow c.K (fun x => src (c.S + x)) c.lds
      (fun x => weight (c.W + x)) c.ldw dst c.D c.ldd
  | Tile8i.k1x4 =>
    Avx2.SynetInnerProduct8i1x4 c.overflow c.K (fun x => src (c.S + x)) c.lds
      (fun x => weight (c.W + x)) c.ldw dst c.D c.ldd
  | Tile8i.k1x1 =>
    Avx2.SynetInnerProduct8i1x1 c.overflow c.K (fun x => src (c.S + x)) c.lds
      (fun x => weight (c.W + x)) c.ldw dst c.D c.ldd

namespace Avx2

/-- The tile calls of `SynetInnerProduct8i<overflow>(M, N, K, src, weight, dst)`. The state
of the row loops is the offset of the moving `src` pointer, the offset of the moving `dst`
pointer, and the calls made so far. -/
def SynetInnerProduct8iTCalls (overflow : Bool) (M N K : Nat) : List TileCall :=
  let M2 := AlignLoAny M 2
  let N4 := AlignLoAny N 4
  let r := forLoop 2 M2 (fun _i (st : Nat × Nat × List TileCall) =>
    let src := st.1
    let dst := st.2.1
    let rj := forLoop 4 N4 (fun j (calls : List TileCall) =>
      calls ++ [⟨Tile8i.k2x4, overflow, K, src, K, j * K, K, dst + j, N⟩]) N4 0 st.2.2
    let rj := forLoop 1 N (fun j (calls : List TileCall) =>
      calls ++ [⟨Tile8i.k2x1, overflow, K, src, K, j * K, K, dst + j, N⟩]) N rj.1 rj.2
    (src + K * 2, dst + N * 2, rj.2)) M2 0 (0, 0, [])
  (forLoop 1 M (fun _i (st : Nat × Nat × List TileCall) =>
    let src := st.1
    let dst := st.2.1
    let rj := forLoop 4 N4 (fun j (calls : List TileCall) =>
      calls ++ [⟨Tile8i.k1x4, overflow, K, src, K, j * K, K, dst + j, N⟩]) N4 0 st.2.2
    let rj := forLoop 1 N (fun j (calls : List TileCall) =>
      calls ++ [⟨Tile8i.k1x1, overflow, K, src, K, j * K, K, dst + j, N⟩]) N rj.1 rj.2
    (src + K, dst + N, rj.2)) M r.1 r.2).2.2.2

/-- The tile calls of `SynetInnerProduct8i(M, N, K, src, weight, dst, compatibility)`:
`precise` is the value of `Base::Precise(compatibility)`. -/
def SynetInnerProduct8iCalls (M N K : Nat) (precise : Bool) : List TileCall :=
  if precise then SynetInnerProduct8iTCalls false M N K
  else SynetInnerProduct8iTCalls true M N K

end Avx2

/-! ## AVX2 tier: quantized dense projection, the bytes read by a tile kernel

A byte read by a tile kernel is recorded with the row pointer it is read through (`S0`, `S1`
or `W0`, ..., `W3`) and its offset from that pointer. -/

/-- One byte read by a tile kernel: offset `offset` from the activation row pointer
`S{row}`, or from the weight row pointer `W{row}`. -/
inductive TileRead where
  | S (row offset : Nat)
  | W (row offset : Nat)
  deriving DecidableEq, Repr

/-- The bytes read by `_mm256_loadu_si256((__m256i*)(p + offset))`, as offsets from `p`. -/
def loadu_si256Reads (offset : Nat) : List Nat := List.range' offset 32

namespace Avx2

/-- The bytes of `ptr` read by `LoadTail(ptr, tail)`, as offsets from `ptr`, in program
order: the copy loop reads `ptr[i]`; the final load reads the local buffer. -/
def LoadTailReads (tail : Nat) : List Nat :=
  (forLoop 1 tail (fun i (reads : List Nat) => reads ++ [i]) tail 0 []).2

/-- The bytes read by `SynetInnerProduct8i1x1<overflow>(K, S, lds, W, ldw, D, ldd)`. -/
def SynetInnerProduct8i1x1Reads (K : Nat) : List TileRead :=
  let KA := AlignLo K A
  let r := forLoop A KA (fun k (reads : List TileRead) =>
    reads ++ (loadu_si256Reads k).map (TileRead.S 0)
      ++ (loadu_si256Reads k).map (TileRead.W 0)) KA 0 []
  if KA < K then
    let tail := K - KA
    r.2 ++ (LoadTailReads tail).map (fun x => TileRead.S 0 (KA + x))
      ++ (LoadTailReads tail).map (fun x => TileRead.W 0 (KA + x))
  else r.2

/-- The bytes read by `SynetInnerProduct8i1x4<overflow>(K, S, lds, W, ldw, D, ldd)`. -/
def SynetInnerProduct8i1x4Reads (K : Nat) : List TileRead :=
  let KA := AlignLo K A
  let r := forLoop A KA (fun k (reads : List TileRead) =>
    reads ++ (loadu_si256Reads k).map (TileRead.S 0)
      ++ (loadu_si256Reads k).map (TileRead.W 0)
      ++ (loadu_si256Reads k).map (TileRead.W 1)
      ++ (loadu_si256Reads k).map (TileRead.W 2)
      ++ (loadu_si256Reads k).map (TileRead.W 3)) KA 0 []
  if KA < K then
    let tail := K - KA
    r.2 ++ (LoadTailReads tail).map (fun x => TileRead.S 0 (KA + x))
      ++ (LoadTailReads tail).map (fun x => TileRead.W 0 (KA + x))
      ++ (LoadTailReads tail).map (fun x => TileRead.W 1 (KA + x))
      ++ (LoadTailReads tail).map (fun x => TileRead.W 2 (KA + x))
      ++ (LoadTailReads tail).map (fun x => TileRead.W 3 (KA + x))
  else r.2

/-- The bytes read by `SynetInnerProduct8i2x1<overflow>(K, S, lds, W, ldw, D, ldd)`. -/
def SynetInnerProduct8i2x1Reads (K : Nat) : List TileRead :=
  let KA := AlignLo K A
  let r := forLoop A KA (fun k (reads : List TileRead) =>
    reads ++ (loadu_si256Reads k).map (TileRead.S 0)
      ++ (loadu_si256Reads k).map (TileRead.S 1)
      ++ (loadu_si256Reads k).map (TileRead.W 0)) KA 0 []
  if KA < K then
    let tail := K - KA
    r.2 ++ (LoadTailReads tail).map (fun x => TileRead.S 0 (KA + x))
      ++ (LoadTailReads tail).map (fun x => TileRead.S 1 (KA + x))
      ++ (LoadTailReads tail).map (fun x => TileRead.W 0 (KA + x))
  else r.2

/-- The bytes read by `SynetInnerProduct8i2x4<overflow>(K, S, lds, W, ldw, D, ldd)`. -/
def SynetInnerProduct8i2x4Reads (K : Nat) : List TileRead :=
  let KA := AlignLo K A
  let r := forLoop A KA (fun k (reads : List TileRead) =>
    reads ++ (loadu_si256Reads k).map (TileRead.S 0)
      ++ (loadu_si256Reads k).map (TileRead.S 1)
      ++ (loadu_si256Reads k).map (TileRead.W 0)
      ++ (loadu_si256Reads k).map (TileRead.W 1)
      ++ (loadu_si256Reads k).map (TileRead.W 2)
      ++ (loadu_si256Reads k).map (TileRead.W 3)) KA 0 []
  if KA < K then
    let tail := K - KA
    r.2 ++ (LoadTailReads tail).map (fun x => TileRead.S 0 (KA + x))
      ++ (LoadTailReads tail).map (fun x => TileRead.S 1 (KA + x))
      ++ (LoadTailReads tail).map (fun x => TileRead.W 0 (KA + x))
      ++ (LoadTailReads tail).map (fun x => TileRead.W 1 (KA + x))
      ++ (LoadTailReads tail).map (fun x => TileRead.W 2 (KA + x))
      ++ (LoadTailReads tail).map (fun x => TileRead.W 3 (KA + x))
  else r.2

end Avx2

/-! ## AVX2 tier: float dense projection, the elements read

Every element read by the kernels is recorded with the array it belongs to and its index in
that array: `src`, `weight`, `bias`, the local array `_bias` of the entry point, and the table
`mask` of `Tail`. A read of `weight` also records the output row whose accumulator it
feeds. -/

/-- One element read by the float dense projection. -/
inductive DenseRead where
  | src (index : Nat)
  | weight (row index : Nat)
  | bias (index : Nat)
  | localBias (index : Nat)
  | mask (index : Nat)
  deriving DecidableEq, Repr

/-- The elements read by `_mm256_loadu_ps(p + offset)`, where `p[x]` is the element
`p x`. -/
def loadu_psReads (p : Nat → DenseRead) (offset : Nat) : List DenseRead :=
  (List.range' offset 8).map p

namespace Avx2

/-- The entries of `mask` read by `Tail(tail)`: the eight entries from `mask + tail`. -/
def TailReads (tail : Nat) : List DenseRead := loadu_psReads DenseRead.mask tail

/-- The elements read by `SynetInnerProductLayerForward1(S0, W, B, K, D)`. `S0 x` and `B x`
are the elements `S0[x]` and `B[x]`; `W r x` is the element `W[x]`, read for the `r`-th
output row of the call. -/
def SynetInnerProductLayerForward1Reads (S0 : Nat → DenseRead) (W : Nat → Nat → DenseRead)
    (B : Nat → DenseRead) (K : Nat) : List DenseRead :=
  let K8 := K / 8 * 8
  let K32 := K / 32 * 32
  let W0 : Nat → DenseRead := fun x => W 0 (0 * K + x)
  let r : Nat × List DenseRead :=
    if K32 ≠ 0 then
      forLoop 32 K32 (fun k (reads : List DenseRead) =>
        reads ++ loadu_psReads S0 (k + 0 * F) ++ loadu_psReads S0 (k + 1 * F)
          ++ loadu_psReads W0 (k + 0 * F) ++ loadu_psReads W0 (k + 1 * F)
          ++ loadu_psReads S0 (k + 2 * F) ++ loadu_psReads S0 (k + 3 * F)
          ++ loadu_psReads W0 (k + 2 * F) ++ loadu_psReads W0 (k + 3 * F)) K32 0 []
    else (0, [])
  let r := forLoop 8 K8 (fun k (reads : List DenseRead) =>
    reads ++ loadu_psReads S0 k ++ loadu_psReads W0 k) K8 r.1 r.2
  let reads :=
    if K8 < K then
      let k := subSizeT K 8
      r.2 ++ TailReads (K - K8) ++ loadu_psReads S0 k ++ loadu_psReads W0 k
    else r.2
  reads ++ [B 0]

/-- The elements read by `SynetInnerProductLayerForward4(S0, W, B, K, D)`; the last four are
those of `_mm_loadu_ps(B)`. -/
def SynetInnerProductLayerForward4Reads (S0 : Nat → DenseRead) (W : Nat → Nat → DenseRead)
    (B : Nat → DenseRead) (K : Nat) : List DenseRead :=
  let K8 := K / 8 * 8
  let K16 := K / 16 * 16
  let W0 : Nat → DenseRead := fun x => W 0 (0 * K + x)
  let W1 : Nat → DenseRead := fun x => W 1 (1 * K + x)
  let W2 : Nat → DenseRead := fun x => W 2 (2 * K + x)
  let W3 : Nat → DenseRead := fun x => W 3 (3 * K + x)
  let r : Nat × List DenseRead :=
    if K16 ≠ 0 then
      forLoop 16 K16 (fun k (reads : List DenseRead) =>
        reads ++ loadu_psReads S0 (k + 0 * F) ++ loadu_psReads S0 (k + 1 * F)
          ++ loadu_psReads W0 (k + 0 * F) ++ loadu_psReads W0 (k + 1 * F)
          ++ loadu_psReads W1 (k + 0 * F) ++ loadu_psReads W1 (k + 1 * F)
          ++ loadu_psReads W2 (k + 0 * F) ++ loadu_psReads W2 (k + 1 * F)
          ++ loadu_psReads W3 (k + 0 * F) ++ loadu_psReads W3 (k + 1 * F)) K16 0 []
    else (0, [])
  let r := forLoop 8 K8 (fun k (reads : List DenseRead) =>
    reads ++ loadu_psReads S0 (k + 0 * F) ++ loadu_psReads W0 (k + 0 * F)
      ++ loadu_psReads W1 (k + 0 * F) ++ loadu_psReads W2 (k + 0 * F)
      ++ loadu_psReads W3 (k + 0 * F)) K8 r.1 r.2
  let reads :=
    if K8 < K then
      let k := subSizeT K 8
      r.2 ++ TailReads (K - K8) ++ loadu_psReads S0 k ++ loadu_psReads W0 (k + 0 * F)
        ++ loadu_psReads W1 (k + 0 * F) ++ loadu_psReads W2 (k + 0 * F)
        ++ loadu_psReads W3 (k + 0 * F)
    else r.2
  reads ++ (List.range' 0 4).map B

/-- The elements read by `SynetInnerProductLayerForward(src, weight, bias, count, size,
dst)`; `hasBias` tells whether `bias` is a non-null pointer, and `sse41` stands for the reads
of the call `Sse41::SynetInnerProductLayerForward(src, weight, bias, count, size, dst)`. -/
def SynetInnerProductLayerForwardReads (sse41 : List DenseRead) (hasBias : Bool)
    (count size : Nat) : List DenseRead :=
  if size < F then sse41
  else
    let count4 := AlignLo count 4
    let r := forLoop 4 count4 (fun i (reads : List DenseRead) =>
      reads ++ SynetInnerProductLayerForward4Reads DenseRead.src
        (fun r x => DenseRead.weight (i + r) (i * size + x))
        (if hasBias then fun x => DenseRead.bias (i + x) else DenseRead.localBias) size)
      count4 0 []
    (forLoop 1 count (fun i (reads : List DenseRead) =>
      reads ++ SynetInnerProductLayerForward1Reads DenseRead.src
        (fun r x => DenseRead.weight (i + r) (i * size + x))
        (if hasBias then fun x => DenseRead.bias (i + x) else DenseRead.localBias) size)
      count r.1 r.2).2

end Avx2

/-! ## Entry points: assertions, operator tags and alignment dispatch

Assertions are those of a build with assertions enabled: a failed `assert` stops the call.
The addresses of the buffers (`pSrc`, `pDst`, ...) are what the alignment tests look at. -/

/-- The outcome of a call: it returns with the state `st`, or it stops at a failed `assert`
with the state `st` reached so far. -/
inductive Run (σ : Type) where
  | done (st : σ)
  | assertFailed (st : σ)

/-- A value of a C enumeration type: one of the enumerators named in the sources, or any
other value of the underlying integer type. -/
inductive CEnum (τ : Type) where
  | enumerator (t : τ)
  | other (v : Int)
  deriving DecidableEq

/-- The local `aligned` of the entry points of the element-wise combination, for a tier whose
`Aligned(ptr)` tests a multiple of `A`:
`bool aligned = Aligned(dst) && Aligned(src[0]) && Aligned(src[1]);
for (size_t i = 2; i < count; ++i) aligned = aligned && Aligned(src[i]);`. -/
def SynetEltwiseLayerForwardAligned (A : Nat) (pSrc : Nat → Nat) (pDst count : Nat) : Bool :=
  let aligned := Aligned pDst A && Aligned (pSrc 0) A && Aligned (pSrc 1) A
  (forLoop 1 count (fun i (aligned : Bool) => aligned && Aligned (pSrc i) A) count 2
    aligned).2

namespace Sse41

/-- `SynetEltwiseLayerForward<align>(src, weight, count, size, type, dst)` on any value of
the tag: the switch with its `default: assert(0)`. -/
def SynetEltwiseLayerForwardSwitch {α : Type} [LinearOrderedCommRing α] (align : Bool)
    (src : Nat → Nat → α) (weight : Nat → α) (count size : Nat)
    (type : CEnum SimdSynetEltwiseOperationType) (dst : Buf α) : Run (Buf α) :=
  match type with
  | CEnum.enumerator SimdSynetEltwiseOperationType.Product =>
    Run.done (SynetEltwiseLayerForwardT SynetEltwiseLayerForwardProduct
      Base.SynetEltwiseLayerForwardProduct align src count size dst)
  | CEnum.enumerator SimdSynetEltwiseOperationType.Sum =>
    Run.done (SynetEltwiseLayerForwardSum align src weight count size dst)
  | CEnum.enumerator SimdSynetEltwiseOperationType.Max =>
    Run.done (SynetEltwiseLayerForwardT SynetEltwiseLayerForwardMax
      Base.SynetEltwiseLayerForwardMax align src count size dst)
  | CEnum.enumerator SimdSynetEltwiseOperationType.Min =>
    Run.done (SynetEltwiseLayerForwardT SynetEltwiseLayerForwardMin
      Base.SynetEltwiseLayerForwardMin align src count size dst)
  | CEnum.other _ => Run.assertFailed dst

/-- `SynetEltwiseLayerForward(src, weight, count, size, type, dst)`: the entry point. `pSrc i`
is the address `src[i]`, `pDst` the address `dst`. -/
def SynetEltwiseLayerForwardEntry {α : Type} [LinearOrderedCommRing α] (pSrc : Nat → Nat)
    (pDst : Nat) (src : Nat → Nat → α) (weight : Nat → α) (count size : Nat)
    (type : CEnum SimdSynetEltwiseOperationType) (dst : Buf α) : Run (Buf α) :=
  if ¬ (count ≥ 2) then Run.assertFailed dst
  else
    if SynetEltwiseLayerForwardAligned A pSrc pDst count then
      SynetEltwiseLayerForwardSwitch true src weight count size type dst
    else
      SynetEltwiseLayerForwardSwitch false src weight count size type dst

/-- `SynetUnaryOperation32fLayerForward<align>(src, size, type, dst)` on any value of the
tag: the switch with its `default: assert(0)`. -/
def SynetUnaryOperation32fLayerForwardSwitch {α : Type} [LinearOrderedCommRing α]
    (V B : UnaryFns α) (align : Bool) (src : Nat → α) (size : Nat)
    (type : CEnum SimdSynetUnaryOperation32fType) (dst : Buf α) : Run (Buf α) :=
  match type with
  | CEnum.enumerator SimdSynetUnaryOperation32fType.Abs =>
    Run.done (SynetUnaryOperation32fLayerForward V B SimdSynetUnaryOperation32fType.Abs align
      src size dst)
  | CEnum.enumerator SimdSynetUnaryOperation32fType.Exp =>
    Run.done (SynetUnaryOperation32fLayerForward V B SimdSynetUnaryOperation32fType.Exp align
      src size dst)
  | CEnum.enumerator SimdSynetUnaryOperation32fType.Log =>
    Run.done (SynetUnaryOperation32fLayerForward V B SimdSynetUnaryOperation32fType.Log align
      src size dst)
  | CEnum.enumerator SimdSynetUnaryOperation32fType.Neg =>
    Run.done (SynetUnaryOperation32fLayerForward V B SimdSynetUnaryOperation32fType.Neg align
      src size dst)
  | CEnum.enumerator SimdSynetUnaryOperation32fType.Rsqrt =>
    Run.done (SynetUnaryOperation32fLayerForward V B SimdSynetUnaryOperation32fType.Rsqrt
      align src size dst)
  | CEnum.enumerator SimdSynetUnaryOperation32fType.Sqrt =>
    Run.done (SynetUnaryOperation32fLayerForward V B SimdSynetUnaryOperation32fType.Sqrt align
      src size dst)
  | CEnum.enumerator SimdSynetUnaryOperation32fType.Tanh =>
    Run.done (SynetUnaryOperation32fLayerForward V B SimdSynetUnaryOperation32fType.Tanh align
      src size dst)
  | CEnum.enumerator SimdSynetUnaryOperation32fType.Zero =>
    Run.done (SynetUnaryOperation32fLayerForward V B SimdSynetUnaryOperation32fType.Zero align
      src size dst)
  | CEnum.other _ => Run.assertFailed dst

/-- `SynetUnaryOperation32fLayerForward(src, size, type, dst)`: the entry point. -/
def SynetUnaryOperation32fLayerForwardEntry {α : Type} [LinearOrderedCommRing α]
    (V B : UnaryFns α) (pSrc pDst : Nat) (src : Nat → α) (size : Nat)
    (type : CEnum SimdSynetUnaryOperation32fType) (dst : Buf α) : Run (Buf α) :=
  if Aligned pSrc A && Aligned pDst A then
    SynetUnaryOperation32fLayerForwardSwitch V B true src size type dst
  else
    SynetUnaryOperation32fLayerForwardSwitch V B false src size type dst

end Sse41

namespace Avx2

/-- `SynetEltwiseLayerForward(src, weight, count, size, type, dst)`: the entry point. `avx`
stands for `Avx::SynetEltwiseLayerForward`, which is not among the sources at hand. -/
def SynetEltwiseLayerForwardEntry {α : Type} [CommRing α]
    (avx : (Nat → Nat → α) → (Nat → α) → Nat → Nat → CEnum SimdSynetEltwiseOperationType →
      Buf α → Run (Buf α))
    (pSrc : Nat → Nat) (pDst : Nat) (src : Nat → Nat → α) (weight : Nat → α)
    (count size : Nat) (type : CEnum SimdSynetEltwiseOperationType) (dst : Buf α) :
    Run (Buf α) :=
  if type ≠ CEnum.enumerator SimdSynetEltwiseOperationType.Sum then
    avx src weight count size type dst
  else
    if ¬ (count ≥ 2) then Run.assertFailed dst
    else
      if SynetEltwiseLayerForwardAligned A pSrc pDst count then
        Run.done (SynetEltwiseLayerForwardSum true src weight count size dst)
      else
        Run.done (SynetEltwiseLayerForwardSum false src weight count size dst)

/-- `SynetUnaryOperation32fLayerForward<align>(src, size, type, dst)` on any value of the
tag: the switch with its `default: assert(0)`. -/
def SynetUnaryOperation32fLayerForwardSwitch {α : Type} [LinearOrderedCommRing α]
    (V B : UnaryFns α) (align : Bool) (src : Nat → α) (size : Nat)
    (type : CEnum SimdSynetUnaryOperation32fType) (dst : Buf α) : Run (Buf α) :=
  match type with
  | CEnum.enumerator SimdSynetUnaryOperation32fType.Abs =>
    Run.done (SynetUnaryOperation32fLayerForward V B SimdSynetUnaryOperation32fType.Abs align
      src size dst)
  | CEnum.enumerator SimdSynetUnaryOperation32fType.Exp =>
    Run.done (SynetUnaryOperation32fLayerForward V B SimdSynetUnaryOperation32fType.Exp align
      src size dst)
  | CEnum.enumerator SimdSynetUnaryOperation32fType.Log =>
    Run.done (SynetUnaryOperation32fLayerForward V B SimdSynetUnaryOperation32fType.Log align
      src size dst)
  | CEnum.enumerator SimdSynetUnaryOperation32fType.Neg =>
    Run.done (SynetUnaryOperation32fLayerForward V B SimdSynetUnaryOperation32fType.Neg align
      src size dst)
  | CEnum.enumerator SimdSynetUnaryOperation32fType.Rsqrt =>
    Run.done (SynetUnaryOperation32fLayerForward V B SimdSynetUnaryOperation32fType.Rsqrt
      align src size dst)
  | CEnum.enumerator SimdSynetUnaryOperation32fType.Sqrt =>
    Run.done (SynetUnaryOperation32fLayerForward V B SimdSynetUnaryOperation32fType.Sqrt align
      src size dst)
  | CEnum.enumerator SimdSynetUnaryOperation32fType.Tanh =>
    Run.done (SynetUnaryOperation32fLayerForward V B SimdSynetUnaryOperation32fType.Tanh align
      src size dst)
  | CEnum.enumerator SimdSynetUnaryOperation32fType.Zero =>
    Run.done (SynetUnaryOperation32fLayerForward V B SimdSynetUnaryOperation32fType.Zero align
      src size dst)
  | CEnum.other _ => Run.assertFailed dst

/-- `SynetUnaryOperation32fLayerForward(src, size, type, dst)`: the entry point. -/
def SynetUnaryOperation32fLayerForwardEntry {α : Type} [LinearOrderedCommRing α]
    (V B : UnaryFns α) (pSrc pDst : Nat) (src : Nat → α) (size : Nat)
    (type : CEnum SimdSynetUnaryOperation32fType) (dst : Buf α) : Run (Buf α) :=
  if Aligned pSrc A && Aligned pDst A then
    SynetUnaryOperation32fLayerForwardSwitch V B true src size type dst
  else
    SynetUnaryOperation32fLayerForwardSwitch V B false src size type dst

end Avx2

/-! ## Cross-channel normalization: dispatch on the tensor format and the window -/

/-- The two tags of `SimdTensorFormatType` the dispatch names. -/
inductive SimdTensorFormatType where
  | Nchw
  | Nhwc
  deriving DecidableEq, Repr

namespace Sse41

/-- `SynetLrnLayerCrossChannelsNchw(src, half, channels, spatial, k, dst)`: the alignment
dispatch of the planar kernel. -/
def SynetLrnLayerCrossChannelsNchwEntry {α : Type} [CommRing α] (pow : α → α → α)
    (pSrc pDst : Nat) (src : Nat → α) (half channels spatial : Nat) (k : Nat → α)
    (dst : Buf α) : Buf α :=
  if Aligned pSrc A && Aligned pDst A && Aligned spatial F then
    SynetLrnLayerCrossChannelsNchw pow true src half channels spatial k dst
  else
    SynetLrnLayerCrossChannelsNchw pow false src half channels spatial k dst

/-- `SynetLrnLayerCrossChannelsNhwc(src, half, channels, spatial, k, dst)`. `base` stands for
`Base::SynetLrnLayerCrossChannels`, which is not among the sources at hand. -/
def SynetLrnLayerCrossChannelsNhwc {α : Type} [CommRing α]
    (base : (Int → α) → Nat → Nat → Nat → (Nat → α) → Buf α → CEnum SimdTensorFormatType →
      Run (Buf α))
    (pow : α → α → α) (pSrc pDst : Nat) (src : Int → α) (half channels spatial : Nat)
    (k : Nat → α) (dst : Buf α) : Run (Buf α) :=
  if half = 2 ∧ channels ≥ F + half then
    if Aligned pSrc A && Aligned pDst A && Aligned channels F then
      Run.done (SynetLrnLayerCrossChannelsNhwc2h pow true src half channels spatial k dst)
    else
      Run.done (SynetLrnLayerCrossChannelsNhwc2h pow false src half channels spatial k dst)
  else
    base src half channels spatial k dst (CEnum.enumerator SimdTensorFormatType.Nhwc)

/-- `SynetLrnLayerCrossChannels(src, half, channels, spatial, k, dst, format)`: the entry
point. `src` is the memory around the `src` pointer. -/
def SynetLrnLayerCrossChannels {α : Type} [CommRing α]
    (base : (Int → α) → Nat → Nat → Nat → (Nat → α) → Buf α → CEnum SimdTensorFormatType →
      Run (Buf α))
    (pow : α → α → α) (pSrc pDst : Nat) (src : Int → α) (half channels spatial : Nat)
    (k : Nat → α) (dst : Buf α) (format : CEnum SimdTensorFormatType) : Run (Buf α) :=
  if format = CEnum.enumerator SimdTensorFormatType.Nchw then
    Run.done (SynetLrnLayerCrossChannelsNchwEntry pow pSrc pDst (fun (x : Nat) => src (x : Int))
      half channels spatial k dst)
  else if format = CEnum.enumerator SimdTensorFormatType.Nhwc then
    SynetLrnLayerCrossChannelsNhwc base pow pSrc pDst src half channels spatial k dst
  else Run.assertFailed dst

end Sse41

namespace Avx2

/-- `SynetLrnLayerCrossChannelsNchw(src, half, channels, spatial, k, dst)`: the alignment
dispatch of the planar kernel. -/
def SynetLrnLayerCrossChannelsNchwEntry {α : Type} [CommRing α] (pow : α → α → α)
    (pSrc pDst : Nat) (src : Nat → α) (half channels spatial : Nat) (k : Nat → α)
    (dst : Buf α) : Buf α :=
  if Aligned pSrc A && Aligned pDst A && Aligned spatial F then
    SynetLrnLayerCrossChannelsNchw pow true src half channels spatial k dst
  else
    SynetLrnLayerCrossChannelsNchw pow false src half channels spatial k dst

/-- `SynetLrnLayerCrossChannelsNhwc(src, half, channels, spatial, k, dst)`. `powSse` is the
power function of the SSE4.1 tier, `pow` that of the AVX2 tier; `base` stands for
`Base::SynetLrnLayerCrossChannels`, which is not among the sources at hand. -/
def SynetLrnLayerCrossChannelsNhwc {α : Type} [CommRing α]
    (base : (Int → α) → Nat → Nat → Nat → (Nat → α) → Buf α → CEnum SimdTensorFormatType →
      Run (Buf α))
    (powSse pow : α → α → α) (pSrc pDst : Nat) (src : Int → α) (half channels spatial : Nat)
    (k : Nat → α) (dst : Buf α) : Run (Buf α) :=
  if half = 2 ∧ channels ≥ F + half then
    if Aligned pSrc A && Aligned pDst A && Aligned channels F then
      Run.done (SynetLrnLayerCrossChannelsNhwc2h pow true src half channels spatial k dst)
    else
      Run.done (SynetLrnLayerCrossChannelsNhwc2h pow false src half channels spatial k dst)
  else
    Sse41.SynetLrnLayerCrossChannels base powSse pSrc pDst src half channels spatial k dst
      (CEnum.enumerator SimdTensorFormatType.Nhwc)

/-- `SynetLrnLayerCrossChannels(src, half, channels, spatial, k, dst, format)`: the entry
point. -/
def SynetLrnLayerCrossChannels {α : Type} [CommRing α]
    (base : (Int → α) → Nat → Nat → Nat → (Nat → α) → Buf α → CEnum SimdTensorFormatType →
      Run (Buf α))
    (powSse pow : α → α → α) (pSrc pDst : Nat) (src : Int → α) (half channels spatial : Nat)
    (k : Nat → α) (dst : Buf α) (format : CEnum SimdTensorFormatType) : Run (Buf α) :=
  if format = CEnum.enumerator SimdTensorFormatType.Nchw then
    Run.done (SynetLrnLayerCrossChannelsNchwEntry pow pSrc pDst (fun (x : Nat) => src (x : Int))
      half channels spatial k dst)
  else if format = CEnum.enumerator SimdTensorFormatType.Nhwc then
    SynetLrnLayerCrossChannelsNhwc base powSse pow pSrc pDst src half channels spatial k dst
  else Run.assertFailed dst

end Avx2

/-! ## Planar cross-channel normalization: the loops one by one

The warm-up loop, one iteration of the channel loop, and the channel loop stopped after a
given number of iterations, of `SynetLrnLayerCrossChannelsNchw<align>`. -/

/-- The warm-up loop `for (size_t c = 0; c < half; ++c)` of
`SynetLrnLayerCrossChannelsNchw<align>`: the scratch array `sum` it leaves. -/
def SynetLrnLayerCrossChannelsNchwWarmup {α : Type} [CommRing α] (F : Nat) (align : Bool)
    (src : Nat → α) (half spatial : Nat) : Buf α :=
  let sum : Buf α := Buf.ofFn (fun _ => 0)
  let aligned := AlignLo spatial F
  (forLoop 1 half (fun c (sum : Buf α) =>
    let pos : Nat → α := fun x => src (c * spatial + x)
    let r := forLoop F aligned (fun s (sum : Buf α) =>
      let _pos := Load align pos s
      Store F true sum s (add_ps (Load true sum.data s) (mul_ps _pos _pos))) aligned 0 sum
    (forLoop 1 spatial (fun s (sum : Buf α) =>
      sum.set s (sum.data s + Square (pos s))) spatial r.1 r.2).2) half 0 sum).2

/-- One iteration of the channel loop `for (size_t c = 0; c < channels; ++c)` of
`SynetLrnLayerCrossChannelsNchw<align>`, on the state (offset of the moving `src` pointer,
offset of the moving `dst` pointer, `sum`, output buffer). -/
def SynetLrnLayerCrossChannelsNchwChannel {α : Type} [CommRing α] (F : Nat)
    (pow : α → α → α) (align : Bool) (src : Nat → α) (half channels spatial : Nat)
    (k : Nat → α) (c : Nat) (st : Nat × Nat × Buf α × Buf α) : Nat × Nat × Buf α × Buf α :=
  let k0 := set1_ps (k 0)
  let k1 := set1_ps (k 1)
  let k2 := set1_ps (k 2)
  let zero : Nat → α := fun _ => 0
  let aligned := AlignLo spatial F
  let sOff := st.1
  let dOff := st.2.1
  let pos : Nat → α :=
    if c < subSizeT channels half then (fun x => src (sOff + half * spatial + x)) else zero
  let neg : Nat → α :=
    if c > half then (fun x => src (sOff - (half + 1) * spatial + x)) else zero
  let r := forLoop F aligned (fun s (sd : Buf α × Buf α) =>
    let _pos := Load align pos s
    let _neg := Load align neg s
    let _sum := Load true sd.1.data s
    let _sum := add_ps _sum (sub_ps (mul_ps _pos _pos) (mul_ps _neg _neg))
    let _src := Load align (fun x => src (sOff + x)) s
    (Store F true sd.1 s _sum,
     Store F align sd.2 (dOff + s) (mul_ps _src (powV pow (add_ps k0 (mul_ps k1 _sum)) k2))))
    aligned 0 (st.2.2.1, st.2.2.2)
  let r := forLoop 1 spatial (fun s (sd : Buf α × Buf α) =>
    let sum := sd.1.set s (sd.1.data s + Square (pos s))
    let sum := sum.set s (sum.data s - Square (neg s))
    (sum, sd.2.set (dOff + s) (src (sOff + s) * pow (k 0 + k 1 * sum.data s) (k 2))))
    spatial r.1 r.2
  (sOff + spatial, dOff + spatial, r.2.1, r.2.2)

/-- The channel loop of `SynetLrnLayerCrossChannelsNchw<align>` stopped after its first `n`
iterations: the counter `c` and the state reached. -/
def SynetLrnLayerCrossChannelsNchwSteps {α : Type} [CommRing α] (F : Nat)
    (pow : α → α → α) (align : Bool) (src : Nat → α) (half channels spatial : Nat)
    (k : Nat → α) (dst : Buf α) (n : Nat) : Nat × Nat × Nat × Buf α × Buf α :=
  forLoop 1 channels
    (SynetLrnLayerCrossChannelsNchwChannel F pow align src half channels spatial k) n 0
    (0, 0, SynetLrnLayerCrossChannelsNchwWarmup F align src half spatial, dst)

/-! ## The three loops of the element-wise and the unary kernels, one by one

The block loop (four vectors per iteration), the single-vector loop and the scalar loop, as
separate stages, and the offsets at which each stage loads and stores. -/

/-- The first loop of `SynetUnaryOperation32fLayerForward<type, align>` for a tier of `F`
lanes (`for (; i < sizeQF; i += QF)`): the counter reached and the output buffer. -/
def SynetUnaryOperation32fLayerForwardQuads {α : Type} [LinearOrderedCommRing α]
    (F QF : Nat) (V : UnaryFns α) (type : SimdSynetUnaryOperation32fType) (align : Bool)
    (src : Nat → α) (size : Nat) (dst : Buf α) : Nat × Buf α :=
  let sizeQF := AlignLo size QF
  forLoop QF sizeQF (fun i dst =>
    let dst := Store F align dst (i + 0 * F)
      (SynetUnaryOperation32f V type (Load align src (i + 0 * F)))
    let dst := Store F align dst (i + 1 * F)
      (SynetUnaryOperation32f V type (Load align src (i + 1 * F)))
    let dst := Store F align dst (i + 2 * F)
      (SynetUnaryOperation32f V type (Load align src (i + 2 * F)))
    Store F align dst (i + 3 * F)
      (SynetUnaryOperation32f V type (Load align src (i + 3 * F)))) sizeQF 0 dst

/-- The offsets of the statements of `SynetUnaryOperation32fLayerForward<type, align>` for a
tier of `F` lanes, loop by loop: an entry `o` of the first two lists is one statement
`Store(dst + o, op(Load(src + o)))` on `F` lanes, an entry `i` of the third list is one
statement `dst[i] = op(src[i])`. -/
def SynetUnaryOperation32fLayerForwardOffsets (F QF size : Nat) :
    List Nat × List Nat × List Nat :=
  let sizeF := AlignLo size F
  let sizeQF := AlignLo size QF
  let r4 := forLoop QF sizeQF (fun i (log : List Nat) =>
    log ++ [i + 0 * F, i + 1 * F, i + 2 * F, i + 3 * F]) sizeQF 0 []
  let r1 := forLoop F sizeF (fun i (log : List Nat) => log ++ [i]) sizeF r4.1 []
  let rs := forLoop 1 size (fun i (log : List Nat) => log ++ [i]) size r1.1 []
  (r4.2, r1.2, rs.2)

namespace Sse41

/-- The block loop of one pass of `SynetEltwiseLayerForward<type, align>(src, count, size,
dst)` (`for (; j < aligned; j += QF)` under `if (partial)`): the counter `j` reached and the
output buffer. The first operand is `fst dst`: `src0` in the first pass, `dst` itself in the
passes for the inputs `i ≥ 2`. -/
def SynetEltwiseLayerForwardPassQuads {α : Type} (opV : (Nat → α) → (Nat → α) → Nat → α)
    (align : Bool) (fst : Buf α → Nat → α) (snd : Nat → α) (size : Nat) (dst : Buf α) :
    Nat × Buf α :=
  let aligned := AlignLo size QF
  let part := AlignLo size F
  if part ≠ 0 then
    forLoop QF aligned (fun j dst =>
      let dst := SynetEltwiseLayerForwardAt opV align (fst dst) snd dst (j + F * 0)
      let dst := SynetEltwiseLayerForwardAt opV align (fst dst) snd dst (j + F * 1)
      let dst := SynetEltwiseLayerForwardAt opV align (fst dst) snd dst (j + F * 2)
      SynetEltwiseLayerForwardAt opV align (fst dst) snd dst (j + F * 3))
      aligned 0 dst
  else (0, dst)

/-- The two vector loops of one pass (the block `if (partial) { ... }`): the counter `j`
reached and the output buffer. -/
def SynetEltwiseLayerForwardPassVectors {α : Type}
    (opV : (Nat → α) → (Nat → α) → Nat → α) (align : Bool) (fst : Buf α → Nat → α)
    (snd : Nat → α) (size : Nat) (dst : Buf α) : Nat × Buf α :=
  let part := AlignLo size F
  let r := SynetEltwiseLayerForwardPassQuads opV align fst snd size dst
  if part ≠ 0 then
    forLoop F part (fun j dst =>
      SynetEltwiseLayerForwardAt opV align (fst dst) snd dst j) part r.1 r.2
  else r

/-- One pass of `SynetEltwiseLayerForward<type, align>(src, count, size, dst)`: the two vector
loops and the scalar loop. -/
def SynetEltwiseLayerForwardPass {α : Type} (opV : (Nat → α) → (Nat → α) → Nat → α)
    (opS : α → α → α) (align : Bool) (fst : Buf α → Nat → α) (snd : Nat → α) (size : Nat)
    (dst : Buf α) : Buf α :=
  let r := SynetEltwiseLayerForwardPassVectors opV align fst snd size dst
  (forLoop 1 size (fun j dst => dst.set j (opS (fst dst j) (snd j))) size r.1 r.2).2

/-- The offsets of the statements of one pass of `SynetEltwiseLayerForward<type, align>`,
loop by loop: an entry `o` of the first two lists is one call
`SynetEltwiseLayerForward<type, align>(a, b, dst, o)` (two loads and one store of `F` lanes
at offset `o`), an entry `j` of the third list is one statement `dst[j] = op(a[j], b[j])`. -/
def SynetEltwiseLayerForwardOffsets (size : Nat) : List Nat × List Nat × List Nat :=
  let aligned := AlignLo size QF
  let part := AlignLo size F
  let r : (Nat × List Nat) × (Nat × List Nat) :=
    if part ≠ 0 then
      let r4 := forLoop QF aligned (fun j (log : List Nat) =>
        log ++ [j + F * 0, j + F * 1, j + F * 2, j + F * 3]) aligned 0 []
      (r4, forLoop F part (fun j (log : List Nat) => log ++ [j]) part r4.1 [])
    else ((0, []), (0, []))
  let rs := forLoop 1 size (fun j (log : List Nat) => log ++ [j]) size r.2.1 []
  (r.1.2, r.2.2, rs.2)

end Sse41

/-! ## The main loops of the float dense projection kernels on their own -/

namespace Avx2

/-- The main loop of `SynetInnerProductLayerForward1` (`for (; k < K32; k += 32)`): the
counter `k` reached and the registers `(d00, d01, d02, d03)` when the loop is left. -/
def SynetInnerProductLayerForward1Main {α : Type} [CommRing α] (S0 W : Nat → α) (K : Nat) :
    Nat × ((Nat → α) × (Nat → α) × (Nat → α) × (Nat → α)) :=
  let K32 := K / 32 * 32
  let W0 : Nat → α := fun x => W (0 * K + x)
  let d00 : Nat → α := setzero_ps
  let d01 : Nat → α := setzero_ps
  let d02 : Nat → α := setzero_ps
  let d03 : Nat → α := setzero_ps
  forLoop 32 K32
    (fun k (d : (Nat → α) × (Nat → α) × (Nat → α) × (Nat → α)) =>
      let s0 := Load false S0 (k + 0 * F)
      let s1 := Load false S0 (k + 1 * F)
      let w0 := Load false W0 (k + 0 * F)
      let w1 := Load false W0 (k + 1 * F)
      let d00 := fmadd_ps s0 w0 d.1
      let d01 := fmadd_ps s1 w1 d.2.1
      let s2 := Load false S0 (k + 2 * F)
      let s3 := Load false S0 (k + 3 * F)
      let w2 := Load false W0 (k + 2 * F)
      let w3 := Load false W0 (k + 3 * F)
      let d02 := fmadd_ps s2 w2 d.2.2.1
      let d03 := fmadd_ps s3 w3 d.2.2.2
      (d00, d01, d02, d03)) K32 0 (d00, d01, d02, d03)

/-- `SynetInnerProductLayerForward1` up to the loop `for (; k < K8; k += 8)`: the counter `k`
and the register `d00` with which that loop is entered (the block `if (K32) { ... }` ends in
`d00 = _mm256_add_ps(_mm256_add_ps(d00, d01), _mm256_add_ps(d02, d03))`). -/
def SynetInnerProductLayerForward1Merged {α : Type} [CommRing α] (S0 W : Nat → α) (K : Nat) :
    Nat × (Nat → α) :=
  let K32 := K / 32 * 32
  let d00 : Nat → α := setzero_ps
  if K32 ≠ 0 then
    let r := SynetInnerProductLayerForward1Main S0 W K
    (r.1, add_ps (add_ps r.2.1 r.2.2.1) (add_ps r.2.2.2.1 r.2.2.2.2))
  else (0, d00)

/-- The main loop of `SynetInnerProductLayerForward4` (`for (; k < K16; k += 16)`): the
counter `k` reached and the registers `((d00, d01), (d10, d11), (d20, d21), (d30, d31))` when
the loop is left. -/
def SynetInnerProductLayerForward4Main {α : Type} [CommRing α] (S0 W : Nat → α) (K : Nat) :
    Nat × (((Nat → α) × (Nat → α)) × ((Nat → α) × (Nat → α)) ×
      ((Nat → α) × (Nat → α)) × ((Nat → α) × (Nat → α))) :=
  let K16 := K / 16 * 16
  let W0 : Nat → α := fun x => W (0 * K + x)
  let W1 : Nat → α := fun x => W (1 * K + x)
  let W2 : Nat → α := fun x => W (2 * K + x)
  let W3 : Nat → α := fun x => W (3 * K + x)
  let d00 : Nat → α := setzero_ps
  let d10 : Nat → α := setzero_ps
  let d20 : Nat → α := setzero_ps
  let d30 : Nat → α := setzero_ps
  let d01 : Nat → α := setzero_ps
  let d11 : Nat → α := setzero_ps
  let d21 : Nat → α := setzero_ps
  let d31 : Nat → α := setzero_ps
  forLoop 16 K16
    (fun k (d : ((Nat → α) × (Nat → α)) × ((Nat → α) × (Nat → α)) ×
        ((Nat → α) × (Nat → α)) × ((Nat → α) × (Nat → α))) =>
      let s0 := Load false S0 (k + 0 * F)
      let s1 := Load false S0 (k + 1 * F)
      let w0 := Load false W0 (k + 0 * F)
      let w1 := Load false W0 (k + 1 * F)
      let d00 := fmadd_ps s0 w0 d.1.1
      let d01 := fmadd_ps s1 w1 d.1.2
      let w0 := Load false W1 (k + 0 * F)
      let w1 := Load false W1 (k + 1 * F)
      let d10 := fmadd_ps s0 w0 d.2.1.1
      let d11 := fmadd_ps s1 w1 d.2.1.2
      let w0 := Load false W2 (k + 0 * F)
      let w1 := Load false W2 (k + 1 * F)
      let d20 := fmadd_ps s0 w0 d.2.2.1.1
      let d21 := fmadd_ps s1 w1 d.2.2.1.2
      let w0 := Load false W3 (k + 0 * F)
      let w1 := Load false W3 (k + 1 * F)
      let d30 := fmadd_ps s0 w0 d.2.2.2.1
      let d31 := fmadd_ps s1 w1 d.2.2.2.2
      ((d00, d01), (d10, d11), (d20, d21), (d30, d31)))
    K16 0 ((d00, d01), (d10, d11), (d20, d21), (d30, d31))

/-- `SynetInnerProductLayerForward4` up to the loop `for (; k < K8; k += 8)`: the counter `k`
and the registers `(d00, d10, d20, d30)` with which that loop is entered (the block
`if (K16) { ... }` ends in `d00 = _mm256_add_ps(d00, d01)` and the same for the other three
rows). -/
def SynetInnerProductLayerForward4Merged {α : Type} [CommRing α] (S0 W : Nat → α) (K : Nat) :
    Nat × ((Nat → α) × (Nat → α) × (Nat → α) × (Nat → α)) :=
  let K16 := K / 16 * 16
  let d00 : Nat → α := setzero_ps
  let d10 : Nat → α := setzero_ps
  let d20 : Nat → α := setzero_ps
  let d30 : Nat → α := setzero_ps
  if K16 ≠ 0 then
    let r := SynetInnerProductLayerForward4Main S0 W K
    (r.1,
      (fun (d : ((Nat → α) × (Nat → α)) × ((Nat → α) × (Nat → α)) ×
          ((Nat → α) × (Nat → α)) × ((Nat → α) × (Nat → α))) =>
        (add_ps d.1.1 d.1.2, add_ps d.2.1.1 d.2.1.2,
          add_ps d.2.2.1.1 d.2.2.1.2, add_ps d.2.2.2.1 d.2.2.2.2)) r.2)
  else (0, d00, d10, d20, d30)

end Avx2

/-! ## The entry points of the element-wise combination with the callee recorded -/

namespace Sse41

end Sse41

namespace Avx2

end Avx2

/-! ## Specification-side notions -/

/-- A loop body that rewrites exactly the `w` elements from its counter on, each element `x`
to `g x (old x)`. -/
def Pointwise {α : Type} (w : Nat) (g : Nat → α → α) (body : Nat → Buf α → Buf α) : Prop :=
  ∀ j d x, (body j d).data x = if j ≤ x ∧ x < j + w then g x (d.data x) else d.data x

/-- The three inputs and the weights of the worked weighted-sum example. -/
def sumExampleSrc : Nat → Nat → ℚ :=
  fun i j => ([[1, 2, 3], [4, 5, 6], [7, 8, 9]].getD i []).getD j 0

/-- The weights `[0.5, 0.25, 0.25]` of the worked weighted-sum example. -/
def sumExampleWeight : Nat → ℚ := fun i => [1 / 2, 1 / 4, 1 / 4].getD i 0

/-- The left fold `op(...op(op(src[0][j], src[1][j]), src[2][j])..., src[count-1][j])`. -/
def foldInputs {α : Type} (op : α → α → α) (src : Nat → Nat → α) (count j : Nat) : α :=
  ((List.range' 1 (count - 1)).map (fun i => src i j)).foldl op (src 0 j)

/-- Sample inputs: input `i` holds `(i + 1) * j` at element `j`. -/
def rampSrc : Nat → Nat → ℚ := fun i j => ((i : ℚ) + 1) * j

/-- Sample weights `-2, -1, 0, 1, ...`. -/
def rampWeight : Nat → ℚ := fun i => (i : ℚ) - 2

/-- Sample bias `100 * i`. -/
def rampBias : Nat → ℚ := fun i => 100 * (i : ℚ)

/-- Sample flat operand `k * k - 3`. -/
def quadWeight : Nat → ℚ := fun k => (k : ℚ) * (k : ℚ) - 3

/-- An all-zero vector. -/
def zeroVec : Nat → ℚ := fun _ => 0

/-- One accumulator of the quantized kernels on its own: the register that accumulates
activation row `s` against weight row `w` over the whole blocks of `K` and the zero-padded
tail. Every accumulator of the four tile kernels is an instance of it. -/
def dotAcc (overflow : Bool) (K : Nat) (s w : Nat → Int) : Nat → Int :=
  if AlignLo K Avx2.A < K then
    Madd4 overflow
      (forLoop Avx2.A (AlignLo K Avx2.A) (fun k d00 =>
        Madd4 overflow d00 (loadu_si256 s k) (loadu_si256 w k))
        (AlignLo K Avx2.A) 0 setzero_si256).2
      (Avx2.LoadTail (fun x => s (AlignLo K Avx2.A + x)) (K - AlignLo K Avx2.A))
      (Avx2.LoadTail (fun x => w (AlignLo K Avx2.A + x)) (K - AlignLo K Avx2.A))
  else
    (forLoop Avx2.A (AlignLo K Avx2.A) (fun k d00 =>
      Madd4 overflow d00 (loadu_si256 s k) (loadu_si256 w k))
      (AlignLo K Avx2.A) 0 setzero_si256).2

/-- The exact (arbitrary-precision) dot product of activation row `i` and weight row `j`. -/
def dotExact (K : Nat) (S W : Nat → Int) (i j : Nat) : Int :=
  ∑ k in Finset.range K, S (i * K + k) * W (j * K + k)

/-- The value one tile kernel stores for activation row `s` and weight row `w`: the 32-bit
horizontal sum of the accumulator. -/
def cellQ (overflow : Bool) (K : Nat) (s w : Nat → Int) : Int :=
  ExtractSum32 (dotAcc overflow K s w)

/-- The lane sum of a 32-bit register, as a residue modulo `2^32`. -/
def valQ (d : Nat → Int) : ZMod (2 ^ 32) := ((∑ n in Finset.range 8, d n : Int) : ZMod (2 ^ 32))

/-- Sample activations: every byte is 255. -/
def allS255 : Nat → Int := fun _ => 255

/-- Sample weights: every byte is -128. -/
def allWm128 : Nat → Int := fun _ => -128

/-- Sample activations: every byte is 100. -/
def allS100 : Nat → Int := fun _ => 100

/-- Sample weights: every byte is 100. -/
def allW100 : Nat → Int := fun _ => 100

/-- A zero-initialised 32-bit output buffer. -/
def zeroBufQ : Buf Int := Buf.ofFn (fun _ => 0)

/-- The window sum of the specification: the sum of `src[c'][s]^2` over `c'` from
`c - half` to `c + half`, an index outside `[0, channels)` contributing zero. The summation
variable is `d = c' - c + half`. -/
def windowSum {α : Type} [CommRing α] (src : Nat → α) (half channels spatial c s : Nat) : α :=
  ∑ d in Finset.range (2 * half + 1),
    if half ≤ c + d ∧ c + d < channels + half then
      src ((c + d - half) * spatial + s) ^ 2
    else 0

/-- Modelled from the spec: the power function `Pow` of SimdPow.h, which is not among the
sources at hand, on rationals and for an integer exponent `y`: the exact power `x ^ y`. -/
def powRat (x y : ℚ) : ℚ := x ^ y.num

/-- The worked normalization example: `src = [1, 2, 3, 4]`, zero after it. -/
def lrnExampleSrc : Nat → ℚ := fun i => [1, 2, 3, 4].getD i 0

/-- The constants `k = [1, 0, 1]` of the worked normalization example. -/
def lrnExampleK : Nat → ℚ := fun i => [1, 0, 1].getD i 0

/-- The constants `k = [0, 1, 1]`. -/
def lrnUnitK : Nat → ℚ := fun i => [0, 1, 1].getD i 0

/-- A memory that holds `1` everywhere. -/
def onesVec : Nat → ℚ := fun _ => 1

/-- A loop body over a scratch buffer and an output buffer at offset `off`: it rewrites the
`w` scratch elements from its counter on, each element `x` to `g1 x (old x)`, and stores
`g2 x (old x)` at `off + x` for each of them. -/
def Pointwise2 {α : Type} (w off : Nat) (g1 g2 : Nat → α → α)
    (body : Nat → Buf α × Buf α → Buf α × Buf α) : Prop :=
  ∀ j st,
    (∀ x, (body j st).1.data x =
      if j ≤ x ∧ x < j + w then g1 x (st.1.data x) else st.1.data x) ∧
    (∀ y, (body j st).2.data y =
      if off + j ≤ y ∧ y < off + j + w then g2 (y - off) (st.1.data (y - off))
      else st.2.data y)

/-- The vector functions apply, lane by lane, the scalar functions: the five functions that
the model does not interpret agree between the vector tier and the scalar code. -/
def LaneAgrees {α : Type} (V B : UnaryFns α) : Prop :=
  ∀ x, V.exp x = B.exp x ∧ V.log x = B.log x ∧ V.rsqrt x = B.rsqrt x ∧
    V.sqrt x = B.sqrt x ∧ V.tanh x = B.tanh x

/-- The input `[-2, -1, 0, 1, 2]` of the worked unary example, zero after it. -/
def absExampleSrc : Nat → ℚ := fun i => [-2, -1, 0, 1, 2].getD i 0

/-- A sample family of the five uninterpreted functions (the identity for each). -/
def idFns : UnaryFns ℚ := ⟨id, id, id, id, id⟩

/-- The window sum of radius 2 of the interleaved layout: the sum of
`src[s * channels + c']^2` over the channels `c'` of `[c - 2, c + 2]` that lie in
`[0, channels)`, all of the same spatial sample `s`. -/
def windowSumNhwc {α : Type} [CommRing α] (src : Int → α) (channels s c : Nat) : α :=
  ∑ d in Finset.range 5,
    if 2 ≤ c + d ∧ c + d < channels + 2 then
      src (((s * channels + (c + d - 2) : Nat) : Int)) ^ 2
    else 0

/-- A tensor of `n` elements, each `1`, in a memory that is zero outside the tensor. -/
def onesTensor (n : Nat) : Int → ℚ := fun i => if 0 ≤ i ∧ i < n then 1 else 0

/-- A tensor of `n` elements, element `i` being `i + 1`, in a memory that is zero outside
the tensor. -/
def rampTensor (n : Nat) : Int → ℚ := fun i => if 0 ≤ i ∧ i < n then (i : ℚ) + 1 else 0

/-- A channel loop body of the de-interleaving direction: from `step` source elements at
`p + cs` it stores the `step / 2` even ones to `dst0` at `q0 + cd` and the odd ones to
`dst1` at `q1 + cd`, advances `cd` by `step / 2` and logs the loads. -/
def SplitBody {α : Type} (step : Nat) (src : Nat → α) (p q0 q1 : Nat)
    (body : Nat → Nat × Buf α × Buf α × List Nat → Nat × Buf α × Buf α × List Nat) : Prop :=
  ∀ cs t,
    (body cs t).1 = t.1 + step / 2 ∧
    (∀ y, (body cs t).2.1.data y =
      if q0 + t.1 ≤ y ∧ y < q0 + t.1 + step / 2 then src (p + cs + 2 * (y - (q0 + t.1)))
      else t.2.1.data y) ∧
    (∀ y, (body cs t).2.2.1.data y =
      if q1 + t.1 ≤ y ∧ y < q1 + t.1 + step / 2 then src (p + cs + 2 * (y - (q1 + t.1)) + 1)
      else t.2.2.1.data y) ∧
    (body cs t).2.1.writes = t.2.1.writes ++ List.range' (q0 + t.1) (step / 2) ∧
    (body cs t).2.2.1.writes = t.2.2.1.writes ++ List.range' (q1 + t.1) (step / 2) ∧
    (body cs t).2.2.2 = t.2.2.2 ++ List.range' (p + cs) step

/-- A channel loop body of the interleaving direction: it stores `step` elements to `dst`
at `q + cd`, alternately from `src0` and `src1` at `p0 + cs`, `p1 + cs`, advances `cs` by
`step / 2` and logs the loads. -/
def JoinBody {α : Type} (step : Nat) (src0 src1 : Nat → α) (p0 p1 q : Nat)
    (body : Nat → Nat × Buf α × List Nat × List Nat → Nat × Buf α × List Nat × List Nat) :
    Prop :=
  ∀ cd t,
    (body cd t).1 = t.1 + step / 2 ∧
    (∀ y, (body cd t).2.1.data y =
      if q + cd ≤ y ∧ y < q + cd + step then
        (if (y - (q + cd)) % 2 = 0 then src0 (p0 + t.1 + (y - (q + cd)) / 2)
         else src1 (p1 + t.1 + (y - (q + cd)) / 2))
      else t.2.1.data y) ∧
    (body cd t).2.1.writes = t.2.1.writes ++ List.range' (q + cd) step ∧
    (body cd t).2.2.1 = t.2.2.1 ++ List.range' (p0 + t.1) (step / 2) ∧
    (body cd t).2.2.2 = t.2.2.2 ++ List.range' (p1 + t.1) (step / 2)

/-- The state of the outputs and the load logs of the branch `type == 0` after `n` spatial
samples, for inputs `x0`, `x1` of `c0`, `c1` channels and initial output buffers `d0`, `d1`:
in each of the `n` samples, channel `c` of `dst0` is the even element `2 * c` of the sample
of `x0` (for `c < c0 / 2`) or the even element `2 * (c - c0 / 2)` of the sample of `x1`, and
`dst1` holds the odd elements; nothing is stored past the `n` samples; each index of the `n`
samples is stored once, in order, and each element of the `n` samples of `x0` and `x1` is
loaded once, in order. -/
def Shuffle0Post {α : Type} (x0 x1 : Nat → α) (c0 c1 : Nat) (d0 d1 : Buf α) (n : Nat)
    (out : Buf α × Buf α × List Nat × List Nat) : Prop :=
  (∀ s c, s < n → c < (c0 + c1) / 2 →
    out.1.data (s * ((c0 + c1) / 2) + c) =
      if c < c0 / 2 then x0 (s * c0 + 2 * c) else x1 (s * c1 + 2 * (c - c0 / 2))) ∧
  (∀ s c, s < n → c < (c0 + c1) / 2 →
    out.2.1.data (s * ((c0 + c1) / 2) + c) =
      if c < c0 / 2 then x0 (s * c0 + 2 * c + 1)
      else x1 (s * c1 + 2 * (c - c0 / 2) + 1)) ∧
  (∀ y, n * ((c0 + c1) / 2) ≤ y → out.1.data y = d0.data y ∧ out.2.1.data y = d1.data y) ∧
  out.1.writes = d0.writes ++ List.range' 0 (n * ((c0 + c1) / 2)) ∧
  out.2.1.writes = d1.writes ++ List.range' 0 (n * ((c0 + c1) / 2)) ∧
  out.2.2.1 = List.range' 0 (n * c0) ∧
  out.2.2.2 = List.range' 0 (n * c1)

/-- The state of the outputs and the load logs of the branch `type == 1` after `n` spatial
samples, for inputs `y0`, `y1` of `(c0 + c1) / 2` channels and initial output buffers `d0`,
`d1`: in each of the `n` samples, channel `c` of `dst0` (of `c0` channels) is channel
`c / 2` of `y0` for even `c` and of `y1` for odd `c`, and channel `c` of `dst1` (of `c1`
channels) is channel `c0 / 2 + c / 2` of `y0` or `y1`; nothing is stored past the `n`
samples; each index of the `n` samples is stored once, in order, and each element of the
`n` samples of `y0` and `y1` is loaded once, in order. -/
def Shuffle1Post {α : Type} (y0 y1 : Nat → α) (c0 c1 : Nat) (d0 d1 : Buf α) (n : Nat)
    (out : Buf α × Buf α × List Nat × List Nat) : Prop :=
  (∀ s c, s < n → c < c0 →
    out.1.data (s * c0 + c) =
      if c % 2 = 0 then y0 (s * ((c0 + c1) / 2) + c / 2)
      else y1 (s * ((c0 + c1) / 2) + c / 2)) ∧
  (∀ s c, s < n → c < c1 →
    out.2.1.data (s * c1 + c) =
      if c % 2 = 0 then y0 (s * ((c0 + c1) / 2) + (c0 / 2 + c / 2))
      else y1 (s * ((c0 + c1) / 2) + (c0 / 2 + c / 2))) ∧
  (∀ y, n * c0 ≤ y → out.1.data y = d0.data y) ∧
  (∀ y, n * c1 ≤ y → out.2.1.data y = d1.data y) ∧
  out.1.writes = d0.writes ++ List.range' 0 (n * c0) ∧
  out.2.1.writes = d1.writes ++ List.range' 0 (n * c1) ∧
  out.2.2.1 = List.range' 0 (n * ((c0 + c1) / 2)) ∧
  out.2.2.2 = List.range' 0 (n * ((c0 + c1) / 2))

/-- A sample input of the channel shuffle: element `i` is `100 + i`. -/
def shufX0 : Nat → Nat := fun i => 100 + i

/-- A sample input of the channel shuffle: element `i` is `200 + i`. -/
def shufX1 : Nat → Nat := fun i => 200 + i

/-- A zero-initialised output buffer of natural numbers. -/
def zeroBufN : Buf Nat := Buf.ofFn (fun _ => 0)

/-- The number of output rows a tile kernel writes. -/
def Tile8i.rows : Tile8i → Nat
  | Tile8i.k2x4 => 2
  | Tile8i.k2x1 => 2
  | Tile8i.k1x4 => 1
  | Tile8i.k1x1 => 1

/-- The number of output columns a tile kernel writes. -/
def Tile8i.cols : Tile8i → Nat
  | Tile8i.k2x4 => 4
  | Tile8i.k2x1 => 1
  | Tile8i.k1x4 => 4
  | Tile8i.k1x1 => 1

/-- The geometry of a tile call in an `M x N` output with inner dimension `K`: the tile with
top-left cell `(i, j)` lies inside the matrix, is given activation row `i` (offset `i * K`),
weight row `j` (offset `j * K`) and the output cell `i * N + j`, with row strides `K`, `K`
and `N`. -/
def TileAt (M N K : Nat) (c : TileCall) (i j : Nat) : Prop :=
  i + c.tile.rows ≤ M ∧ j + c.tile.cols ≤ N ∧ c.K = K ∧ c.S = i * K ∧ c.lds = K ∧
    c.W = j * K ∧ c.ldw = K ∧ c.D = i * N + j ∧ c.ldd = N

/-- The output cells of the tile with top-left cell `(i, j)`, `rows` rows and `cols` columns
in a matrix of row length `N`, row by row. -/
def tileCells (N i j rows cols : Nat) : List Nat :=
  (List.range rows).flatMap (fun r => List.range' ((i + r) * N + j) cols)

/-- Sample activation bytes `0, 1, 2, ...` (period 251). -/
def rampS : Nat → Int := fun x => ((x % 251 : Nat) : Int)

/-- Sample weight bytes `-3, -2, ..., 3` (period 7). -/
def rampW : Nat → Int := fun x => ((x % 7 : Nat) : Int) - 3

/-- A recorded byte read stays inside its row: the row pointer is one of the `rows`
activation rows or `cols` weight rows of the tile, and the offset is below `K`. -/
def TileRead.Within (rows cols K : Nat) : TileRead → Prop
  | TileRead.S row offset => row < rows ∧ offset < K
  | TileRead.W row offset => row < cols ∧ offset < K

/-- A recorded read of the float dense projection stays inside its array: `src` has `size`
elements, row `i` of `weight` is `[i * size, (i + 1) * size)` with `i < count`, `bias` (read
only when present) has `count` elements, the local `_bias` has 4, the table `mask` has its
16 entries. -/
def DenseRead.InRange (hasBias : Bool) (count size : Nat) : DenseRead → Prop
  | DenseRead.src x => x < size
  | DenseRead.weight i x => i < count ∧ i * size ≤ x ∧ x < (i + 1) * size
  | DenseRead.bias x => hasBias = true ∧ x < count
  | DenseRead.localBias x => hasBias = false ∧ x < 4
  | DenseRead.mask x => x < Avx2.TailMask.length

/-- Sample addresses of the inputs: multiples of 64, except input 3 at address 100. -/
def sampleSrcAddr : Nat → Nat := fun i => if i = 3 then 100 else 64 * (i + 1)

/-- A sample stand-in for `Avx::SynetEltwiseLayerForward`: it returns at once. -/
def sampleAvxEltwise : (Nat → Nat → ℚ) → (Nat → ℚ) → Nat → Nat →
    CEnum SimdSynetEltwiseOperationType → Buf ℚ → Run (Buf ℚ) :=
  fun _ _ _ _ _ dst => Run.done dst

/-- A sample stand-in for `Base::SynetLrnLayerCrossChannels`: it returns at once. -/
def sampleBaseLrn : (Int → ℚ) → Nat → Nat → Nat → (Nat → ℚ) → Buf ℚ →
    CEnum SimdTensorFormatType → Run (Buf ℚ) :=
  fun _ _ _ _ _ dst _ => Run.done dst

/-- The concatenation `cat(s)` of sample `s` of `a` (`c0` values per sample) and sample `s`
of `b` (`c1` values per sample). -/
def catSample {α : Type} (a b : Nat → α) (c0 c1 s : Nat) : Nat → α :=
  fun i => if i < c0 then a (s * c0 + i) else b (s * c1 + (i - c0))

/-- The indices of `dst` stored for one sample of the interleaved radius-2 kernel, for a tier
of `F` lanes and a sample that starts at `base`, in program order: the nose block `[0, F)`,
the body loop `[F, AlignLo(channels - 2, F))`, the shifted body block
`[channels - 2 - F, channels - 2)` when `AlignLo(channels - 2, F) ≠ channels - 2`, and the tail
block `[channels - F, channels)`. -/
def nhwc2hSampleStores (F channels base : Nat) : List Nat :=
  List.range' (base + 0) F ++
    (List.range' (base + F) (AlignLo (channels - 2) F - F) ++
      ((if AlignLo (channels - 2) F ≠ channels - 2 then
          List.range' (base + (channels - 2 - F)) F
        else []) ++
        List.range' (base + (channels - F)) F))

/-- The index `x` lies in one of the accesses of `w` consecutive elements whose offsets are
listed in `log`. -/
def Covered (w : Nat) (log : List Nat) (x : Nat) : Prop := ∃ o ∈ log, o ≤ x ∧ x < o + w

/-- The three-tier partition of `[0, size)` by the offsets of a kernel, loop by loop: the
block loop covers exactly `[0, AlignLo(size, QF))`, the single-vector loop exactly
`[AlignLo(size, QF), AlignLo(size, F))`, the scalar loop exactly `[AlignLo(size, F), size)`;
every vector access ends at or below `size`; the three ranges are disjoint and their union
is `[0, size)`. -/
def ThreeTierPartition (F QF size : Nat) (offsets : List Nat × List Nat × List Nat) : Prop :=
  (∀ x, Covered F offsets.1 x ↔ x < AlignLo size QF) ∧
  (∀ x, Covered F offsets.2.1 x ↔ AlignLo size QF ≤ x ∧ x < AlignLo size F) ∧
  (∀ x, x ∈ offsets.2.2 ↔ AlignLo size F ≤ x ∧ x < size) ∧
  (∀ o ∈ offsets.1 ++ offsets.2.1, o + F ≤ size) ∧
  (∀ x, x < size ↔ (Covered F offsets.1 x ∨ Covered F offsets.2.1 x ∨ x ∈ offsets.2.2)) ∧
  (∀ x, ¬ (Covered F offsets.1 x ∧ Covered F offsets.2.1 x) ∧
    ¬ (Covered F offsets.1 x ∧ x ∈ offsets.2.2) ∧
    ¬ (Covered F offsets.2.1 x ∧ x ∈ offsets.2.2))

/-- The store logs of a three-tier kernel by stage: on entry (`w0`), after the block loop
(`wq`), after the single-vector loop (`wb`) and after the scalar loop (`wr`). -/
def ThreeTierStores (F QF size : Nat) (w0 wq wb wr : List Nat) : Prop :=
  wq = w0 ++ List.range' 0 (AlignLo size QF) ∧
  wb = wq ++ List.range' (AlignLo size QF) (AlignLo size F - AlignLo size QF) ∧
  wr = wb ++ List.range' (AlignLo size F) (size - AlignLo size F)

/-- The lane function of the vector code of a tag: what `SynetUnaryOperation32f<type>(value)`
returns in a lane of `value` that holds `x`. -/
def unaryLane {α : Type} [LinearOrderedCommRing α] (V : UnaryFns α)
    (type : SimdSynetUnaryOperation32fType) (x : α) : α :=
  SynetUnaryOperation32f V type (fun _ => x) 0

/-- Invariant rule for `forLoop`: with enough fuel the loop runs to its exit test, and an
invariant preserved by every executed iteration holds of the final counter and state. -/
theorem forLoop_inv {σ : Type} (step hi : Nat) (body : Nat → σ → σ) (P : Nat → σ → Prop)
    (hstep : 0 < step)
    (hP : ∀ j st, j < hi → P j st → P (j + step) (body j st)) :
    ∀ (fuel j : Nat) (st : σ), hi ≤ j + fuel → P j st →
      P (forLoop step hi body fuel j st).1 (forLoop step hi body fuel j st).2 ∧
        hi ≤ (forLoop step hi body fuel j st).1 := by
  intro fuel
  induction fuel with
  | zero =>
    intro j st hf h0
    exact ⟨h0, by simpa using hf⟩
  | succ n ih =>
    intro j st hf h0
    by_cases hj : j < hi
    · have e : forLoop step hi body (n + 1) j st = forLoop step hi body n (j + step) (body j st) := by
        simp [forLoop, hj]
      rw [e]
      exact ih (j + step) (body j st) (by omega) (hP j st hj h0)
    · have e : forLoop step hi body (n + 1) j st = (j, st) := by
        simp [forLoop, hj]
      rw [e]
      exact ⟨h0, by simpa using hj⟩

theorem Pointwise_seq {α : Type} {w1 w2 : Nat} {g : Nat → α → α}
    {b1 b2 : Nat → Buf α → Buf α} (h1 : Pointwise w1 g b1) (h2 : Pointwise w2 g b2) :
    Pointwise (w1 + w2) g (fun j d => b2 (j + w1) (b1 j d)) := by
  intro j d x
  show (b2 (j + w1) (b1 j d)).data x = _
  rw [h2, h1]
  by_cases c1 : j ≤ x ∧ x < j + w1
  · have c2 : ¬ (j + w1 ≤ x ∧ x < j + w1 + w2) := by omega
    have c3 : j ≤ x ∧ x < j + (w1 + w2) := by omega
    rw [if_neg c2, if_pos c1, if_pos c3]
  · by_cases c2 : j + w1 ≤ x ∧ x < j + w1 + w2
    · have c3 : j ≤ x ∧ x < j + (w1 + w2) := by omega
      rw [if_pos c2, if_neg c1, if_pos c3]
    · have c3 : ¬ (j ≤ x ∧ x < j + (w1 + w2)) := by omega
      rw [if_neg c2, if_neg c1, if_neg c3]

theorem Pointwise_store {α : Type} (F : Nat) (align : Bool) (g : Nat → α → α)
    (v : Nat → Buf α → Nat → α) (hv : ∀ j d l, v j d l = g (j + l) (d.data (j + l))) :
    Pointwise F g (fun j d => Store F align d j (v j d)) := by
  intro j d x
  show (if j ≤ x ∧ x < j + F then v j d (x - j) else d.data x) = _
  by_cases c : j ≤ x ∧ x < j + F
  · have e : j + (x - j) = x := by omega
    rw [if_pos c, if_pos c, hv, e]
  · rw [if_neg c, if_neg c]

theorem Pointwise_set {α : Type} (g : Nat → α → α) (f : Nat → Buf α → α)
    (hf : ∀ j d, f j d = g j (d.data j)) :
    Pointwise 1 g (fun j d => d.set j (f j d)) := by
  intro j d x
  show (if x = j then f j d else d.data x) = _
  by_cases c : x = j
  · subst c
    have c2 : x ≤ x ∧ x < x + 1 := by omega
    rw [if_pos rfl, if_pos c2, hf]
  · have c2 : ¬ (j ≤ x ∧ x < j + 1) := by omega
    rw [if_neg c, if_neg c2]

/-- A pointwise loop started at `j0` with `step ∣ hi - j0` stops at `hi` having rewritten
exactly the elements `[j0, hi)`. -/
theorem forLoop_pointwise {α : Type} (step hi : Nat) (body : Nat → Buf α → Buf α)
    (g : Nat → α → α) (hstep : 0 < step) (hb : Pointwise step g body)
    (j0 : Nat) (d0 : Buf α) (hj0 : j0 ≤ hi) (hdvd : step ∣ hi - j0) (fuel : Nat)
    (hfuel : hi ≤ j0 + fuel) :
    (forLoop step hi body fuel j0 d0).1 = hi ∧
      ∀ x, (forLoop step hi body fuel j0 d0).2.data x =
        if j0 ≤ x ∧ x < hi then g x (d0.data x) else d0.data x := by
  have key := forLoop_inv step hi body
    (fun j d => j ≤ hi ∧ j0 ≤ j ∧ step ∣ hi - j ∧
      ∀ x, d.data x = if j0 ≤ x ∧ x < j then g x (d0.data x) else d0.data x)
    hstep ?_ fuel j0 d0 hfuel ?_
  · obtain ⟨⟨h1, -, -, h4⟩, h5⟩ := key
    have e : (forLoop step hi body fuel j0 d0).1 = hi := le_antisymm h1 h5
    refine ⟨e, ?_⟩
    intro x
    rw [h4 x, e]
  · rintro j d hj ⟨h1, h2, ⟨k, hk⟩, h4⟩
    have hk0 : k ≠ 0 := by
      rintro rfl
      omega
    obtain ⟨k', rfl⟩ := Nat.exists_eq_succ_of_ne_zero hk0
    have hle : j + step ≤ hi := by
      have : hi - j = step * k' + step := by rw [hk, Nat.mul_succ]
      omega
    refine ⟨hle, by omega, ⟨k', ?_⟩, ?_⟩
    · have : hi - j = step * k' + step := by rw [hk, Nat.mul_succ]
      omega
    · intro x
      rw [hb j d x, h4 x]
      by_cases c1 : j ≤ x ∧ x < j + step
      · have c2 : ¬ (j0 ≤ x ∧ x < j) := by omega
        have c3 : j0 ≤ x ∧ x < j + step := by omega
        rw [if_pos c1, if_neg c2, if_pos c3]
      · by_cases c2 : j0 ≤ x ∧ x < j
        · have c3 : j0 ≤ x ∧ x < j + step := by omega
          rw [if_neg c1, if_pos c2, if_pos c3]
        · have c3 : ¬ (j0 ≤ x ∧ x < j + step) := by omega
          rw [if_neg c1, if_neg c2, if_neg c3]
  · refine ⟨hj0, le_refl _, hdvd, ?_⟩
    intro x
    have c : ¬ (j0 ≤ x ∧ x < j0) := by omega
    rw [if_neg c]

theorem AlignLo_le (size align : Nat) : AlignLo size align ≤ size :=
  Nat.div_mul_le_self size align

theorem AlignLo_dvd (size align : Nat) : align ∣ AlignLo size align :=
  Dvd.intro_left _ rfl

theorem AlignLo_quad_le (size F : Nat) : AlignLo size (4 * F) ≤ AlignLo size F := by
  unfold AlignLo
  rcases Nat.eq_zero_or_pos F with h | h
  · subst h; simp
  · have h1 : size / (4 * F) * (4 * F) ≤ size := Nat.div_mul_le_self _ _
    have h2 : size / (4 * F) * 4 ≤ size / F := by
      rw [Nat.le_div_iff_mul_le h]
      calc size / (4 * F) * 4 * F = size / (4 * F) * (4 * F) := by ring
        _ ≤ size := h1
    calc size / (4 * F) * (4 * F) = size / (4 * F) * 4 * F := by ring
      _ ≤ size / F * F := Nat.mul_le_mul_right F h2

theorem AlignLo_quad_dvd (size F : Nat) : F ∣ AlignLo size F - AlignLo size (4 * F) := by
  apply Nat.dvd_sub'
  · exact AlignLo_dvd size F
  · exact Dvd.dvd.mul_left (Dvd.intro_left 4 rfl) _

/-- The block / single-vector / scalar decomposition of a pointwise pass over `[0, size)`:
every element below `size` is rewritten exactly once, nothing else is touched. -/
theorem threeTier_data {α : Type} (F QF : Nat) (hF : 0 < F) (hQF : QF = 4 * F)
    (g : Nat → α → α) (b4 b1 bs : Nat → Buf α → Buf α)
    (h4 : Pointwise QF g b4) (h1 : Pointwise F g b1) (hs : Pointwise 1 g bs)
    (size : Nat) (d : Buf α) (x : Nat) :
    (forLoop 1 size bs size
      (if AlignLo size F ≠ 0 then
        forLoop F (AlignLo size F) b1 (AlignLo size F)
          (forLoop QF (AlignLo size QF) b4 (AlignLo size QF) 0 d).1
          (forLoop QF (AlignLo size QF) b4 (AlignLo size QF) 0 d).2
      else (0, d)).1
      (if AlignLo size F ≠ 0 then
        forLoop F (AlignLo size F) b1 (AlignLo size F)
          (forLoop QF (AlignLo size QF) b4 (AlignLo size QF) 0 d).1
          (forLoop QF (AlignLo size QF) b4 (AlignLo size QF) 0 d).2
      else (0, d)).2).2.data x =
      if x < size then g x (d.data x) else d.data x := by
  subst hQF
  have hA := forLoop_pointwise (4 * F) (AlignLo size (4 * F)) b4 g (by omega) h4 0 d
    (Nat.zero_le _) (by simpa using AlignLo_dvd size (4 * F)) (AlignLo size (4 * F)) (by omega)
  obtain ⟨hA1, hA2⟩ := hA
  have hB := forLoop_pointwise F (AlignLo size F) b1 g hF h1
    (AlignLo size (4 * F)) (forLoop (4 * F) (AlignLo size (4 * F)) b4 (AlignLo size (4 * F)) 0 d).2
    (AlignLo_quad_le size F) (AlignLo_quad_dvd size F) (AlignLo size F) (by omega)
  obtain ⟨hB1, hB2⟩ := hB
  have hR : ∃ r : Nat × Buf α,
      (if AlignLo size F ≠ 0 then
        forLoop F (AlignLo size F) b1 (AlignLo size F)
          (forLoop (4 * F) (AlignLo size (4 * F)) b4 (AlignLo size (4 * F)) 0 d).1
          (forLoop (4 * F) (AlignLo size (4 * F)) b4 (AlignLo size (4 * F)) 0 d).2
      else (0, d)) = r ∧ r.1 = AlignLo size F ∧
        ∀ x, r.2.data x = if x < AlignLo size F then g x (d.data x) else d.data x := by
    by_cases hp : AlignLo size F ≠ 0
    · refine ⟨_, if_pos hp, ?_, ?_⟩
      · rw [hA1]; exact hB1
      · intro y
        rw [hA1, hB2 y, hA2 y]
        have := AlignLo_quad_le size F
        by_cases c1 : 0 ≤ y ∧ y < AlignLo size (4 * F)
        · have c2 : ¬ (AlignLo size (4 * F) ≤ y ∧ y < AlignLo size F) := by omega
          have c3 : y < AlignLo size F := by omega
          rw [if_neg c2, if_pos c1, if_pos c3]
        · by_cases c3 : y < AlignLo size F
          · have c2 : AlignLo size (4 * F) ≤ y ∧ y < AlignLo size F := by omega
            rw [if_pos c2, if_neg c1, if_pos c3]
          · have c2 : ¬ (AlignLo size (4 * F) ≤ y ∧ y < AlignLo size F) := by omega
            rw [if_neg c2, if_neg c1, if_neg c3]
    · refine ⟨_, if_neg hp, ?_, ?_⟩
      · simp only [ne_eq, not_not] at hp
        exact hp.symm
      · intro y
        simp only [ne_eq, not_not] at hp
        rw [hp, if_neg (Nat.not_lt_zero y)]
  obtain ⟨r, hr, hr1, hr2⟩ := hR
  rw [hr]
  have hC := forLoop_pointwise 1 size bs g (by omega) hs r.1 r.2
    (by rw [hr1]; exact AlignLo_le size F) (one_dvd _) size (by omega)
  rw [hC.2 x, hr2 x, hr1]
  have := AlignLo_le size F
  by_cases c1 : x < AlignLo size F
  · have c2 : ¬ (AlignLo size F ≤ x ∧ x < size) := by omega
    have c3 : x < size := by omega
    rw [if_neg c2, if_pos c1, if_pos c3]
  · by_cases c3 : x < size
    · have c2 : AlignLo size F ≤ x ∧ x < size := by omega
      rw [if_pos c2, if_neg c1, if_pos c3]
    · have c2 : ¬ (AlignLo size F ≤ x ∧ x < size) := by omega
      rw [if_neg c2, if_neg c1, if_neg c3]

/-! ## Element-wise weighted sum -/

theorem Pointwise_quad {α : Type} {F : Nat} {g : Nat → α → α} {b : Nat → Buf α → Buf α}
    (h : Pointwise F g b) :
    Pointwise (4 * F) g
      (fun j d => b (j + F * 3) (b (j + F * 2) (b (j + F * 1) (b (j + F * 0) d)))) := by
  have h2 := Pointwise_seq (Pointwise_seq (Pointwise_seq h h) h) h
  intro j d x
  have e := h2 j d x
  have e1 : j + F * 0 = j := by ring
  have e2 : j + F * 1 = j + F := by ring
  have e3 : j + F * 2 = j + (F + F) := by ring
  have e4 : j + F * 3 = j + (F + F + F) := by ring
  have e5 : j + 4 * F = j + (F + F + F + F) := by ring
  show (b (j + F * 3) (b (j + F * 2) (b (j + F * 1) (b (j + F * 0) d)))).data x = _
  rw [e1, e2, e3, e4, e5]
  exact e

/-- A counting loop `for (; i < hi; ++i)` started at `j0 ≤ hi` establishes at `hi` every
invariant that holds at `j0` and is preserved by the iterations `j0 ≤ i < hi`. -/
theorem forLoop_one {σ : Type} (hi : Nat) (body : Nat → σ → σ) (P : Nat → σ → Prop)
    (j0 : Nat) (st : σ) (h0 : P j0 st) (hj0 : j0 ≤ hi)
    (hP : ∀ j st, j0 ≤ j → j < hi → P j st → P (j + 1) (body j st))
    (fuel : Nat) (hfuel : hi ≤ j0 + fuel) :
    P hi (forLoop 1 hi body fuel j0 st).2 := by
  have key := forLoop_inv 1 hi body (fun j s => j0 ≤ j ∧ j ≤ hi ∧ P j s) (by omega)
    (fun j s hj h => ⟨by omega, by omega, hP j s h.1 hj h.2.2⟩) fuel j0 st hfuel
    ⟨le_refl _, hj0, h0⟩
  obtain ⟨⟨-, h2, h3⟩, h4⟩ := key
  have e : (forLoop 1 hi body fuel j0 st).1 = hi := le_antisymm h2 h4
  rw [e] at h3
  exact h3

theorem sse41_eltwiseSum_data {α : Type} [CommRing α] (align : Bool)
    (src : Nat → Nat → α) (weight : Nat → α) (count size : Nat) (dst : Buf α)
    (hc : 2 ≤ count) (j : Nat) (hj : j < size) :
    (Sse41.SynetEltwiseLayerForwardSum align src weight count size dst).data j =
      ∑ i in Finset.range count, weight i * src i j := by
  unfold Sse41.SynetEltwiseLayerForwardSum
  simp only []
  refine forLoop_one count _
    (fun i (d : Buf α) =>
      ∀ x, x < size → d.data x = ∑ i' in Finset.range i, weight i' * src i' x)
    2 _ ?_ hc ?_ count (by omega) j hj
  · intro x hx
    have hb : Pointwise Sse41.F (fun x (_ : α) => src 0 x * weight 0 + src 1 x * weight 1)
        (fun j dst => Sse41.SynetEltwiseLayerForwardSum2 align (src 0) (set1_ps (weight 0))
          (src 1) (set1_ps (weight 1)) dst j) :=
      Pointwise_store Sse41.F align _ _ (fun _ _ _ => rfl)
    rw [threeTier_data Sse41.F Sse41.QF (by decide) (by decide)
      (fun x (_ : α) => src 0 x * weight 0 + src 1 x * weight 1) _ _ _
      (Pointwise_quad hb) hb (Pointwise_set _ _ (fun _ _ => rfl)) size dst x, if_pos hx]
    simp only [Finset.sum_range_succ, Finset.sum_range_zero]
    ring
  · intro i d _ _ ih x hx
    have hb : Pointwise Sse41.F (fun x (old : α) => src i x * weight i + old)
        (fun j dst => Sse41.SynetEltwiseLayerForwardSum1 align (src i) (set1_ps (weight i))
          dst j) :=
      Pointwise_store Sse41.F align _ _ (fun _ _ _ => rfl)
    rw [threeTier_data Sse41.F Sse41.QF (by decide) (by decide)
      (fun x (old : α) => src i x * weight i + old) _ _ _
      (Pointwise_quad hb) hb (Pointwise_set _ _ (fun _ _ => add_comm _ _)) size d x, if_pos hx,
      ih x hx, Finset.sum_range_succ]
    ring

theorem avx2_eltwiseSum_data {α : Type} [CommRing α] (align : Bool)
    (src : Nat → Nat → α) (weight : Nat → α) (count size : Nat) (dst : Buf α)
    (hc : 2 ≤ count) (j : Nat) (hj : j < size) :
    (Avx2.SynetEltwiseLayerForwardSum align src weight count size dst).data j =
      ∑ i in Finset.range count, weight i * src i j := by
  unfold Avx2.SynetEltwiseLayerForwardSum
  simp only []
  refine forLoop_one count _
    (fun i (d : Buf α) =>
      ∀ x, x < size → d.data x = ∑ i' in Finset.range i, weight i' * src i' x)
    2 _ ?_ hc ?_ count (by omega) j hj
  · intro x hx
    have hb : Pointwise Avx2.F (fun x (_ : α) => src 0 x * weight 0 + src 1 x * weight 1)
        (fun j dst => Avx2.SynetEltwiseLayerForwardSum2 align (src 0) (set1_ps (weight 0))
          (src 1) (set1_ps (weight 1)) dst j) :=
      Pointwise_store Avx2.F align _ _ (fun _ _ _ => rfl)
    rw [threeTier_data Avx2.F Avx2.QF (by decide) (by decide)
      (fun x (_ : α) => src 0 x * weight 0 + src 1 x * weight 1) _ _ _
      (Pointwise_quad hb) hb (Pointwise_set _ _ (fun _ _ => rfl)) size dst x, if_pos hx]
    simp only [Finset.sum_range_succ, Finset.sum_range_zero]
    ring
  · intro i d _ _ ih x hx
    have hb : Pointwise Avx2.F (fun x (old : α) => src i x * weight i + old)
        (fun j dst => Avx2.SynetEltwiseLayerForwardSum1 align (src i) (set1_ps (weight i))
          dst j) :=
      Pointwise_store Avx2.F align _ _ (fun _ _ _ => rfl)
    rw [threeTier_data Avx2.F Avx2.QF (by decide) (by decide)
      (fun x (old : α) => src i x * weight i + old) _ _ _
      (Pointwise_quad hb) hb (Pointwise_set _ _ (fun _ _ => add_comm _ _)) size d x, if_pos hx,
      ih x hx, Finset.sum_range_succ]
    ring

/-- C1. Weighted-sum combine, SSE4.1 and AVX2 tiers: for every `count ≥ 2`, every `size`
(a multiple of the vector width or not), every weight vector and either alignment
specialisation, after the call `dst[j] = Σ_{i < count} weight[i] * src[i][j]` for every
`j < size`, in exact arithmetic. -/
theorem C1_weighted_sum {α : Type} [CommRing α] (align : Bool)
    (src : Nat → Nat → α) (weight : Nat → α) (count size : Nat) (dst : Buf α)
    (hc : 2 ≤ count) (j : Nat) (hj : j < size) :
    (Sse41.SynetEltwiseLayerForwardSum align src weight count size dst).data j =
        ∑ i in Finset.range count, weight i * src i j ∧
      (Avx2.SynetEltwiseLayerForwardSum align src weight count size dst).data j =
        ∑ i in Finset.range count, weight i * src i j :=
  ⟨sse41_eltwiseSum_data align src weight count size dst hc j hj,
   avx2_eltwiseSum_data align src weight count size dst hc j hj⟩

/-- C1, instance: five inputs of eleven elements (two SSE4.1 vectors, one AVX2 vector and a
scalar remainder), element 9. -/
theorem C1_weighted_sum_witness :
    2 ≤ 5 ∧ 9 < 11 ∧
      ((Sse41.SynetEltwiseLayerForwardSum false rampSrc rampWeight 5 11
          (Buf.ofFn (fun _ => 0))).data 9 =
        ∑ i in Finset.range 5, rampWeight i * rampSrc i 9 ∧
      (Avx2.SynetEltwiseLayerForwardSum false rampSrc rampWeight 5 11
          (Buf.ofFn (fun _ => 0))).data 9 =
        ∑ i in Finset.range 5, rampWeight i * rampSrc i 9) :=
  ⟨by norm_num, by norm_num,
    C1_weighted_sum false rampSrc rampWeight 5 11 (Buf.ofFn (fun _ => 0)) (by norm_num) 9
      (by norm_num)⟩

/-- C2, as stated, fails: on `a=[1,2,3]`, `b=[4,5,6]`, `c=[7,8,9]` with weights
`[0.5,0.25,0.25]` neither tier produces `dst=[3.75,4.75,5.75]`. -/
theorem C2_example_refuted :
    ¬ ((List.range 3).map (Sse41.SynetEltwiseLayerForwardSum false sumExampleSrc
          sumExampleWeight 3 3 (Buf.ofFn (fun _ => 0))).data = [15 / 4, 19 / 4, 23 / 4]) ∧
      ¬ ((List.range 3).map (Avx2.SynetEltwiseLayerForwardSum false sumExampleSrc
          sumExampleWeight 3 3 (Buf.ofFn (fun _ => 0))).data = [15 / 4, 19 / 4, 23 / 4]) := by
  have e : List.range 3 = [0, 1, 2] := by decide
  rw [e]
  simp only [List.map_cons, List.map_nil]
  rw [sse41_eltwiseSum_data _ _ _ _ _ _ (by norm_num) 0 (by norm_num),
    avx2_eltwiseSum_data _ _ _ _ _ _ (by norm_num) 0 (by norm_num)]
  simp only [Finset.sum_range_succ, Finset.sum_range_zero, sumExampleSrc, sumExampleWeight]
  norm_num

/-- C2, amended: on `a=[1,2,3]`, `b=[4,5,6]`, `c=[7,8,9]` (count 3, size 3) with weights
`[0.5,0.25,0.25]` both tiers produce `dst=[3.25,4.25,5.25]`. -/
theorem C2_example_amended :
    (List.range 3).map (Sse41.SynetEltwiseLayerForwardSum false sumExampleSrc
        sumExampleWeight 3 3 (Buf.ofFn (fun _ => 0))).data = [13 / 4, 17 / 4, 21 / 4] ∧
      (List.range 3).map (Avx2.SynetEltwiseLayerForwardSum false sumExampleSrc
        sumExampleWeight 3 3 (Buf.ofFn (fun _ => 0))).data = [13 / 4, 17 / 4, 21 / 4] := by
  have e : List.range 3 = [0, 1, 2] := by decide
  rw [e]
  simp only [List.map_cons, List.map_nil]
  rw [sse41_eltwiseSum_data _ _ _ _ _ _ (by norm_num) 0 (by norm_num),
    sse41_eltwiseSum_data _ _ _ _ _ _ (by norm_num) 1 (by norm_num),
    sse41_eltwiseSum_data _ _ _ _ _ _ (by norm_num) 2 (by norm_num),
    avx2_eltwiseSum_data _ _ _ _ _ _ (by norm_num) 0 (by norm_num),
    avx2_eltwiseSum_data _ _ _ _ _ _ (by norm_num) 1 (by norm_num),
    avx2_eltwiseSum_data _ _ _ _ _ _ (by norm_num) 2 (by norm_num)]
  simp only [Finset.sum_range_succ, Finset.sum_range_zero, sumExampleSrc, sumExampleWeight]
  norm_num

/-! ## Element-wise product, maximum, minimum -/

theorem foldInputs_two {α : Type} (op : α → α → α) (src : Nat → Nat → α) (j : Nat) :
    foldInputs op src 2 j = op (src 0 j) (src 1 j) := rfl

theorem foldInputs_succ {α : Type} (op : α → α → α) (src : Nat → Nat → α) (i j : Nat)
    (hi : 1 ≤ i) : foldInputs op src (i + 1) j = op (foldInputs op src i j) (src i j) := by
  obtain ⟨n, rfl⟩ : ∃ n, i = n + 1 := ⟨i - 1, by omega⟩
  unfold foldInputs
  have e1 : n + 1 + 1 - 1 = n + 1 := by omega
  have e2 : n + 1 - 1 = n := by omega
  rw [e1, e2, List.range'_1_concat, List.map_append, List.foldl_append]
  simp only [List.map_cons, List.map_nil, List.foldl_cons, List.foldl_nil]
  rw [Nat.add_comm 1 n]

theorem sse41_eltwiseOp_data {α : Type}
    (opV : (Nat → α) → (Nat → α) → Nat → α) (opS : α → α → α)
    (hV : ∀ a b l, opV a b l = opS (a l) (b l)) (align : Bool)
    (src : Nat → Nat → α) (count size : Nat) (dst : Buf α)
    (hc : 2 ≤ count) (j : Nat) (hj : j < size) :
    (Sse41.SynetEltwiseLayerForwardT opV opS align src count size dst).data j =
      foldInputs opS src count j := by
  unfold Sse41.SynetEltwiseLayerForwardT
  simp only []
  refine forLoop_one count _
    (fun i (d : Buf α) => ∀ x, x < size → d.data x = foldInputs opS src i x)
    2 _ ?_ hc ?_ count (by omega) j hj
  · intro x hx
    have hb : Pointwise Sse41.F (fun x (_ : α) => opS (src 0 x) (src 1 x))
        (fun j dst => Sse41.SynetEltwiseLayerForwardAt opV align (src 0) (src 1) dst j) :=
      Pointwise_store Sse41.F align _ _ (fun _ _ _ => hV _ _ _)
    rw [threeTier_data Sse41.F Sse41.QF (by decide) (by decide)
      (fun x (_ : α) => opS (src 0 x) (src 1 x)) _ _ _
      (Pointwise_quad hb) hb (Pointwise_set _ _ (fun _ _ => rfl)) size dst x, if_pos hx]
    rfl
  · intro i d hi _ ih x hx
    have hb : Pointwise Sse41.F (fun x (old : α) => opS old (src i x))
        (fun j dst => Sse41.SynetEltwiseLayerForwardAt opV align dst.data (src i) dst j) :=
      Pointwise_store Sse41.F align _ _ (fun _ _ _ => hV _ _ _)
    rw [threeTier_data Sse41.F Sse41.QF (by decide) (by decide)
      (fun x (old : α) => opS old (src i x)) _ _ _
      (Pointwise_quad hb) hb (Pointwise_set _ _ (fun _ _ => rfl)) size d x, if_pos hx,
      ih x hx, foldInputs_succ opS src i x (by omega)]

theorem base_eltwiseMax_eq {α : Type} [LinearOrder α] :
    (Base.SynetEltwiseLayerForwardMax : α → α → α) = max := by
  funext a b
  unfold Base.SynetEltwiseLayerForwardMax
  by_cases h : b < a
  · rw [if_pos h, max_eq_left (le_of_lt h)]
  · rw [if_neg h, max_eq_right (not_lt.mp h)]

theorem base_eltwiseMin_eq {α : Type} [LinearOrder α] :
    (Base.SynetEltwiseLayerForwardMin : α → α → α) = min := by
  funext a b
  unfold Base.SynetEltwiseLayerForwardMin
  by_cases h : a < b
  · rw [if_pos h, min_eq_left (le_of_lt h)]
  · rw [if_neg h, min_eq_right (not_lt.mp h)]

/-- C3. Product / Max / Min combine of the SSE4.1 tier: for every `count ≥ 2`, every `size`
and `j < size`, `dst[j]` is the left fold of the operator over `src[0][j] … src[count-1][j]`,
and the `weight` argument has no influence on the output buffer. -/
theorem C3_product_max_min {α : Type} [LinearOrderedCommRing α] (align : Bool)
    (src : Nat → Nat → α) (weight weight2 : Nat → α) (count size : Nat) (dst : Buf α)
    (hc : 2 ≤ count) (j : Nat) (hj : j < size) :
    (Sse41.SynetEltwiseLayerForward align src weight count size .Product dst).data j =
        foldInputs (fun a b => a * b) src count j ∧
      (Sse41.SynetEltwiseLayerForward align src weight count size .Max dst).data j =
        foldInputs max src count j ∧
      (Sse41.SynetEltwiseLayerForward align src weight count size .Min dst).data j =
        foldInputs min src count j ∧
      ∀ type, type ≠ SimdSynetEltwiseOperationType.Sum →
        Sse41.SynetEltwiseLayerForward align src weight count size type dst =
          Sse41.SynetEltwiseLayerForward align src weight2 count size type dst := by
  refine ⟨?_, ?_, ?_, ?_⟩
  · exact sse41_eltwiseOp_data _ _ (fun _ _ _ => rfl) align src count size dst
      hc j hj
  · rw [← base_eltwiseMax_eq]
    exact sse41_eltwiseOp_data _ _ (fun _ _ _ => rfl) align src count size dst
      hc j hj
  · rw [← base_eltwiseMin_eq]
    exact sse41_eltwiseOp_data _ _ (fun _ _ _ => rfl) align src count size dst
      hc j hj
  · intro type ht
    cases type with
    | Product => rfl
    | Sum => exact absurd rfl ht
    | Max => rfl
    | Min => rfl

/-- C3, instance: five inputs of eleven elements, element 9, with two different weight
vectors. -/
theorem C3_product_max_min_witness :
    2 ≤ 5 ∧ 9 < 11 ∧
      ((Sse41.SynetEltwiseLayerForward false rampSrc rampWeight 5 11 .Product
          (Buf.ofFn (fun _ => 0))).data 9 = foldInputs (fun a b => a * b) rampSrc 5 9 ∧
      (Sse41.SynetEltwiseLayerForward false rampSrc rampWeight 5 11 .Max
          (Buf.ofFn (fun _ => 0))).data 9 = foldInputs max rampSrc 5 9 ∧
      (Sse41.SynetEltwiseLayerForward false rampSrc rampWeight 5 11 .Min
          (Buf.ofFn (fun _ => 0))).data 9 = foldInputs min rampSrc 5 9 ∧
      ∀ type, type ≠ SimdSynetEltwiseOperationType.Sum →
        Sse41.SynetEltwiseLayerForward false rampSrc rampWeight 5 11 type
            (Buf.ofFn (fun _ => 0)) =
          Sse41.SynetEltwiseLayerForward false rampSrc sumExampleWeight 5 11 type
            (Buf.ofFn (fun _ => 0))) :=
  ⟨by norm_num, by norm_num,
    C3_product_max_min false rampSrc rampWeight sumExampleWeight 5 11 (Buf.ofFn (fun _ => 0))
      (by norm_num) 9 (by norm_num)⟩

/-! ## Accumulating loops and horizontal sums -/

/-- A strided loop started at `j0` with `step ∣ hi - j0` stops at `hi` and establishes there
every invariant preserved by the iterations that fit below `hi`. -/
theorem forLoop_stride {σ : Type} (step hi : Nat) (body : Nat → σ → σ) (P : Nat → σ → Prop)
    (hstep : 0 < step) (j0 : Nat) (st : σ) (h0 : P j0 st) (hj0 : j0 ≤ hi)
    (hdvd : step ∣ hi - j0)
    (hP : ∀ j st, j0 ≤ j → j + step ≤ hi → P j st → P (j + step) (body j st))
    (fuel : Nat) (hfuel : hi ≤ j0 + fuel) :
    (forLoop step hi body fuel j0 st).1 = hi ∧ P hi (forLoop step hi body fuel j0 st).2 := by
  have key := forLoop_inv step hi body
    (fun j s => j ≤ hi ∧ j0 ≤ j ∧ step ∣ hi - j ∧ P j s) hstep ?_ fuel j0 st hfuel
    ⟨hj0, le_refl _, hdvd, h0⟩
  · obtain ⟨⟨h1, -, -, h4⟩, h5⟩ := key
    have e : (forLoop step hi body fuel j0 st).1 = hi := le_antisymm h1 h5
    rw [e] at h4
    exact ⟨e, h4⟩
  · rintro j d hj ⟨h1, h2, ⟨k, hk⟩, h4⟩
    have hk0 : k ≠ 0 := by
      rintro rfl
      omega
    obtain ⟨k', rfl⟩ := Nat.exists_eq_succ_of_ne_zero hk0
    have hsub : hi - j = step * k' + step := by rw [hk, Nat.mul_succ]
    have hle : j + step ≤ hi := by omega
    exact ⟨hle, by omega, ⟨k', by omega⟩, hP j d h2 hle h4⟩

/-- An accumulating loop: when every iteration adds to the observed value `val` the terms
`f x` of its own block `[k, k + step)`, the whole loop adds the terms of `[j0, hi)`. -/
theorem forLoop_acc {α σ : Type} [AddCommMonoid α] (step hi : Nat) (body : Nat → σ → σ)
    (val : σ → α) (f : Nat → α) (hstep : 0 < step)
    (hb : ∀ k d, val (body k d) = val d + ∑ x in Finset.Ico k (k + step), f x)
    (j0 : Nat) (d0 : σ) (hj0 : j0 ≤ hi) (hdvd : step ∣ hi - j0) (fuel : Nat)
    (hfuel : hi ≤ j0 + fuel) :
    (forLoop step hi body fuel j0 d0).1 = hi ∧
      val (forLoop step hi body fuel j0 d0).2 = val d0 + ∑ x in Finset.Ico j0 hi, f x := by
  refine forLoop_stride step hi body
    (fun j d => val d = val d0 + ∑ x in Finset.Ico j0 j, f x) hstep j0 d0 ?_ hj0 hdvd ?_
    fuel hfuel
  · simp
  · intro j d h1 _ h3
    show val (body j d) = _
    rw [hb, h3, add_assoc, Finset.sum_Ico_consecutive f h1 (Nat.le_add_right j step)]

theorem ExtractSum_zero {α : Type} [AddCommMonoid α] (F : Nat) :
    ExtractSum F (setzero_ps : Nat → α) = 0 := by
  simp [ExtractSum, setzero_ps]

theorem ExtractSum_add {α : Type} [AddCommMonoid α] (F : Nat) (a b : Nat → α) :
    ExtractSum F (add_ps a b) = ExtractSum F a + ExtractSum F b := by
  simp [ExtractSum, add_ps, Finset.sum_add_distrib]

/-- One multiply-accumulate step adds the products of the block `[offset, offset + F)`. -/
theorem ExtractSum_fmadd {α : Type} [CommRing α] (F : Nat) (al1 al2 : Bool)
    (s w : Nat → α) (offset : Nat) (d : Nat → α) :
    ExtractSum F (fmadd_ps (Load al1 s offset) (Load al2 w offset) d) =
      ExtractSum F d + ∑ x in Finset.Ico offset (offset + F), s x * w x := by
  rw [Finset.sum_Ico_eq_sum_range]
  simp only [ExtractSum, fmadd_ps, Load, Finset.sum_add_distrib, Nat.add_sub_cancel_left]
  rw [add_comm]

/-- The same step written with separate multiply and add. -/
theorem ExtractSum_add_mul {α : Type} [CommRing α] (F : Nat) (al1 al2 : Bool)
    (s w : Nat → α) (offset : Nat) (d : Nat → α) :
    ExtractSum F (add_ps (mul_ps (Load al1 s offset) (Load al2 w offset)) d) =
      ExtractSum F d + ∑ x in Finset.Ico offset (offset + F), s x * w x :=
  ExtractSum_fmadd F al1 al2 s w offset d

theorem avx2_Tail_lane (t l : Nat) (ht : t ≤ 8) (hl : l < 8) :
    Avx2.Tail t l = if 8 ≤ t + l then -1 else 0 := by
  unfold Avx2.Tail Avx2.TailMask
  interval_cases t <;> interval_cases l <;> rfl

/-- The masked tail step at offset `K - 8` adds exactly the products of `[K8, K)`. -/
theorem avx2_ExtractSum_tail {α : Type} [CommRing α] (S W d : Nat → α) (K : Nat)
    (hK : 8 ≤ K) (hlt : K / 8 * 8 < K) :
    ExtractSum 8 (fmadd_ps (and_ps (Avx2.Tail (K - K / 8 * 8)) (Load false S (subSizeT K 8)))
        (and_ps (Avx2.Tail (K - K / 8 * 8)) (Load false W (subSizeT K 8))) d) =
      ExtractSum 8 d + ∑ x in Finset.Ico (K / 8 * 8) K, S x * W x := by
  have h8 : K / 8 * 8 ≤ K := Nat.div_mul_le_self K 8
  have hmod : K < K / 8 * 8 + 8 := by
    have := Nat.div_add_mod K 8
    have := Nat.mod_lt K (by norm_num : 8 > 0)
    omega
  obtain ⟨t, ht⟩ : ∃ t, t = K - K / 8 * 8 := ⟨_, rfl⟩
  have ht8 : t < 8 := by omega
  have hsub : subSizeT K 8 = K - 8 := by simp [subSizeT, hK]
  rw [← ht, hsub, Finset.sum_Ico_eq_sum_range, ← ht]
  have hsplit : Finset.range 8 = Finset.range ((8 - t) + t) :=
    congrArg Finset.range (by omega)
  simp only [ExtractSum, fmadd_ps, Finset.sum_add_distrib]
  rw [add_comm]
  congr 1
  rw [hsplit, Finset.sum_range_add]
  have hz : ∑ x in Finset.range (8 - t),
      and_ps (Avx2.Tail t) (Load false S (K - 8)) x *
        and_ps (Avx2.Tail t) (Load false W (K - 8)) x = 0 := by
    apply Finset.sum_eq_zero
    intro l hl
    rw [Finset.mem_range] at hl
    have c : ¬ (8 ≤ t + l) := by omega
    simp [and_ps, avx2_Tail_lane t l (by omega) (by omega), c]
  rw [hz, zero_add]
  apply Finset.sum_congr rfl
  intro m hm
  rw [Finset.mem_range] at hm
  have c : 8 ≤ t + (8 - t + m) := by omega
  have e : K - 8 + (8 - t + m) = K / 8 * 8 + m := by omega
  simp only [and_ps, avx2_Tail_lane t (8 - t + m) (by omega) (by omega), c, if_true, Load, e]

/-! ## Dense projection, SSE4.1 tier -/

theorem sum_Ico_one {α : Type} [AddCommMonoid α] (f : Nat → α) (k : Nat) :
    ∑ x in Finset.Ico k (k + 1), f x = f k := by
  rw [Finset.sum_Ico_eq_sum_range]
  simp

/-- A block of four vectors splits into its four vector-sized blocks. -/
theorem sum_Ico_quad {α : Type} [AddCommMonoid α] (f : Nat → α) (k F : Nat) :
    ∑ x in Finset.Ico k (k + 4 * F), f x =
      (∑ x in Finset.Ico (k + 0 * F) (k + 0 * F + F), f x +
        ∑ x in Finset.Ico (k + 1 * F) (k + 1 * F + F), f x) +
      (∑ x in Finset.Ico (k + 2 * F) (k + 2 * F + F), f x +
        ∑ x in Finset.Ico (k + 3 * F) (k + 3 * F + F), f x) := by
  have e0 : k + 0 * F = k := by ring
  have e1 : k + 1 * F = k + F := by ring
  have e2 : k + 2 * F = k + F + F := by ring
  have e3 : k + 3 * F = k + F + F + F := by ring
  have e4 : k + 4 * F = k + F + F + F + F := by ring
  rw [e0, e1, e2, e3, e4,
    Finset.sum_Ico_consecutive f (Nat.le_add_right _ _) (Nat.le_add_right _ _),
    Finset.sum_Ico_consecutive f (Nat.le_add_right _ _) (Nat.le_add_right _ _),
    Finset.sum_Ico_consecutive f (by omega) (by omega)]

/-- A block of two vectors splits into its two vector-sized blocks. -/
theorem sum_Ico_pair {α : Type} [AddCommMonoid α] (f : Nat → α) (k F : Nat) :
    ∑ x in Finset.Ico k (k + 2 * F), f x =
      ∑ x in Finset.Ico (k + 0 * F) (k + 0 * F + F), f x +
        ∑ x in Finset.Ico (k + 1 * F) (k + 1 * F + F), f x := by
  have e0 : k + 0 * F = k := by ring
  have e1 : k + 1 * F = k + F := by ring
  have e2 : k + 2 * F = k + F + F := by ring
  rw [e0, e1, e2,
    Finset.sum_Ico_consecutive f (Nat.le_add_right _ _) (Nat.le_add_right _ _)]

/-- The reduction skeleton of one SSE4.1 row: an optional four-accumulator loop over
`[0, AlignLo size QF)`, merged into one register, a one-register loop up to `AlignLo size F`,
the horizontal sum, and a scalar loop up to `size`, together add `f k` for every `k < size`
exactly once. -/
theorem sse41_row_skeleton {α σ : Type} [CommRing α] (F QF : Nat) (hF : 0 < F)
    (hQF : QF = 4 * F) (f : Nat → α) (size : Nat)
    (b4 : Nat → σ → σ) (val4 : σ → α) (init4 : σ) (merge : σ → Nat → α)
    (z : Nat → α) (b1 : Nat → (Nat → α) → Nat → α) (bs : Nat → α → α)
    (h4 : ∀ k d, val4 (b4 k d) = val4 d + ∑ x in Finset.Ico k (k + QF), f x)
    (hinit4 : val4 init4 = 0) (hmerge : ∀ d, ExtractSum F (merge d) = val4 d)
    (hz : ExtractSum F z = 0)
    (h1 : ∀ k d, ExtractSum F (b1 k d) = ExtractSum F d + ∑ x in Finset.Ico k (k + F), f x)
    (hs : ∀ k d, bs k d = d + f k) :
    (forLoop 1 size bs size
    (if AlignLo size F ≠ 0 then
      ((forLoop F (AlignLo size F) b1 (AlignLo size F)
      (if AlignLo size QF ≠ 0 then
        ((forLoop QF (AlignLo size QF) b4 (AlignLo size QF) 0 init4).1,
          merge (forLoop QF (AlignLo size QF) b4 (AlignLo size QF) 0 init4).2)
      else (0, z)).1
      (if AlignLo size QF ≠ 0 then
        ((forLoop QF (AlignLo size QF) b4 (AlignLo size QF) 0 init4).1,
          merge (forLoop QF (AlignLo size QF) b4 (AlignLo size QF) 0 init4).2)
      else (0, z)).2).1,
       ExtractSum F (forLoop F (AlignLo size F) b1 (AlignLo size F)
      (if AlignLo size QF ≠ 0 then
        ((forLoop QF (AlignLo size QF) b4 (AlignLo size QF) 0 init4).1,
          merge (forLoop QF (AlignLo size QF) b4 (AlignLo size QF) 0 init4).2)
      else (0, z)).1
      (if AlignLo size QF ≠ 0 then
        ((forLoop QF (AlignLo size QF) b4 (AlignLo size QF) 0 init4).1,
          merge (forLoop QF (AlignLo size QF) b4 (AlignLo size QF) 0 init4).2)
      else (0, z)).2).2)
    else (0, 0)).1
    (if AlignLo size F ≠ 0 then
      ((forLoop F (AlignLo size F) b1 (AlignLo size F)
      (if AlignLo size QF ≠ 0 then
        ((forLoop QF (AlignLo size QF) b4 (AlignLo size QF) 0 init4).1,
          merge (forLoop QF (AlignLo size QF) b4 (AlignLo size QF) 0 init4).2)
      else (0, z)).1
      (if AlignLo size QF ≠ 0 then
        ((forLoop QF (AlignLo size QF) b4 (AlignLo size QF) 0 init4).1,
          merge (forLoop QF (AlignLo size QF) b4 (AlignLo size QF) 0 init4).2)
      else (0, z)).2).1,
       ExtractSum F (forLoop F (AlignLo size F) b1 (AlignLo size F)
      (if AlignLo size QF ≠ 0 then
        ((forLoop QF (AlignLo size QF) b4 (AlignLo size QF) 0 init4).1,
          merge (forLoop QF (AlignLo size QF) b4 (AlignLo size QF) 0 init4).2)
      else (0, z)).1
      (if AlignLo size QF ≠ 0 then
        ((forLoop QF (AlignLo size QF) b4 (AlignLo size QF) 0 init4).1,
          merge (forLoop QF (AlignLo size QF) b4 (AlignLo size QF) 0 init4).2)
      else (0, z)).2).2)
    else (0, 0)).2).2 =
      ∑ k in Finset.range size, f k := by
  subst hQF
  have hA := forLoop_acc (4 * F) (AlignLo size (4 * F)) b4 val4 f (by omega) h4 0 init4
    (Nat.zero_le _) (by simpa using AlignLo_dvd size (4 * F)) (AlignLo size (4 * F))
    (by omega)
  obtain ⟨hA1, hA2⟩ := hA
  obtain ⟨q, hq, hq1, hq2⟩ : ∃ q : Nat × (Nat → α),
      (if AlignLo size (4 * F) ≠ 0 then
        ((forLoop (4 * F) (AlignLo size (4 * F)) b4 (AlignLo size (4 * F)) 0 init4).1,
          merge (forLoop (4 * F) (AlignLo size (4 * F)) b4 (AlignLo size (4 * F)) 0 init4).2)
      else (0, z)) = q ∧ q.1 = AlignLo size (4 * F) ∧
        ExtractSum F q.2 = ∑ x in Finset.Ico 0 (AlignLo size (4 * F)), f x := by
    by_cases hp : AlignLo size (4 * F) ≠ 0
    · refine ⟨_, if_pos hp, hA1, ?_⟩
      show ExtractSum F (merge _) = _
      rw [hmerge, hA2, hinit4, zero_add]
    · refine ⟨_, if_neg hp, ?_, ?_⟩
      · simp only [ne_eq, not_not] at hp
        exact hp.symm
      · simp only [ne_eq, not_not] at hp
        rw [hp]
        simpa using hz
  rw [hq]
  have hB := forLoop_acc F (AlignLo size F) b1 (ExtractSum F) f hF h1 q.1 q.2
    (by rw [hq1]; exact AlignLo_quad_le size F)
    (by rw [hq1]; exact AlignLo_quad_dvd size F) (AlignLo size F) (by omega)
  obtain ⟨hB1, hB2⟩ := hB
  obtain ⟨r, hr, hr1, hr2⟩ : ∃ r : Nat × α,
      (if AlignLo size F ≠ 0 then
        ((forLoop F (AlignLo size F) b1 (AlignLo size F) q.1 q.2).1,
         ExtractSum F (forLoop F (AlignLo size F) b1 (AlignLo size F) q.1 q.2).2)
      else (0, 0)) = r ∧ r.1 = AlignLo size F ∧
        r.2 = ∑ x in Finset.Ico 0 (AlignLo size F), f x := by
    by_cases hp : AlignLo size F ≠ 0
    · refine ⟨_, if_pos hp, hB1, ?_⟩
      show ExtractSum F _ = _
      rw [hB2, hq2, hq1]
      exact Finset.sum_Ico_consecutive f (Nat.zero_le _) (AlignLo_quad_le size F)
    · refine ⟨_, if_neg hp, ?_, ?_⟩
      · simp only [ne_eq, not_not] at hp
        exact hp.symm
      · simp only [ne_eq, not_not] at hp
        rw [hp]
        simp
  rw [hr]
  have hC := forLoop_acc 1 size bs id f (by omega)
    (fun k d => by rw [sum_Ico_one]; exact hs k d) r.1 r.2
    (by rw [hr1]; exact AlignLo_le size F) (one_dvd _) size (by omega)
  have hC2 := hC.2
  simp only [id] at hC2
  rw [hC2, hr2, hr1, Finset.sum_Ico_consecutive f (Nat.zero_le _) (AlignLo_le size F),
    Finset.range_eq_Ico]

/-- The SSE4.1 dense projection kernel, either alignment: every `dst[x]` with `x < count`
receives the dot product of row `x` plus the (optional) bias, each exactly once. -/
theorem sse41_innerProductA_spec {α : Type} [CommRing α] (align : Bool)
    (src weight : Nat → α) (bias : Option (Nat → α)) (count size : Nat) (dst : Buf α) :
    (∀ x, (Sse41.SynetInnerProductLayerForwardA align src weight bias count size dst).data x =
        if x < count then
          (∑ k in Finset.range size, src k * weight (x * size + k)) + biasAt bias x
        else dst.data x) ∧
      (Sse41.SynetInnerProductLayerForwardA align src weight bias count size dst).writes =
        dst.writes ++ List.range count := by
  unfold Sse41.SynetInnerProductLayerForwardA
  simp only []
  refine (forLoop_one count _
    (fun i (st : (Nat → α) × Buf α) =>
      st.1 = (fun x => weight (i * size + x)) ∧
      ((∀ x, st.2.data x =
        if x < i then
          (∑ k in Finset.range size, src k * weight (x * size + k)) + biasAt bias x
        else dst.data x) ∧
      st.2.writes = dst.writes ++ List.range i))
    0 _ ?_ (Nat.zero_le _) ?_ count (by omega)).2
  · refine ⟨?_, ?_, ?_⟩
    · funext x
      simp
    · intro x
      simp
    · simp
  · rintro i ⟨w, d⟩ _ _ ⟨h1, h2, h3⟩
    simp only [] at h1 h2 h3
    subst h1
    refine ⟨?_, ?_, ?_⟩
    · funext x
      show weight (i * size + (size + x)) = weight ((i + 1) * size + x)
      congr 1
      ring
    · intro x
      rw [sse41_row_skeleton Sse41.F Sse41.QF (by decide) (by decide)
        (fun k => src k * weight (i * size + k)) size _
        (fun (d : (Nat → α) × (Nat → α) × (Nat → α) × (Nat → α)) =>
          ExtractSum Sse41.F d.1 + ExtractSum Sse41.F d.2.1 +
          (ExtractSum Sse41.F d.2.2.1 + ExtractSum Sse41.F d.2.2.2))
        _ (fun (d : (Nat → α) × (Nat → α) × (Nat → α) × (Nat → α)) =>
          add_ps (add_ps d.1 d.2.1) (add_ps d.2.2.1 d.2.2.2)) _ _ _
        ?_ ?_ ?_ ?_ ?_ ?_]
      · show (if x = i then _ else d.data x) = _
        by_cases c : x = i
        · subst c
          rw [if_pos rfl, if_pos (Nat.lt_succ_self x)]
        · rw [if_neg c, h2 x]
          by_cases c2 : x < i
          · rw [if_pos c2, if_pos (by omega)]
          · rw [if_neg c2, if_neg (by omega)]
      · intro k dd
        simp only [Sse41.SynetInnerProductLayerForwardAt, ExtractSum_add_mul]
        have hsplit := sum_Ico_quad (fun x => src x * weight (i * size + x)) k Sse41.F
        have hq : Sse41.QF = 4 * Sse41.F := rfl
        rw [← hq] at hsplit
        rw [hsplit]
        ring
      · simp [ExtractSum_zero]
      · intro dd
        simp only [ExtractSum_add]
      · exact ExtractSum_zero _
      · intro k dd
        simp only [Sse41.SynetInnerProductLayerForwardAt, ExtractSum_add_mul]
      · intro k dd
        rfl
    · show d.writes ++ [i] = _
      rw [h3, List.range_succ, List.append_assoc]

/-! ## Dense projection, AVX2 tier -/

theorem div_mul_block_le (K B : Nat) (hB8 : 8 ∣ B) : K / B * B ≤ K / 8 * 8 := by
  obtain ⟨m, rfl⟩ := hB8
  have h1 : K / (8 * m) * (8 * m) ≤ K := Nat.div_mul_le_self _ _
  have h2 : K / (8 * m) * m ≤ K / 8 := by
    rw [Nat.le_div_iff_mul_le (by norm_num)]
    calc K / (8 * m) * m * 8 = K / (8 * m) * (8 * m) := by ring
      _ ≤ K := h1
  calc K / (8 * m) * (8 * m) = K / (8 * m) * m * 8 := by ring
    _ ≤ K / 8 * 8 := Nat.mul_le_mul_right 8 h2

theorem div_mul_block_dvd (K B : Nat) (hB8 : 8 ∣ B) : 8 ∣ K / 8 * 8 - K / B * B := by
  apply Nat.dvd_sub'
  · exact Dvd.intro_left _ rfl
  · exact Dvd.dvd.mul_left hB8 _

/-- The reduction skeleton of the AVX2 row kernels, for a family `n` of observed rows: an
optional multi-accumulator loop in blocks of `B`, merged, a one-vector loop up to `K8`, and
the masked tail step when `K8 < K`, together add `f n k` for every `k < K` exactly once. -/
theorem avx2_acc_skeleton {α σB σ ι : Type} [CommRing α] (B : Nat) (hB0 : 0 < B)
    (hB8 : 8 ∣ B) (f : ι → Nat → α) (K : Nat)
    (bB : Nat → σB → σB) (valB : ι → σB → α) (initB : σB) (merge : σB → σ) (z : σ)
    (b8 : Nat → σ → σ) (val : ι → σ → α) (tailfn : σ → σ)
    (hb : ∀ n k d, valB n (bB k d) = valB n d + ∑ x in Finset.Ico k (k + B), f n x)
    (hinit : ∀ n, valB n initB = 0) (hmerge : ∀ n d, val n (merge d) = valB n d)
    (hz : ∀ n, val n z = 0)
    (h8 : ∀ n k d, val n (b8 k d) = val n d + ∑ x in Finset.Ico k (k + 8), f n x)
    (htail : K / 8 * 8 < K →
      ∀ n d, val n (tailfn d) = val n d + ∑ x in Finset.Ico (K / 8 * 8) K, f n x)
    (n : ι) :
    val n (if K / 8 * 8 < K then
      tailfn (forLoop 8 (K / 8 * 8) b8 (K / 8 * 8)
      (if K / B * B ≠ 0 then
        ((forLoop B (K / B * B) bB (K / B * B) 0 initB).1,
          merge (forLoop B (K / B * B) bB (K / B * B) 0 initB).2)
      else (0, z)).1
      (if K / B * B ≠ 0 then
        ((forLoop B (K / B * B) bB (K / B * B) 0 initB).1,
          merge (forLoop B (K / B * B) bB (K / B * B) 0 initB).2)
      else (0, z)).2).2
    else
      (forLoop 8 (K / 8 * 8) b8 (K / 8 * 8)
      (if K / B * B ≠ 0 then
        ((forLoop B (K / B * B) bB (K / B * B) 0 initB).1,
          merge (forLoop B (K / B * B) bB (K / B * B) 0 initB).2)
      else (0, z)).1
      (if K / B * B ≠ 0 then
        ((forLoop B (K / B * B) bB (K / B * B) 0 initB).1,
          merge (forLoop B (K / B * B) bB (K / B * B) 0 initB).2)
      else (0, z)).2).2) =
      ∑ k in Finset.range K, f n k := by
  have hA := forLoop_acc B (K / B * B) bB (valB n) (f n) hB0 (hb n) 0 initB
    (Nat.zero_le _) (Dvd.intro_left (K / B) rfl) (K / B * B)
    (by omega)
  obtain ⟨hA1, hA2⟩ := hA
  obtain ⟨q, hq, hq1, hq2⟩ : ∃ q : Nat × σ,
      (if K / B * B ≠ 0 then
        ((forLoop B (K / B * B) bB (K / B * B) 0 initB).1,
          merge (forLoop B (K / B * B) bB (K / B * B) 0 initB).2)
      else (0, z)) = q ∧ q.1 = K / B * B ∧
        val n q.2 = ∑ x in Finset.Ico 0 (K / B * B), f n x := by
    by_cases hp : K / B * B ≠ 0
    · refine ⟨_, if_pos hp, hA1, ?_⟩
      show val n (merge _) = _
      rw [hmerge, hA2, hinit, zero_add]
    · refine ⟨_, if_neg hp, ?_, ?_⟩
      · simp only [ne_eq, not_not] at hp
        exact hp.symm
      · simp only [ne_eq, not_not] at hp
        rw [hp]
        simpa using hz n
  rw [hq]
  have hB := forLoop_acc 8 (K / 8 * 8) b8 (val n) (f n) (by norm_num) (h8 n) q.1 q.2
    (by rw [hq1]; exact div_mul_block_le K B hB8)
    (by rw [hq1]; exact div_mul_block_dvd K B hB8) (K / 8 * 8) (by omega)
  have hB2 : val n (forLoop 8 (K / 8 * 8) b8 (K / 8 * 8) q.1 q.2).2 =
      ∑ x in Finset.Ico 0 (K / 8 * 8), f n x := by
    rw [hB.2, hq2, hq1,
      Finset.sum_Ico_consecutive (f n) (Nat.zero_le _) (div_mul_block_le K B hB8)]
  have h8le : K / 8 * 8 ≤ K := Nat.div_mul_le_self K 8
  by_cases hlt : K / 8 * 8 < K
  · rw [if_pos hlt, htail hlt, hB2, Finset.sum_Ico_consecutive (f n) (Nat.zero_le _) h8le,
      Finset.range_eq_Ico]
  · have e : K / 8 * 8 = K := by omega
    rw [if_neg hlt, hB2, Finset.range_eq_Ico, e]

/-- The register of the one-row kernel holds, lane-summed, the dot product of the row. -/
theorem avx2_innerProduct1Sum_spec {α : Type} [CommRing α]
    (S0 W : Nat → α) (K : Nat) (hK : 8 ≤ K) :
    ExtractSum 8 (Avx2.SynetInnerProductLayerForward1Sum S0 W K) =
      ∑ k in Finset.range K, S0 k * W k := by
  unfold Avx2.SynetInnerProductLayerForward1Sum
  have key := avx2_acc_skeleton 32 (by norm_num) (by norm_num)
    (fun (_ : Unit) k => S0 k * W (0 * K + k)) K
    (fun k (d : (Nat → α) × (Nat → α) × (Nat → α) × (Nat → α)) =>
      (fmadd_ps (Load false S0 (k + 0 * Avx2.F))
          (Load false (fun x => W (0 * K + x)) (k + 0 * Avx2.F)) d.1,
        fmadd_ps (Load false S0 (k + 1 * Avx2.F))
          (Load false (fun x => W (0 * K + x)) (k + 1 * Avx2.F)) d.2.1,
        fmadd_ps (Load false S0 (k + 2 * Avx2.F))
          (Load false (fun x => W (0 * K + x)) (k + 2 * Avx2.F)) d.2.2.1,
        fmadd_ps (Load false S0 (k + 3 * Avx2.F))
          (Load false (fun x => W (0 * K + x)) (k + 3 * Avx2.F)) d.2.2.2))
    (fun _ d => ExtractSum 8 d.1 + ExtractSum 8 d.2.1 +
      (ExtractSum 8 d.2.2.1 + ExtractSum 8 d.2.2.2))
    (setzero_ps, setzero_ps, setzero_ps, setzero_ps)
    (fun d => add_ps (add_ps d.1 d.2.1) (add_ps d.2.2.1 d.2.2.2))
    setzero_ps
    (fun k d00 => fmadd_ps (Load false S0 k) (Load false (fun x => W (0 * K + x)) k) d00)
    (fun _ d => ExtractSum 8 d)
    (fun d00 => fmadd_ps
      (and_ps (Avx2.Tail (K - K / 8 * 8)) (Load false S0 (subSizeT K 8)))
      (and_ps (Avx2.Tail (K - K / 8 * 8))
        (Load false (fun x => W (0 * K + x)) (subSizeT K 8))) d00)
    ?_ ?_ ?_ ?_ ?_ ?_ ()
  · simp only [zero_mul, zero_add] at key
    simp only [zero_mul, zero_add]
    exact key
  · intro _ k d
    have hsplit := sum_Ico_quad (fun x => S0 x * W (0 * K + x)) k Avx2.F
    have hq : 4 * Avx2.F = 32 := rfl
    have hf : Avx2.F = 8 := rfl
    rw [hq] at hsplit
    simp only [ExtractSum_fmadd]
    rw [hsplit, hf]
    ring
  · intro _
    simp [ExtractSum_zero]
  · intro _ d
    simp only [ExtractSum_add]
  · intro _
    exact ExtractSum_zero _
  · intro _ k d
    simp only [ExtractSum_fmadd]
  · intro hlt _ d
    exact avx2_ExtractSum_tail S0 (fun x => W (0 * K + x)) d K hK hlt

/-- Each register of the four-row kernel holds, lane-summed, the dot product of its row. -/
theorem avx2_innerProduct4Sums_spec {α : Type} [CommRing α]
    (S0 W : Nat → α) (K : Nat) (hK : 8 ≤ K) :
    ExtractSum 8 (Avx2.SynetInnerProductLayerForward4Sums S0 W K).1 =
        ∑ k in Finset.range K, S0 k * W (0 * K + k) ∧
      ExtractSum 8 (Avx2.SynetInnerProductLayerForward4Sums S0 W K).2.1 =
        ∑ k in Finset.range K, S0 k * W (1 * K + k) ∧
      ExtractSum 8 (Avx2.SynetInnerProductLayerForward4Sums S0 W K).2.2.1 =
        ∑ k in Finset.range K, S0 k * W (2 * K + k) ∧
      ExtractSum 8 (Avx2.SynetInnerProductLayerForward4Sums S0 W K).2.2.2 =
        ∑ k in Finset.range K, S0 k * W (3 * K + k) := by
  unfold Avx2.SynetInnerProductLayerForward4Sums
  have key := avx2_acc_skeleton 16 (by norm_num) (by norm_num)
    (fun (n : Fin 4) k => S0 k * W (n.val * K + k)) K
    (fun k (d : ((Nat → α) × (Nat → α)) × ((Nat → α) × (Nat → α)) ×
        ((Nat → α) × (Nat → α)) × ((Nat → α) × (Nat → α))) =>
      ((fmadd_ps (Load false S0 (k + 0 * Avx2.F))
          (Load false (fun x => W (0 * K + x)) (k + 0 * Avx2.F)) d.1.1,
        fmadd_ps (Load false S0 (k + 1 * Avx2.F))
          (Load false (fun x => W (0 * K + x)) (k + 1 * Avx2.F)) d.1.2),
       (fmadd_ps (Load false S0 (k + 0 * Avx2.F))
          (Load false (fun x => W (1 * K + x)) (k + 0 * Avx2.F)) d.2.1.1,
        fmadd_ps (Load false S0 (k + 1 * Avx2.F))
          (Load false (fun x => W (1 * K + x)) (k + 1 * Avx2.F)) d.2.1.2),
       (fmadd_ps (Load false S0 (k + 0 * Avx2.F))
          (Load false (fun x => W (2 * K + x)) (k + 0 * Avx2.F)) d.2.2.1.1,
        fmadd_ps (Load false S0 (k + 1 * Avx2.F))
          (Load false (fun x => W (2 * K + x)) (k + 1 * Avx2.F)) d.2.2.1.2),
       (fmadd_ps (Load false S0 (k + 0 * Avx2.F))
          (Load false (fun x => W (3 * K + x)) (k + 0 * Avx2.F)) d.2.2.2.1,
        fmadd_ps (Load false S0 (k + 1 * Avx2.F))
          (Load false (fun x => W (3 * K + x)) (k + 1 * Avx2.F)) d.2.2.2.2)))
    (fun n d =>
      match n with
      | 0 => ExtractSum 8 d.1.1 + ExtractSum 8 d.1.2
      | 1 => ExtractSum 8 d.2.1.1 + ExtractSum 8 d.2.1.2
      | 2 => ExtractSum 8 d.2.2.1.1 + ExtractSum 8 d.2.2.1.2
      | 3 => ExtractSum 8 d.2.2.2.1 + ExtractSum 8 d.2.2.2.2)
    ((setzero_ps, setzero_ps), (setzero_ps, setzero_ps), (setzero_ps, setzero_ps),
      (setzero_ps, setzero_ps))
    (fun d => (add_ps d.1.1 d.1.2, add_ps d.2.1.1 d.2.1.2,
      add_ps d.2.2.1.1 d.2.2.1.2, add_ps d.2.2.2.1 d.2.2.2.2))
    (setzero_ps, setzero_ps, setzero_ps, setzero_ps)
    (fun k (d : (Nat → α) × (Nat → α) × (Nat → α) × (Nat → α)) =>
      (fmadd_ps (Load false S0 (k + 0 * Avx2.F))
          (Load false (fun x => W (0 * K + x)) (k + 0 * Avx2.F)) d.1,
        fmadd_ps (Load false S0 (k + 0 * Avx2.F))
          (Load false (fun x => W (1 * K + x)) (k + 0 * Avx2.F)) d.2.1,
        fmadd_ps (Load false S0 (k + 0 * Avx2.F))
          (Load false (fun x => W (2 * K + x)) (k + 0 * Avx2.F)) d.2.2.1,
        fmadd_ps (Load false S0 (k + 0 * Avx2.F))
          (Load false (fun x => W (3 * K + x)) (k + 0 * Avx2.F)) d.2.2.2))
    (fun n d =>
      match n with
      | 0 => ExtractSum 8 d.1
      | 1 => ExtractSum 8 d.2.1
      | 2 => ExtractSum 8 d.2.2.1
      | 3 => ExtractSum 8 d.2.2.2)
    (fun (d : (Nat → α) × (Nat → α) × (Nat → α) × (Nat → α)) =>
      (fmadd_ps (and_ps (Avx2.Tail (K - K / 8 * 8)) (Load false S0 (subSizeT K 8)))
          (and_ps (Avx2.Tail (K - K / 8 * 8))
            (Load false (fun x => W (0 * K + x)) (subSizeT K 8 + 0 * Avx2.F))) d.1,
        fmadd_ps (and_ps (Avx2.Tail (K - K / 8 * 8)) (Load false S0 (subSizeT K 8)))
          (and_ps (Avx2.Tail (K - K / 8 * 8))
            (Load false (fun x => W (1 * K + x)) (subSizeT K 8 + 0 * Avx2.F))) d.2.1,
        fmadd_ps (and_ps (Avx2.Tail (K - K / 8 * 8)) (Load false S0 (subSizeT K 8)))
          (and_ps (Avx2.Tail (K - K / 8 * 8))
            (Load false (fun x => W (2 * K + x)) (subSizeT K 8 + 0 * Avx2.F))) d.2.2.1,
        fmadd_ps (and_ps (Avx2.Tail (K - K / 8 * 8)) (Load false S0 (subSizeT K 8)))
          (and_ps (Avx2.Tail (K - K / 8 * 8))
            (Load false (fun x => W (3 * K + x)) (subSizeT K 8 + 0 * Avx2.F))) d.2.2.2))
    ?_ ?_ ?_ ?_ ?_ ?_
  · exact ⟨key 0, key 1, key 2, key 3⟩
  · intro n k d
    have hf : Avx2.F = 8 := rfl
    have hq : 2 * Avx2.F = 16 := rfl
    fin_cases n
    · have hsplit := sum_Ico_pair (fun x => S0 x * W (0 * K + x)) k Avx2.F
      rw [hq] at hsplit
      simp only [ExtractSum_fmadd]
      show _ = _ + ∑ x in Finset.Ico k (k + 16), S0 x * W (0 * K + x)
      rw [hsplit, hf]
      ring
    · have hsplit := sum_Ico_pair (fun x => S0 x * W (1 * K + x)) k Avx2.F
      rw [hq] at hsplit
      simp only [ExtractSum_fmadd]
      show _ = _ + ∑ x in Finset.Ico k (k + 16), S0 x * W (1 * K + x)
      rw [hsplit, hf]
      ring
    · have hsplit := sum_Ico_pair (fun x => S0 x * W (2 * K + x)) k Avx2.F
      rw [hq] at hsplit
      simp only [ExtractSum_fmadd]
      show _ = _ + ∑ x in Finset.Ico k (k + 16), S0 x * W (2 * K + x)
      rw [hsplit, hf]
      ring
    · have hsplit := sum_Ico_pair (fun x => S0 x * W (3 * K + x)) k Avx2.F
      rw [hq] at hsplit
      simp only [ExtractSum_fmadd]
      show _ = _ + ∑ x in Finset.Ico k (k + 16), S0 x * W (3 * K + x)
      rw [hsplit, hf]
      ring
  · intro n
    fin_cases n <;> simp [ExtractSum_zero]
  · intro n d
    fin_cases n <;> simp only [ExtractSum_add]
  · intro n
    fin_cases n <;> exact ExtractSum_zero _
  · intro n k d
    have hk : k + 0 * Avx2.F = k := by simp
    fin_cases n <;> simp only [ExtractSum_fmadd, hk]
  · intro hlt n d
    have hk : subSizeT K 8 + 0 * Avx2.F = subSizeT K 8 := by simp
    fin_cases n
    · simp only [hk]
      exact avx2_ExtractSum_tail S0 (fun x => W (0 * K + x)) d.1 K hK hlt
    · simp only [hk]
      exact avx2_ExtractSum_tail S0 (fun x => W (1 * K + x)) d.2.1 K hK hlt
    · simp only [hk]
      exact avx2_ExtractSum_tail S0 (fun x => W (2 * K + x)) d.2.2.1 K hK hlt
    · simp only [hk]
      exact avx2_ExtractSum_tail S0 (fun x => W (3 * K + x)) d.2.2.2 K hK hlt

/-- A loop whose iterations each log the stores `[j, j + step)` logs `[j0, hi)` in order. -/
theorem forLoop_writes {α : Type} (step hi : Nat) (body : Nat → Buf α → Buf α)
    (hstep : 0 < step)
    (hb : ∀ j d, (body j d).writes = d.writes ++ List.range' j step)
    (j0 : Nat) (d0 : Buf α) (hj0 : j0 ≤ hi) (hdvd : step ∣ hi - j0) (fuel : Nat)
    (hfuel : hi ≤ j0 + fuel) :
    (forLoop step hi body fuel j0 d0).2.writes = d0.writes ++ List.range' j0 (hi - j0) := by
  refine (forLoop_stride step hi body
    (fun j d => d.writes = d0.writes ++ List.range' j0 (j - j0)) hstep j0 d0 ?_ hj0 hdvd ?_
    fuel hfuel).2
  · simp
  · intro j d h1 _ h3
    show (body j d).writes = _
    rw [hb, h3, List.append_assoc]
    congr 1
    have e1 : j = j0 + (j - j0) := by omega
    have e2 : j + step - j0 = step + (j - j0) := by omega
    rw [e2]
    conv_lhs => rw [e1]
    rw [Nat.add_sub_cancel_left]
    exact List.range'_append_1 j0 (j - j0) step

theorem avx2_innerProduct1_spec {α : Type} [CommRing α]
    (S0 W B : Nat → α) (K : Nat) (dst : Buf α) (dOff : Nat) (hK : 8 ≤ K) :
    (∀ x, (Avx2.SynetInnerProductLayerForward1 S0 W B K dst dOff).data x =
        if dOff ≤ x ∧ x < dOff + 1 then (∑ k in Finset.range K, S0 k * W k) + B 0
        else dst.data x) ∧
      (Avx2.SynetInnerProductLayerForward1 S0 W B K dst dOff).writes =
        dst.writes ++ List.range' dOff 1 := by
  unfold Avx2.SynetInnerProductLayerForward1
  rw [avx2_innerProduct1Sum_spec S0 W K hK]
  refine ⟨?_, rfl⟩
  intro x
  show (if x = dOff + 0 then _ else _) = _
  by_cases c : x = dOff
  · rw [if_pos (by omega), if_pos (by omega)]
  · rw [if_neg (by omega), if_neg (by omega)]

theorem avx2_innerProduct4_spec {α : Type} [CommRing α]
    (S0 W B : Nat → α) (K : Nat) (dst : Buf α) (dOff : Nat) (hK : 8 ≤ K) :
    (∀ x, (Avx2.SynetInnerProductLayerForward4 S0 W B K dst dOff).data x =
        if dOff ≤ x ∧ x < dOff + 4 then
          (∑ k in Finset.range K, S0 k * W ((x - dOff) * K + k)) + B (x - dOff)
        else dst.data x) ∧
      (Avx2.SynetInnerProductLayerForward4 S0 W B K dst dOff).writes =
        dst.writes ++ List.range' dOff 4 := by
  obtain ⟨h0, h1, h2, h3⟩ := avx2_innerProduct4Sums_spec S0 W K hK
  unfold Avx2.SynetInnerProductLayerForward4
  refine ⟨?_, rfl⟩
  intro x
  show (if dOff ≤ x ∧ x < dOff + 4 then _ else _) = _
  by_cases c : dOff ≤ x ∧ x < dOff + 4
  · rw [if_pos c, if_pos c]
    obtain ⟨n, hn⟩ : ∃ n, n = x - dOff := ⟨_, rfl⟩
    rw [← hn]
    have hn4 : n < 4 := by omega
    show Extract4Sums _ _ _ _ n + B (0 + n) = _
    rw [Nat.zero_add]
    congr 1
    interval_cases n
    · exact h0
    · exact h1
    · exact h2
    · exact h3
  · rw [if_neg c, if_neg c]

/-- The AVX2 dense projection for `size ≥ 8`: every `dst[x]` with `x < count` receives the
dot product of row `x` plus the (optional) bias, and the stores are exactly
`0, 1, …, count - 1`, in this order. -/
theorem avx2_innerProduct_spec {α : Type} [CommRing α]
    (pSrc pWeight pDst : Nat) (src weight : Nat → α) (bias : Option (Nat → α))
    (count size : Nat) (dst : Buf α) (hs : 8 ≤ size) :
    (∀ x, (Avx2.SynetInnerProductLayerForward pSrc pWeight pDst src weight bias count size
          dst).data x =
        if x < count then
          (∑ k in Finset.range size, src k * weight (x * size + k)) + biasAt bias x
        else dst.data x) ∧
      (Avx2.SynetInnerProductLayerForward pSrc pWeight pDst src weight bias count size
          dst).writes = dst.writes ++ List.range count := by
  have hF : ¬ size < Avx2.F := by
    show ¬ size < 8
    omega
  unfold Avx2.SynetInnerProductLayerForward
  rw [if_neg hF]
  simp only []
  have hbias : ∀ i y, biasPtr bias i (fun _ => (0 : α)) y = biasAt bias (i + y) := by
    intro i y
    cases bias <;> rfl
  have hp4 : Pointwise 4
      (fun x (_ : α) =>
        (∑ k in Finset.range size, src k * weight (x * size + k)) + biasAt bias x)
      (fun i dst => Avx2.SynetInnerProductLayerForward4 src (fun x => weight (i * size + x))
        (biasPtr bias i (fun _ => 0)) size dst i) := by
    intro i d x
    rw [(avx2_innerProduct4_spec src _ _ size d i hs).1 x]
    by_cases c : i ≤ x ∧ x < i + 4
    · rw [if_pos c, if_pos c, hbias]
      have e : i + (x - i) = x := by omega
      rw [e]
      congr 1
      apply Finset.sum_congr rfl
      intro k _
      have e2 : i * size + ((x - i) * size + k) = x * size + k := by
        rw [← Nat.add_assoc, ← Nat.add_mul, e]
      rw [e2]
    · rw [if_neg c, if_neg c]
  have hp1 : Pointwise 1
      (fun x (_ : α) =>
        (∑ k in Finset.range size, src k * weight (x * size + k)) + biasAt bias x)
      (fun i dst => Avx2.SynetInnerProductLayerForward1 src (fun x => weight (i * size + x))
        (biasPtr bias i (fun _ => 0)) size dst i) := by
    intro i d x
    rw [(avx2_innerProduct1_spec src _ _ size d i hs).1 x]
    by_cases c : i ≤ x ∧ x < i + 1
    · rw [if_pos c, if_pos c, hbias]
      have e : x = i := by omega
      subst e
      rfl
    · rw [if_neg c, if_neg c]
  have hA := forLoop_pointwise 4 (AlignLo count 4) _ _ (by norm_num) hp4 0 dst
    (Nat.zero_le _) (by simpa using AlignLo_dvd count 4) (AlignLo count 4) (by omega)
  have hAw := forLoop_writes 4 (AlignLo count 4) _ (by norm_num)
    (fun i d => (avx2_innerProduct4_spec src
      (fun x => weight (i * size + x))
      (biasPtr bias i (fun _ => 0)) size d i hs).2) 0 dst
    (Nat.zero_le _) (by simpa using AlignLo_dvd count 4) (AlignLo count 4) (by omega)
  obtain ⟨hA1, hA2⟩ := hA
  obtain ⟨R, hR⟩ : ∃ R, R = forLoop 4 (AlignLo count 4) (fun i dst =>
      Avx2.SynetInnerProductLayerForward4 src (fun x => weight (i * size + x))
        (biasPtr bias i (fun _ => 0)) size dst i) (AlignLo count 4) 0 dst := ⟨_, rfl⟩
  rw [← hR] at hA1 hA2 hAw ⊢
  rw [hA1]
  have hle := AlignLo_le count 4
  have hB := forLoop_pointwise 1 count _ _ (by norm_num) hp1 (AlignLo count 4) R.2 hle
    (one_dvd _) count (by omega)
  have hBw := forLoop_writes 1 count _ (by norm_num)
    (fun i d => (avx2_innerProduct1_spec src
      (fun x => weight (i * size + x))
      (biasPtr bias i (fun _ => 0)) size d i hs).2) (AlignLo count 4) R.2 hle
    (one_dvd _) count (by omega)
  refine ⟨?_, ?_⟩
  · intro x
    rw [hB.2 x, hA2 x]
    by_cases c1 : x < AlignLo count 4
    · rw [if_neg (by omega), if_pos (by omega), if_pos (by omega)]
    · by_cases c2 : x < count
      · rw [if_pos (by omega), if_pos c2]
      · rw [if_neg (by omega), if_neg (by omega), if_neg c2]
  · rw [hBw, hAw, List.append_assoc, Nat.sub_zero]
    congr 1
    have e := List.range'_append_1 0 (AlignLo count 4) (count - AlignLo count 4)
    rw [Nat.zero_add] at e
    rw [e, List.range_eq_range']
    congr 1
    omega

theorem sse41_innerProduct_spec {α : Type} [CommRing α]
    (pSrc pWeight pDst : Nat) (src weight : Nat → α) (bias : Option (Nat → α))
    (count size : Nat) (dst : Buf α) :
    (∀ x, (Sse41.SynetInnerProductLayerForward pSrc pWeight pDst src weight bias count size
          dst).data x =
        if x < count then
          (∑ k in Finset.range size, src k * weight (x * size + k)) + biasAt bias x
        else dst.data x) ∧
      (Sse41.SynetInnerProductLayerForward pSrc pWeight pDst src weight bias count size
          dst).writes = dst.writes ++ List.range count := by
  unfold Sse41.SynetInnerProductLayerForward
  split
  · exact sse41_innerProductA_spec true src weight bias count size dst
  · exact sse41_innerProductA_spec false src weight bias count size dst

/-- The AVX2 dense projection for every `size`, the SSE4.1 fallback included. -/
theorem avx2_innerProduct_spec_all {α : Type} [CommRing α]
    (pSrc pWeight pDst : Nat) (src weight : Nat → α) (bias : Option (Nat → α))
    (count size : Nat) (dst : Buf α) :
    (∀ x, (Avx2.SynetInnerProductLayerForward pSrc pWeight pDst src weight bias count size
          dst).data x =
        if x < count then
          (∑ k in Finset.range size, src k * weight (x * size + k)) + biasAt bias x
        else dst.data x) ∧
      (Avx2.SynetInnerProductLayerForward pSrc pWeight pDst src weight bias count size
          dst).writes = dst.writes ++ List.range count := by
  by_cases hs : size < Avx2.F
  · unfold Avx2.SynetInnerProductLayerForward
    rw [if_pos hs]
    exact sse41_innerProduct_spec pSrc pWeight pDst src weight bias count
      size dst
  · exact avx2_innerProduct_spec pSrc pWeight pDst src weight bias count
      size dst (Nat.le_of_not_lt hs)

/-- The masked tail load of the AVX2 kernels: lane `l` of the load at offset `size - 8`
survives the mask `Tail(size - K8)` exactly when its address lies in
`[size - size mod 8, size)`. -/
theorem avx2_tail_load_lane {α : Type} [CommRing α] (p : Nat → α) (size l : Nat)
    (hs : 8 ≤ size) (hl : l < 8) :
    and_ps (Avx2.Tail (size - size / 8 * 8)) (Load false p (size - 8)) l =
      if size - size % 8 ≤ size - 8 + l then p (size - 8 + l) else 0 := by
  have h1 := Nat.div_add_mod size 8
  have h2 := Nat.mod_lt size (by norm_num : 8 > 0)
  have e : size - size / 8 * 8 = size % 8 := by omega
  rw [e]
  unfold and_ps
  rw [avx2_Tail_lane (size % 8) l (by omega) hl]
  by_cases c : 8 ≤ size % 8 + l
  · rw [if_pos c, if_pos rfl, if_pos (by omega)]
    rfl
  · rw [if_neg c, if_neg (by decide), if_neg (by omega)]

/-- C4. AVX2 float dense projection with `size ≥ 8`: for every `count` and `i < count`,
`dst[i] = bias[i] + Σ_{k < size} src[k] * weight[i * size + k]` in exact arithmetic; the
masked tail load at offset `size - 8` keeps exactly the lanes whose index lies in
`[size - size mod 8, size)`; and the stores to `dst` are exactly `0, 1, …, count - 1`, each
once, by the four-row tile or the one-row kernel. -/
theorem C4_avx2_dense_projection {α : Type} [CommRing α] (pSrc pWeight pDst : Nat)
    (src weight bias : Nat → α) (count size : Nat) (dst : Buf α) (hs : 8 ≤ size)
    (i : Nat) (hi : i < count) :
    (Avx2.SynetInnerProductLayerForward pSrc pWeight pDst src weight (some bias) count size
        dst).data i = bias i + ∑ k in Finset.range size, src k * weight (i * size + k) ∧
      (∀ (p : Nat → α) (l : Nat), l < 8 →
        and_ps (Avx2.Tail (size - size / 8 * 8)) (Load false p (size - 8)) l =
          if size - size % 8 ≤ size - 8 + l then p (size - 8 + l) else 0) ∧
      (Avx2.SynetInnerProductLayerForward pSrc pWeight pDst src weight (some bias) count size
        dst).writes = dst.writes ++ List.range count := by
  obtain ⟨h1, h2⟩ := avx2_innerProduct_spec pSrc pWeight pDst src weight
    (some bias) count size dst hs
  refine ⟨?_, fun p l hl => avx2_tail_load_lane p size l hs hl, h2⟩
  rw [h1 i, if_pos hi, add_comm]
  rfl

/-- C4, instance: six rows (one four-row tile and two single rows) of thirteen elements
(one full vector and a masked tail of five), row 5. -/
theorem C4_avx2_dense_projection_witness :
    8 ≤ 13 ∧ 5 < 6 ∧
      ((Avx2.SynetInnerProductLayerForward 0 0 0 rampWeight quadWeight (some rampBias) 6 13
          (Buf.ofFn zeroVec)).data 5 =
        rampBias 5 + ∑ k in Finset.range 13, rampWeight k * quadWeight (5 * 13 + k) ∧
      (∀ (p : Nat → ℚ) (l : Nat), l < 8 →
        and_ps (Avx2.Tail (13 - 13 / 8 * 8)) (Load false p (13 - 8)) l =
          if 13 - 13 % 8 ≤ 13 - 8 + l then p (13 - 8 + l) else 0) ∧
      (Avx2.SynetInnerProductLayerForward 0 0 0 rampWeight quadWeight (some rampBias) 6 13
          (Buf.ofFn zeroVec)).writes = (Buf.ofFn zeroVec).writes ++ List.range 6) :=
  ⟨by norm_num, by norm_num,
    C4_avx2_dense_projection 0 0 0 rampWeight quadWeight rampBias 6 13 (Buf.ofFn zeroVec)
      (by norm_num) 5 (by norm_num)⟩

/-- C5. SSE4.1 float dense projection: for every `count`, every `size` (below four, or not a
multiple of 4 or 16, included) and every `i < count`,
`dst[i] = bias[i] + Σ_{k < size} src[k] * weight[i * size + k]` in exact arithmetic, whatever
the alignment of the buffers. -/
theorem C5_sse41_dense_projection {α : Type} [CommRing α] (pSrc pWeight pDst : Nat)
    (src weight bias : Nat → α) (count size : Nat) (dst : Buf α)
    (i : Nat) (hi : i < count) :
    (Sse41.SynetInnerProductLayerForward pSrc pWeight pDst src weight (some bias) count size
        dst).data i = bias i + ∑ k in Finset.range size, src k * weight (i * size + k) := by
  rw [(sse41_innerProduct_spec pSrc pWeight pDst src weight (some bias)
    count size dst).1 i, if_pos hi, add_comm]
  rfl

/-- C5, instance: three rows of seven elements (one vector and a scalar remainder of
three), row 2, unaligned buffers. -/
theorem C5_sse41_dense_projection_witness :
    2 < 3 ∧
      (Sse41.SynetInnerProductLayerForward 4 0 0 rampWeight quadWeight (some rampBias) 3 7
          (Buf.ofFn zeroVec)).data 2 =
        rampBias 2 + ∑ k in Finset.range 7, rampWeight k * quadWeight (2 * 7 + k) :=
  ⟨by norm_num,
    C5_sse41_dense_projection 4 0 0 rampWeight quadWeight rampBias 3 7 (Buf.ofFn zeroVec) 2
      (by norm_num)⟩

/-- C6. Absent bias: in both tiers, for every `count` and `size`, a null bias pointer gives
`dst[i] = Σ_{k < size} src[k] * weight[i * size + k]` for `i < count`, and the output buffer
(contents and store log) is the one obtained with an explicit bias vector that is zero on
`[0, count)`. -/
theorem C6_absent_bias {α : Type} [CommRing α] (pSrc pWeight pDst : Nat)
    (src weight zero : Nat → α) (count size : Nat) (dst : Buf α)
    (hz : ∀ i, i < count → zero i = 0) (i : Nat) (hi : i < count) :
    ((Sse41.SynetInnerProductLayerForward pSrc pWeight pDst src weight none count size
          dst).data i = ∑ k in Finset.range size, src k * weight (i * size + k) ∧
      (Avx2.SynetInnerProductLayerForward pSrc pWeight pDst src weight none count size
          dst).data i = ∑ k in Finset.range size, src k * weight (i * size + k)) ∧
      ((∀ x, (Sse41.SynetInnerProductLayerForward pSrc pWeight pDst src weight none count size
            dst).data x =
          (Sse41.SynetInnerProductLayerForward pSrc pWeight pDst src weight (some zero) count
            size dst).data x) ∧
        (Sse41.SynetInnerProductLayerForward pSrc pWeight pDst src weight none count size
            dst).writes =
          (Sse41.SynetInnerProductLayerForward pSrc pWeight pDst src weight (some zero) count
            size dst).writes) ∧
      ((∀ x, (Avx2.SynetInnerProductLayerForward pSrc pWeight pDst src weight none count size
            dst).data x =
          (Avx2.SynetInnerProductLayerForward pSrc pWeight pDst src weight (some zero) count
            size dst).data x) ∧
        (Avx2.SynetInnerProductLayerForward pSrc pWeight pDst src weight none count size
            dst).writes =
          (Avx2.SynetInnerProductLayerForward pSrc pWeight pDst src weight (some zero) count
            size dst).writes) := by
  obtain ⟨s1, s2⟩ := sse41_innerProduct_spec pSrc pWeight pDst src weight
    none count size dst
  obtain ⟨s3, s4⟩ := sse41_innerProduct_spec pSrc pWeight pDst src weight
    (some zero) count size dst
  obtain ⟨a1, a2⟩ := avx2_innerProduct_spec_all pSrc pWeight pDst src weight
    none count size dst
  obtain ⟨a3, a4⟩ := avx2_innerProduct_spec_all pSrc pWeight pDst src weight
    (some zero) count size dst
  have hb : ∀ x, x < count → biasAt (some zero) x = biasAt (none : Option (Nat → α)) x :=
    fun x hx => hz x hx
  have hn : ∀ x, biasAt (none : Option (Nat → α)) x = 0 := fun _ => rfl
  refine ⟨⟨?_, ?_⟩, ⟨?_, ?_⟩, ⟨?_, ?_⟩⟩
  · rw [s1 i, if_pos hi, hn, add_zero]
  · rw [a1 i, if_pos hi, hn, add_zero]
  · intro x
    rw [s1 x, s3 x]
    by_cases c : x < count
    · rw [if_pos c, if_pos c, hb x c]
    · rw [if_neg c, if_neg c]
  · rw [s2, s4]
  · intro x
    rw [a1 x, a3 x]
    by_cases c : x < count
    · rw [if_pos c, if_pos c, hb x c]
    · rw [if_neg c, if_neg c]
  · rw [a2, a4]

/-- C6, instance: six rows of thirteen elements (AVX2 kernels) with the all-zero vector as
the explicit bias, row 5. -/
theorem C6_absent_bias_witness :
    (∀ i, i < 6 → zeroVec i = 0) ∧ 5 < 6 ∧
    (((Sse41.SynetInnerProductLayerForward 0 0 0 rampWeight quadWeight none 6 13
          (Buf.ofFn zeroVec)).data 5 =
        ∑ k in Finset.range 13, rampWeight k * quadWeight (5 * 13 + k) ∧
      (Avx2.SynetInnerProductLayerForward 0 0 0 rampWeight quadWeight none 6 13
          (Buf.ofFn zeroVec)).data 5 =
        ∑ k in Finset.range 13, rampWeight k * quadWeight (5 * 13 + k)) ∧
      ((∀ x, (Sse41.SynetInnerProductLayerForward 0 0 0 rampWeight quadWeight none 6 13
            (Buf.ofFn zeroVec)).data x =
          (Sse41.SynetInnerProductLayerForward 0 0 0 rampWeight quadWeight (some zeroVec) 6
            13 (Buf.ofFn zeroVec)).data x) ∧
        (Sse41.SynetInnerProductLayerForward 0 0 0 rampWeight quadWeight none 6 13
            (Buf.ofFn zeroVec)).writes =
          (Sse41.SynetInnerProductLayerForward 0 0 0 rampWeight quadWeight (some zeroVec) 6
            13 (Buf.ofFn zeroVec)).writes) ∧
      ((∀ x, (Avx2.SynetInnerProductLayerForward 0 0 0 rampWeight quadWeight none 6 13
            (Buf.ofFn zeroVec)).data x =
          (Avx2.SynetInnerProductLayerForward 0 0 0 rampWeight quadWeight (some zeroVec) 6
            13 (Buf.ofFn zeroVec)).data x) ∧
        (Avx2.SynetInnerProductLayerForward 0 0 0 rampWeight quadWeight none 6 13
            (Buf.ofFn zeroVec)).writes =
          (Avx2.SynetInnerProductLayerForward 0 0 0 rampWeight quadWeight (some zeroVec) 6
            13 (Buf.ofFn zeroVec)).writes)) :=
  ⟨fun _ _ => rfl, by norm_num,
    C6_absent_bias 0 0 0 rampWeight quadWeight zeroVec 6 13 (Buf.ofFn zeroVec)
      (fun _ _ => rfl) 5 (by norm_num)⟩

/-! ## Quantized dense projection -/

/-- Projecting the state of a loop commutes with running it, when it commutes with one
iteration. -/
theorem forLoop_proj {σ τ : Type} (π : σ → τ) (step hi : Nat) (body : Nat → σ → σ)
    (body2 : Nat → τ → τ) (h : ∀ k d, π (body k d) = body2 k (π d)) :
    ∀ (fuel j : Nat) (d : σ),
      (forLoop step hi body fuel j d).1 = (forLoop step hi body2 fuel j (π d)).1 ∧
        π (forLoop step hi body fuel j d).2 = (forLoop step hi body2 fuel j (π d)).2 := by
  intro fuel
  induction fuel with
  | zero =>
    intro j d
    exact ⟨rfl, rfl⟩
  | succ n ih =>
    intro j d
    by_cases hj : j < hi
    · have e1 : forLoop step hi body (n + 1) j d = forLoop step hi body n (j + step) (body j d) := by
        simp [forLoop, hj]
      have e2 : forLoop step hi body2 (n + 1) j (π d) =
          forLoop step hi body2 n (j + step) (body2 j (π d)) := by
        simp [forLoop, hj]
      rw [e1, e2, ← h]
      exact ih (j + step) (body j d)
    · have e1 : forLoop step hi body (n + 1) j d = (j, d) := by
        simp [forLoop, hj]
      have e2 : forLoop step hi body2 (n + 1) j (π d) = (j, π d) := by
        simp [forLoop, hj]
      rw [e1, e2]
      exact ⟨rfl, rfl⟩

theorem avx2_acc1x1_eq (ov : Bool) (K : Nat) (S : Nat → Int) (lds : Nat)
    (W : Nat → Int) (ldw : Nat) :
    (Avx2.SynetInnerProduct8i1x1Acc ov K S lds W ldw) =
        dotAcc ov K (fun x => S (0 * lds + x)) (fun x => W (0 * ldw + x)) := by
  unfold Avx2.SynetInnerProduct8i1x1Acc dotAcc
  rfl

theorem avx2_acc1x4_eq (ov : Bool) (K : Nat) (S : Nat → Int) (lds : Nat)
    (W : Nat → Int) (ldw : Nat) :
    (Avx2.SynetInnerProduct8i1x4Acc ov K S lds W ldw).1 =
        dotAcc ov K (fun x => S (0 * lds + x)) (fun x => W (0 * ldw + x)) ∧
      (Avx2.SynetInnerProduct8i1x4Acc ov K S lds W ldw).2.1 =
        dotAcc ov K (fun x => S (0 * lds + x)) (fun x => W (1 * ldw + x)) ∧
      (Avx2.SynetInnerProduct8i1x4Acc ov K S lds W ldw).2.2.1 =
        dotAcc ov K (fun x => S (0 * lds + x)) (fun x => W (2 * ldw + x)) ∧
      (Avx2.SynetInnerProduct8i1x4Acc ov K S lds W ldw).2.2.2 =
        dotAcc ov K (fun x => S (0 * lds + x)) (fun x => W (3 * ldw + x)) := by
  unfold Avx2.SynetInnerProduct8i1x4Acc dotAcc
  simp only []
  by_cases h : AlignLo K Avx2.A < K
  · simp only [if_pos h]
    refine ⟨?_, ?_, ?_, ?_⟩
    · refine congrArg (fun d => Madd4 ov d
        (Avx2.LoadTail (fun x => S (0 * lds + (AlignLo K Avx2.A + x))) (K - AlignLo K Avx2.A))
        (Avx2.LoadTail (fun x => W (0 * ldw + (AlignLo K Avx2.A + x))) (K - AlignLo K Avx2.A))) ?_
      refine (forLoop_proj (fun (d : (Nat → Int) × (Nat → Int) × (Nat → Int) × (Nat → Int)) => d.1) _ _ _ _ ?_ _ _ _).2
      intro _ _
      rfl
    · refine congrArg (fun d => Madd4 ov d
        (Avx2.LoadTail (fun x => S (0 * lds + (AlignLo K Avx2.A + x))) (K - AlignLo K Avx2.A))
        (Avx2.LoadTail (fun x => W (1 * ldw + (AlignLo K Avx2.A + x))) (K - AlignLo K Avx2.A))) ?_
      refine (forLoop_proj (fun (d : (Nat → Int) × (Nat → Int) × (Nat → Int) × (Nat → Int)) => d.2.1) _ _ _ _ ?_ _ _ _).2
      intro _ _
      rfl
    · refine congrArg (fun d => Madd4 ov d
        (Avx2.LoadTail (fun x => S (0 * lds + (AlignLo K Avx2.A + x))) (K - AlignLo K Avx2.A))
        (Avx2.LoadTail (fun x => W (2 * ldw + (AlignLo K Avx2.A + x))) (K - AlignLo K Avx2.A))) ?_
      refine (forLoop_proj (fun (d : (Nat → Int) × (Nat → Int) × (Nat → Int) × (Nat → Int)) => d.2.2.1) _ _ _ _ ?_ _ _ _).2
      intro _ _
      rfl
    · refine congrArg (fun d => Madd4 ov d
        (Avx2.LoadTail (fun x => S (0 * lds + (AlignLo K Avx2.A + x))) (K - AlignLo K Avx2.A))
        (Avx2.LoadTail (fun x => W (3 * ldw + (AlignLo K Avx2.A + x))) (K - AlignLo K Avx2.A))) ?_
      refine (forLoop_proj (fun (d : (Nat → Int) × (Nat → Int) × (Nat → Int) × (Nat → Int)) => d.2.2.2) _ _ _ _ ?_ _ _ _).2
      intro _ _
      rfl
  · simp only [if_neg h]
    refine ⟨?_, ?_, ?_, ?_⟩
    · refine (forLoop_proj (fun (d : (Nat → Int) × (Nat → Int) × (Nat → Int) × (Nat → Int)) => d.1) _ _ _ _ ?_ _ _ _).2
      intro _ _
      rfl
    · refine (forLoop_proj (fun (d : (Nat → Int) × (Nat → Int) × (Nat → Int) × (Nat → Int)) => d.2.1) _ _ _ _ ?_ _ _ _).2
      intro _ _
      rfl
    · refine (forLoop_proj (fun (d : (Nat → Int) × (Nat → Int) × (Nat → Int) × (Nat → Int)) => d.2.2.1) _ _ _ _ ?_ _ _ _).2
      intro _ _
      rfl
    · refine (forLoop_proj (fun (d : (Nat → Int) × (Nat → Int) × (Nat → Int) × (Nat → Int)) => d.2.2.2) _ _ _ _ ?_ _ _ _).2
      intro _ _
      rfl

theorem avx2_acc2x1_eq (ov : Bool) (K : Nat) (S : Nat → Int) (lds : Nat)
    (W : Nat → Int) (ldw : Nat) :
    (Avx2.SynetInnerProduct8i2x1Acc ov K S lds W ldw).1 =
        dotAcc ov K (fun x => S (0 * lds + x)) (fun x => W (0 * ldw + x)) ∧
      (Avx2.SynetInnerProduct8i2x1Acc ov K S lds W ldw).2 =
        dotAcc ov K (fun x => S (1 * lds + x)) (fun x => W (0 * ldw + x)) := by
  unfold Avx2.SynetInnerProduct8i2x1Acc dotAcc
  simp only []
  by_cases h : AlignLo K Avx2.A < K
  · simp only [if_pos h]
    refine ⟨?_, ?_⟩
    · refine congrArg (fun d => Madd4 ov d
        (Avx2.LoadTail (fun x => S (0 * lds + (AlignLo K Avx2.A + x))) (K - AlignLo K Avx2.A))
        (Avx2.LoadTail (fun x => W (0 * ldw + (AlignLo K Avx2.A + x))) (K - AlignLo K Avx2.A))) ?_
      refine (forLoop_proj (fun (d : (Nat → Int) × (Nat → Int)) => d.1) _ _ _ _ ?_ _ _ _).2
      intro _ _
      rfl
    · refine congrArg (fun d => Madd4 ov d
        (Avx2.LoadTail (fun x => S (1 * lds + (AlignLo K Avx2.A + x))) (K - AlignLo K Avx2.A))
        (Avx2.LoadTail (fun x => W (0 * ldw + (AlignLo K Avx2.A + x))) (K - AlignLo K Avx2.A))) ?_
      refine (forLoop_proj (fun (d : (Nat → Int) × (Nat → Int)) => d.2) _ _ _ _ ?_ _ _ _).2
      intro _ _
      rfl
  · simp only [if_neg h]
    refine ⟨?_, ?_⟩
    · refine (forLoop_proj (fun (d : (Nat → Int) × (Nat → Int)) => d.1) _ _ _ _ ?_ _ _ _).2
      intro _ _
      rfl
    · refine (forLoop_proj (fun (d : (Nat → Int) × (Nat → Int)) => d.2) _ _ _ _ ?_ _ _ _).2
      intro _ _
      rfl

theorem avx2_acc2x4_eq (ov : Bool) (K : Nat) (S : Nat → Int) (lds : Nat)
    (W : Nat → Int) (ldw : Nat) :
    (Avx2.SynetInnerProduct8i2x4Acc ov K S lds W ldw).1.1 =
        dotAcc ov K (fun x => S (0 * lds + x)) (fun x => W (0 * ldw + x)) ∧
      (Avx2.SynetInnerProduct8i2x4Acc ov K S lds W ldw).1.2.1 =
        dotAcc ov K (fun x => S (0 * lds + x)) (fun x => W (1 * ldw + x)) ∧
      (Avx2.SynetInnerProduct8i2x4Acc ov K S lds W ldw).1.2.2.1 =
        dotAcc ov K (fun x => S (0 * lds + x)) (fun x => W (2 * ldw + x)) ∧
      (Avx2.SynetInnerProduct8i2x4Acc ov K S lds W ldw).1.2.2.2 =
        dotAcc ov K (fun x => S (0 * lds + x)) (fun x => W (3 * ldw + x)) ∧
      (Avx2.SynetInnerProduct8i2x4Acc ov K S lds W ldw).2.1 =
        dotAcc ov K (fun x => S (1 * lds + x)) (fun x => W (0 * ldw + x)) ∧
      (Avx2.SynetInnerProduct8i2x4Acc ov K S lds W ldw).2.2.1 =
        dotAcc ov K (fun x => S (1 * lds + x)) (fun x => W (1 * ldw + x)) ∧
      (Avx2.SynetInnerProduct8i2x4Acc ov K S lds W ldw).2.2.2.1 =
        dotAcc ov K (fun x => S (1 * lds + x)) (fun x => W (2 * ldw + x)) ∧
      (Avx2.SynetInnerProduct8i2x4Acc ov K S lds W ldw).2.2.2.2 =
        dotAcc ov K (fun x => S (1 * lds + x)) (fun x => W (3 * ldw + x)) := by
  unfold Avx2.SynetInnerProduct8i2x4Acc dotAcc
  simp only []
  by_cases h : AlignLo K Avx2.A < K
  · simp only [if_pos h]
    refine ⟨?_, ?_, ?_, ?_, ?_, ?_, ?_, ?_⟩
    · refine congrArg (fun d => Madd4 ov d
        (Avx2.LoadTail (fun x => S (0 * lds + (AlignLo K Avx2.A + x))) (K - AlignLo K Avx2.A))
        (Avx2.LoadTail (fun x => W (0 * ldw + (AlignLo K Avx2.A + x))) (K - AlignLo K Avx2.A))) ?_
      refine (forLoop_proj (fun (d : ((Nat → Int) × (Nat → Int) × (Nat → Int) × (Nat → Int)) × ((Nat → Int) × (Nat → Int) × (Nat → Int) × (Nat → Int))) => d.1.1) _ _ _ _ ?_ _ _ _).2
      intro _ _
      rfl
    · refine congrArg (fun d => Madd4 ov d
        (Avx2.LoadTail (fun x => S (0 * lds + (AlignLo K Avx2.A + x))) (K - AlignLo K Avx2.A))
        (Avx2.LoadTail (fun x => W (1 * ldw + (AlignLo K Avx2.A + x))) (K - AlignLo K Avx2.A))) ?_
      refine (forLoop_proj (fun (d : ((Nat → Int) × (Nat → Int) × (Nat → Int) × (Nat → Int)) × ((Nat → Int) × (Nat → Int) × (Nat → Int) × (Nat → Int))) => d.1.2.1) _ _ _ _ ?_ _ _ _).2
      intro _ _
      rfl
    · refine congrArg (fun d => Madd4 ov d
        (Avx2.LoadTail (fun x => S (0 * lds + (AlignLo K Avx2.A + x))) (K - AlignLo K Avx2.A))
        (Avx2.LoadTail (fun x => W (2 * ldw + (AlignLo K Avx2.A + x))) (K - AlignLo K Avx2.A))) ?_
      refine (forLoop_proj (fun (d : ((Nat → Int) × (Nat → Int) × (Nat → Int) × (Nat → Int)) × ((Nat → Int) × (Nat → Int) × (Nat → Int) × (Nat → Int))) => d.1.2.2.1) _ _ _ _ ?_ _ _ _).2
      intro _ _
      rfl
    · refine congrArg (fun d => Madd4 ov d
        (Avx2.LoadTail (fun x => S (0 * lds + (AlignLo K Avx2.A + x))) (K - AlignLo K Avx2.A))
        (Avx2.LoadTail (fun x => W (3 * ldw + (AlignLo K Avx2.A + x))) (K - AlignLo K Avx2.A))) ?_
      refine (forLoop_proj (fun (d : ((Nat → Int) × (Nat → Int) × (Nat → Int) × (Nat → Int)) × ((Nat → Int) × (Nat → Int) × (Nat → Int) × (Nat → Int))) => d.1.2.2.2) _ _ _ _ ?_ _ _ _).2
      intro _ _
      rfl
    · refine congrArg (fun d => Madd4 ov d
        (Avx2.LoadTail (fun x => S (1 * lds + (AlignLo K Avx2.A + x))) (K - AlignLo K Avx2.A))
        (Avx2.LoadTail (fun x => W (0 * ldw + (AlignLo K Avx2.A + x))) (K - AlignLo K Avx2.A))) ?_
      refine (forLoop_proj (fun (d : ((Nat → Int) × (Nat → Int) × (Nat → Int) × (Nat → Int)) × ((Nat → Int) × (Nat → Int) × (Nat → Int) × (Nat → Int))) => d.2.1) _ _ _ _ ?_ _ _ _).2
      intro _ _
      rfl
    · refine congrArg (fun d => Madd4 ov d
        (Avx2.LoadTail (fun x => S (1 * lds + (AlignLo K Avx2.A + x))) (K - AlignLo K Avx2.A))
        (Avx2.LoadTail (fun x => W (1 * ldw + (AlignLo K Avx2.A + x))) (K - AlignLo K Avx2.A))) ?_
      refine (forLoop_proj (fun (d : ((Nat → Int) × (Nat → Int) × (Nat → Int) × (Nat → Int)) × ((Nat → Int) × (Nat → Int) × (Nat → Int) × (Nat → Int))) => d.2.2.1) _ _ _ _ ?_ _ _ _).2
      intro _ _
      rfl
    · refine congrArg (fun d => Madd4 ov d
        (Avx2.LoadTail (fun x => S (1 * lds + (AlignLo K Avx2.A + x))) (K - AlignLo K Avx2.A))
        (Avx2.LoadTail (fun x => W (2 * ldw + (AlignLo K Avx2.A + x))) (K - AlignLo K Avx2.A))) ?_
      refine (forLoop_proj (fun (d : ((Nat → Int) × (Nat → Int) × (Nat → Int) × (Nat → Int)) × ((Nat → Int) × (Nat → Int) × (Nat → Int) × (Nat → Int))) => d.2.2.2.1) _ _ _ _ ?_ _ _ _).2
      intro _ _
      rfl
    · refine congrArg (fun d => Madd4 ov d
        (Avx2.LoadTail (fun x => S (1 * lds + (AlignLo K Avx2.A + x))) (K - AlignLo K Avx2.A))
        (Avx2.LoadTail (fun x => W (3 * ldw + (AlignLo K Avx2.A + x))) (K - AlignLo K Avx2.A))) ?_
      refine (forLoop_proj (fun (d : ((Nat → Int) × (Nat → Int) × (Nat → Int) × (Nat → Int)) × ((Nat → Int) × (Nat → Int) × (Nat → Int) × (Nat → Int))) => d.2.2.2.2) _ _ _ _ ?_ _ _ _).2
      intro _ _
      rfl
  · simp only [if_neg h]
    refine ⟨?_, ?_, ?_, ?_, ?_, ?_, ?_, ?_⟩
    · refine (forLoop_proj (fun (d : ((Nat → Int) × (Nat → Int) × (Nat → Int) × (Nat → Int)) × ((Nat → Int) × (Nat → Int) × (Nat → Int) × (Nat → Int))) => d.1.1) _ _ _ _ ?_ _ _ _).2
      intro _ _
      rfl
    · refine (forLoop_proj (fun (d : ((Nat → Int) × (Nat → Int) × (Nat → Int) × (Nat → Int)) × ((Nat → Int) × (Nat → Int) × (Nat → Int) × (Nat → Int))) => d.1.2.1) _ _ _ _ ?_ _ _ _).2
      intro _ _
      rfl
    · refine (forLoop_proj (fun (d : ((Nat → Int) × (Nat → Int) × (Nat → Int) × (Nat → Int)) × ((Nat → Int) × (Nat → Int) × (Nat → Int) × (Nat → Int))) => d.1.2.2.1) _ _ _ _ ?_ _ _ _).2
      intro _ _
      rfl
    · refine (forLoop_proj (fun (d : ((Nat → Int) × (Nat → Int) × (Nat → Int) × (Nat → Int)) × ((Nat → Int) × (Nat → Int) × (Nat → Int) × (Nat → Int))) => d.1.2.2.2) _ _ _ _ ?_ _ _ _).2
      intro _ _
      rfl
    · refine (forLoop_proj (fun (d : ((Nat → Int) × (Nat → Int) × (Nat → Int) × (Nat → Int)) × ((Nat → Int) × (Nat → Int) × (Nat → Int) × (Nat → Int))) => d.2.1) _ _ _ _ ?_ _ _ _).2
      intro _ _
      rfl
    · refine (forLoop_proj (fun (d : ((Nat → Int) × (Nat → Int) × (Nat → Int) × (Nat → Int)) × ((Nat → Int) × (Nat → Int) × (Nat → Int) × (Nat → Int))) => d.2.2.1) _ _ _ _ ?_ _ _ _).2
      intro _ _
      rfl
    · refine (forLoop_proj (fun (d : ((Nat → Int) × (Nat → Int) × (Nat → Int) × (Nat → Int)) × ((Nat → Int) × (Nat → Int) × (Nat → Int) × (Nat → Int))) => d.2.2.2.1) _ _ _ _ ?_ _ _ _).2
      intro _ _
      rfl
    · refine (forLoop_proj (fun (d : ((Nat → Int) × (Nat → Int) × (Nat → Int) × (Nat → Int)) × ((Nat → Int) × (Nat → Int) × (Nat → Int) × (Nat → Int))) => d.2.2.2.2) _ _ _ _ ?_ _ _ _).2
      intro _ _
      rfl

theorem wrap32_add_left (a b : Int) : wrap32 (wrap32 a + b) = wrap32 (a + b) := by
  unfold wrap32
  omega

theorem wrap32_add_right (a b : Int) : wrap32 (a + wrap32 b) = wrap32 (a + b) := by
  unfold wrap32
  omega

theorem wrap32_idem (a : Int) : wrap32 (wrap32 a) = wrap32 a := by
  unfold wrap32
  omega

theorem wrap32_of_range (a : Int) (h1 : -2 ^ 31 ≤ a) (h2 : a < 2 ^ 31) : wrap32 a = a := by
  unfold wrap32
  omega

theorem wrap32_cast (a : Int) : ((wrap32 a : Int) : ZMod (2 ^ 32)) = (a : ZMod (2 ^ 32)) := by
  have h : wrap32 a = a - 2 ^ 32 * ((a + 2 ^ 31) / 2 ^ 32) := by
    unfold wrap32
    omega
  have z : ((2 : ZMod (2 ^ 32)) ^ 32) = 0 := by
    have := ZMod.natCast_self (2 ^ 32)
    push_cast at this
    exact this
  rw [h, Int.cast_sub, Int.cast_mul, Int.cast_pow, Int.cast_ofNat, z, zero_mul, sub_zero]

theorem wrap32_eq_of_cast (a b : Int) (h : (a : ZMod (2 ^ 32)) = (b : ZMod (2 ^ 32))) :
    wrap32 a = wrap32 b := by
  have h2 := (ZMod.intCast_eq_intCast_iff a b (2 ^ 32)).mp h
  have h3 : a % 2 ^ 32 = b % 2 ^ 32 := by
    have := h2
    unfold Int.ModEq at this
    push_cast at this
    exact this
  unfold wrap32
  omega

/-- `Save4Sums` stores at `dOff + n` the 32-bit horizontal sum of its `n`-th argument. -/
theorem avx2_Save4Sums_spec (sum0 sum1 sum2 sum3 : Nat → Int) (dst : Buf Int) (dOff : Nat) :
    (Avx2.Save4Sums sum0 sum1 sum2 sum3 dst dOff).data (dOff + 0) = ExtractSum32 sum0 ∧
      (Avx2.Save4Sums sum0 sum1 sum2 sum3 dst dOff).data (dOff + 1) = ExtractSum32 sum1 ∧
      (Avx2.Save4Sums sum0 sum1 sum2 sum3 dst dOff).data (dOff + 2) = ExtractSum32 sum2 ∧
      (Avx2.Save4Sums sum0 sum1 sum2 sum3 dst dOff).data (dOff + 3) = ExtractSum32 sum3 ∧
      (∀ x, ¬ (dOff ≤ x ∧ x < dOff + 4) →
        (Avx2.Save4Sums sum0 sum1 sum2 sum3 dst dOff).data x = dst.data x) ∧
      (Avx2.Save4Sums sum0 sum1 sum2 sum3 dst dOff).writes =
        dst.writes ++ List.range' dOff 4 := by
  have hd : ∀ x, (Avx2.Save4Sums sum0 sum1 sum2 sum3 dst dOff).data x =
      if dOff ≤ x ∧ x < dOff + 4 then
        add_epi32
          (extractf128_si256 (hadd_epi32 (hadd_epi32 sum0 sum1) (hadd_epi32 sum2 sum3)) 0)
          (extractf128_si256 (hadd_epi32 (hadd_epi32 sum0 sum1) (hadd_epi32 sum2 sum3)) 1)
          (x - dOff)
      else dst.data x := fun _ => rfl
  refine ⟨?_, ?_, ?_, ?_, ?_, rfl⟩
  · rw [hd, if_pos (by omega)]
    have e : dOff + 0 - dOff = 0 := by omega
    rw [e]
    simp only [add_epi32, extractf128_si256, hadd_epi32, ExtractSum32, Finset.sum_range_succ,
      Finset.sum_range_zero]
    norm_num
    simp only [wrap32_add_left, wrap32_add_right]
    congr 1
    ring
  · rw [hd, if_pos (by omega)]
    have e : dOff + 1 - dOff = 1 := by omega
    rw [e]
    simp only [add_epi32, extractf128_si256, hadd_epi32, ExtractSum32, Finset.sum_range_succ,
      Finset.sum_range_zero]
    norm_num
    simp only [wrap32_add_left, wrap32_add_right]
    congr 1
    ring
  · rw [hd, if_pos (by omega)]
    have e : dOff + 2 - dOff = 2 := by omega
    rw [e]
    simp only [add_epi32, extractf128_si256, hadd_epi32, ExtractSum32, Finset.sum_range_succ,
      Finset.sum_range_zero]
    norm_num
    simp only [wrap32_add_left, wrap32_add_right]
    congr 1
    ring
  · rw [hd, if_pos (by omega)]
    have e : dOff + 3 - dOff = 3 := by omega
    rw [e]
    simp only [add_epi32, extractf128_si256, hadd_epi32, ExtractSum32, Finset.sum_range_succ,
      Finset.sum_range_zero]
    norm_num
    simp only [wrap32_add_left, wrap32_add_right]
    congr 1
    ring
  · intro x hx
    rw [hd, if_neg hx]

/-- `LoadTail` returns the first `tail` bytes followed by zeros. -/
theorem avx2_LoadTail_lane (ptr : Nat → Int) (tail b : Nat) :
    Avx2.LoadTail ptr tail b = if b < 32 ∧ b < tail then ptr b else 0 := by
  unfold Avx2.LoadTail
  have key := forLoop_one tail (fun i (buf : Nat → Int) => fun x => if x = i then ptr i else buf x)
    (fun i (buf : Nat → Int) => ∀ x, buf x = if x < i then ptr x else 0)
    0 setzero_si256 (fun x => by simp [setzero_si256]) (Nat.zero_le _)
    (fun j buf _ _ ih x => by
      show (if x = j then ptr j else buf x) = _
      by_cases c : x = j
      · subst c
        rw [if_pos rfl, if_pos (Nat.lt_succ_self x)]
      · rw [if_neg c, ih x]
        by_cases c2 : x < j
        · rw [if_pos c2, if_pos (by omega)]
        · rw [if_neg c2, if_neg (by omega)])
    tail (by omega)
  show (if b < 32 then _ else 0) = _
  by_cases c : b < 32
  · rw [if_pos c, Nat.zero_add, key b]
    by_cases c2 : b < tail
    · rw [if_pos c2, if_pos ⟨c, c2⟩]
    · rw [if_neg c2, if_neg (by omega)]
  · rw [if_neg c, if_neg (by omega)]

/-- The precise multiply-add adds, lane-summed and modulo `2^32`, the 32 byte products. -/
theorem Madd4_precise_valQ (d u w : Nat → Int) :
    valQ (Madd4 false d u w) =
      valQ d + ∑ b in Finset.range 32, ((u b * w b : Int) : ZMod (2 ^ 32)) := by
  unfold valQ Madd4
  simp only [Finset.sum_range_succ, Finset.sum_range_zero]
  norm_num
  simp only [wrap32_cast]
  push_cast
  ring

/-- The block of 32 byte products read by two unaligned loads at offset `k`. -/
theorem loadu_block_sum (s w : Nat → Int) (k : Nat) :
    ∑ b in Finset.range 32, ((loadu_si256 s k b * loadu_si256 w k b : Int) : ZMod (2 ^ 32)) =
      ∑ x in Finset.Ico k (k + 32), ((s x * w x : Int) : ZMod (2 ^ 32)) := by
  rw [Finset.sum_Ico_eq_sum_range, Nat.add_sub_cancel_left]
  apply Finset.sum_congr rfl
  intro b hb
  rw [Finset.mem_range] at hb
  unfold loadu_si256
  rw [if_pos hb, if_pos hb]

/-- The block of byte products read by two zero-padded tail loads of `t < 32` bytes. -/
theorem loadTail_block_sum (s w : Nat → Int) (t : Nat) (ht : t < 32) :
    ∑ b in Finset.range 32,
        ((Avx2.LoadTail s t b * Avx2.LoadTail w t b : Int) : ZMod (2 ^ 32)) =
      ∑ x in Finset.range t, ((s x * w x : Int) : ZMod (2 ^ 32)) := by
  have hsplit : Finset.range 32 = Finset.range (t + (32 - t)) :=
    congrArg Finset.range (by omega)
  rw [hsplit, Finset.sum_range_add]
  have hzero : ∑ x in Finset.range (32 - t),
      ((Avx2.LoadTail s t (t + x) * Avx2.LoadTail w t (t + x) : Int) : ZMod (2 ^ 32)) = 0 := by
    apply Finset.sum_eq_zero
    intro b _
    rw [avx2_LoadTail_lane, if_neg (by omega), zero_mul]
    rfl
  rw [hzero, add_zero]
  apply Finset.sum_congr rfl
  intro b hb
  rw [Finset.mem_range] at hb
  rw [avx2_LoadTail_lane, avx2_LoadTail_lane, if_pos ⟨by omega, hb⟩, if_pos ⟨by omega, hb⟩]

theorem valQ_zero : valQ setzero_si256 = 0 := by
  unfold valQ setzero_si256
  rw [Finset.sum_const_zero]
  rfl

/-- The precise accumulator holds, lane-summed and modulo `2^32`, the exact dot product. -/
theorem dotAcc_precise_valQ (K : Nat) (s w : Nat → Int) :
    valQ (dotAcc false K s w) =
      ∑ k in Finset.range K, ((s k * w k : Int) : ZMod (2 ^ 32)) := by
  have hle : AlignLo K Avx2.A ≤ K := AlignLo_le K Avx2.A
  have hL := forLoop_acc Avx2.A (AlignLo K Avx2.A)
    (fun k d00 => Madd4 false d00 (loadu_si256 s k) (loadu_si256 w k)) valQ
    (fun x => ((s x * w x : Int) : ZMod (2 ^ 32))) (Nat.succ_pos 31)
    (fun k d => by
      rw [Madd4_precise_valQ, loadu_block_sum]
      rfl)
    0 setzero_si256 (Nat.zero_le _) (AlignLo_dvd K Avx2.A)
    (AlignLo K Avx2.A) (Nat.le_add_left _ _)
  have hL2 := hL.2
  rw [valQ_zero, zero_add, ← Finset.range_eq_Ico] at hL2
  unfold dotAcc
  by_cases h : AlignLo K Avx2.A < K
  · have hmod : K - AlignLo K Avx2.A < 32 := by
      have h1 := Nat.div_add_mod K 32
      have h2 := Nat.mod_lt K (Nat.succ_pos 31)
      have h3 : AlignLo K Avx2.A = K / 32 * 32 := rfl
      omega
    have eK : Finset.range K =
        Finset.range (AlignLo K Avx2.A + (K - AlignLo K Avx2.A)) :=
      congrArg Finset.range (by omega)
    rw [if_pos h, Madd4_precise_valQ, hL2, loadTail_block_sum _ _ _ hmod, eK,
      Finset.sum_range_add]
  · have e : AlignLo K Avx2.A = K := by omega
    rw [if_neg h, hL2, e]

/-- The value stored by the precise kernels for rows `s`, `w`: the exact dot product reduced
modulo `2^32` to a signed 32-bit value. -/
theorem cellQ_precise (K : Nat) (s w : Nat → Int) :
    cellQ false K s w = wrap32 (∑ k in Finset.range K, s k * w k) := by
  unfold cellQ ExtractSum32
  apply wrap32_eq_of_cast
  have h := dotAcc_precise_valQ K s w
  unfold valQ at h
  rw [h]
  push_cast
  rfl

/-! ### The four tile kernels -/

theorem avx2_kernel1x1_spec (ov : Bool) (K : Nat) (S : Nat → Int) (lds : Nat)
    (W : Nat → Int) (ldw : Nat) (dst : Buf Int) (dOff ldd : Nat) :
    (Avx2.SynetInnerProduct8i1x1 ov K S lds W ldw dst dOff ldd).data dOff =
        cellQ ov K (fun x => S (0 * lds + x)) (fun x => W (0 * ldw + x)) ∧
      ∀ x, x ≠ dOff →
        (Avx2.SynetInnerProduct8i1x1 ov K S lds W ldw dst dOff ldd).data x = dst.data x := by
  unfold Avx2.SynetInnerProduct8i1x1
  rw [avx2_acc1x1_eq]
  refine ⟨?_, ?_⟩
  · show (if dOff = dOff + 0 then _ else _) = _
    rw [if_pos (Nat.add_zero dOff).symm]
    rfl
  · intro x hx
    show (if x = dOff + 0 then _ else _) = _
    rw [if_neg (by omega)]

theorem avx2_kernel2x1_spec (ov : Bool) (K : Nat) (S : Nat → Int) (lds : Nat)
    (W : Nat → Int) (ldw : Nat) (dst : Buf Int) (dOff ldd : Nat) (hldd : 1 ≤ ldd) :
    (Avx2.SynetInnerProduct8i2x1 ov K S lds W ldw dst dOff ldd).data dOff =
        cellQ ov K (fun x => S (0 * lds + x)) (fun x => W (0 * ldw + x)) ∧
      (Avx2.SynetInnerProduct8i2x1 ov K S lds W ldw dst dOff ldd).data (dOff + ldd) =
        cellQ ov K (fun x => S (1 * lds + x)) (fun x => W (0 * ldw + x)) ∧
      ∀ x, x ≠ dOff → x ≠ dOff + ldd →
        (Avx2.SynetInnerProduct8i2x1 ov K S lds W ldw dst dOff ldd).data x = dst.data x := by
  obtain ⟨h0, h1⟩ := avx2_acc2x1_eq ov K S lds W ldw
  have hd : ∀ x, (Avx2.SynetInnerProduct8i2x1 ov K S lds W ldw dst dOff ldd).data x =
      if x = dOff + 1 * ldd then
        ExtractSum32 (Avx2.SynetInnerProduct8i2x1Acc ov K S lds W ldw).2
      else if x = dOff + 0 * ldd then
        ExtractSum32 (Avx2.SynetInnerProduct8i2x1Acc ov K S lds W ldw).1
      else dst.data x := fun _ => rfl
  refine ⟨?_, ?_, ?_⟩
  · rw [hd, if_neg (by omega), if_pos (by omega), h0]
    rfl
  · rw [hd, if_pos (by omega), h1]
    rfl
  · intro x hx1 hx2
    rw [hd, if_neg (by omega), if_neg (by omega)]

theorem avx2_kernel1x4_spec (ov : Bool) (K : Nat) (S : Nat → Int) (lds : Nat)
    (W : Nat → Int) (ldw : Nat) (dst : Buf Int) (dOff ldd : Nat) :
    (∀ c, c < 4 →
      (Avx2.SynetInnerProduct8i1x4 ov K S lds W ldw dst dOff ldd).data (dOff + c) =
        cellQ ov K (fun x => S (0 * lds + x)) (fun x => W (c * ldw + x))) ∧
      ∀ x, ¬ (dOff ≤ x ∧ x < dOff + 4) →
        (Avx2.SynetInnerProduct8i1x4 ov K S lds W ldw dst dOff ldd).data x = dst.data x := by
  obtain ⟨h0, h1, h2, h3⟩ := avx2_acc1x4_eq ov K S lds W ldw
  unfold Avx2.SynetInnerProduct8i1x4
  obtain ⟨s0, s1, s2, s3, sf, -⟩ := avx2_Save4Sums_spec
    (Avx2.SynetInnerProduct8i1x4Acc ov K S lds W ldw).1
    (Avx2.SynetInnerProduct8i1x4Acc ov K S lds W ldw).2.1
    (Avx2.SynetInnerProduct8i1x4Acc ov K S lds W ldw).2.2.1
    (Avx2.SynetInnerProduct8i1x4Acc ov K S lds W ldw).2.2.2 dst dOff
  refine ⟨?_, sf⟩
  intro c hc
  interval_cases c
  · rw [s0, h0]
    rfl
  · rw [s1, h1]
    rfl
  · rw [s2, h2]
    rfl
  · rw [s3, h3]
    rfl

theorem avx2_kernel2x4_spec (ov : Bool) (K : Nat) (S : Nat → Int) (lds : Nat)
    (W : Nat → Int) (ldw : Nat) (dst : Buf Int) (dOff ldd : Nat) (hldd : 4 ≤ ldd) :
    (∀ c, c < 4 →
      (Avx2.SynetInnerProduct8i2x4 ov K S lds W ldw dst dOff ldd).data (dOff + c) =
          cellQ ov K (fun x => S (0 * lds + x)) (fun x => W (c * ldw + x)) ∧
        (Avx2.SynetInnerProduct8i2x4 ov K S lds W ldw dst dOff ldd).data (dOff + ldd + c) =
          cellQ ov K (fun x => S (1 * lds + x)) (fun x => W (c * ldw + x))) ∧
      ∀ x, ¬ (dOff ≤ x ∧ x < dOff + 4) → ¬ (dOff + ldd ≤ x ∧ x < dOff + ldd + 4) →
        (Avx2.SynetInnerProduct8i2x4 ov K S lds W ldw dst dOff ldd).data x = dst.data x := by
  obtain ⟨h00, h01, h02, h03, h10, h11, h12, h13⟩ := avx2_acc2x4_eq ov K S lds W ldw
  unfold Avx2.SynetInnerProduct8i2x4
  simp only []
  have e0 : dOff + 0 * ldd = dOff := by simp
  have e1 : dOff + 1 * ldd = dOff + ldd := by simp
  rw [e0, e1]
  obtain ⟨a0, a1, a2, a3, af, -⟩ := avx2_Save4Sums_spec
    (Avx2.SynetInnerProduct8i2x4Acc ov K S lds W ldw).1.1
    (Avx2.SynetInnerProduct8i2x4Acc ov K S lds W ldw).1.2.1
    (Avx2.SynetInnerProduct8i2x4Acc ov K S lds W ldw).1.2.2.1
    (Avx2.SynetInnerProduct8i2x4Acc ov K S lds W ldw).1.2.2.2 dst dOff
  obtain ⟨b0, b1, b2, b3, bf, -⟩ := avx2_Save4Sums_spec
    (Avx2.SynetInnerProduct8i2x4Acc ov K S lds W ldw).2.1
    (Avx2.SynetInnerProduct8i2x4Acc ov K S lds W ldw).2.2.1
    (Avx2.SynetInnerProduct8i2x4Acc ov K S lds W ldw).2.2.2.1
    (Avx2.SynetInnerProduct8i2x4Acc ov K S lds W ldw).2.2.2.2
    (Avx2.Save4Sums (Avx2.SynetInnerProduct8i2x4Acc ov K S lds W ldw).1.1
      (Avx2.SynetInnerProduct8i2x4Acc ov K S lds W ldw).1.2.1
      (Avx2.SynetInnerProduct8i2x4Acc ov K S lds W ldw).1.2.2.1
      (Avx2.SynetInnerProduct8i2x4Acc ov K S lds W ldw).1.2.2.2 dst dOff) (dOff + ldd)
  refine ⟨?_, ?_⟩
  · intro c hc
    interval_cases c
    · exact ⟨by rw [bf _ (by omega), a0, h00]; rfl, by rw [b0, h10]; rfl⟩
    · exact ⟨by rw [bf _ (by omega), a1, h01]; rfl, by rw [b1, h11]; rfl⟩
    · exact ⟨by rw [bf _ (by omega), a2, h02]; rfl, by rw [b2, h12]; rfl⟩
    · exact ⟨by rw [bf _ (by omega), a3, h03]; rfl, by rw [b3, h13]; rfl⟩
  · intro x hx1 hx2
    rw [bf x hx2, af x hx1]

/-! ### Tiling of the output matrix -/

/-- A strided loop from `0` followed by a counting loop that continues its counter. -/
theorem forLoop_then_one {σ : Type} (step hi1 hi2 : Nat) (b1 b2 : Nat → σ → σ)
    (P : Nat → σ → Prop) (hstep : 0 < step) (st : σ) (h0 : P 0 st) (hdvd : step ∣ hi1)
    (hle : hi1 ≤ hi2)
    (hP1 : ∀ j st, j + step ≤ hi1 → P j st → P (j + step) (b1 j st))
    (hP2 : ∀ j st, hi1 ≤ j → j < hi2 → P j st → P (j + 1) (b2 j st)) :
    P hi2 (forLoop 1 hi2 b2 hi2 (forLoop step hi1 b1 hi1 0 st).1
      (forLoop step hi1 b1 hi1 0 st).2).2 := by
  obtain ⟨e, hp⟩ := forLoop_stride step hi1 b1 P hstep 0 st h0 (Nat.zero_le _)
    (by simpa using hdvd) (fun j s _ h => hP1 j s h) hi1 (by omega)
  rw [e]
  exact forLoop_one hi2 b2 P hi1 _ hp hle hP2 hi2 (by omega)

theorem cellQ_rows (ov : Bool) (K : Nat) (src weight : Nat → Int) (i r j c : Nat) :
    cellQ ov K (fun x => src (i * K + (r * K + x))) (fun x => weight (j * K + (c * K + x))) =
      cellQ ov K (fun x => src ((i + r) * K + x)) (fun x => weight ((j + c) * K + x)) := by
  have e1 : (fun x => src (i * K + (r * K + x))) = (fun x => src ((i + r) * K + x)) := by
    funext x
    congr 1
    ring
  have e2 : (fun x => weight (j * K + (c * K + x))) =
      (fun x => weight ((j + c) * K + x)) := by
    funext x
    congr 1
    ring
  rw [e1, e2]

/-- Two activation rows `r`, `r + 1` against all `N` weight rows: the 2x4 tiles followed by
the 2x1 tiles fill both output rows and leave the rows above untouched. -/
theorem avx2_two_rows (ov : Bool) (N K : Nat) (src weight : Nat → Int) (r : Nat)
    (d : Buf Int) :
    (∀ c, c < N →
      (forLoop 1 N (fun j dst => Avx2.SynetInnerProduct8i2x1 ov K (fun x => src (r * K + x)) K
        (fun x => weight (j * K + x)) K dst (r * N + j) N) N
          (forLoop 4 (AlignLoAny N 4) (fun j dst => Avx2.SynetInnerProduct8i2x4 ov K (fun x => src (r * K + x)) K
        (fun x => weight (j * K + x)) K dst (r * N + j) N) (AlignLoAny N 4) 0 d).1
          (forLoop 4 (AlignLoAny N 4) (fun j dst => Avx2.SynetInnerProduct8i2x4 ov K (fun x => src (r * K + x)) K
        (fun x => weight (j * K + x)) K dst (r * N + j) N) (AlignLoAny N 4) 0 d).2).2.data (r * N + c) =
          cellQ ov K (fun x => src (r * K + x)) (fun x => weight (c * K + x)) ∧
      (forLoop 1 N (fun j dst => Avx2.SynetInnerProduct8i2x1 ov K (fun x => src (r * K + x)) K
        (fun x => weight (j * K + x)) K dst (r * N + j) N) N
          (forLoop 4 (AlignLoAny N 4) (fun j dst => Avx2.SynetInnerProduct8i2x4 ov K (fun x => src (r * K + x)) K
        (fun x => weight (j * K + x)) K dst (r * N + j) N) (AlignLoAny N 4) 0 d).1
          (forLoop 4 (AlignLoAny N 4) (fun j dst => Avx2.SynetInnerProduct8i2x4 ov K (fun x => src (r * K + x)) K
        (fun x => weight (j * K + x)) K dst (r * N + j) N) (AlignLoAny N 4) 0 d).2).2.data
            ((r + 1) * N + c) =
          cellQ ov K (fun x => src ((r + 1) * K + x)) (fun x => weight (c * K + x))) ∧
    ∀ x, x < r * N →
      (forLoop 1 N (fun j dst => Avx2.SynetInnerProduct8i2x1 ov K (fun x => src (r * K + x)) K
        (fun x => weight (j * K + x)) K dst (r * N + j) N) N
          (forLoop 4 (AlignLoAny N 4) (fun j dst => Avx2.SynetInnerProduct8i2x4 ov K (fun x => src (r * K + x)) K
        (fun x => weight (j * K + x)) K dst (r * N + j) N) (AlignLoAny N 4) 0 d).1
          (forLoop 4 (AlignLoAny N 4) (fun j dst => Avx2.SynetInnerProduct8i2x4 ov K (fun x => src (r * K + x)) K
        (fun x => weight (j * K + x)) K dst (r * N + j) N) (AlignLoAny N 4) 0 d).2).2.data x =
        d.data x := by
  have hN4 : AlignLoAny N 4 ≤ N := Nat.div_mul_le_self N 4
  have e1 : (r + 1) * N = r * N + N := by ring
  refine forLoop_then_one 4 (AlignLoAny N 4) N _ _
    (fun j (b : Buf Int) =>
      (∀ c, c < j →
        b.data (r * N + c) = cellQ ov K (fun x => src (r * K + x)) (fun x => weight (c * K + x)) ∧
        b.data ((r + 1) * N + c) = cellQ ov K (fun x => src ((r + 1) * K + x)) (fun x => weight (c * K + x))) ∧
      ∀ x, x < r * N → b.data x = d.data x)
    (by norm_num) d ?_ (Dvd.intro_left _ rfl) hN4 ?_ ?_
  · exact ⟨fun c hc => absurd hc (Nat.not_lt_zero c), fun _ _ => rfl⟩
  · rintro j b hj ⟨hc, hf⟩
    obtain ⟨k1, k2⟩ := avx2_kernel2x4_spec ov K (fun x => src (r * K + x)) K
      (fun x => weight (j * K + x)) K b (r * N + j) N (by omega)
    refine ⟨?_, ?_⟩
    · intro c hcj
      by_cases hlt : c < j
      · rw [k2 _ (by omega) (by omega), k2 _ (by omega) (by omega)]
        exact hc c hlt
      · obtain ⟨c2, rfl⟩ : ∃ c2, c = j + c2 := ⟨c - j, by omega⟩
        have hc2 : c2 < 4 := by omega
        have i1 : r * N + (j + c2) = r * N + j + c2 := by ring
        have i2 : (r + 1) * N + (j + c2) = r * N + j + N + c2 := by ring
        have q := cellQ_rows ov K src weight r 0 j c2
        have q1 := cellQ_rows ov K src weight r 1 j c2
        rw [Nat.add_zero] at q
        rw [i1, i2, (k1 c2 hc2).1, (k1 c2 hc2).2]
        exact ⟨q, q1⟩
    · intro x hx
      rw [k2 _ (by omega) (by omega)]
      exact hf x hx
  · rintro j b hj1 hj2 ⟨hc, hf⟩
    obtain ⟨k0, k1, k2⟩ := avx2_kernel2x1_spec ov K (fun x => src (r * K + x)) K
      (fun x => weight (j * K + x)) K b (r * N + j) N (by omega)
    refine ⟨?_, ?_⟩
    · intro c hcj
      by_cases hlt : c < j
      · rw [k2 _ (by omega) (by omega), k2 _ (by omega) (by omega)]
        exact hc c hlt
      · have ec : c = j := by omega
        subst ec
        have i2 : (r + 1) * N + c = r * N + c + N := by ring
        have q := cellQ_rows ov K src weight r 0 c 0
        have q1 := cellQ_rows ov K src weight r 1 c 0
        rw [Nat.add_zero, Nat.add_zero] at q
        rw [Nat.add_zero] at q1
        rw [i2, k0, k1]
        exact ⟨q, q1⟩
    · intro x hx
      rw [k2 _ (by omega) (by omega)]
      exact hf x hx

/-- One activation row `r` against all `N` weight rows: the 1x4 tiles followed by the 1x1
tiles fill the output row and leave the rows above untouched. -/
theorem avx2_one_row (ov : Bool) (N K : Nat) (src weight : Nat → Int) (r : Nat)
    (d : Buf Int) :
    (∀ c, c < N →
      (forLoop 1 N (fun j dst => Avx2.SynetInnerProduct8i1x1 ov K (fun x => src (r * K + x)) K
        (fun x => weight (j * K + x)) K dst (r * N + j) N) N
          (forLoop 4 (AlignLoAny N 4) (fun j dst => Avx2.SynetInnerProduct8i1x4 ov K (fun x => src (r * K + x)) K
        (fun x => weight (j * K + x)) K dst (r * N + j) N) (AlignLoAny N 4) 0 d).1
          (forLoop 4 (AlignLoAny N 4) (fun j dst => Avx2.SynetInnerProduct8i1x4 ov K (fun x => src (r * K + x)) K
        (fun x => weight (j * K + x)) K dst (r * N + j) N) (AlignLoAny N 4) 0 d).2).2.data (r * N + c) =
          cellQ ov K (fun x => src (r * K + x)) (fun x => weight (c * K + x))) ∧
    ∀ x, x < r * N →
      (forLoop 1 N (fun j dst => Avx2.SynetInnerProduct8i1x1 ov K (fun x => src (r * K + x)) K
        (fun x => weight (j * K + x)) K dst (r * N + j) N) N
          (forLoop 4 (AlignLoAny N 4) (fun j dst => Avx2.SynetInnerProduct8i1x4 ov K (fun x => src (r * K + x)) K
        (fun x => weight (j * K + x)) K dst (r * N + j) N) (AlignLoAny N 4) 0 d).1
          (forLoop 4 (AlignLoAny N 4) (fun j dst => Avx2.SynetInnerProduct8i1x4 ov K (fun x => src (r * K + x)) K
        (fun x => weight (j * K + x)) K dst (r * N + j) N) (AlignLoAny N 4) 0 d).2).2.data x =
        d.data x := by
  have hN4 : AlignLoAny N 4 ≤ N := Nat.div_mul_le_self N 4
  refine forLoop_then_one 4 (AlignLoAny N 4) N _ _
    (fun j (b : Buf Int) =>
      (∀ c, c < j →
        b.data (r * N + c) = cellQ ov K (fun x => src (r * K + x)) (fun x => weight (c * K + x))) ∧
      ∀ x, x < r * N → b.data x = d.data x)
    (by norm_num) d ?_ (Dvd.intro_left _ rfl) hN4 ?_ ?_
  · exact ⟨fun c hc => absurd hc (Nat.not_lt_zero c), fun _ _ => rfl⟩
  · rintro j b hj ⟨hc, hf⟩
    obtain ⟨k1, k2⟩ := avx2_kernel1x4_spec ov K (fun x => src (r * K + x)) K
      (fun x => weight (j * K + x)) K b (r * N + j) N
    refine ⟨?_, ?_⟩
    · intro c hcj
      by_cases hlt : c < j
      · rw [k2 _ (by omega)]
        exact hc c hlt
      · obtain ⟨c2, rfl⟩ : ∃ c2, c = j + c2 := ⟨c - j, by omega⟩
        have hc2 : c2 < 4 := by omega
        have i1 : r * N + (j + c2) = r * N + j + c2 := by ring
        have q := cellQ_rows ov K src weight r 0 j c2
        rw [Nat.add_zero] at q
        rw [i1, k1 c2 hc2]
        exact q
    · intro x hx
      rw [k2 _ (by omega)]
      exact hf x hx
  · rintro j b hj1 hj2 ⟨hc, hf⟩
    obtain ⟨k0, k2⟩ := avx2_kernel1x1_spec ov K (fun x => src (r * K + x)) K
      (fun x => weight (j * K + x)) K b (r * N + j) N
    refine ⟨?_, ?_⟩
    · intro c hcj
      by_cases hlt : c < j
      · rw [k2 _ (by omega)]
        exact hc c hlt
      · have ec : c = j := by omega
        subst ec
        have q := cellQ_rows ov K src weight r 0 c 0
        rw [Nat.add_zero, Nat.add_zero] at q
        rw [k0]
        exact q
    · intro x hx
      rw [k2 _ (by omega)]
      exact hf x hx

/-- Every cell `(i, j)` of the output matrix receives the value of its own accumulator: the
register that accumulated activation row `i` against weight row `j`. -/
theorem avx2_innerProduct8i_cells (ov : Bool) (M N K : Nat) (src weight : Nat → Int)
    (dst : Buf Int) (i j : Nat) (hi : i < M) (hj : j < N) :
    (Avx2.SynetInnerProduct8iT ov M N K src weight dst).data (i * N + j) =
      cellQ ov K (fun x => src (i * K + x)) (fun x => weight (j * K + x)) := by
  unfold Avx2.SynetInnerProduct8iT
  simp only []
  refine (forLoop_then_one 2 (AlignLoAny M 2) M _ _
    (fun r (st : (Nat → Int) × Nat × Buf Int) =>
      st.1 = (fun x => src (r * K + x)) ∧ st.2.1 = r * N ∧
      ∀ r2 c, r2 < r → c < N → st.2.2.data (r2 * N + c) =
        cellQ ov K (fun x => src (r2 * K + x)) (fun x => weight (c * K + x)))
    (by norm_num) (src, 0, dst) ?_ (Dvd.intro_left _ rfl) (Nat.div_mul_le_self M 2) ?_ ?_).2.2
    i j hi hj
  · refine ⟨?_, ?_, ?_⟩
    · funext x
      simp
    · simp
    · intro r2 c h
      exact absurd h (Nat.not_lt_zero r2)
  · rintro r ⟨p, off, d⟩ _ ⟨h1, h2, h3⟩
    simp only [] at h1 h2 h3
    subst h1 h2
    obtain ⟨t1, t2⟩ := avx2_two_rows ov N K src weight r d
    refine ⟨?_, ?_, ?_⟩
    · funext x
      show src (r * K + (K * 2 + x)) = src ((r + 2) * K + x)
      congr 1
      ring
    · show r * N + N * 2 = (r + 2) * N
      ring
    · intro r2 c hr2 hc
      have hrN : r2 < r → r2 * N + c < r * N := by
        intro hlt
        have := Nat.mul_le_mul_right N (show r2 + 1 ≤ r from hlt)
        have e : (r2 + 1) * N = r2 * N + N := by ring
        omega
      by_cases c1 : r2 < r
      · show _ = _
        rw [t2 _ (hrN c1)]
        exact h3 r2 c c1 hc
      · by_cases c2 : r2 = r
        · subst c2
          exact (t1 c hc).1
        · have c3 : r2 = r + 1 := by omega
          subst c3
          exact (t1 c hc).2
  · rintro r ⟨p, off, d⟩ _ _ ⟨h1, h2, h3⟩
    simp only [] at h1 h2 h3
    subst h1 h2
    obtain ⟨t1, t2⟩ := avx2_one_row ov N K src weight r d
    refine ⟨?_, ?_, ?_⟩
    · funext x
      show src (r * K + (K + x)) = src ((r + 1) * K + x)
      congr 1
      ring
    · show r * N + N = (r + 1) * N
      ring
    · intro r2 c hr2 hc
      have hrN : r2 < r → r2 * N + c < r * N := by
        intro hlt
        have := Nat.mul_le_mul_right N (show r2 + 1 ≤ r from hlt)
        have e : (r2 + 1) * N = r2 * N + N := by ring
        omega
      by_cases c1 : r2 < r
      · show _ = _
        rw [t2 _ (hrN c1)]
        exact h3 r2 c c1 hc
      · have c2 : r2 = r := by omega
        subst c2
        exact t1 c hc

/-! ### The two overflow policies -/

/-- The exact dot product at which a precise cell is evaluated, in the notation of the
claim. -/
theorem avx2_precise_cell (M N K : Nat) (S W : Nat → Int) (dst : Buf Int) (i j : Nat)
    (hi : i < M) (hj : j < N) :
    (Avx2.SynetInnerProduct8iT false M N K S W dst).data (i * N + j) =
      wrap32 (dotExact K S W i j) := by
  rw [avx2_innerProduct8i_cells false M N K S W dst i j hi hj, cellQ_precise]
  rfl

/-- C7, as stated, fails: with one row of `K = 65794` activations `255` against weights
`-128` the exact dot product is `-2147516160`, below the 32-bit range, and the stored value
is `2147451136`. -/
theorem C7_precise_exact_refuted :
    (Avx2.SynetInnerProduct8iT false 1 1 65794 allS255 allWm128 zeroBufQ).data (0 * 1 + 0) =
        2147451136 ∧
      dotExact 65794 allS255 allWm128 0 0 = -2147516160 ∧
      (Avx2.SynetInnerProduct8iT false 1 1 65794 allS255 allWm128 zeroBufQ).data (0 * 1 + 0) ≠
        dotExact 65794 allS255 allWm128 0 0 := by
  have hd : dotExact 65794 allS255 allWm128 0 0 = -2147516160 := by
    unfold dotExact allS255 allWm128
    rw [Finset.sum_const, Finset.card_range]
    norm_num
  have hv := avx2_precise_cell 1 1 65794 allS255 allWm128 zeroBufQ 0 0 (by norm_num)
    (by norm_num)
  rw [hd] at hv
  have hw : wrap32 (-2147516160) = 2147451136 := by
    unfold wrap32
    norm_num
  rw [hw] at hv
  refine ⟨hv, hd, ?_⟩
  rw [hv, hd]
  norm_num

/-- C7, amended. Quantized dense projection under the precise policy: for all `M`, `N`, `K`
and all inputs, `dst[i*N + j]` is the exact dot product `Σ_k S[i*K + k] * W[j*K + k]` reduced
modulo `2^32` to a signed 32-bit value, for every `i < M`, `j < N`; it equals the exact dot
product whenever that fits the signed 32-bit range. -/
theorem C7_precise_mod_2_32 (M N K : Nat) (S W : Nat → Int) (dst : Buf Int) (i j : Nat)
    (hi : i < M) (hj : j < N) :
    (Avx2.SynetInnerProduct8iT false M N K S W dst).data (i * N + j) =
        wrap32 (dotExact K S W i j) ∧
      (-2 ^ 31 ≤ dotExact K S W i j → dotExact K S W i j < 2 ^ 31 →
        (Avx2.SynetInnerProduct8iT false M N K S W dst).data (i * N + j) =
          dotExact K S W i j) := by
  have h := avx2_precise_cell M N K S W dst i j hi hj
  refine ⟨h, fun h1 h2 => ?_⟩
  rw [h, wrap32_of_range _ h1 h2]

/-- C7 amended, instance: a 3 x 5 output with `K = 33` (one block and a tail of one byte),
cell `(2, 4)`. -/
theorem C7_precise_mod_2_32_witness :
    2 < 3 ∧ 4 < 5 ∧
      ((Avx2.SynetInnerProduct8iT false 3 5 33 allS255 allWm128 zeroBufQ).data (2 * 5 + 4) =
          wrap32 (dotExact 33 allS255 allWm128 2 4) ∧
        (-2 ^ 31 ≤ dotExact 33 allS255 allWm128 2 4 →
          dotExact 33 allS255 allWm128 2 4 < 2 ^ 31 →
          (Avx2.SynetInnerProduct8iT false 3 5 33 allS255 allWm128 zeroBufQ).data (2 * 5 + 4) =
            dotExact 33 allS255 allWm128 2 4)) :=
  ⟨by norm_num, by norm_num,
    C7_precise_mod_2_32 3 5 33 allS255 allWm128 zeroBufQ 2 4 (by norm_num) (by norm_num)⟩

theorem sat16_of_range (x : Int) (h1 : -32768 ≤ x) (h2 : x ≤ 32767) : sat16 x = x := by
  unfold sat16
  rw [min_eq_right h2, max_eq_right h1]

/-- Where no pair sum saturates, the fast multiply-add is the precise one. -/
theorem Madd4_fast_eq (d u w : Nat → Int)
    (h : ∀ n, n < 8 →
      (-32768 ≤ u (4 * n) * w (4 * n) + u (4 * n + 1) * w (4 * n + 1) ∧
        u (4 * n) * w (4 * n) + u (4 * n + 1) * w (4 * n + 1) ≤ 32767) ∧
      (-32768 ≤ u (4 * n + 2) * w (4 * n + 2) + u (4 * n + 3) * w (4 * n + 3) ∧
        u (4 * n + 2) * w (4 * n + 2) + u (4 * n + 3) * w (4 * n + 3) ≤ 32767)) :
    Madd4 true d u w = Madd4 false d u w := by
  funext n
  unfold Madd4
  by_cases c : n < 8
  · obtain ⟨⟨a1, a2⟩, b1, b2⟩ := h n c
    simp only [if_pos c, if_true, Bool.false_eq_true, if_false]
    rw [sat16_of_range _ a1 a2, sat16_of_range _ b1 b2]
  · simp only [if_neg c]

/-- Two strided loops agree when their bodies agree at every counter the loop can reach. -/
theorem forLoop_congr_stride {σ : Type} (step hi : Nat) (b1 b2 : Nat → σ → σ)
    (h : ∀ k d, k + step ≤ hi → step ∣ hi - k → b1 k d = b2 k d) :
    ∀ (fuel j : Nat) (d : σ), step ∣ hi - j →
      forLoop step hi b1 fuel j d = forLoop step hi b2 fuel j d := by
  intro fuel
  induction fuel with
  | zero =>
    intro j d _
    rfl
  | succ n ih =>
    intro j d hd
    by_cases hj : j < hi
    · have e1 : forLoop step hi b1 (n + 1) j d = forLoop step hi b1 n (j + step) (b1 j d) := by
        simp [forLoop, hj]
      have e2 : forLoop step hi b2 (n + 1) j d = forLoop step hi b2 n (j + step) (b2 j d) := by
        simp [forLoop, hj]
      obtain ⟨k, hk⟩ := hd
      have hk0 : k ≠ 0 := by
        rintro rfl
        omega
      obtain ⟨k2, rfl⟩ := Nat.exists_eq_succ_of_ne_zero hk0
      have hsub : hi - j = step * k2 + step := by rw [hk, Nat.mul_succ]
      have hle : j + step ≤ hi := by omega
      rw [e1, e2, h j d hle ⟨k2 + 1, hk⟩]
      exact ih (j + step) (b2 j d) ⟨k2, by omega⟩
    · have e1 : forLoop step hi b1 (n + 1) j d = (j, d) := by
        simp [forLoop, hj]
      have e2 : forLoop step hi b2 (n + 1) j d = (j, d) := by
        simp [forLoop, hj]
      rw [e1, e2]

theorem byte_product_range (a b : Int) (ha : 0 ≤ a ∧ a ≤ 255) (hb : -128 ≤ b ∧ b ≤ 127) :
    -32768 ≤ a * b ∧ a * b ≤ 32767 := by
  obtain ⟨a1, a2⟩ := ha
  obtain ⟨b1, b2⟩ := hb
  constructor
  · nlinarith
  · nlinarith

/-- On rows of bytes whose adjacent pair sums stay within 16 bits, the fast accumulator is
the precise one. -/
theorem dotAcc_fast_eq (K : Nat) (s w : Nat → Int)
    (hs : ∀ x, 0 ≤ s x ∧ s x ≤ 255) (hw : ∀ x, -128 ≤ w x ∧ w x ≤ 127)
    (hp : ∀ t, 2 * t + 1 < K →
      -32768 ≤ s (2 * t) * w (2 * t) + s (2 * t + 1) * w (2 * t + 1) ∧
        s (2 * t) * w (2 * t) + s (2 * t + 1) * w (2 * t + 1) ≤ 32767) :
    dotAcc true K s w = dotAcc false K s w := by
  have hA : AlignLo K Avx2.A = K / 32 * 32 := rfl
  have hle : K / 32 * 32 ≤ K := Nat.div_mul_le_self K 32
  have hloop : forLoop Avx2.A (AlignLo K Avx2.A) (fun k d00 =>
        Madd4 true d00 (loadu_si256 s k) (loadu_si256 w k)) (AlignLo K Avx2.A) 0
        setzero_si256 =
      forLoop Avx2.A (AlignLo K Avx2.A) (fun k d00 =>
        Madd4 false d00 (loadu_si256 s k) (loadu_si256 w k)) (AlignLo K Avx2.A) 0
        setzero_si256 := by
    apply forLoop_congr_stride Avx2.A (AlignLo K Avx2.A) _ _
    · intro k d hk hdvd
      apply Madd4_fast_eq
      intro n hn
      have hA2 : Avx2.A = 32 := rfl
      rw [hA, hA2] at hk hdvd
      obtain ⟨m, hm⟩ := hdvd
      have hk32 : ∃ m2, k = 32 * m2 := ⟨K / 32 - m, by omega⟩
      obtain ⟨m2, rfl⟩ := hk32
      have p1 := hp (16 * m2 + 2 * n) (by omega)
      have p2 := hp (16 * m2 + 2 * n + 1) (by omega)
      have e1 : 2 * (16 * m2 + 2 * n) = 32 * m2 + 4 * n := by ring
      have e2 : 2 * (16 * m2 + 2 * n) + 1 = 32 * m2 + (4 * n + 1) := by ring
      have e3 : 2 * (16 * m2 + 2 * n + 1) = 32 * m2 + (4 * n + 2) := by ring
      have e4 : 2 * (16 * m2 + 2 * n + 1) + 1 = 32 * m2 + (4 * n + 3) := by ring
      rw [e2, e1] at p1
      rw [e4, e3] at p2
      have c0 : 4 * n < 32 := by omega
      have c1 : 4 * n + 1 < 32 := by omega
      have c2 : 4 * n + 2 < 32 := by omega
      have c3 : 4 * n + 3 < 32 := by omega
      simp only [loadu_si256, c0, c1, c2, c3, if_true]
      exact ⟨p1, p2⟩
    · exact (by simpa using AlignLo_dvd K Avx2.A)
  unfold dotAcc
  rw [hloop]
  by_cases h : AlignLo K Avx2.A < K
  · rw [if_pos h, if_pos h]
    apply Madd4_fast_eq
    intro n hn
    rw [hA] at h
    have hmod : K - K / 32 * 32 < 32 := by
      have h1 := Nat.div_add_mod K 32
      have h2 := Nat.mod_lt K (Nat.succ_pos 31)
      omega
    have pair : ∀ b, b + 1 < 32 → 2 ∣ b →
        -32768 ≤ Avx2.LoadTail (fun x => s (AlignLo K Avx2.A + x)) (K - AlignLo K Avx2.A) b *
            Avx2.LoadTail (fun x => w (AlignLo K Avx2.A + x)) (K - AlignLo K Avx2.A) b +
          Avx2.LoadTail (fun x => s (AlignLo K Avx2.A + x)) (K - AlignLo K Avx2.A) (b + 1) *
            Avx2.LoadTail (fun x => w (AlignLo K Avx2.A + x)) (K - AlignLo K Avx2.A)
              (b + 1) ∧
        Avx2.LoadTail (fun x => s (AlignLo K Avx2.A + x)) (K - AlignLo K Avx2.A) b *
            Avx2.LoadTail (fun x => w (AlignLo K Avx2.A + x)) (K - AlignLo K Avx2.A) b +
          Avx2.LoadTail (fun x => s (AlignLo K Avx2.A + x)) (K - AlignLo K Avx2.A) (b + 1) *
            Avx2.LoadTail (fun x => w (AlignLo K Avx2.A + x)) (K - AlignLo K Avx2.A)
              (b + 1) ≤ 32767 := by
      intro b hb hb2
      rw [hA]
      obtain ⟨b2, rfl⟩ := hb2
      simp only [avx2_LoadTail_lane]
      by_cases c1 : 2 * b2 + 1 < K - K / 32 * 32
      · rw [if_pos ⟨by omega, by omega⟩, if_pos ⟨by omega, by omega⟩,
          if_pos ⟨by omega, c1⟩, if_pos ⟨by omega, c1⟩]
        have p := hp (16 * (K / 32) + b2) (by omega)
        have e1 : 2 * (16 * (K / 32) + b2) = K / 32 * 32 + 2 * b2 := by ring
        have e2 : 2 * (16 * (K / 32) + b2) + 1 = K / 32 * 32 + (2 * b2 + 1) := by ring
        rw [e2, e1] at p
        exact p
      · rw [if_neg (by omega : ¬ (2 * b2 + 1 < 32 ∧ 2 * b2 + 1 < K - K / 32 * 32)),
          if_neg (by omega : ¬ (2 * b2 + 1 < 32 ∧ 2 * b2 + 1 < K - K / 32 * 32))]
        by_cases c2 : 2 * b2 < K - K / 32 * 32
        · rw [if_pos ⟨by omega, c2⟩, if_pos ⟨by omega, c2⟩, mul_zero, add_zero]
          exact byte_product_range _ _ (hs _) (hw _)
        · rw [if_neg (by omega : ¬ (2 * b2 < 32 ∧ 2 * b2 < K - K / 32 * 32)),
            if_neg (by omega : ¬ (2 * b2 < 32 ∧ 2 * b2 < K - K / 32 * 32))]
          norm_num
    have q1 := pair (4 * n) (by omega) ⟨2 * n, by ring⟩
    have q2 := pair (4 * n + 2) (by omega) ⟨2 * n + 1, by ring⟩
    exact ⟨q1, q2⟩
  · rw [if_neg h, if_neg h]

/-- C8. Quantized dense projection, fast against precise policy: for every `M`, `N`, `K`,
unsigned 8-bit activations `S` and signed 8-bit weights `W` such that for every cell
`(i, j)` every adjacent pair sum `S[i,2t]*W[j,2t] + S[i,2t+1]*W[j,2t+1]` lies in
`[-32768, 32767]`, the fast policy stores in every cell `dst[i*N + j]` the value the precise
policy stores. -/
theorem C8_fast_equals_precise (M N K : Nat) (S W : Nat → Int) (dst : Buf Int)
    (hS : ∀ x, 0 ≤ S x ∧ S x ≤ 255) (hW : ∀ x, -128 ≤ W x ∧ W x ≤ 127)
    (hpair : ∀ i j t, i < M → j < N → 2 * t + 1 < K →
      -32768 ≤ S (i * K + 2 * t) * W (j * K + 2 * t) +
          S (i * K + (2 * t + 1)) * W (j * K + (2 * t + 1)) ∧
        S (i * K + 2 * t) * W (j * K + 2 * t) +
          S (i * K + (2 * t + 1)) * W (j * K + (2 * t + 1)) ≤ 32767)
    (i j : Nat) (hi : i < M) (hj : j < N) :
    (Avx2.SynetInnerProduct8iT true M N K S W dst).data (i * N + j) =
      (Avx2.SynetInnerProduct8iT false M N K S W dst).data (i * N + j) := by
  rw [avx2_innerProduct8i_cells true M N K S W dst i j hi hj,
    avx2_innerProduct8i_cells false M N K S W dst i j hi hj]
  unfold cellQ
  rw [dotAcc_fast_eq K (fun x => S (i * K + x)) (fun x => W (j * K + x))
    (fun x => hS _) (fun x => hW _) (fun t ht => hpair i j t hi hj ht)]

/-- C8, instance: a 3 x 5 output with `K = 33`, all activations and weights `100` (pair sums
`20000`), cell `(2, 4)`. -/
theorem C8_fast_equals_precise_witness :
    (∀ x, 0 ≤ allS100 x ∧ allS100 x ≤ 255) ∧ (∀ x, -128 ≤ allW100 x ∧ allW100 x ≤ 127) ∧
    (∀ i j t, i < 3 → j < 5 → 2 * t + 1 < 33 →
      -32768 ≤ allS100 (i * 33 + 2 * t) * allW100 (j * 33 + 2 * t) +
          allS100 (i * 33 + (2 * t + 1)) * allW100 (j * 33 + (2 * t + 1)) ∧
        allS100 (i * 33 + 2 * t) * allW100 (j * 33 + 2 * t) +
          allS100 (i * 33 + (2 * t + 1)) * allW100 (j * 33 + (2 * t + 1)) ≤ 32767) ∧
    2 < 3 ∧ 4 < 5 ∧
    (Avx2.SynetInnerProduct8iT true 3 5 33 allS100 allW100 zeroBufQ).data (2 * 5 + 4) =
      (Avx2.SynetInnerProduct8iT false 3 5 33 allS100 allW100 zeroBufQ).data (2 * 5 + 4) :=
  ⟨fun _ => by norm_num [allS100], fun _ => by norm_num [allW100],
    fun _ _ _ _ _ _ => by norm_num [allS100, allW100], by norm_num, by norm_num,
    C8_fast_equals_precise 3 5 33 allS100 allW100 zeroBufQ
      (fun _ => by norm_num [allS100]) (fun _ => by norm_num [allW100])
      (fun _ _ _ _ _ _ => by norm_num [allS100, allW100]) 2 4 (by norm_num) (by norm_num)⟩

/-! ## Cross-channel normalization, planar layout -/

theorem Pointwise2_store {α : Type} (F off : Nat) (a1 a2 : Bool) (g1 g2 : Nat → α → α)
    (v1 v2 : Nat → Buf α × Buf α → Nat → α)
    (h1 : ∀ j st l, v1 j st l = g1 (j + l) (st.1.data (j + l)))
    (h2 : ∀ j st l, v2 j st l = g2 (j + l) (st.1.data (j + l))) :
    Pointwise2 F off g1 g2
      (fun j st => (Store F a1 st.1 j (v1 j st), Store F a2 st.2 (off + j) (v2 j st))) := by
  intro j st
  refine ⟨?_, ?_⟩
  · intro x
    show (if j ≤ x ∧ x < j + F then v1 j st (x - j) else st.1.data x) = _
    by_cases c : j ≤ x ∧ x < j + F
    · have e : j + (x - j) = x := by omega
      rw [if_pos c, if_pos c, h1, e]
    · rw [if_neg c, if_neg c]
  · intro y
    show (if off + j ≤ y ∧ y < off + j + F then v2 j st (y - (off + j)) else st.2.data y) = _
    by_cases c : off + j ≤ y ∧ y < off + j + F
    · have e : j + (y - (off + j)) = y - off := by omega
      rw [if_pos c, if_pos c, h2, e]
    · rw [if_neg c, if_neg c]

theorem Pointwise2_scalar {α : Type} (off : Nat) (g1 g2 : Nat → α → α)
    (body : Nat → Buf α × Buf α → Buf α × Buf α)
    (h1 : ∀ j st x, (body j st).1.data x = if x = j then g1 j (st.1.data j) else st.1.data x)
    (h2 : ∀ j st y, (body j st).2.data y =
      if y = off + j then g2 j (st.1.data j) else st.2.data y) :
    Pointwise2 1 off g1 g2 body := by
  intro j st
  refine ⟨?_, ?_⟩
  · intro x
    rw [h1]
    by_cases c : x = j
    · subst c
      rw [if_pos rfl, if_pos ⟨le_refl _, Nat.lt_succ_self _⟩]
    · rw [if_neg c, if_neg (by omega)]
  · intro y
    rw [h2]
    by_cases c : y = off + j
    · subst c
      rw [if_pos rfl, if_pos ⟨le_refl _, Nat.lt_succ_self _⟩, Nat.add_sub_cancel_left]
    · rw [if_neg c, if_neg (by omega)]

/-- A two-buffer pointwise loop started at `j0` with `step ∣ hi - j0` stops at `hi` having
processed exactly the elements `[j0, hi)`. -/
theorem forLoop_pointwise2 {α : Type} (step hi off : Nat)
    (body : Nat → Buf α × Buf α → Buf α × Buf α) (g1 g2 : Nat → α → α) (hstep : 0 < step)
    (hb : Pointwise2 step off g1 g2 body) (j0 : Nat) (d0 : Buf α × Buf α) (hj0 : j0 ≤ hi)
    (hdvd : step ∣ hi - j0) (fuel : Nat) (hfuel : hi ≤ j0 + fuel) :
    (forLoop step hi body fuel j0 d0).1 = hi ∧
      (∀ x, (forLoop step hi body fuel j0 d0).2.1.data x =
        if j0 ≤ x ∧ x < hi then g1 x (d0.1.data x) else d0.1.data x) ∧
      (∀ y, (forLoop step hi body fuel j0 d0).2.2.data y =
        if off + j0 ≤ y ∧ y < off + hi then g2 (y - off) (d0.1.data (y - off))
        else d0.2.data y) := by
  refine forLoop_stride step hi body
    (fun j st =>
      (∀ x, st.1.data x = if j0 ≤ x ∧ x < j then g1 x (d0.1.data x) else d0.1.data x) ∧
      (∀ y, st.2.data y =
        if off + j0 ≤ y ∧ y < off + j then g2 (y - off) (d0.1.data (y - off))
        else d0.2.data y))
    hstep j0 d0 ?_ hj0 hdvd ?_ fuel hfuel
  · refine ⟨fun x => ?_, fun y => ?_⟩
    · rw [if_neg (by omega)]
    · rw [if_neg (by omega)]
  · rintro j st h1 _ ⟨i1, i2⟩
    obtain ⟨b1, b2⟩ := hb j st
    refine ⟨fun x => ?_, fun y => ?_⟩
    · show (body j st).1.data x = _
      rw [b1 x, i1 x]
      by_cases c1 : j ≤ x ∧ x < j + step
      · rw [if_pos c1, if_neg (by omega), if_pos (by omega)]
      · by_cases c2 : j0 ≤ x ∧ x < j
        · rw [if_neg c1, if_pos c2, if_pos (by omega)]
        · rw [if_neg c1, if_neg c2, if_neg (by omega)]
    · show (body j st).2.data y = _
      rw [b2 y, i2 y]
      by_cases c1 : off + j ≤ y ∧ y < off + j + step
      · rw [if_pos c1, if_pos (by omega), i1 (y - off), if_neg (by omega)]
      · by_cases c2 : off + j0 ≤ y ∧ y < off + j
        · rw [if_neg c1, if_pos c2, if_pos (by omega)]
        · rw [if_neg c1, if_neg c2, if_neg (by omega)]

/-- The one-vector / scalar decomposition of a pointwise pass over `[0, size)` of one
buffer. -/
theorem twoTier_data {α : Type} (F : Nat) (hF : 0 < F) (g : Nat → α → α)
    (b1 bs : Nat → Buf α → Buf α) (h1 : Pointwise F g b1) (hs : Pointwise 1 g bs)
    (size : Nat) (d : Buf α) (x : Nat) :
    (forLoop 1 size bs size (forLoop F (AlignLo size F) b1 (AlignLo size F) 0 d).1
      (forLoop F (AlignLo size F) b1 (AlignLo size F) 0 d).2).2.data x =
      if x < size then g x (d.data x) else d.data x := by
  obtain ⟨hA1, hA2⟩ := forLoop_pointwise F (AlignLo size F) b1 g hF h1 0 d (Nat.zero_le _)
    (by simpa using AlignLo_dvd size F) (AlignLo size F) (by omega)
  have hle := AlignLo_le size F
  rw [hA1]
  obtain ⟨-, hB2⟩ := forLoop_pointwise 1 size bs g (by omega) hs (AlignLo size F)
    (forLoop F (AlignLo size F) b1 (AlignLo size F) 0 d).2 hle (one_dvd _) size (by omega)
  rw [hB2 x, hA2 x]
  by_cases c1 : x < AlignLo size F
  · rw [if_neg (show ¬ (AlignLo size F ≤ x ∧ x < size) by omega),
      if_pos (show 0 ≤ x ∧ x < AlignLo size F by omega), if_pos (show x < size by omega)]
  · by_cases c2 : x < size
    · rw [if_pos (show AlignLo size F ≤ x ∧ x < size by omega),
        if_neg (show ¬ (0 ≤ x ∧ x < AlignLo size F) by omega), if_pos c2]
    · rw [if_neg (show ¬ (AlignLo size F ≤ x ∧ x < size) by omega),
        if_neg (show ¬ (0 ≤ x ∧ x < AlignLo size F) by omega), if_neg c2]

/-- The one-vector / scalar decomposition of a pointwise pass over `[0, size)` of a scratch
buffer with stores to an output buffer at offset `off`. -/
theorem twoTier_data2 {α : Type} (F off : Nat) (hF : 0 < F) (g1 g2 : Nat → α → α)
    (b1 bs : Nat → Buf α × Buf α → Buf α × Buf α) (h1 : Pointwise2 F off g1 g2 b1)
    (hs : Pointwise2 1 off g1 g2 bs) (size : Nat) (d : Buf α × Buf α) :
    (∀ x, (forLoop 1 size bs size (forLoop F (AlignLo size F) b1 (AlignLo size F) 0 d).1
        (forLoop F (AlignLo size F) b1 (AlignLo size F) 0 d).2).2.1.data x =
      if x < size then g1 x (d.1.data x) else d.1.data x) ∧
    (∀ y, (forLoop 1 size bs size (forLoop F (AlignLo size F) b1 (AlignLo size F) 0 d).1
        (forLoop F (AlignLo size F) b1 (AlignLo size F) 0 d).2).2.2.data y =
      if off ≤ y ∧ y < off + size then g2 (y - off) (d.1.data (y - off)) else d.2.data y) := by
  obtain ⟨hA1, hA2, hA3⟩ := forLoop_pointwise2 F (AlignLo size F) off b1 g1 g2 hF h1 0 d
    (Nat.zero_le _) (by simpa using AlignLo_dvd size F) (AlignLo size F) (by omega)
  have hle := AlignLo_le size F
  rw [hA1]
  obtain ⟨-, hB2, hB3⟩ := forLoop_pointwise2 1 size off bs g1 g2 (by omega) hs
    (AlignLo size F) (forLoop F (AlignLo size F) b1 (AlignLo size F) 0 d).2 hle (one_dvd _)
    size (by omega)
  refine ⟨fun x => ?_, fun y => ?_⟩
  · rw [hB2 x, hA2 x]
    by_cases c1 : x < AlignLo size F
    · rw [if_neg (show ¬ (AlignLo size F ≤ x ∧ x < size) by omega),
        if_pos (show 0 ≤ x ∧ x < AlignLo size F by omega), if_pos (show x < size by omega)]
    · by_cases c2 : x < size
      · rw [if_pos (show AlignLo size F ≤ x ∧ x < size by omega),
          if_neg (show ¬ (0 ≤ x ∧ x < AlignLo size F) by omega), if_pos c2]
      · rw [if_neg (show ¬ (AlignLo size F ≤ x ∧ x < size) by omega),
          if_neg (show ¬ (0 ≤ x ∧ x < AlignLo size F) by omega), if_neg c2]
  · rw [hB3 y, hA3 y, hA2 (y - off)]
    by_cases c1 : off + AlignLo size F ≤ y ∧ y < off + size
    · rw [if_pos c1, if_neg (show ¬ (0 ≤ y - off ∧ y - off < AlignLo size F) by omega),
        if_pos (show off ≤ y ∧ y < off + size by omega)]
    · by_cases c2 : off + 0 ≤ y ∧ y < off + AlignLo size F
      · rw [if_neg c1, if_pos c2, if_pos (show off ≤ y ∧ y < off + size by omega)]
      · rw [if_neg c1, if_neg c2, if_neg (show ¬ (off ≤ y ∧ y < off + size) by omega)]

/-- The vector loop body of the channel pass is pointwise on `sum` and `dst`. -/
theorem lrn_vec_body {α : Type} [CommRing α] (F off sOff : Nat) (pow : α → α → α)
    (align : Bool) (src pos neg k : Nat → α) :
    Pointwise2 F off (fun x old => old + (pos x * pos x - neg x * neg x))
      (fun x old => src (sOff + x) *
        pow (k 0 + k 1 * (old + (pos x * pos x - neg x * neg x))) (k 2))
      (fun s (sd : Buf α × Buf α) =>
        (Store F true sd.1 s
          (add_ps (Load true sd.1.data s)
            (sub_ps (mul_ps (Load align pos s) (Load align pos s))
              (mul_ps (Load align neg s) (Load align neg s)))),
         Store F align sd.2 (off + s)
          (mul_ps (Load align (fun x => src (sOff + x)) s)
            (powV pow (add_ps (set1_ps (k 0)) (mul_ps (set1_ps (k 1))
              (add_ps (Load true sd.1.data s)
                (sub_ps (mul_ps (Load align pos s) (Load align pos s))
                  (mul_ps (Load align neg s) (Load align neg s))))))
              (set1_ps (k 2)))))) :=
  Pointwise2_store F off true align _ _ _ _ (fun _ _ _ => rfl) (fun _ _ _ => rfl)

/-- The scalar loop body of the channel pass is pointwise on `sum` and `dst`. -/
theorem lrn_scalar_body {α : Type} [CommRing α] (off sOff : Nat) (pow : α → α → α)
    (src pos neg k : Nat → α) :
    Pointwise2 1 off (fun x old => old + (pos x * pos x - neg x * neg x))
      (fun x old => src (sOff + x) *
        pow (k 0 + k 1 * (old + (pos x * pos x - neg x * neg x))) (k 2))
      (fun s (sd : Buf α × Buf α) =>
        ((sd.1.set s (sd.1.data s + Square (pos s))).set s
            ((sd.1.set s (sd.1.data s + Square (pos s))).data s - Square (neg s)),
         sd.2.set (off + s) (src (sOff + s) *
          pow (k 0 + k 1 * ((sd.1.set s (sd.1.data s + Square (pos s))).set s
            ((sd.1.set s (sd.1.data s + Square (pos s))).data s - Square (neg s))).data s)
            (k 2)))) := by
  have hval : ∀ (s : Nat) (b : Buf α),
      ((b.set s (b.data s + Square (pos s))).set s
        ((b.set s (b.data s + Square (pos s))).data s - Square (neg s))).data s =
      b.data s + (pos s * pos s - neg s * neg s) := by
    intro s b
    show (if s = s then (if s = s then b.data s + Square (pos s) else b.data s) -
      Square (neg s) else _) = _
    rw [if_pos rfl, if_pos rfl]
    unfold Square
    ring
  apply Pointwise2_scalar
  · intro j st x
    by_cases c : x = j
    · subst c
      rw [if_pos rfl]
      exact hval x st.1
    · rw [if_neg c]
      show (if x = j then _ else (if x = j then _ else st.1.data x)) = _
      rw [if_neg c, if_neg c]
  · intro j st y
    show (if y = off + j then _ else st.2.data y) = _
    rw [hval]

/-- The sliding window: adding the entering channel `c + half` and removing the leaving
channel `c - half - 1` turns the window sum before channel `c` into the window sum of
channel `c`. -/
theorem lrn_window_step {α : Type} [CommRing α] (src : Nat → α)
    (half channels spatial c x : Nat) (hh : half ≤ channels) (hc : c < channels) :
    (∑ c2 in Finset.Ico (c - half - 1) (min (c + half) channels),
        src (c2 * spatial + x) * src (c2 * spatial + x)) +
      ((if c < subSizeT channels half then (fun x => src (c * spatial + half * spatial + x))
      else fun _ => 0) x *
        (if c < subSizeT channels half then (fun x => src (c * spatial + half * spatial + x))
      else fun _ => 0) x -
       (if c > half then (fun x => src (c * spatial - (half + 1) * spatial + x))
      else fun _ => 0) x *
        (if c > half then (fun x => src (c * spatial - (half + 1) * spatial + x))
      else fun _ => 0) x) =
      ∑ c2 in Finset.Ico (c - half) (min (c + half + 1) channels),
        src (c2 * spatial + x) * src (c2 * spatial + x) := by
  have hsub : subSizeT channels half = channels - half := by
    unfold subSizeT
    rw [if_pos hh]
  rw [hsub]
  have step1 : (∑ c2 in Finset.Ico (c - half - 1) (min (c + half) channels),
        src (c2 * spatial + x) * src (c2 * spatial + x)) +
      (if c < channels - half then (fun x => src (c * spatial + half * spatial + x))
        else fun _ => 0) x *
      (if c < channels - half then (fun x => src (c * spatial + half * spatial + x))
        else fun _ => 0) x =
      ∑ c2 in Finset.Ico (c - half - 1) (min (c + half + 1) channels),
        src (c2 * spatial + x) * src (c2 * spatial + x) := by
    by_cases c1 : c < channels - half
    · rw [if_pos c1]
      have m1 : min (c + half) channels = c + half := by omega
      have m2 : min (c + half + 1) channels = c + half + 1 := by omega
      have e : (c + half) * spatial + x = c * spatial + half * spatial + x := by ring
      rw [m1, m2, Finset.sum_Ico_succ_top (by omega), e]
    · rw [if_neg c1]
      have m1 : min (c + half) channels = channels := by omega
      have m2 : min (c + half + 1) channels = channels := by omega
      rw [m1, m2, mul_zero, add_zero]
  have step2 : (∑ c2 in Finset.Ico (c - half - 1) (min (c + half + 1) channels),
        src (c2 * spatial + x) * src (c2 * spatial + x)) -
      (if c > half then (fun x => src (c * spatial - (half + 1) * spatial + x))
        else fun _ => 0) x *
      (if c > half then (fun x => src (c * spatial - (half + 1) * spatial + x))
        else fun _ => 0) x =
      ∑ c2 in Finset.Ico (c - half) (min (c + half + 1) channels),
        src (c2 * spatial + x) * src (c2 * spatial + x) := by
    by_cases c1 : c > half
    · rw [if_pos c1]
      have e : c * spatial - (half + 1) * spatial + x = (c - half - 1) * spatial + x := by
        rw [Nat.sub_sub, Nat.sub_mul]
      have e2 : c - half = c - half - 1 + 1 := by omega
      rw [Finset.sum_eq_sum_Ico_succ_bot (by omega), e, e2]
      have e3 : c - half - 1 + 1 - 1 = c - half - 1 := by omega
      rw [e3]
      ring
    · rw [if_neg c1]
      have e : c - half - 1 = c - half := by omega
      rw [e, mul_zero, sub_zero]
  rw [← step2, ← step1]
  ring

/-- The planar normalization kernel on `half ≤ channels`: every output element is the input
element times the power of `k[0] + k[1] * (sum of squares over the window clipped to the
channel range)`. -/
theorem lrn_nchw_data {α : Type} [CommRing α] (F : Nat) (hF : 0 < F) (pow : α → α → α)
    (align : Bool) (src : Nat → α) (half channels spatial : Nat) (k : Nat → α) (dst : Buf α)
    (hh : half ≤ channels) (c x : Nat) (hc : c < channels) (hx : x < spatial) :
    (SynetLrnLayerCrossChannelsNchwF F pow align src half channels spatial k dst).data
        (c * spatial + x) =
      src (c * spatial + x) * pow (k 0 + k 1 *
        ∑ c2 in Finset.Ico (c - half) (min (c + half + 1) channels),
          src (c2 * spatial + x) * src (c2 * spatial + x)) (k 2) := by
  unfold SynetLrnLayerCrossChannelsNchwF
  simp only []
  refine (forLoop_one channels _
    (fun c (st : Nat × Nat × Buf α × Buf α) =>
      st.1 = c * spatial ∧ st.2.1 = c * spatial ∧
      (∀ x, x < spatial → st.2.2.1.data x =
        ∑ c2 in Finset.Ico (c - half - 1) (min (c + half) channels),
          src (c2 * spatial + x) * src (c2 * spatial + x)) ∧
      (∀ c2 x, c2 < c → x < spatial → st.2.2.2.data (c2 * spatial + x) =
        src (c2 * spatial + x) * pow (k 0 + k 1 *
          ∑ c3 in Finset.Ico (c2 - half) (min (c2 + half + 1) channels),
            src (c3 * spatial + x) * src (c3 * spatial + x)) (k 2)))
    0 _ ?_ (Nat.zero_le _) ?_ channels (by omega)).2.2.2 c x hc hx
  · refine ⟨(Nat.zero_mul _).symm, (Nat.zero_mul _).symm, ?_, ?_⟩
    · intro x hx
      have e : Finset.Ico (0 - half - 1) (min (0 + half) channels) = Finset.range half := by
        rw [Finset.range_eq_Ico]
        congr 1 <;> omega
      rw [e]
      refine forLoop_one half _
        (fun c (sum : Buf α) => ∀ x, x < spatial → sum.data x =
          ∑ c2 in Finset.range c, src (c2 * spatial + x) * src (c2 * spatial + x))
        0 _ ?_ (Nat.zero_le _) ?_ half (by omega) x hx
      · intro x _
        rw [Finset.sum_range_zero]
        rfl
      · intro c sum _ _ hP x hx
        refine (twoTier_data F hF
          (fun x old => old + src (c * spatial + x) * src (c * spatial + x)) _ _ ?_ ?_
          spatial sum x).trans ?_
        · exact Pointwise_store F true _ _ (fun _ _ _ => rfl)
        · exact Pointwise_set _ _ (fun _ _ => rfl)
        · rw [if_pos hx, hP x hx, Finset.sum_range_succ]
    · intro c2 x h
      omega
  · rintro c ⟨sOff, dOff, sum, d⟩ _ hc ⟨h1, h2, h3, h4⟩
    simp only at h1 h2 h3 h4
    subst h1 h2
    have T := twoTier_data2 F (c * spatial) hF _ _ _ _
      (lrn_vec_body F (c * spatial) (c * spatial) pow align src
        (if c < subSizeT channels half then (fun x => src (c * spatial + half * spatial + x))
          else fun _ => 0)
        (if c > half then (fun x => src (c * spatial - (half + 1) * spatial + x))
          else fun _ => 0) k)
      (lrn_scalar_body (c * spatial) (c * spatial) pow src
        (if c < subSizeT channels half then (fun x => src (c * spatial + half * spatial + x))
          else fun _ => 0)
        (if c > half then (fun x => src (c * spatial - (half + 1) * spatial + x))
          else fun _ => 0) k)
      spatial (sum, d)
    obtain ⟨T1, T2⟩ := T
    have e1 : c + 1 - half - 1 = c - half := by omega
    have e2 : c + 1 + half = c + half + 1 := by omega
    refine ⟨?_, ?_, ?_, ?_⟩
    · show c * spatial + spatial = (c + 1) * spatial
      ring
    · show c * spatial + spatial = (c + 1) * spatial
      ring
    · intro x hx
      refine (T1 x).trans ?_
      rw [if_pos hx, e1, e2]
      show sum.data x + _ = _
      rw [h3 x hx]
      exact lrn_window_step src half channels spatial c x hh hc
    · intro c2 x hc2 hx
      refine (T2 (c2 * spatial + x)).trans ?_
      by_cases hcc : c2 = c
      · subst hcc
        rw [if_pos (show c2 * spatial ≤ c2 * spatial + x ∧
          c2 * spatial + x < c2 * spatial + spatial by omega)]
        have e3 : c2 * spatial + x - c2 * spatial = x := by omega
        rw [e3]
        show src (c2 * spatial + x) * pow (k 0 + k 1 * (sum.data x + _)) (k 2) = _
        rw [h3 x hx, lrn_window_step src half channels spatial c2 x hh hc]
      · have hlt : c2 < c := by omega
        have hle : (c2 + 1) * spatial ≤ c * spatial := Nat.mul_le_mul_right _ hlt
        have hexp : (c2 + 1) * spatial = c2 * spatial + spatial := by ring
        rw [if_neg (show ¬ (c * spatial ≤ c2 * spatial + x ∧
          c2 * spatial + x < c * spatial + spatial) by omega)]
        exact h4 c2 x hlt hx

/-- The window sum of the specification is the sum of squares over the channels of the
window that lie in `[0, channels)`. -/
theorem windowSum_eq {α : Type} [CommRing α] (src : Nat → α)
    (half channels spatial c x : Nat) (hc : c < channels) :
    windowSum src half channels spatial c x =
      ∑ c2 in Finset.Ico (c - half) (min (c + half + 1) channels),
        src (c2 * spatial + x) * src (c2 * spatial + x) := by
  unfold windowSum
  rw [← Finset.sum_filter]
  refine Finset.sum_nbij' (fun d => c + d - half) (fun c2 => c2 + half - c) ?_ ?_ ?_ ?_ ?_
  · intro d hd
    simp only [Finset.mem_filter, Finset.mem_range, Finset.mem_Ico] at hd ⊢
    omega
  · intro c2 hc2
    simp only [Finset.mem_filter, Finset.mem_range, Finset.mem_Ico] at hc2 ⊢
    omega
  · intro d hd
    simp only [Finset.mem_filter, Finset.mem_range] at hd
    show c + d - half + half - c = d
    omega
  · intro c2 hc2
    simp only [Finset.mem_Ico] at hc2
    show c + (c2 + half - c) - half = c2
    omega
  · intro d _
    exact pow_two _

/-- The planar normalization kernel on `half ≤ channels`, against the window sum of the
specification. -/
theorem lrn_nchw_windowSum {α : Type} [CommRing α] (F : Nat) (hF : 0 < F)
    (pow : α → α → α) (align : Bool) (src : Nat → α) (half channels spatial : Nat)
    (k : Nat → α) (dst : Buf α) (hh : half ≤ channels) (c s : Nat) (hc : c < channels)
    (hs : s < spatial) :
    (SynetLrnLayerCrossChannelsNchwF F pow align src half channels spatial k dst).data
        (c * spatial + s) =
      src (c * spatial + s) *
        pow (k 0 + k 1 * windowSum src half channels spatial c s) (k 2) := by
  rw [windowSum_eq src half channels spatial c s hc]
  exact lrn_nchw_data F hF pow align src half channels spatial k dst hh c s hc hs

/-- C9, as stated, fails for `half > channels`: with one channel, one spatial position,
`half = 2`, `k = [0, 1, 1]` and a memory that holds `1` in the tensor and after it, both
tiers store `3` in `dst[0]`, while the formula of the claim gives `1` (the window sum is
`1`, the two channels above the only channel contributing zero). -/
theorem C9_planar_lrn_refuted :
    (Sse41.SynetLrnLayerCrossChannelsNchw powRat false onesVec 2 1 1 lrnUnitK
        (Buf.ofFn zeroVec)).data (0 * 1 + 0) = 3 ∧
      (Avx2.SynetLrnLayerCrossChannelsNchw powRat false onesVec 2 1 1 lrnUnitK
        (Buf.ofFn zeroVec)).data (0 * 1 + 0) = 3 ∧
      onesVec (0 * 1 + 0) *
        powRat (lrnUnitK 0 + lrnUnitK 1 * windowSum onesVec 2 1 1 0 0) (lrnUnitK 2) = 1 := by
  refine ⟨?_, ?_, ?_⟩
  · simp [Sse41.SynetLrnLayerCrossChannelsNchw, SynetLrnLayerCrossChannelsNchwF, forLoop,
      AlignLo, Sse41.F, subSizeT, Buf.set, Buf.ofFn, Square, onesVec, lrnUnitK, powRat]
    norm_num
  · simp [Avx2.SynetLrnLayerCrossChannelsNchw, SynetLrnLayerCrossChannelsNchwF, forLoop,
      AlignLo, Avx2.F, subSizeT, Buf.set, Buf.ofFn, Square, onesVec, lrnUnitK, powRat]
    norm_num
  · simp only [windowSum, Finset.sum_range_succ, Finset.sum_range_zero]
    norm_num [onesVec, lrnUnitK, powRat]

/-- C9, amended with `half ≤ channels`: for every `half ≤ channels`, every spatial size and
every channel `c < channels` and position `s < spatial`, both tiers (aligned or not) store
`dst[c*spatial + s] = src[c*spatial + s] * pow (k[0] + k[1] * windowSum(c, s)) k[2]`, where
`windowSum(c, s)` sums `src[c'*spatial + s]^2` over `c'` from `c - half` to `c + half`, the
indices outside `[0, channels)` contributing zero. -/
theorem C9_planar_lrn {α : Type} [CommRing α] (pow : α → α → α) (align : Bool)
    (src : Nat → α) (half channels spatial : Nat) (k : Nat → α) (dst : Buf α)
    (hh : half ≤ channels) (c s : Nat) (hc : c < channels) (hs : s < spatial) :
    (Sse41.SynetLrnLayerCrossChannelsNchw pow align src half channels spatial k dst).data
        (c * spatial + s) =
      src (c * spatial + s) *
        pow (k 0 + k 1 * windowSum src half channels spatial c s) (k 2) ∧
    (Avx2.SynetLrnLayerCrossChannelsNchw pow align src half channels spatial k dst).data
        (c * spatial + s) =
      src (c * spatial + s) *
        pow (k 0 + k 1 * windowSum src half channels spatial c s) (k 2) :=
  ⟨lrn_nchw_windowSum Sse41.F (by decide) pow align src half channels spatial k dst hh c s
      hc hs,
    lrn_nchw_windowSum Avx2.F (by decide) pow align src half channels spatial k dst hh c s
      hc hs⟩

/-- C9, amended, at `src = [1, 2, 3, 4]`, `half = 1`, four channels, one spatial position,
`k = [0, 1, 1]`, channel `2`. -/
theorem C9_planar_lrn_witness :
    1 ≤ 4 ∧ 2 < 4 ∧ 0 < 1 ∧
    ((Sse41.SynetLrnLayerCrossChannelsNchw powRat false lrnExampleSrc 1 4 1 lrnUnitK
        (Buf.ofFn zeroVec)).data (2 * 1 + 0) =
      lrnExampleSrc (2 * 1 + 0) *
        powRat (lrnUnitK 0 + lrnUnitK 1 * windowSum lrnExampleSrc 1 4 1 2 0) (lrnUnitK 2) ∧
    (Avx2.SynetLrnLayerCrossChannelsNchw powRat false lrnExampleSrc 1 4 1 lrnUnitK
        (Buf.ofFn zeroVec)).data (2 * 1 + 0) =
      lrnExampleSrc (2 * 1 + 0) *
        powRat (lrnUnitK 0 + lrnUnitK 1 * windowSum lrnExampleSrc 1 4 1 2 0) (lrnUnitK 2)) :=
  ⟨by norm_num, by norm_num, by norm_num,
    C9_planar_lrn powRat false lrnExampleSrc 1 4 1 lrnUnitK (Buf.ofFn zeroVec) (by norm_num)
      2 0 (by norm_num) (by norm_num)⟩

/-- The window sums of the worked example `src = [1, 2, 3, 4]`, `half = 1`, four channels,
one spatial position. -/
theorem lrnExample_windowSum :
    (List.range 4).map (fun c => windowSum lrnExampleSrc 1 4 1 c 0) = [5, 14, 29, 25] := by
  have e : List.range 4 = [0, 1, 2, 3] := by decide
  rw [e]
  simp only [List.map_cons, List.map_nil, windowSum, Finset.sum_range_succ,
    Finset.sum_range_zero]
  norm_num [lrnExampleSrc]

/-- The output of the planar kernel of `F` lanes on the worked example, for any constants
`k` with `k[2] = 1`: `dst[c] = src[c] * (k[0] + k[1] * windowSum(c))`. -/
theorem lrnExample_data (F : Nat) (hF : 0 < F) (k : Nat → ℚ) (hk : k 2 = 1) :
    (List.range 4).map (SynetLrnLayerCrossChannelsNchwF F powRat false lrnExampleSrc 1 4 1 k
        (Buf.ofFn zeroVec)).data =
      [1 * (k 0 + k 1 * 5), 2 * (k 0 + k 1 * 14), 3 * (k 0 + k 1 * 29),
        4 * (k 0 + k 1 * 25)] := by
  have e : List.range 4 = [0, 1, 2, 3] := by decide
  have w := lrnExample_windowSum
  rw [e] at w ⊢
  simp only [List.map_cons, List.map_nil, List.cons.injEq, and_true] at w
  obtain ⟨w0, w1, w2, w3⟩ := w
  have h := fun c (hc : c < 4) => lrn_nchw_windowSum F hF powRat false lrnExampleSrc 1 4 1 k
    (Buf.ofFn zeroVec) (by norm_num) c 0 hc (by norm_num)
  have h0 := h 0 (by norm_num)
  have h1 := h 1 (by norm_num)
  have h2 := h 2 (by norm_num)
  have h3 := h 3 (by norm_num)
  rw [w0] at h0
  rw [w1] at h1
  rw [w2] at h2
  rw [w3] at h3
  have p : ∀ x : ℚ, powRat x (k 2) = x := by
    intro x
    rw [hk]
    exact zpow_one x
  rw [p] at h0 h1 h2 h3
  simp only [List.map_cons, List.map_nil]
  have s0 : lrnExampleSrc 0 = 1 := rfl
  have s1 : lrnExampleSrc 1 = 2 := rfl
  have s2 : lrnExampleSrc 2 = 3 := rfl
  have s3 : lrnExampleSrc 3 = 4 := rfl
  rw [← s0, ← s1, ← s2, ← s3]
  exact congrArg₂ List.cons h0 (congrArg₂ List.cons h1 (congrArg₂ List.cons h2
    (congrArg₂ List.cons h3 rfl)))

/-- C10, as stated, fails: with `channels = 4`, `half = 1`, `spatial = 1`, `k = [1, 0, 1]`
and `src = [1, 2, 3, 4]` neither tier produces `dst = [5, 28, 87, 100]`. -/
theorem C10_example_refuted :
    ¬ ((List.range 4).map (Sse41.SynetLrnLayerCrossChannelsNchw powRat false lrnExampleSrc
          1 4 1 lrnExampleK (Buf.ofFn zeroVec)).data = [5, 28, 87, 100]) ∧
      ¬ ((List.range 4).map (Avx2.SynetLrnLayerCrossChannelsNchw powRat false lrnExampleSrc
          1 4 1 lrnExampleK (Buf.ofFn zeroVec)).data = [5, 28, 87, 100]) := by
  unfold Sse41.SynetLrnLayerCrossChannelsNchw Avx2.SynetLrnLayerCrossChannelsNchw
  rw [lrnExample_data Sse41.F (by decide) lrnExampleK rfl,
    lrnExample_data Avx2.F (by decide) lrnExampleK rfl]
  norm_num [lrnExampleK]

/-- C10, amended: with `channels = 4`, `half = 1`, `spatial = 1` and `src = [1, 2, 3, 4]`
the window sums are `[5, 14, 29, 25]`; with `k = [1, 0, 1]` both tiers produce
`dst = [1, 2, 3, 4]`, and with `k = [0, 1, 1]` both tiers produce `dst = [5, 28, 87, 100]`. -/
theorem C10_example_amended :
    (List.range 4).map (fun c => windowSum lrnExampleSrc 1 4 1 c 0) = [5, 14, 29, 25] ∧
      (List.range 4).map (Sse41.SynetLrnLayerCrossChannelsNchw powRat false lrnExampleSrc
          1 4 1 lrnExampleK (Buf.ofFn zeroVec)).data = [1, 2, 3, 4] ∧
      (List.range 4).map (Avx2.SynetLrnLayerCrossChannelsNchw powRat false lrnExampleSrc
          1 4 1 lrnExampleK (Buf.ofFn zeroVec)).data = [1, 2, 3, 4] ∧
      (List.range 4).map (Sse41.SynetLrnLayerCrossChannelsNchw powRat false lrnExampleSrc
          1 4 1 lrnUnitK (Buf.ofFn zeroVec)).data = [5, 28, 87, 100] ∧
      (List.range 4).map (Avx2.SynetLrnLayerCrossChannelsNchw powRat false lrnExampleSrc
          1 4 1 lrnUnitK (Buf.ofFn zeroVec)).data = [5, 28, 87, 100] := by
  unfold Sse41.SynetLrnLayerCrossChannelsNchw Avx2.SynetLrnLayerCrossChannelsNchw
  rw [lrnExample_data Sse41.F (by decide) lrnExampleK rfl,
    lrnExample_data Avx2.F (by decide) lrnExampleK rfl,
    lrnExample_data Sse41.F (by decide) lrnUnitK rfl,
    lrnExample_data Avx2.F (by decide) lrnUnitK rfl]
  refine ⟨lrnExample_windowSum, ?_, ?_, ?_, ?_⟩ <;> norm_num [lrnExampleK, lrnUnitK]

/-! ## Unary transform -/

/-- Every lane of the vector function is the scalar function of the lane, when the five
uninterpreted functions agree. -/
theorem unary_lane {α : Type} [LinearOrderedCommRing α] (V B : UnaryFns α)
    (hVB : LaneAgrees V B) (type : SimdSynetUnaryOperation32fType) (v : Nat → α) (l : Nat) :
    SynetUnaryOperation32f V type v l = Base.SynetUnaryOperation32f B type (v l) := by
  obtain ⟨h1, h2, h3, h4, h5⟩ := hVB (v l)
  cases type
  · rfl
  · exact h1
  · exact h2
  · exact zero_sub (v l)
  · exact h3
  · exact h4
  · exact h5
  · rfl

/-- Four stores at `j + 0 * F`, ..., `j + 3 * F` rewrite the `4 * F` elements from `j` on. -/
theorem Pointwise_quad_mul {α : Type} {F : Nat} {g : Nat → α → α}
    {b : Nat → Buf α → Buf α} (h : Pointwise F g b) :
    Pointwise (4 * F) g
      (fun j d => b (j + 3 * F) (b (j + 2 * F) (b (j + 1 * F) (b (j + 0 * F) d)))) := by
  have h2 := Pointwise_seq (Pointwise_seq (Pointwise_seq h h) h) h
  intro j d x
  have e := h2 j d x
  have e1 : j + 0 * F = j := by ring
  have e2 : j + 1 * F = j + F := by ring
  have e3 : j + 2 * F = j + (F + F) := by ring
  have e4 : j + 3 * F = j + (F + F + F) := by ring
  have e5 : j + 4 * F = j + (F + F + F + F) := by ring
  show (b (j + 3 * F) (b (j + 2 * F) (b (j + 1 * F) (b (j + 0 * F) d)))).data x = _
  rw [e1, e2, e3, e4, e5]
  exact e

/-- The two vector loops of the unary transform stop at `AlignLo size F`, having rewritten
and logged exactly the elements below it. -/
theorem unary_blocks_spec {α : Type} [LinearOrderedCommRing α] (F QF : Nat) (hF : 0 < F)
    (hQF : QF = 4 * F) (V B : UnaryFns α) (hVB : LaneAgrees V B)
    (type : SimdSynetUnaryOperation32fType) (align : Bool) (src : Nat → α) (size : Nat)
    (dst : Buf α) :
    (SynetUnaryOperation32fLayerForwardBlocks F QF V type align src size dst).1 =
        AlignLo size F ∧
      (∀ x, (SynetUnaryOperation32fLayerForwardBlocks F QF V type align src size dst).2.data x =
        if x < AlignLo size F then Base.SynetUnaryOperation32f B type (src x)
        else dst.data x) ∧
      (SynetUnaryOperation32fLayerForwardBlocks F QF V type align src size dst).2.writes =
        dst.writes ++ List.range' 0 (AlignLo size F) := by
  subst hQF
  have hb1 : Pointwise F (fun x _ => Base.SynetUnaryOperation32f B type (src x))
      (fun i d => Store F align d i (SynetUnaryOperation32f V type (Load align src i))) :=
    Pointwise_store F align _ _ (fun j _ l => unary_lane V B hVB type (Load align src j) l)
  have hb4 := Pointwise_quad_mul hb1
  have hw1 : ∀ j (d : Buf α),
      (Store F align d j (SynetUnaryOperation32f V type (Load align src j))).writes =
        d.writes ++ List.range' j F := fun _ _ => rfl
  have hw4 : ∀ j (d : Buf α),
      (Store F align (Store F align (Store F align (Store F align d (j + 0 * F)
        (SynetUnaryOperation32f V type (Load align src (j + 0 * F)))) (j + 1 * F)
        (SynetUnaryOperation32f V type (Load align src (j + 1 * F)))) (j + 2 * F)
        (SynetUnaryOperation32f V type (Load align src (j + 2 * F)))) (j + 3 * F)
        (SynetUnaryOperation32f V type (Load align src (j + 3 * F)))).writes =
        d.writes ++ List.range' j (4 * F) := by
    intro j d
    show d.writes ++ List.range' (j + 0 * F) F ++ List.range' (j + 1 * F) F ++
      List.range' (j + 2 * F) F ++ List.range' (j + 3 * F) F = _
    have e1 : j + 0 * F = j := by ring
    have e2 : j + 1 * F = j + F := by ring
    have e3 : j + 2 * F = j + (F + F) := by ring
    have e4 : j + 3 * F = j + (F + F + F) := by ring
    have e5 : 4 * F = F + F + F + F := by ring
    have r2 : ∀ s m n : Nat, List.range' s m ++ List.range' (s + m) n =
        List.range' s (m + n) := by
      intro s m n
      rw [List.range'_append_1, Nat.add_comm]
    rw [e1, e2, e3, e4, e5, List.append_assoc, List.append_assoc, List.append_assoc]
    congr 1
    rw [← List.append_assoc, ← List.append_assoc, r2 j F F, r2 j (F + F) F,
      r2 j (F + F + F) F]
  have hA := forLoop_pointwise (4 * F) (AlignLo size (4 * F)) _ _ (by omega) hb4 0 dst
    (Nat.zero_le _) (by simpa using AlignLo_dvd size (4 * F)) (AlignLo size (4 * F)) (by omega)
  have hAw := forLoop_writes (4 * F) (AlignLo size (4 * F)) _ (by omega) hw4 0 dst
    (Nat.zero_le _) (by simpa using AlignLo_dvd size (4 * F)) (AlignLo size (4 * F)) (by omega)
  obtain ⟨hA1, hA2⟩ := hA
  have hB := forLoop_pointwise F (AlignLo size F) _ _ hF hb1 (AlignLo size (4 * F))
    (forLoop (4 * F) (AlignLo size (4 * F)) (fun j d =>
      Store F align (Store F align (Store F align (Store F align d (j + 0 * F)
        (SynetUnaryOperation32f V type (Load align src (j + 0 * F)))) (j + 1 * F)
        (SynetUnaryOperation32f V type (Load align src (j + 1 * F)))) (j + 2 * F)
        (SynetUnaryOperation32f V type (Load align src (j + 2 * F)))) (j + 3 * F)
        (SynetUnaryOperation32f V type (Load align src (j + 3 * F))))
      (AlignLo size (4 * F)) 0 dst).2
    (AlignLo_quad_le size F) (AlignLo_quad_dvd size F) (AlignLo size F) (by omega)
  have hBw := forLoop_writes F (AlignLo size F) _ hF hw1 (AlignLo size (4 * F))
    (forLoop (4 * F) (AlignLo size (4 * F)) (fun j d =>
      Store F align (Store F align (Store F align (Store F align d (j + 0 * F)
        (SynetUnaryOperation32f V type (Load align src (j + 0 * F)))) (j + 1 * F)
        (SynetUnaryOperation32f V type (Load align src (j + 1 * F)))) (j + 2 * F)
        (SynetUnaryOperation32f V type (Load align src (j + 2 * F)))) (j + 3 * F)
        (SynetUnaryOperation32f V type (Load align src (j + 3 * F))))
      (AlignLo size (4 * F)) 0 dst).2
    (AlignLo_quad_le size F) (AlignLo_quad_dvd size F) (AlignLo size F) (by omega)
  obtain ⟨hB1, hB2⟩ := hB
  have hle := AlignLo_quad_le size F
  unfold SynetUnaryOperation32fLayerForwardBlocks
  simp only []
  rw [hA1]
  refine ⟨hB1, ?_, ?_⟩
  · intro x
    rw [hB2 x, hA2 x]
    by_cases c1 : x < AlignLo size (4 * F)
    · rw [if_neg (show ¬ (AlignLo size (4 * F) ≤ x ∧ x < AlignLo size F) by omega),
        if_pos (show 0 ≤ x ∧ x < AlignLo size (4 * F) by omega),
        if_pos (show x < AlignLo size F by omega)]
    · by_cases c2 : x < AlignLo size F
      · rw [if_pos (show AlignLo size (4 * F) ≤ x ∧ x < AlignLo size F by omega), if_pos c2]
      · rw [if_neg (show ¬ (AlignLo size (4 * F) ≤ x ∧ x < AlignLo size F) by omega),
          if_neg (show ¬ (0 ≤ x ∧ x < AlignLo size (4 * F)) by omega), if_neg c2]
  · rw [hBw, hAw, List.append_assoc]
    congr 1
    have e := List.range'_append_1 0 (AlignLo size (4 * F))
      (AlignLo size F - AlignLo size (4 * F))
    simp only [Nat.zero_add, Nat.sub_zero] at e ⊢
    rw [e]
    congr 1
    omega

/-- The unary transform for a tier of `F` lanes rewrites every element below `size` to the
scalar function of the input element, leaves the rest, and logs the stores `0, 1, ...,
size - 1` in this order. -/
theorem unary_spec {α : Type} [LinearOrderedCommRing α] (F QF : Nat) (hF : 0 < F)
    (hQF : QF = 4 * F) (V B : UnaryFns α) (hVB : LaneAgrees V B)
    (type : SimdSynetUnaryOperation32fType) (align : Bool) (src : Nat → α) (size : Nat)
    (dst : Buf α) :
    (∀ x, (SynetUnaryOperation32fLayerForwardF F QF V B type align src size dst).data x =
        if x < size then Base.SynetUnaryOperation32f B type (src x) else dst.data x) ∧
      (SynetUnaryOperation32fLayerForwardF F QF V B type align src size dst).writes =
        dst.writes ++ List.range size := by
  obtain ⟨h1, h2, h3⟩ := unary_blocks_spec F QF hF hQF V B hVB type align src size dst
  have hle := AlignLo_le size F
  have hs : Pointwise 1 (fun x _ => Base.SynetUnaryOperation32f B type (src x))
      (fun i (d : Buf α) => d.set i (Base.SynetUnaryOperation32f B type (src i))) :=
    Pointwise_set _ _ (fun _ _ => rfl)
  have hC := forLoop_pointwise 1 size _ _ (by omega) hs (AlignLo size F)
    (SynetUnaryOperation32fLayerForwardBlocks F QF V type align src size dst).2 hle
    (one_dvd _) size (by omega)
  have hCw := forLoop_writes 1 size
    (fun i (d : Buf α) => d.set i (Base.SynetUnaryOperation32f B type (src i))) (by omega)
    (fun _ _ => rfl) (AlignLo size F)
    (SynetUnaryOperation32fLayerForwardBlocks F QF V type align src size dst).2 hle
    (one_dvd _) size (by omega)
  unfold SynetUnaryOperation32fLayerForwardF
  simp only []
  rw [h1]
  refine ⟨?_, ?_⟩
  · intro x
    rw [hC.2 x, h2 x]
    by_cases c1 : x < AlignLo size F
    · rw [if_neg (show ¬ (AlignLo size F ≤ x ∧ x < size) by omega), if_pos c1,
        if_pos (show x < size by omega)]
    · by_cases c2 : x < size
      · rw [if_pos (show AlignLo size F ≤ x ∧ x < size by omega), if_pos c2]
      · rw [if_neg (show ¬ (AlignLo size F ≤ x ∧ x < size) by omega), if_neg c1, if_neg c2]
  · rw [hCw, h3, List.append_assoc]
    congr 1
    rw [List.range_eq_range']
    have e := List.range'_append_1 0 (AlignLo size F) (size - AlignLo size F)
    rw [Nat.zero_add] at e
    rw [e]
    congr 1
    omega

/-- The vector function of every tag works lane by lane: lane `l` of the result is the lane
function of lane `l` of the argument. -/
theorem unary_lanewise {α : Type} [LinearOrderedCommRing α] (V : UnaryFns α)
    (type : SimdSynetUnaryOperation32fType) (v : Nat → α) (l : Nat) :
    SynetUnaryOperation32f V type v l = unaryLane V type (v l) := by
  cases type <;> rfl

/-- C15, as stated, fails for the SSE4.1 tier: size 5 is not below its vector width 4, and
on `src = [-2, -1, 0, 1, 2]` its single-vector loop runs once: the vector loops stop at
`i = 4` having stored to the indices `0, 1, 2, 3`. -/
theorem C15_abs_example_refuted :
    ¬ (5 < Sse41.F) ∧
      (SynetUnaryOperation32fLayerForwardBlocks Sse41.F Sse41.QF idFns .Abs false
        absExampleSrc 5 (Buf.ofFn zeroVec)).1 = 4 ∧
      (SynetUnaryOperation32fLayerForwardBlocks Sse41.F Sse41.QF idFns .Abs false
        absExampleSrc 5 (Buf.ofFn zeroVec)).2.writes = [0, 1, 2, 3] := by
  obtain ⟨h1, -, h3⟩ := unary_blocks_spec Sse41.F Sse41.QF (by decide) (by decide) idFns idFns
    (fun _ => ⟨rfl, rfl, rfl, rfl, rfl⟩) .Abs false absExampleSrc 5 (Buf.ofFn zeroVec)
  refine ⟨by decide, h1, h3⟩

/-- C15, amended: unary abs on `src = [-2, -1, 0, 1, 2]` with size 5 yields
`dst = [2, 1, 0, 1, 2]` on both tiers. On AVX2 (8 lanes) size 5 is below one vector width:
the vector loops execute no block (they stop at `i = 0` with no store) and every element
is processed by the scalar loop. On SSE4.1 (4 lanes) one single-vector block processes the
elements `0, ..., 3` and the scalar loop the element `4`. -/
theorem C15_abs_example_amended :
    (5 < Avx2.F ∧
      (SynetUnaryOperation32fLayerForwardBlocks Avx2.F Avx2.QF idFns .Abs false
        absExampleSrc 5 (Buf.ofFn zeroVec)).1 = 0 ∧
      (SynetUnaryOperation32fLayerForwardBlocks Avx2.F Avx2.QF idFns .Abs false
        absExampleSrc 5 (Buf.ofFn zeroVec)).2.writes = []) ∧
    ((SynetUnaryOperation32fLayerForwardBlocks Sse41.F Sse41.QF idFns .Abs false
        absExampleSrc 5 (Buf.ofFn zeroVec)).1 = 4 ∧
      (SynetUnaryOperation32fLayerForwardBlocks Sse41.F Sse41.QF idFns .Abs false
        absExampleSrc 5 (Buf.ofFn zeroVec)).2.writes = [0, 1, 2, 3]) ∧
    (List.range 5).map (Avx2.SynetUnaryOperation32fLayerForward idFns idFns .Abs false
        absExampleSrc 5 (Buf.ofFn zeroVec)).data = [2, 1, 0, 1, 2] ∧
    (List.range 5).map (Sse41.SynetUnaryOperation32fLayerForward idFns idFns .Abs false
        absExampleSrc 5 (Buf.ofFn zeroVec)).data = [2, 1, 0, 1, 2] ∧
    (Avx2.SynetUnaryOperation32fLayerForward idFns idFns .Abs false
        absExampleSrc 5 (Buf.ofFn zeroVec)).writes = [0, 1, 2, 3, 4] ∧
    (Sse41.SynetUnaryOperation32fLayerForward idFns idFns .Abs false
        absExampleSrc 5 (Buf.ofFn zeroVec)).writes = [0, 1, 2, 3, 4] := by
  have hid : LaneAgrees idFns idFns := fun _ => ⟨rfl, rfl, rfl, rfl, rfl⟩
  obtain ⟨a1, -, a3⟩ := unary_blocks_spec Avx2.F Avx2.QF (by decide) (by decide) idFns idFns
    hid .Abs false absExampleSrc 5 (Buf.ofFn zeroVec)
  obtain ⟨s1, -, s3⟩ := unary_blocks_spec Sse41.F Sse41.QF (by decide) (by decide) idFns idFns
    hid .Abs false absExampleSrc 5 (Buf.ofFn zeroVec)
  obtain ⟨ad, aw⟩ := unary_spec Avx2.F Avx2.QF (by decide) (by decide) idFns idFns
    hid .Abs false absExampleSrc 5 (Buf.ofFn zeroVec)
  obtain ⟨sd, sw⟩ := unary_spec Sse41.F Sse41.QF (by decide) (by decide) idFns idFns
    hid .Abs false absExampleSrc 5 (Buf.ofFn zeroVec)
  have e : List.range 5 = [0, 1, 2, 3, 4] := by decide
  refine ⟨⟨by decide, a1, a3⟩, ⟨s1, s3⟩, ?_, ?_, aw, sw⟩
  · unfold Avx2.SynetUnaryOperation32fLayerForward
    rw [e]
    simp only [List.map_cons, List.map_nil, ad]
    norm_num [Base.SynetUnaryOperation32f, absExampleSrc]
  · unfold Sse41.SynetUnaryOperation32fLayerForward
    rw [e]
    simp only [List.map_cons, List.map_nil, sd]
    norm_num [Base.SynetUnaryOperation32f, absExampleSrc]

/-- C11 fails on the code for `channels = F + 3`: with two spatial samples of all-ones
channels, `half = 2` and `k = [0, 1, 1]`, channel 1 of sample 1 has the window
`{0, 1, 2, 3}`, so the claim gives `1 * (0 + 1 * 4)^1 = 4`; both tiers (7 channels on
SSE4.1, 11 channels on AVX2) store `5`: the block at `c = channels - half - F = 1` is a
`BodySquareSum`, whose first lane adds the square of `src[c - 2]`, the last channel of
sample 0. -/
theorem C11_nhwc_radius2_fails :
    ((Sse41.SynetLrnLayerCrossChannelsNhwc2h powRat false (onesTensor 14) 2 7 2 lrnUnitK
        (Buf.ofFn zeroVec)).data (1 * 7 + 1) = 5 ∧
      onesTensor 14 ((1 * 7 + 1 : Nat) : Int) *
        powRat (lrnUnitK 0 + lrnUnitK 1 * windowSumNhwc (onesTensor 14) 7 1 1)
          (lrnUnitK 2) = 4) ∧
    ((Avx2.SynetLrnLayerCrossChannelsNhwc2h powRat false (onesTensor 22) 2 11 2 lrnUnitK
        (Buf.ofFn zeroVec)).data (1 * 11 + 1) = 5 ∧
      onesTensor 22 ((1 * 11 + 1 : Nat) : Int) *
        powRat (lrnUnitK 0 + lrnUnitK 1 * windowSumNhwc (onesTensor 22) 11 1 1)
          (lrnUnitK 2) = 4) := by
  refine ⟨⟨?_, ?_⟩, ?_, ?_⟩
  · simp [Sse41.SynetLrnLayerCrossChannelsNhwc2h, SynetLrnLayerCrossChannelsNhwc2hF,
      forLoop, AlignLo, Sse41.F, subSizeT, Store, LoadZ, loadu_ps, powV, add_ps, mul_ps,
      set1_ps, BodySquareSumF, SquareV, onesTensor, lrnUnitK, powRat]
    norm_num
  · simp only [windowSumNhwc, Finset.sum_range_succ, Finset.sum_range_zero]
    norm_num [onesTensor, lrnUnitK, powRat]
  · simp [Avx2.SynetLrnLayerCrossChannelsNhwc2h, SynetLrnLayerCrossChannelsNhwc2hF,
      forLoop, AlignLo, Avx2.F, subSizeT, Store, LoadZ, loadu_ps, powV, add_ps, mul_ps,
      set1_ps, BodySquareSumF, SquareV, onesTensor, lrnUnitK, powRat]
    norm_num
  · simp only [windowSumNhwc, Finset.sum_range_succ, Finset.sum_range_zero]
    norm_num [onesTensor, lrnUnitK, powRat]

/-! ## Aligned and unaligned instantiations -/

/-- C17: for each kernel that is specialized on alignment, the `align = true` and the
`align = false` instantiation produce the same output buffer (the same value in every
element and the same stores) on every input: the element-wise combination of SSE4.1 (sum,
product, max, min) and of AVX2 (sum), the SSE4.1 dense projection, the planar and the
interleaved radius-2 normalization and the unary transform of both tiers. -/
theorem C17_aligned_eq_unaligned {α : Type} [LinearOrderedCommRing α]
    (src : Nat → Nat → α) (weight : Nat → α) (count size : Nat)
    (type : SimdSynetEltwiseOperationType) (x w : Nat → α) (bias : Option (Nat → α))
    (pow : α → α → α) (half channels spatial : Nat) (k : Nat → α) (z : Int → α)
    (V B : UnaryFns α) (tag : SimdSynetUnaryOperation32fType) (dst : Buf α) :
    Sse41.SynetEltwiseLayerForward true src weight count size type dst =
        Sse41.SynetEltwiseLayerForward false src weight count size type dst ∧
      Avx2.SynetEltwiseLayerForwardSum true src weight count size dst =
        Avx2.SynetEltwiseLayerForwardSum false src weight count size dst ∧
      Sse41.SynetInnerProductLayerForwardA true x w bias count size dst =
        Sse41.SynetInnerProductLayerForwardA false x w bias count size dst ∧
      Sse41.SynetLrnLayerCrossChannelsNchw pow true x half channels spatial k dst =
        Sse41.SynetLrnLayerCrossChannelsNchw pow false x half channels spatial k dst ∧
      Avx2.SynetLrnLayerCrossChannelsNchw pow true x half channels spatial k dst =
        Avx2.SynetLrnLayerCrossChannelsNchw pow false x half channels spatial k dst ∧
      Sse41.SynetLrnLayerCrossChannelsNhwc2h pow true z half channels spatial k dst =
        Sse41.SynetLrnLayerCrossChannelsNhwc2h pow false z half channels spatial k dst ∧
      Avx2.SynetLrnLayerCrossChannelsNhwc2h pow true z half channels spatial k dst =
        Avx2.SynetLrnLayerCrossChannelsNhwc2h pow false z half channels spatial k dst ∧
      Sse41.SynetUnaryOperation32fLayerForward V B tag true x size dst =
        Sse41.SynetUnaryOperation32fLayerForward V B tag false x size dst ∧
      Avx2.SynetUnaryOperation32fLayerForward V B tag true x size dst =
        Avx2.SynetUnaryOperation32fLayerForward V B tag false x size dst := by
  refine ⟨?_, rfl, rfl, rfl, rfl, rfl, rfl, rfl, rfl⟩
  cases type <;> rfl

/-! ## Address traces of the interleaved radius-2 normalization -/

theorem mem_loadAddrs (F : Nat) (offset a : Int) :
    a ∈ loadAddrs F offset ↔ offset ≤ a ∧ a < offset + F := by
  unfold loadAddrs
  rw [List.mem_map]
  constructor
  · rintro ⟨l, hl, rfl⟩
    rw [List.mem_range] at hl
    omega
  · rintro ⟨h1, h2⟩
    refine ⟨(a - offset).toNat, ?_, ?_⟩
    · rw [List.mem_range]
      omega
    · omega

/-- The loads of `BodySquareSum(src + c)` stay within two elements of the `F` elements from
`c` on. -/
theorem mem_BodySquareSumReads (F : Nat) (offset a : Int)
    (h : a ∈ BodySquareSumReads F offset) : offset - 2 ≤ a ∧ a < offset + F + 2 := by
  unfold BodySquareSumReads at h
  simp only [List.mem_append, mem_loadAddrs] at h
  omega

/-- The loads of `NoseSquareSum(src + c)` stay within two elements of the `F` elements from
`c` on. -/
theorem mem_NoseSquareSumReads (F : Nat) (offset a : Int)
    (h : a ∈ NoseSquareSumReads F offset) : offset - 2 ≤ a ∧ a < offset + F + 2 := by
  unfold NoseSquareSumReads LoadAtEdgeReads at h
  simp only [List.mem_append, mem_loadAddrs] at h
  omega

/-- The loads of `TailSquareSum(src + c)` stay within two elements of the `F` elements from
`c` on. -/
theorem mem_TailSquareSumReads (F : Nat) (offset a : Int)
    (h : a ∈ TailSquareSumReads F offset) : offset - 2 ≤ a ∧ a < offset + F + 2 := by
  unfold TailSquareSumReads LoadAtEdgeReads at h
  simp only [List.mem_append, mem_loadAddrs] at h
  omega

/-- One spatial sample of the radius-2 kernel, for `channels ≥ F + 2`, loads only from the
elements `[-2, channels + 2)` relative to the start of the sample. -/
theorem nhwc2h_sampleReads_bound (F channels : Nat) (hF : 0 < F) (hch : F + 2 ≤ channels)
    (sOff a : Int) (h : a ∈ SynetLrnLayerCrossChannelsNhwc2hSampleReads F 2 channels sOff) :
    sOff - 2 ≤ a ∧ a < sOff + channels + 2 := by
  have hs1 : subSizeT channels 2 = channels - 2 := by
    unfold subSizeT
    rw [if_pos (by omega)]
  have hs2 : subSizeT (channels - 2) F = channels - 2 - F := by
    unfold subSizeT
    rw [if_pos (by omega)]
  have hs3 : subSizeT channels F = channels - F := by
    unfold subSizeT
    rw [if_pos (by omega)]
  have hle := AlignLo_le (channels - 2) F
  have hdv := AlignLo_dvd (channels - 2) F
  have hge : F ≤ AlignLo (channels - 2) F := by
    unfold AlignLo
    have h1 : 1 ≤ (channels - 2) / F := (Nat.one_le_div_iff hF).2 (by omega)
    calc F = 1 * F := (Nat.one_mul F).symm
      _ ≤ (channels - 2) / F * F := Nat.mul_le_mul_right F h1
  have hloop := (forLoop_stride F (AlignLo (channels - 2) F)
    (fun c (reads : List Int) =>
      reads ++ loadAddrs F (sOff + c) ++ BodySquareSumReads F (sOff + c))
    (fun _ reads => ∀ a ∈ reads, sOff - 2 ≤ a ∧ a < sOff + channels + 2) hF F
    (loadAddrs F (sOff + 0) ++ NoseSquareSumReads F (sOff + 0)) ?_ hge
    (Nat.dvd_sub' hdv (dvd_refl F)) ?_ (AlignLo (channels - 2) F) (by omega)).2
  · unfold SynetLrnLayerCrossChannelsNhwc2hSampleReads at h
    simp only [] at h
    rw [hs1, hs2, hs3] at h
    rw [List.mem_append, List.mem_append] at h
    rcases h with (h | h) | h
    · by_cases hp : AlignLo (channels - 2) F ≠ channels - 2
      · rw [if_pos hp, List.mem_append, List.mem_append] at h
        rcases h with (h | h) | h
        · exact hloop a h
        · rw [mem_loadAddrs] at h
          omega
        · have := mem_BodySquareSumReads F _ a h
          omega
      · rw [if_neg hp] at h
        exact hloop a h
    · rw [mem_loadAddrs] at h
      omega
    · have := mem_TailSquareSumReads F _ a h
      omega
  · intro a h
    rw [List.mem_append] at h
    rcases h with h | h
    · rw [mem_loadAddrs] at h
      omega
    · have := mem_NoseSquareSumReads F _ a h
      omega
  · intro c reads _ hc hP a h
    rw [List.mem_append, List.mem_append] at h
    rcases h with (h | h) | h
    · exact hP a h
    · rw [mem_loadAddrs] at h
      omega
    · have := mem_BodySquareSumReads F _ a h
      omega

/-- The radius-2 kernel, for `channels ≥ F + 2`, loads during sample `s` only from the
elements `[-2, channels + 2)` relative to the start of sample `s`. -/
theorem nhwc2h_reads_bound (F channels spatial : Nat) (hF : 0 < F) (hch : F + 2 ≤ channels)
    (s : Nat) (a : Int)
    (h : (s, a) ∈ SynetLrnLayerCrossChannelsNhwc2hReads F 2 channels spatial) :
    s < spatial ∧ (s * channels : Int) - 2 ≤ a ∧ a < s * channels + channels + 2 := by
  unfold SynetLrnLayerCrossChannelsNhwc2hReads at h
  refine (forLoop_one spatial _
    (fun n (st : Int × List (Nat × Int)) => st.1 = (n * channels : Int) ∧
      ∀ p ∈ st.2, p.1 < n ∧ (p.1 * channels : Int) - 2 ≤ p.2 ∧
        p.2 < p.1 * channels + channels + 2)
    0 _ ?_ (Nat.zero_le _) ?_ spatial (by omega)).2 (s, a) h
  · refine ⟨by simp, ?_⟩
    intro p hp
    simp at hp
  · rintro n ⟨sOff, reads⟩ _ hn ⟨h1, h2⟩
    simp only at h1 h2
    subst h1
    refine ⟨?_, ?_⟩
    · show (n * channels : Int) + channels = ((n + 1 : Nat) : Int) * channels
      push_cast
      ring
    · intro p hp
      show p.1 < n + 1 ∧ _
      rw [List.mem_append, List.mem_map] at hp
      rcases hp with hp | ⟨b, hb, rfl⟩
      · have := h2 p hp
        omega
      · have := nhwc2h_sampleReads_bound F channels hF hch _ b hb
        exact ⟨Nat.lt_succ_self n, this.1, this.2⟩

/-- The mask of `LoadAtEdge<shift>` for the four shifts of the kernel, on both tiers: lane
`l` of `LoadAtEdge<shift>(q)` is `q[shift + l]` when that address lies among the `F`
elements from `q` on, and zero otherwise. -/
theorem LoadAtEdge_lane {α : Type} [Zero α] (p : Int → α) (q : Int) (shift : Int)
    (hshift : shift ∈ [-2, -1, 1, 2]) (l : Nat) :
    (l < Sse41.F → LoadAtEdgeF Sse41.F Sse41.EdgeMask shift p q l =
      if 0 ≤ shift + l ∧ shift + l < Sse41.F then p (q + shift + l) else 0) ∧
    (l < Avx2.F → LoadAtEdgeF Avx2.F Avx2.EdgeMask shift p q l =
      if 0 ≤ shift + l ∧ shift + l < Avx2.F then p (q + shift + l) else 0) := by
  have m4 : ∀ sh ∈ ([-2, -1, 1, 2] : List Int), ∀ l, l < Sse41.F →
      (Sse41.EdgeMask.getD ((Sse41.F : Int) + sh + l).toNat 0 = -1 ↔
        (0 ≤ sh + l ∧ sh + l < Sse41.F)) := by decide
  have m8 : ∀ sh ∈ ([-2, -1, 1, 2] : List Int), ∀ l, l < Avx2.F →
      (Avx2.EdgeMask.getD ((Avx2.F : Int) + sh + l).toNat 0 = -1 ↔
        (0 ≤ sh + l ∧ sh + l < Avx2.F)) := by decide
  refine ⟨fun hl => ?_, fun hl => ?_⟩
  · show (if Sse41.EdgeMask.getD ((Sse41.F : Int) + shift + l).toNat 0 = -1 then
      p (q + shift + l) else 0) = _
    by_cases c : 0 ≤ shift + l ∧ shift + l < Sse41.F
    · rw [if_pos ((m4 shift hshift l hl).2 c), if_pos c]
    · rw [if_neg (fun h => c ((m4 shift hshift l hl).1 h)), if_neg c]
  · show (if Avx2.EdgeMask.getD ((Avx2.F : Int) + shift + l).toNat 0 = -1 then
      p (q + shift + l) else 0) = _
    by_cases c : 0 ≤ shift + l ∧ shift + l < Avx2.F
    · rw [if_pos ((m8 shift hshift l hl).2 c), if_pos c]
    · rw [if_neg (fun h => c ((m8 shift hshift l hl).1 h)), if_neg c]

/-- C18, as stated, fails: `LoadAtEdge` loads the full register at `src + shift` and masks it
afterwards. With one sample of `F + 2` channels (6 on SSE4.1, 10 on AVX2) the kernel loads
the elements at the offsets `-2`, `-1`, `channels` and `channels + 1` relative to the start
of the sample. -/
theorem C18_edge_reads_refuted :
    (((0 : Nat), (-2 : Int)) ∈ SynetLrnLayerCrossChannelsNhwc2hReads Sse41.F 2 6 1 ∧
      ((0 : Nat), (-1 : Int)) ∈ SynetLrnLayerCrossChannelsNhwc2hReads Sse41.F 2 6 1 ∧
      ((0 : Nat), (6 : Int)) ∈ SynetLrnLayerCrossChannelsNhwc2hReads Sse41.F 2 6 1 ∧
      ((0 : Nat), (7 : Int)) ∈ SynetLrnLayerCrossChannelsNhwc2hReads Sse41.F 2 6 1) ∧
    (((0 : Nat), (-2 : Int)) ∈ SynetLrnLayerCrossChannelsNhwc2hReads Avx2.F 2 10 1 ∧
      ((0 : Nat), (-1 : Int)) ∈ SynetLrnLayerCrossChannelsNhwc2hReads Avx2.F 2 10 1 ∧
      ((0 : Nat), (10 : Int)) ∈ SynetLrnLayerCrossChannelsNhwc2hReads Avx2.F 2 10 1 ∧
      ((0 : Nat), (11 : Int)) ∈ SynetLrnLayerCrossChannelsNhwc2hReads Avx2.F 2 10 1) := by
  decide

/-- C18, amended: for `half = 2`, a tier of `F` lanes (4 on SSE4.1, 8 on AVX2), every
`channels ≥ F + 2` and every spatial sample `s`, every load issued while processing sample
`s` addresses only elements `src[s * channels + c]` with `-2 ≤ c < channels + 2`; and
`LoadAtEdge<shift>(q)` zeroes, in the register it loaded, every lane whose element lies
outside the `F` elements from `q` on (lane `l` is `q[shift + l]` if `0 ≤ shift + l < F`, and
zero otherwise). -/
theorem C18_edge_reads {α : Type} [Zero α] (F : Nat) (hF : F = Sse41.F ∨ F = Avx2.F)
    (channels spatial s : Nat) (a : Int) (hch : F + 2 ≤ channels)
    (h : (s, a) ∈ SynetLrnLayerCrossChannelsNhwc2hReads F 2 channels spatial)
    (p : Int → α) (q : Int) :
    (s < spatial ∧ (s * channels : Int) - 2 ≤ a ∧ a < s * channels + channels + 2) ∧
    (∀ shift ∈ ([-2, -1, 1, 2] : List Int), ∀ l,
      (l < Sse41.F → LoadAtEdgeF Sse41.F Sse41.EdgeMask shift p q l =
        if 0 ≤ shift + l ∧ shift + l < Sse41.F then p (q + shift + l) else 0) ∧
      (l < Avx2.F → LoadAtEdgeF Avx2.F Avx2.EdgeMask shift p q l =
        if 0 ≤ shift + l ∧ shift + l < Avx2.F then p (q + shift + l) else 0)) := by
  have hpos : 0 < F := by
    rcases hF with h | h <;> rw [h] <;> decide
  exact ⟨nhwc2h_reads_bound F channels spatial hpos hch s a h,
    fun shift hshift l => LoadAtEdge_lane p q shift hshift l⟩

/-- C18, amended, at one sample of six channels on SSE4.1 and the load of the element at
offset `-2`. -/
theorem C18_edge_reads_witness :
    (Sse41.F = Sse41.F ∨ Sse41.F = Avx2.F) ∧ Sse41.F + 2 ≤ 6 ∧
      ((0 : Nat), (-2 : Int)) ∈ SynetLrnLayerCrossChannelsNhwc2hReads Sse41.F 2 6 1 ∧
      (0 < 1 ∧ ((0 : Nat) * (6 : Nat) : Int) - 2 ≤ -2 ∧
        (-2 : Int) < (0 : Nat) * (6 : Nat) + (6 : Nat) + 2) :=
  ⟨Or.inl rfl, by decide, by decide,
    (C18_edge_reads Sse41.F (Or.inl rfl) 6 1 0 (-2) (by decide) (by decide)
      (onesTensor 6) 0).1⟩

/-! ## Channel shuffle -/

theorem range'_append_add (s m n : Nat) :
    List.range' s m ++ List.range' (s + m) n = List.range' s (m + n) := by
  rw [List.range'_append_1, Nat.add_comm]

/-- A de-interleaving channel loop from `j0` to `hi`. -/
theorem forLoop_split {α : Type} (step hi : Nat) (src : Nat → α) (p q0 q1 : Nat)
    (body : Nat → Nat × Buf α × Buf α × List Nat → Nat × Buf α × Buf α × List Nat)
    (hstep : 0 < step) (h2 : 2 ∣ step) (hb : SplitBody step src p q0 q1 body)
    (j0 : Nat) (t0 : Nat × Buf α × Buf α × List Nat) (hj0 : j0 ≤ hi)
    (hdvd : step ∣ hi - j0) (fuel : Nat) (hfuel : hi ≤ j0 + fuel) :
    (forLoop step hi body fuel j0 t0).1 = hi ∧
    (forLoop step hi body fuel j0 t0).2.1 = t0.1 + (hi - j0) / 2 ∧
    (∀ y, (forLoop step hi body fuel j0 t0).2.2.1.data y =
      if q0 + t0.1 ≤ y ∧ y < q0 + t0.1 + (hi - j0) / 2 then
        src (p + j0 + 2 * (y - (q0 + t0.1)))
      else t0.2.1.data y) ∧
    (∀ y, (forLoop step hi body fuel j0 t0).2.2.2.1.data y =
      if q1 + t0.1 ≤ y ∧ y < q1 + t0.1 + (hi - j0) / 2 then
        src (p + j0 + 2 * (y - (q1 + t0.1)) + 1)
      else t0.2.2.1.data y) ∧
    (forLoop step hi body fuel j0 t0).2.2.1.writes =
      t0.2.1.writes ++ List.range' (q0 + t0.1) ((hi - j0) / 2) ∧
    (forLoop step hi body fuel j0 t0).2.2.2.1.writes =
      t0.2.2.1.writes ++ List.range' (q1 + t0.1) ((hi - j0) / 2) ∧
    (forLoop step hi body fuel j0 t0).2.2.2.2 =
      t0.2.2.2 ++ List.range' (p + j0) (hi - j0) := by
  obtain ⟨P, hPdef⟩ : ∃ P : Nat → Nat × Buf α × Buf α × List Nat → Prop, P =
    (fun j t => 2 ∣ j - j0 ∧ t.1 = t0.1 + (j - j0) / 2 ∧
      (∀ y, t.2.1.data y =
        if q0 + t0.1 ≤ y ∧ y < q0 + t0.1 + (j - j0) / 2 then
          src (p + j0 + 2 * (y - (q0 + t0.1)))
        else t0.2.1.data y) ∧
      (∀ y, t.2.2.1.data y =
        if q1 + t0.1 ≤ y ∧ y < q1 + t0.1 + (j - j0) / 2 then
          src (p + j0 + 2 * (y - (q1 + t0.1)) + 1)
        else t0.2.2.1.data y) ∧
      t.2.1.writes = t0.2.1.writes ++ List.range' (q0 + t0.1) ((j - j0) / 2) ∧
      t.2.2.1.writes = t0.2.2.1.writes ++ List.range' (q1 + t0.1) ((j - j0) / 2) ∧
      t.2.2.2 = t0.2.2.2 ++ List.range' (p + j0) (j - j0)) := ⟨_, rfl⟩
  have key := forLoop_stride step hi body P hstep j0 t0 ?_ hj0 hdvd ?_ fuel hfuel
  · subst hPdef
    exact ⟨key.1, key.2.2⟩
  · subst hPdef
    refine ⟨by simp, by simp, ?_, ?_, by simp, by simp, by simp⟩
    · intro y
      rw [if_neg]
      simp
    · intro y
      rw [if_neg]
      simp
  · subst hPdef
    intro j t hj _ ⟨i0, i1, i2, i3, i4, i5, i6⟩
    obtain ⟨b1, b2, b3, b4, b5, b6⟩ := hb j t
    obtain ⟨k, hk⟩ := h2
    obtain ⟨m, hm⟩ := i0
    have ek : step / 2 = k := by omega
    have e1 : (j + step - j0) / 2 = (j - j0) / 2 + k := by omega
    have e2 : j + step - j0 = (j - j0) + step := by omega
    refine ⟨⟨m + k, by omega⟩, ?_, ?_, ?_, ?_, ?_, ?_⟩
    · show (body j t).1 = _
      rw [b1, i1]
      omega
    · intro y
      show (body j t).2.1.data y = _
      rw [b2, i1, i2]
      by_cases c1 : q0 + (t0.1 + (j - j0) / 2) ≤ y ∧ y < q0 + (t0.1 + (j - j0) / 2) + step / 2
      · rw [if_pos c1, if_pos (by omega)]
        congr 1
        omega
      · rw [if_neg c1]
        by_cases c2 : q0 + t0.1 ≤ y ∧ y < q0 + t0.1 + (j - j0) / 2
        · rw [if_pos c2, if_pos (by omega)]
        · rw [if_neg c2, if_neg (by omega)]
    · intro y
      show (body j t).2.2.1.data y = _
      rw [b3, i1, i3]
      by_cases c1 : q1 + (t0.1 + (j - j0) / 2) ≤ y ∧ y < q1 + (t0.1 + (j - j0) / 2) + step / 2
      · rw [if_pos c1, if_pos (by omega)]
        congr 1
        omega
      · rw [if_neg c1]
        by_cases c2 : q1 + t0.1 ≤ y ∧ y < q1 + t0.1 + (j - j0) / 2
        · rw [if_pos c2, if_pos (by omega)]
        · rw [if_neg c2, if_neg (by omega)]
    · show (body j t).2.1.writes = _
      rw [b4, i4, i1, List.append_assoc, e1, ek, ← range'_append_add]
      congr 3
      omega
    · show (body j t).2.2.1.writes = _
      rw [b5, i5, i1, List.append_assoc, e1, ek, ← range'_append_add]
      congr 3
      omega
    · show (body j t).2.2.2 = _
      rw [b6, i6, List.append_assoc, e2, ← range'_append_add]
      congr 3
      omega

theorem shuffle_ps_even {α : Type} (a b : Nat → α) (l : Nat) (hl : l < 4) :
    shuffle_ps a b 0x88 l = if l < 2 then a (2 * l) else b (2 * l - 4) := by
  interval_cases l <;> rfl

theorem shuffle_ps_odd {α : Type} (a b : Nat → α) (l : Nat) (hl : l < 4) :
    shuffle_ps a b 0xDD l = if l < 2 then a (2 * l + 1) else b (2 * l + 1 - 4) := by
  interval_cases l <;> rfl

/-- The vector loop body of the branch `type == 0` de-interleaves eight source elements. -/
theorem splitBody_vec {α : Type} (src : Nat → α) (p q0 q1 : Nat) :
    SplitBody Sse41.DF src p q0 q1 (fun cs0 (t : Nat × Buf α × Buf α × List Nat) =>
      (t.1 + Sse41.F,
        Store Sse41.F false t.2.1 (q0 + t.1)
          (shuffle_ps (Load false src (p + cs0 + 0)) (Load false src (p + cs0 + Sse41.F)) 0x88),
        Store Sse41.F false t.2.2.1 (q1 + t.1)
          (shuffle_ps (Load false src (p + cs0 + 0)) (Load false src (p + cs0 + Sse41.F)) 0xDD),
        t.2.2.2 ++ List.range' (p + cs0 + 0) Sse41.F ++
          List.range' (p + cs0 + Sse41.F) Sse41.F)) := by
  intro cs t
  have eF : Sse41.F = 4 := rfl
  have eDF : Sse41.DF / 2 = 4 := rfl
  have eDF2 : Sse41.DF = 4 + 4 := rfl
  refine ⟨?_, ?_, ?_, ?_, ?_, ?_⟩
  · show t.1 + Sse41.F = t.1 + Sse41.DF / 2
    rw [eF, eDF]
  · intro y
    show (if q0 + t.1 ≤ y ∧ y < q0 + t.1 + Sse41.F then
      shuffle_ps (Load false src (p + cs + 0)) (Load false src (p + cs + Sse41.F)) 0x88
        (y - (q0 + t.1)) else t.2.1.data y) = _
    rw [eF, eDF]
    by_cases c : q0 + t.1 ≤ y ∧ y < q0 + t.1 + 4
    · rw [if_pos c, if_pos c, shuffle_ps_even _ _ _ (by omega)]
      by_cases c2 : y - (q0 + t.1) < 2
      · rw [if_pos c2]
        show src (p + cs + 0 + 2 * (y - (q0 + t.1))) = _
        congr 1
      · rw [if_neg c2]
        show src (p + cs + 4 + (2 * (y - (q0 + t.1)) - 4)) = _
        congr 1
        omega
    · rw [if_neg c, if_neg c]
  · intro y
    show (if q1 + t.1 ≤ y ∧ y < q1 + t.1 + Sse41.F then
      shuffle_ps (Load false src (p + cs + 0)) (Load false src (p + cs + Sse41.F)) 0xDD
        (y - (q1 + t.1)) else t.2.2.1.data y) = _
    rw [eF, eDF]
    by_cases c : q1 + t.1 ≤ y ∧ y < q1 + t.1 + 4
    · rw [if_pos c, if_pos c, shuffle_ps_odd _ _ _ (by omega)]
      by_cases c2 : y - (q1 + t.1) < 2
      · rw [if_pos c2]
        show src (p + cs + 0 + (2 * (y - (q1 + t.1)) + 1)) = _
        congr 1
      · rw [if_neg c2]
        show src (p + cs + 4 + (2 * (y - (q1 + t.1)) + 1 - 4)) = _
        congr 1
        omega
    · rw [if_neg c, if_neg c]
  · show t.2.1.writes ++ List.range' (q0 + t.1) Sse41.F = _
    rw [eF, eDF]
  · show t.2.2.1.writes ++ List.range' (q1 + t.1) Sse41.F = _
    rw [eF, eDF]
  · show t.2.2.2 ++ List.range' (p + cs + 0) Sse41.F ++
      List.range' (p + cs + Sse41.F) Sse41.F = _
    rw [eF, eDF2, List.append_assoc, Nat.add_zero, range'_append_add]

/-- The scalar loop body of the branch `type == 0` de-interleaves two source elements. -/
theorem splitBody_scalar {α : Type} (src : Nat → α) (p q0 q1 : Nat) :
    SplitBody 2 src p q0 q1 (fun cs0 (t : Nat × Buf α × Buf α × List Nat) =>
      (t.1 + 1, t.2.1.set (q0 + t.1) (src (p + cs0 + 0)),
        t.2.2.1.set (q1 + t.1) (src (p + cs0 + 1)),
        t.2.2.2 ++ [p + cs0 + 0] ++ [p + cs0 + 1])) := by
  intro cs t
  refine ⟨rfl, ?_, ?_, rfl, rfl, ?_⟩
  · intro y
    show (if y = q0 + t.1 then src (p + cs + 0) else t.2.1.data y) = _
    by_cases c : y = q0 + t.1
    · rw [if_pos c, if_pos (by omega)]
      congr 1
      omega
    · rw [if_neg c, if_neg (by omega)]
  · intro y
    show (if y = q1 + t.1 then src (p + cs + 1) else t.2.2.1.data y) = _
    by_cases c : y = q1 + t.1
    · rw [if_pos c, if_pos (by omega)]
      congr 1
      omega
    · rw [if_neg c, if_neg (by omega)]
  · show t.2.2.2 ++ [p + cs + 0] ++ [p + cs + 1] = t.2.2.2 ++ List.range' (p + cs) 2
    rw [List.append_assoc]
    rfl

/-- The vector loop and the scalar loop of the branch `type == 0` over one source of an even
number `c` of channels: the `c / 2` even elements go to `dst0`, the odd ones to `dst1`, from
`cd` on, and the `c` source elements are loaded in order. -/
theorem split_source {α : Type} (src : Nat → α) (p q0 q1 c : Nat) (hc : 2 ∣ c)
    (bv bs : Nat → Nat × Buf α × Buf α × List Nat → Nat × Buf α × Buf α × List Nat)
    (hv : SplitBody Sse41.DF src p q0 q1 bv) (hs : SplitBody 2 src p q0 q1 bs)
    (t0 : Nat × Buf α × Buf α × List Nat) :
    (forLoop 2 c bs c
        (forLoop Sse41.DF (AlignLo c Sse41.DF) bv (AlignLo c Sse41.DF) 0 t0).1
        (forLoop Sse41.DF (AlignLo c Sse41.DF) bv (AlignLo c Sse41.DF) 0 t0).2).2.1 =
      t0.1 + c / 2 ∧
    (∀ y, (forLoop 2 c bs c
        (forLoop Sse41.DF (AlignLo c Sse41.DF) bv (AlignLo c Sse41.DF) 0 t0).1
        (forLoop Sse41.DF (AlignLo c Sse41.DF) bv (AlignLo c Sse41.DF) 0 t0).2).2.2.1.data y =
      if q0 + t0.1 ≤ y ∧ y < q0 + t0.1 + c / 2 then src (p + 2 * (y - (q0 + t0.1)))
      else t0.2.1.data y) ∧
    (∀ y, (forLoop 2 c bs c
        (forLoop Sse41.DF (AlignLo c Sse41.DF) bv (AlignLo c Sse41.DF) 0 t0).1
        (forLoop Sse41.DF (AlignLo c Sse41.DF) bv (AlignLo c Sse41.DF) 0 t0).2).2.2.2.1.data y =
      if q1 + t0.1 ≤ y ∧ y < q1 + t0.1 + c / 2 then src (p + 2 * (y - (q1 + t0.1)) + 1)
      else t0.2.2.1.data y) ∧
    (forLoop 2 c bs c
        (forLoop Sse41.DF (AlignLo c Sse41.DF) bv (AlignLo c Sse41.DF) 0 t0).1
        (forLoop Sse41.DF (AlignLo c Sse41.DF) bv (AlignLo c Sse41.DF) 0 t0).2).2.2.1.writes =
      t0.2.1.writes ++ List.range' (q0 + t0.1) (c / 2) ∧
    (forLoop 2 c bs c
        (forLoop Sse41.DF (AlignLo c Sse41.DF) bv (AlignLo c Sse41.DF) 0 t0).1
        (forLoop Sse41.DF (AlignLo c Sse41.DF) bv (AlignLo c Sse41.DF) 0 t0).2).2.2.2.1.writes =
      t0.2.2.1.writes ++ List.range' (q1 + t0.1) (c / 2) ∧
    (forLoop 2 c bs c
        (forLoop Sse41.DF (AlignLo c Sse41.DF) bv (AlignLo c Sse41.DF) 0 t0).1
        (forLoop Sse41.DF (AlignLo c Sse41.DF) bv (AlignLo c Sse41.DF) 0 t0).2).2.2.2.2 =
      t0.2.2.2 ++ List.range' p c := by
  have hle := AlignLo_le c Sse41.DF
  have hdv : 8 ∣ AlignLo c Sse41.DF := AlignLo_dvd c Sse41.DF
  obtain ⟨a, ha⟩ := hdv
  obtain ⟨k, hk⟩ := hc
  obtain ⟨v1, v2, v3, v4, v5, v6, v7⟩ := forLoop_split Sse41.DF (AlignLo c Sse41.DF) src p q0
    q1 bv (by decide) ⟨4, rfl⟩ hv 0 t0 (Nat.zero_le _) (by simpa using AlignLo_dvd c Sse41.DF)
    (AlignLo c Sse41.DF) (by omega)
  obtain ⟨R, hR⟩ : ∃ R, R = (forLoop Sse41.DF (AlignLo c Sse41.DF) bv (AlignLo c Sse41.DF)
    0 t0).2 := ⟨_, rfl⟩
  rw [← hR] at v2 v3 v4 v5 v6 v7 ⊢
  rw [v1]
  obtain ⟨s1, s2, s3, s4, s5, s6, s7⟩ := forLoop_split 2 c src p q0 q1 bs (by decide)
    (dvd_refl 2) hs (AlignLo c Sse41.DF) R hle ⟨k - 4 * a, by omega⟩ c (by omega)
  rw [Nat.sub_zero] at v2 v3 v4 v5 v6
  rw [Nat.sub_zero, Nat.add_zero] at v7
  rw [Nat.add_zero] at v3 v4
  refine ⟨?_, ?_, ?_, ?_, ?_, ?_⟩
  · rw [s2, v2]
    omega
  · intro y
    rw [s3, v2, v3]
    by_cases c1 : q0 + (t0.1 + AlignLo c Sse41.DF / 2) ≤ y ∧
        y < q0 + (t0.1 + AlignLo c Sse41.DF / 2) + (c - AlignLo c Sse41.DF) / 2
    · rw [if_pos c1, if_pos (by omega)]
      congr 1
      omega
    · rw [if_neg c1]
      by_cases c2 : q0 + t0.1 ≤ y ∧ y < q0 + t0.1 + AlignLo c Sse41.DF / 2
      · rw [if_pos c2, if_pos (by omega)]
      · rw [if_neg c2, if_neg (by omega)]
  · intro y
    rw [s4, v2, v4]
    by_cases c1 : q1 + (t0.1 + AlignLo c Sse41.DF / 2) ≤ y ∧
        y < q1 + (t0.1 + AlignLo c Sse41.DF / 2) + (c - AlignLo c Sse41.DF) / 2
    · rw [if_pos c1, if_pos (by omega)]
      congr 1
      omega
    · rw [if_neg c1]
      by_cases c2 : q1 + t0.1 ≤ y ∧ y < q1 + t0.1 + AlignLo c Sse41.DF / 2
      · rw [if_pos c2, if_pos (by omega)]
      · rw [if_neg c2, if_neg (by omega)]
  · rw [s5, v2, v5, List.append_assoc]
    have e : c / 2 = AlignLo c Sse41.DF / 2 + (c - AlignLo c Sse41.DF) / 2 := by omega
    rw [e, ← range'_append_add]
    congr 3
    omega
  · rw [s6, v2, v6, List.append_assoc]
    have e : c / 2 = AlignLo c Sse41.DF / 2 + (c - AlignLo c Sse41.DF) / 2 := by omega
    rw [e, ← range'_append_add]
    congr 3
    omega
  · rw [s7, v7, List.append_assoc]
    have e : c = AlignLo c Sse41.DF + (c - AlignLo c Sse41.DF) := by omega
    conv_rhs => rw [e]
    rw [← range'_append_add]

/-- One spatial sample of the branch `type == 0` for even channel counts: the four channel
loops store the even elements of the sample of `src0`, then those of `src1`, to `dst0` from
`q0` on and the odd ones to `dst1` from `q1` on, and load the two samples in order. `R` is
the state after the loops over `src0`, `S` the state after the loops over `src1`. -/
theorem split_sample {α : Type} (src0 src1 : Nat → α) (p0 p1 q0 q1 c0 c1 : Nat)
    (hc0 : 2 ∣ c0) (hc1 : 2 ∣ c1)
    (bv0 bs0 bv1 bs1 :
      Nat → Nat × Buf α × Buf α × List Nat → Nat × Buf α × Buf α × List Nat)
    (hv0 : SplitBody Sse41.DF src0 p0 q0 q1 bv0) (hs0 : SplitBody 2 src0 p0 q0 q1 bs0)
    (hv1 : SplitBody Sse41.DF src1 p1 q0 q1 bv1) (hs1 : SplitBody 2 src1 p1 q0 q1 bs1)
    (b0 b1 : Buf α) (r0 r1 : List Nat) (R S : Nat × Nat × Buf α × Buf α × List Nat)
    (hR : R = forLoop 2 c0 bs0 c0
      (forLoop Sse41.DF (AlignLo c0 Sse41.DF) bv0 (AlignLo c0 Sse41.DF) 0 (0, b0, b1, r0)).1
      (forLoop Sse41.DF (AlignLo c0 Sse41.DF) bv0 (AlignLo c0 Sse41.DF) 0 (0, b0, b1, r0)).2)
    (hS : S = forLoop 2 c1 bs1 c1
      (forLoop Sse41.DF (AlignLo c1 Sse41.DF) bv1 (AlignLo c1 Sse41.DF) 0
        (R.2.1, R.2.2.1, R.2.2.2.1, r1)).1
      (forLoop Sse41.DF (AlignLo c1 Sse41.DF) bv1 (AlignLo c1 Sse41.DF) 0
        (R.2.1, R.2.2.1, R.2.2.2.1, r1)).2) :
    (∀ y, S.2.2.1.data y =
      if q0 ≤ y ∧ y < q0 + (c0 / 2 + c1 / 2) then
        (if y - q0 < c0 / 2 then src0 (p0 + 2 * (y - q0))
         else src1 (p1 + 2 * (y - q0 - c0 / 2)))
      else b0.data y) ∧
    (∀ y, S.2.2.2.1.data y =
      if q1 ≤ y ∧ y < q1 + (c0 / 2 + c1 / 2) then
        (if y - q1 < c0 / 2 then src0 (p0 + 2 * (y - q1) + 1)
         else src1 (p1 + 2 * (y - q1 - c0 / 2) + 1))
      else b1.data y) ∧
    S.2.2.1.writes = b0.writes ++ List.range' q0 (c0 / 2 + c1 / 2) ∧
    S.2.2.2.1.writes = b1.writes ++ List.range' q1 (c0 / 2 + c1 / 2) ∧
    R.2.2.2.2 = r0 ++ List.range' p0 c0 ∧
    S.2.2.2.2 = r1 ++ List.range' p1 c1 := by
  obtain ⟨a1, a2, a3, a4, a5, a6⟩ := split_source src0 p0 q0 q1 c0 hc0 bv0 bs0 hv0 hs0
    (0, b0, b1, r0)
  rw [← hR] at a1 a2 a3 a4 a5 a6
  obtain ⟨d1, d2, d3, d4, d5, d6⟩ := split_source src1 p1 q0 q1 c1 hc1 bv1 bs1 hv1 hs1
    (R.2.1, R.2.2.1, R.2.2.2.1, r1)
  rw [← hS] at d1 d2 d3 d4 d5 d6
  simp only [] at a1 a2 a3 a4 a5 a6 d1 d2 d3 d4 d5 d6
  rw [Nat.zero_add] at a1
  simp only [Nat.add_zero] at a2 a3 a4 a5
  refine ⟨?_, ?_, ?_, ?_, a6, d6⟩
  · intro y
    rw [d2, a1, a2]
    by_cases c1 : q0 + c0 / 2 ≤ y ∧ y < q0 + c0 / 2 + c1 / 2
    · rw [if_pos c1, if_pos (by omega), if_neg (by omega)]
      congr 1
      omega
    · rw [if_neg c1]
      by_cases c2 : q0 ≤ y ∧ y < q0 + c0 / 2
      · rw [if_pos c2, if_pos (by omega), if_pos (by omega)]
      · rw [if_neg c2, if_neg (by omega)]
  · intro y
    rw [d3, a1, a3]
    by_cases c1 : q1 + c0 / 2 ≤ y ∧ y < q1 + c0 / 2 + c1 / 2
    · rw [if_pos c1, if_pos (by omega), if_neg (by omega)]
      congr 1
      omega
    · rw [if_neg c1]
      by_cases c2 : q1 ≤ y ∧ y < q1 + c0 / 2
      · rw [if_pos c2, if_pos (by omega), if_pos (by omega)]
      · rw [if_neg c2, if_neg (by omega)]
  · rw [d4, a1, a4, List.append_assoc, range'_append_add]
  · rw [d5, a1, a5, List.append_assoc, range'_append_add]

/-- The branch `type == 0` on even channel counts. -/
theorem shuffle0_spec {α : Type} (x0 x1 : Nat → α) (c0 c1 spatial : Nat)
    (hc0 : 2 ∣ c0) (hc1 : 2 ∣ c1) (d0 d1 : Buf α) :
    Shuffle0Post x0 x1 c0 c1 d0 d1 spatial
      (Sse41.SynetShuffleLayerForward0 x0 x1 c0 c1 spatial d0 d1) := by
  have ech : (c0 + c1) / 2 = c0 / 2 + c1 / 2 := by
    obtain ⟨a, ha⟩ := hc0
    obtain ⟨b, hb⟩ := hc1
    omega
  unfold Sse41.SynetShuffleLayerForward0
  simp only []
  refine (forLoop_one spatial _
    (fun n (st : (Nat × Nat × Nat × Nat) × Buf α × Buf α × List Nat × List Nat) =>
      st.1 = (n * c0, n * c1, n * ((c0 + c1) / 2), n * ((c0 + c1) / 2)) ∧
        Shuffle0Post x0 x1 c0 c1 d0 d1 n st.2)
    0 _ ?_ (Nat.zero_le _) ?_ spatial (by omega)).2
  · refine ⟨by simp, ?_, ?_, ?_, by simp, by simp, by simp, by simp⟩
    · intro s c hs
      omega
    · intro s c hs
      omega
    · intro y _
      exact ⟨rfl, rfl⟩
  · rintro n ⟨⟨p0, p1, q0, q1⟩, b0, b1, r0, r1⟩ _ hn ⟨hp, i1, i2, i3, i4, i5, i6, i7⟩
    simp only [Prod.mk.injEq] at hp
    obtain ⟨rfl, rfl, rfl, rfl⟩ := hp
    simp only [] at i1 i2 i3 i4 i5 i6 i7
    obtain ⟨e1, e2, e3, e4, e5, e6⟩ := split_sample x0 x1 (n * c0) (n * c1)
      (n * ((c0 + c1) / 2)) (n * ((c0 + c1) / 2)) c0 c1 hc0 hc1 _ _ _ _
      (splitBody_vec x0 (n * c0) (n * ((c0 + c1) / 2)) (n * ((c0 + c1) / 2)))
      (splitBody_scalar x0 (n * c0) (n * ((c0 + c1) / 2)) (n * ((c0 + c1) / 2)))
      (splitBody_vec x1 (n * c1) (n * ((c0 + c1) / 2)) (n * ((c0 + c1) / 2)))
      (splitBody_scalar x1 (n * c1) (n * ((c0 + c1) / 2)) (n * ((c0 + c1) / 2)))
      b0 b1 r0 r1 _ _ rfl rfl
    rw [← ech] at e1 e2 e3 e4
    have hmul : ∀ s, s < n → ∀ c, c < (c0 + c1) / 2 →
        s * ((c0 + c1) / 2) + c < n * ((c0 + c1) / 2) := by
      intro s hs c hc
      have h1 : (s + 1) * ((c0 + c1) / 2) ≤ n * ((c0 + c1) / 2) :=
        Nat.mul_le_mul_right _ hs
      rw [Nat.add_mul, Nat.one_mul] at h1
      omega
    have hsucc : (n + 1) * ((c0 + c1) / 2) = n * ((c0 + c1) / 2) + (c0 + c1) / 2 := by
      rw [Nat.add_mul, Nat.one_mul]
    refine ⟨?_, ?_, ?_, ?_, ?_, ?_, ?_, ?_⟩
    · show (n * c0 + c0, n * c1 + c1, n * ((c0 + c1) / 2) + (c0 + c1) / 2,
        n * ((c0 + c1) / 2) + (c0 + c1) / 2) = _
      simp only [Nat.add_mul, Nat.one_mul]
    · intro s c hs hc
      refine (e1 _).trans ?_
      by_cases hsn : s < n
      · have := hmul s hsn c hc
        rw [if_neg (by omega)]
        exact i1 s c hsn hc
      · have esn : s = n := by omega
        subst esn
        rw [if_pos (by omega)]
        have e : s * ((c0 + c1) / 2) + c - s * ((c0 + c1) / 2) = c := by omega
        rw [e]
    · intro s c hs hc
      refine (e2 _).trans ?_
      by_cases hsn : s < n
      · have := hmul s hsn c hc
        rw [if_neg (by omega)]
        exact i2 s c hsn hc
      · have esn : s = n := by omega
        subst esn
        rw [if_pos (by omega)]
        have e : s * ((c0 + c1) / 2) + c - s * ((c0 + c1) / 2) = c := by omega
        rw [e]
    · intro y hy
      rw [hsucc] at hy
      refine ⟨(e1 y).trans ?_, (e2 y).trans ?_⟩
      · rw [if_neg (by omega)]
        exact (i3 y (by omega)).1
      · rw [if_neg (by omega)]
        exact (i3 y (by omega)).2
    · refine e3.trans ?_
      rw [i4, List.append_assoc, hsucc]
      congr 1
      have := range'_append_add 0 (n * ((c0 + c1) / 2)) ((c0 + c1) / 2)
      rw [Nat.zero_add] at this
      exact this
    · refine e4.trans ?_
      rw [i5, List.append_assoc, hsucc]
      congr 1
      have := range'_append_add 0 (n * ((c0 + c1) / 2)) ((c0 + c1) / 2)
      rw [Nat.zero_add] at this
      exact this
    · refine e5.trans ?_
      rw [i6, Nat.add_mul, Nat.one_mul]
      have := range'_append_add 0 (n * c0) c0
      rw [Nat.zero_add] at this
      exact this
    · refine e6.trans ?_
      rw [i7, Nat.add_mul, Nat.one_mul]
      have := range'_append_add 0 (n * c1) c1
      rw [Nat.zero_add] at this
      exact this

/-- An interleaving channel loop from `j0` to `hi`. -/
theorem forLoop_join {α : Type} (step hi : Nat) (src0 src1 : Nat → α) (p0 p1 q : Nat)
    (body : Nat → Nat × Buf α × List Nat × List Nat → Nat × Buf α × List Nat × List Nat)
    (hstep : 0 < step) (h2 : 2 ∣ step) (hb : JoinBody step src0 src1 p0 p1 q body)
    (j0 : Nat) (t0 : Nat × Buf α × List Nat × List Nat) (hj0 : j0 ≤ hi)
    (hdvd : step ∣ hi - j0) (fuel : Nat) (hfuel : hi ≤ j0 + fuel) :
    (forLoop step hi body fuel j0 t0).1 = hi ∧
    (forLoop step hi body fuel j0 t0).2.1 = t0.1 + (hi - j0) / 2 ∧
    (∀ y, (forLoop step hi body fuel j0 t0).2.2.1.data y =
      if q + j0 ≤ y ∧ y < q + hi then
        (if (y - (q + j0)) % 2 = 0 then src0 (p0 + t0.1 + (y - (q + j0)) / 2)
         else src1 (p1 + t0.1 + (y - (q + j0)) / 2))
      else t0.2.1.data y) ∧
    (forLoop step hi body fuel j0 t0).2.2.1.writes =
      t0.2.1.writes ++ List.range' (q + j0) (hi - j0) ∧
    (forLoop step hi body fuel j0 t0).2.2.2.1 =
      t0.2.2.1 ++ List.range' (p0 + t0.1) ((hi - j0) / 2) ∧
    (forLoop step hi body fuel j0 t0).2.2.2.2 =
      t0.2.2.2 ++ List.range' (p1 + t0.1) ((hi - j0) / 2) := by
  obtain ⟨P, hPdef⟩ : ∃ P : Nat → Nat × Buf α × List Nat × List Nat → Prop, P =
    (fun j t => 2 ∣ j - j0 ∧ t.1 = t0.1 + (j - j0) / 2 ∧
      (∀ y, t.2.1.data y =
        if q + j0 ≤ y ∧ y < q + j then
          (if (y - (q + j0)) % 2 = 0 then src0 (p0 + t0.1 + (y - (q + j0)) / 2)
           else src1 (p1 + t0.1 + (y - (q + j0)) / 2))
        else t0.2.1.data y) ∧
      t.2.1.writes = t0.2.1.writes ++ List.range' (q + j0) (j - j0) ∧
      t.2.2.1 = t0.2.2.1 ++ List.range' (p0 + t0.1) ((j - j0) / 2) ∧
      t.2.2.2 = t0.2.2.2 ++ List.range' (p1 + t0.1) ((j - j0) / 2)) := ⟨_, rfl⟩
  have key := forLoop_stride step hi body P hstep j0 t0 ?_ hj0 hdvd ?_ fuel hfuel
  · subst hPdef
    exact ⟨key.1, key.2.2⟩
  · subst hPdef
    refine ⟨by simp, by simp, ?_, by simp, by simp, by simp⟩
    intro y
    rw [if_neg]
    omega
  · subst hPdef
    intro j t hj _ ⟨i0, i1, i2, i3, i4, i5⟩
    obtain ⟨b1, b2, b3, b4, b5⟩ := hb j t
    obtain ⟨k, hk⟩ := h2
    obtain ⟨m, hm⟩ := i0
    have ek : step / 2 = k := by omega
    have e1 : (j + step - j0) / 2 = (j - j0) / 2 + k := by omega
    have e2 : j + step - j0 = (j - j0) + step := by omega
    refine ⟨⟨m + k, by omega⟩, ?_, ?_, ?_, ?_, ?_⟩
    · show (body j t).1 = _
      rw [b1, i1]
      omega
    · intro y
      show (body j t).2.1.data y = _
      rw [b2, i1, i2]
      by_cases c1 : q + j ≤ y ∧ y < q + j + step
      · by_cases c2 : (y - (q + j)) % 2 = 0
        · rw [if_pos c1, if_pos c2, if_pos (show q + j0 ≤ y ∧ y < q + (j + step) by omega),
            if_pos (show (y - (q + j0)) % 2 = 0 by omega)]
          congr 1
          omega
        · rw [if_pos c1, if_neg c2, if_pos (show q + j0 ≤ y ∧ y < q + (j + step) by omega),
            if_neg (show ¬ (y - (q + j0)) % 2 = 0 by omega)]
          congr 1
          omega
      · rw [if_neg c1]
        by_cases c2 : q + j0 ≤ y ∧ y < q + j
        · rw [if_pos c2, if_pos (show q + j0 ≤ y ∧ y < q + (j + step) by omega)]
        · rw [if_neg c2, if_neg (show ¬ (q + j0 ≤ y ∧ y < q + (j + step)) by omega)]
    · show (body j t).2.1.writes = _
      rw [b3, i3, List.append_assoc, e2, ← range'_append_add]
      congr 3
      omega
    · show (body j t).2.2.1 = _
      rw [b4, i4, i1, List.append_assoc, e1, ek, ← range'_append_add]
      congr 3
      omega
    · show (body j t).2.2.2 = _
      rw [b5, i5, i1, List.append_assoc, e1, ek, ← range'_append_add]
      congr 3
      omega

/-- The vector loop body of the branch `type == 1` interleaves four elements of each
source. -/
theorem joinBody_vec {α : Type} (src0 src1 : Nat → α) (p0 p1 q : Nat) :
    JoinBody Sse41.DF src0 src1 p0 p1 q
      (fun cd0 (t : Nat × Buf α × List Nat × List Nat) =>
        (t.1 + Sse41.F,
          Store Sse41.F false (Store Sse41.F false t.2.1 (q + cd0 + 0)
              (unpacklo_ps (Load false src0 (p0 + t.1)) (Load false src1 (p1 + t.1))))
            (q + cd0 + Sse41.F)
            (unpackhi_ps (Load false src0 (p0 + t.1)) (Load false src1 (p1 + t.1))),
          t.2.2.1 ++ List.range' (p0 + t.1) Sse41.F,
          t.2.2.2 ++ List.range' (p1 + t.1) Sse41.F)) := by
  intro cd t
  have eF : Sse41.F = 4 := rfl
  have eDF : Sse41.DF / 2 = 4 := rfl
  have eDF2 : Sse41.DF = 4 + 4 := rfl
  refine ⟨?_, ?_, ?_, ?_, ?_⟩
  · show t.1 + Sse41.F = t.1 + Sse41.DF / 2
    rw [eF, eDF]
  · intro y
    show (if q + cd + Sse41.F ≤ y ∧ y < q + cd + Sse41.F + Sse41.F then
        unpackhi_ps (Load false src0 (p0 + t.1)) (Load false src1 (p1 + t.1))
          (y - (q + cd + Sse41.F))
      else if q + cd + 0 ≤ y ∧ y < q + cd + 0 + Sse41.F then
        unpacklo_ps (Load false src0 (p0 + t.1)) (Load false src1 (p1 + t.1))
          (y - (q + cd + 0))
      else t.2.1.data y) = _
    rw [eF, eDF2]
    by_cases c1 : q + cd + 4 ≤ y ∧ y < q + cd + 4 + 4
    · rw [if_pos c1, if_pos (by omega)]
      show (if (y - (q + cd + 4)) % 2 = 0 then src0 (p0 + t.1 + (2 + (y - (q + cd + 4)) / 2))
        else src1 (p1 + t.1 + (2 + (y - (q + cd + 4)) / 2))) = _
      by_cases c2 : (y - (q + cd + 4)) % 2 = 0
      · rw [if_pos c2, if_pos (by omega)]
        congr 1
        omega
      · rw [if_neg c2, if_neg (by omega)]
        congr 1
        omega
    · rw [if_neg c1]
      by_cases c3 : q + cd + 0 ≤ y ∧ y < q + cd + 0 + 4
      · rw [if_pos c3, if_pos (by omega)]
        show (if (y - (q + cd + 0)) % 2 = 0 then src0 (p0 + t.1 + (y - (q + cd + 0)) / 2)
          else src1 (p1 + t.1 + (y - (q + cd + 0)) / 2)) = _
        rw [Nat.add_zero]
      · rw [if_neg c3, if_neg (by omega)]
  · show t.2.1.writes ++ List.range' (q + cd + 0) Sse41.F ++
      List.range' (q + cd + Sse41.F) Sse41.F = _
    rw [eF, eDF2, List.append_assoc, Nat.add_zero, range'_append_add]
  · show t.2.2.1 ++ List.range' (p0 + t.1) Sse41.F = _
    rw [eF, eDF]
  · show t.2.2.2 ++ List.range' (p1 + t.1) Sse41.F = _
    rw [eF, eDF]

/-- The scalar loop body of the branch `type == 1` interleaves one element of each
source. -/
theorem joinBody_scalar {α : Type} (src0 src1 : Nat → α) (p0 p1 q : Nat) :
    JoinBody 2 src0 src1 p0 p1 q
      (fun cd0 (t : Nat × Buf α × List Nat × List Nat) =>
        (t.1 + 1,
          (t.2.1.set (q + cd0 + 0) (src0 (p0 + t.1))).set (q + cd0 + 1) (src1 (p1 + t.1)),
          t.2.2.1 ++ [p0 + t.1], t.2.2.2 ++ [p1 + t.1])) := by
  intro cd t
  refine ⟨rfl, ?_, ?_, rfl, rfl⟩
  · intro y
    show (if y = q + cd + 1 then src1 (p1 + t.1)
      else if y = q + cd + 0 then src0 (p0 + t.1) else t.2.1.data y) = _
    by_cases c1 : y = q + cd + 1
    · rw [if_pos c1, if_pos (by omega), if_neg (by omega)]
      congr 1
      omega
    · rw [if_neg c1]
      by_cases c2 : y = q + cd + 0
      · rw [if_pos c2, if_pos (by omega), if_pos (by omega)]
        congr 1
        omega
      · rw [if_neg c2, if_neg (by omega)]
  · show t.2.1.writes ++ [q + cd + 0] ++ [q + cd + 1] = t.2.1.writes ++ List.range' (q + cd) 2
    rw [List.append_assoc]
    rfl

/-- The vector loop and the scalar loop of the branch `type == 1` over one destination of an
even number `c` of channels: the `c` elements from `q` on are taken alternately from the two
sources, `c / 2` elements of each from `cs` on, loaded in order. -/
theorem join_dest {α : Type} (src0 src1 : Nat → α) (p0 p1 q c : Nat) (hc : 2 ∣ c)
    (bv bs : Nat → Nat × Buf α × List Nat × List Nat → Nat × Buf α × List Nat × List Nat)
    (hv : JoinBody Sse41.DF src0 src1 p0 p1 q bv) (hs : JoinBody 2 src0 src1 p0 p1 q bs)
    (t0 : Nat × Buf α × List Nat × List Nat) (R : Nat × Nat × Buf α × List Nat × List Nat)
    (hR : R = forLoop 2 c bs c
        (forLoop Sse41.DF (AlignLo c Sse41.DF) bv (AlignLo c Sse41.DF) 0 t0).1
        (forLoop Sse41.DF (AlignLo c Sse41.DF) bv (AlignLo c Sse41.DF) 0 t0).2) :
    R.2.1 = t0.1 + c / 2 ∧
    (∀ y, R.2.2.1.data y =
      if q ≤ y ∧ y < q + c then
        (if (y - q) % 2 = 0 then src0 (p0 + t0.1 + (y - q) / 2)
         else src1 (p1 + t0.1 + (y - q) / 2))
      else t0.2.1.data y) ∧
    R.2.2.1.writes = t0.2.1.writes ++ List.range' q c ∧
    R.2.2.2.1 = t0.2.2.1 ++ List.range' (p0 + t0.1) (c / 2) ∧
    R.2.2.2.2 = t0.2.2.2 ++ List.range' (p1 + t0.1) (c / 2) := by
  have hle := AlignLo_le c Sse41.DF
  have hdv : 8 ∣ AlignLo c Sse41.DF := AlignLo_dvd c Sse41.DF
  obtain ⟨a, ha⟩ := hdv
  obtain ⟨k, hk⟩ := hc
  obtain ⟨v1, v2, v3, v4, v5, v6⟩ := forLoop_join Sse41.DF (AlignLo c Sse41.DF) src0 src1 p0
    p1 q bv (by decide) ⟨4, rfl⟩ hv 0 t0 (Nat.zero_le _)
    (by simpa using AlignLo_dvd c Sse41.DF) (AlignLo c Sse41.DF) (by omega)
  obtain ⟨V, hV⟩ : ∃ V, V = (forLoop Sse41.DF (AlignLo c Sse41.DF) bv (AlignLo c Sse41.DF)
    0 t0).2 := ⟨_, rfl⟩
  rw [← hV] at v2 v3 v4 v5 v6 hR
  rw [v1] at hR
  obtain ⟨s1, s2, s3, s4, s5, s6⟩ := forLoop_join 2 c src0 src1 p0 p1 q bs (by decide)
    (dvd_refl 2) hs (AlignLo c Sse41.DF) V hle ⟨k - 4 * a, by omega⟩ c (by omega)
  rw [← hR] at s2 s3 s4 s5 s6
  rw [Nat.sub_zero] at v2 v4 v5 v6
  simp only [Nat.add_zero] at v3 v4
  refine ⟨?_, ?_, ?_, ?_, ?_⟩
  · rw [s2, v2]
    omega
  · intro y
    rw [s3, v2, v3]
    by_cases c1 : q + AlignLo c Sse41.DF ≤ y ∧ y < q + c
    · by_cases c2 : (y - (q + AlignLo c Sse41.DF)) % 2 = 0
      · rw [if_pos c1, if_pos c2, if_pos (show q ≤ y ∧ y < q + c by omega),
          if_pos (show (y - q) % 2 = 0 by omega)]
        congr 1
        omega
      · rw [if_pos c1, if_neg c2, if_pos (show q ≤ y ∧ y < q + c by omega),
          if_neg (show ¬ (y - q) % 2 = 0 by omega)]
        congr 1
        omega
    · rw [if_neg c1]
      by_cases c2 : q ≤ y ∧ y < q + AlignLo c Sse41.DF
      · rw [if_pos c2, if_pos (show q ≤ y ∧ y < q + c by omega)]
      · rw [if_neg c2, if_neg (show ¬ (q ≤ y ∧ y < q + c) by omega)]
  · rw [s4, v4, List.append_assoc]
    have e : c = AlignLo c Sse41.DF + (c - AlignLo c Sse41.DF) := by omega
    conv_rhs => rw [e]
    rw [← range'_append_add]
  · rw [s5, v2, v5, List.append_assoc]
    have e : c / 2 = AlignLo c Sse41.DF / 2 + (c - AlignLo c Sse41.DF) / 2 := by omega
    rw [e, ← range'_append_add]
    congr 3
    omega
  · rw [s6, v2, v6, List.append_assoc]
    have e : c / 2 = AlignLo c Sse41.DF / 2 + (c - AlignLo c Sse41.DF) / 2 := by omega
    rw [e, ← range'_append_add]
    congr 3
    omega

/-- One spatial sample of the branch `type == 1` for even channel counts: the `c0` channels
of `dst0` from `q0` on and then the `c1` channels of `dst1` from `q1` on are taken
alternately from the samples of `src0` and `src1`, which are loaded in order. `R` is the
state after the loops over `dst0`, `S` the state after the loops over `dst1`. -/
theorem join_sample {α : Type} (src0 src1 : Nat → α) (p0 p1 q0 q1 c0 c1 : Nat)
    (hc0 : 2 ∣ c0) (hc1 : 2 ∣ c1)
    (bv0 bs0 bv1 bs1 :
      Nat → Nat × Buf α × List Nat × List Nat → Nat × Buf α × List Nat × List Nat)
    (hv0 : JoinBody Sse41.DF src0 src1 p0 p1 q0 bv0)
    (hs0 : JoinBody 2 src0 src1 p0 p1 q0 bs0)
    (hv1 : JoinBody Sse41.DF src0 src1 p0 p1 q1 bv1)
    (hs1 : JoinBody 2 src0 src1 p0 p1 q1 bs1)
    (b0 b1 : Buf α) (r0 r1 : List Nat) (R S : Nat × Nat × Buf α × List Nat × List Nat)
    (hR : R = forLoop 2 c0 bs0 c0
      (forLoop Sse41.DF (AlignLo c0 Sse41.DF) bv0 (AlignLo c0 Sse41.DF) 0 (0, b0, r0, r1)).1
      (forLoop Sse41.DF (AlignLo c0 Sse41.DF) bv0 (AlignLo c0 Sse41.DF) 0 (0, b0, r0, r1)).2)
    (hS : S = forLoop 2 c1 bs1 c1
      (forLoop Sse41.DF (AlignLo c1 Sse41.DF) bv1 (AlignLo c1 Sse41.DF) 0
        (R.2.1, b1, R.2.2.2.1, R.2.2.2.2)).1
      (forLoop Sse41.DF (AlignLo c1 Sse41.DF) bv1 (AlignLo c1 Sse41.DF) 0
        (R.2.1, b1, R.2.2.2.1, R.2.2.2.2)).2) :
    (∀ y, R.2.2.1.data y =
      if q0 ≤ y ∧ y < q0 + c0 then
        (if (y - q0) % 2 = 0 then src0 (p0 + (y - q0) / 2) else src1 (p1 + (y - q0) / 2))
      else b0.data y) ∧
    (∀ y, S.2.2.1.data y =
      if q1 ≤ y ∧ y < q1 + c1 then
        (if (y - q1) % 2 = 0 then src0 (p0 + (c0 / 2 + (y - q1) / 2))
         else src1 (p1 + (c0 / 2 + (y - q1) / 2)))
      else b1.data y) ∧
    R.2.2.1.writes = b0.writes ++ List.range' q0 c0 ∧
    S.2.2.1.writes = b1.writes ++ List.range' q1 c1 ∧
    S.2.2.2.1 = r0 ++ List.range' p0 (c0 / 2 + c1 / 2) ∧
    S.2.2.2.2 = r1 ++ List.range' p1 (c0 / 2 + c1 / 2) := by
  obtain ⟨a1, a2, a3, a4, a5⟩ := join_dest src0 src1 p0 p1 q0 c0 hc0 bv0 bs0 hv0 hs0
    (0, b0, r0, r1) R hR
  obtain ⟨d1, d2, d3, d4, d5⟩ := join_dest src0 src1 p0 p1 q1 c1 hc1 bv1 bs1 hv1 hs1
    (R.2.1, b1, R.2.2.2.1, R.2.2.2.2) S hS
  simp only [] at a1 a2 a3 a4 a5 d1 d2 d3 d4 d5
  rw [Nat.zero_add] at a1
  simp only [Nat.add_zero] at a2 a4 a5
  refine ⟨a2, ?_, a3, d3, ?_, ?_⟩
  · intro y
    rw [d2, a1]
    simp only [Nat.add_assoc]
  · rw [d4, a1, a4, List.append_assoc, range'_append_add]
  · rw [d5, a1, a5, List.append_assoc, range'_append_add]

/-- The branch `type == 1` on even channel counts. -/
theorem shuffle1_spec {α : Type} (y0 y1 : Nat → α) (c0 c1 spatial : Nat)
    (hc0 : 2 ∣ c0) (hc1 : 2 ∣ c1) (d0 d1 : Buf α) :
    Shuffle1Post y0 y1 c0 c1 d0 d1 spatial
      (Sse41.SynetShuffleLayerForward1 y0 y1 c0 c1 spatial d0 d1) := by
  have ech : (c0 + c1) / 2 = c0 / 2 + c1 / 2 := by
    obtain ⟨a, ha⟩ := hc0
    obtain ⟨b, hb⟩ := hc1
    omega
  unfold Sse41.SynetShuffleLayerForward1
  simp only []
  refine (forLoop_one spatial _
    (fun n (st : (Nat × Nat × Nat × Nat) × Buf α × Buf α × List Nat × List Nat) =>
      st.1 = (n * ((c0 + c1) / 2), n * ((c0 + c1) / 2), n * c0, n * c1) ∧
        Shuffle1Post y0 y1 c0 c1 d0 d1 n st.2)
    0 _ ?_ (Nat.zero_le _) ?_ spatial (by omega)).2
  · refine ⟨by simp, ?_, ?_, ?_, ?_, by simp, by simp, by simp, by simp⟩
    · intro s c hs
      omega
    · intro s c hs
      omega
    · intro y _
      rfl
    · intro y _
      rfl
  · rintro n ⟨⟨p0, p1, q0, q1⟩, b0, b1, r0, r1⟩ _ hn ⟨hp, i1, i2, i3, i4, i5, i6, i7, i8⟩
    simp only [Prod.mk.injEq] at hp
    obtain ⟨rfl, rfl, rfl, rfl⟩ := hp
    simp only [] at i1 i2 i3 i4 i5 i6 i7 i8
    obtain ⟨e1, e2, e3, e4, e5, e6⟩ := join_sample y0 y1 (n * ((c0 + c1) / 2))
      (n * ((c0 + c1) / 2)) (n * c0) (n * c1) c0 c1 hc0 hc1 _ _ _ _
      (joinBody_vec y0 y1 (n * ((c0 + c1) / 2)) (n * ((c0 + c1) / 2)) (n * c0))
      (joinBody_scalar y0 y1 (n * ((c0 + c1) / 2)) (n * ((c0 + c1) / 2)) (n * c0))
      (joinBody_vec y0 y1 (n * ((c0 + c1) / 2)) (n * ((c0 + c1) / 2)) (n * c1))
      (joinBody_scalar y0 y1 (n * ((c0 + c1) / 2)) (n * ((c0 + c1) / 2)) (n * c1))
      b0 b1 r0 r1 _ _ rfl rfl
    rw [← ech] at e5 e6
    have hmul : ∀ w s, s < n → ∀ c, c < w → s * w + c < n * w := by
      intro w s hs c hc
      have h1 : (s + 1) * w ≤ n * w := Nat.mul_le_mul_right _ hs
      rw [Nat.add_mul, Nat.one_mul] at h1
      omega
    refine ⟨?_, ?_, ?_, ?_, ?_, ?_, ?_, ?_, ?_⟩
    · show (n * ((c0 + c1) / 2) + (c0 + c1) / 2, n * ((c0 + c1) / 2) + (c0 + c1) / 2,
        n * c0 + c0, n * c1 + c1) = _
      simp only [Nat.add_mul, Nat.one_mul]
    · intro s c hs hc
      refine (e1 _).trans ?_
      by_cases hsn : s < n
      · have := hmul c0 s hsn c hc
        rw [if_neg (show ¬ (n * c0 ≤ s * c0 + c ∧ s * c0 + c < n * c0 + c0) by omega)]
        exact i1 s c hsn hc
      · have esn : s = n := by omega
        subst esn
        rw [if_pos (show s * c0 ≤ s * c0 + c ∧ s * c0 + c < s * c0 + c0 by omega)]
        have e : s * c0 + c - s * c0 = c := by omega
        rw [e]
    · intro s c hs hc
      refine (e2 _).trans ?_
      by_cases hsn : s < n
      · have := hmul c1 s hsn c hc
        rw [if_neg (show ¬ (n * c1 ≤ s * c1 + c ∧ s * c1 + c < n * c1 + c1) by omega)]
        exact i2 s c hsn hc
      · have esn : s = n := by omega
        subst esn
        rw [if_pos (show s * c1 ≤ s * c1 + c ∧ s * c1 + c < s * c1 + c1 by omega)]
        have e : s * c1 + c - s * c1 = c := by omega
        rw [e]
    · intro y hy
      rw [Nat.add_mul, Nat.one_mul] at hy
      refine (e1 y).trans ?_
      rw [if_neg (show ¬ (n * c0 ≤ y ∧ y < n * c0 + c0) by omega)]
      exact i3 y (by omega)
    · intro y hy
      rw [Nat.add_mul, Nat.one_mul] at hy
      refine (e2 y).trans ?_
      rw [if_neg (show ¬ (n * c1 ≤ y ∧ y < n * c1 + c1) by omega)]
      exact i4 y (by omega)
    · refine e3.trans ?_
      rw [i5, List.append_assoc, Nat.add_mul, Nat.one_mul]
      congr 1
      have := range'_append_add 0 (n * c0) c0
      rw [Nat.zero_add] at this
      exact this
    · refine e4.trans ?_
      rw [i6, List.append_assoc, Nat.add_mul, Nat.one_mul]
      congr 1
      have := range'_append_add 0 (n * c1) c1
      rw [Nat.zero_add] at this
      exact this
    · refine e5.trans ?_
      rw [i7, Nat.add_mul, Nat.one_mul]
      have := range'_append_add 0 (n * ((c0 + c1) / 2)) ((c0 + c1) / 2)
      rw [Nat.zero_add] at this
      exact this
    · refine e6.trans ?_
      rw [i8, Nat.add_mul, Nat.one_mul]
      have := range'_append_add 0 (n * ((c0 + c1) / 2)) ((c0 + c1) / 2)
      rw [Nat.zero_add] at this
      exact this

/-- Every index below `n * w` is `s * w + c` for a sample `s < n` and a channel `c < w`. -/
theorem index_split (n w i : Nat) (hi : i < n * w) :
    ∃ s c, s < n ∧ c < w ∧ i = s * w + c := by
  have hw : 0 < w := by
    rcases Nat.eq_zero_or_pos w with h | h
    · subst h
      simp at hi
    · exact h
  refine ⟨i / w, i % w, ?_, Nat.mod_lt _ hw, ?_⟩
  · exact Nat.div_lt_of_lt_mul (by rw [Nat.mul_comm]; exact hi)
  · rw [Nat.mul_comm]
    exact (Nat.div_add_mod i w).symm

/-- C12, as stated, fails for odd channel counts: with `channels0 = channels1 = 1`, two
spatial samples, `x0 = [100, 101]` and `x1 = [200, 201]`, the call with `type = 0` followed
by the call with `type = 1` returns `101` in element 0 of the second output, where `x1` has
`200`. -/
theorem C12_split_join_refuted :
    ((Sse41.SynetShuffleLayerForward shufX0 shufX1 1 1 2 zeroBufN zeroBufN 0).bind
        (fun a => Sse41.SynetShuffleLayerForward a.1.data a.2.1.data 1 1 2
          zeroBufN zeroBufN 1)).map (fun b => b.2.1.data 0) = some 101 ∧
      shufX1 0 = 200 := by
  decide

/-- C12, amended with even channel counts: for every even `channels0` and `channels1`,
every `spatial` and every pair of inputs `x0`, `x1` (of `channels0` and of `channels1`
channels per sample), `SynetShuffleLayerForward` with `type = 0` and then with `type = 1`
on the two outputs returns `x0` and `x1`, element for element, whatever the four output
buffers held before. -/
theorem C12_split_join {α : Type} (x0 x1 : Nat → α) (channels0 channels1 spatial : Nat)
    (h0 : 2 ∣ channels0) (h1 : 2 ∣ channels1) (d0 d1 e0 e1 : Buf α) :
    ∃ a b,
      Sse41.SynetShuffleLayerForward x0 x1 channels0 channels1 spatial d0 d1 0 = some a ∧
      Sse41.SynetShuffleLayerForward a.1.data a.2.1.data channels0 channels1 spatial
        e0 e1 1 = some b ∧
      (∀ i, i < spatial * channels0 → b.1.data i = x0 i) ∧
      (∀ i, i < spatial * channels1 → b.2.1.data i = x1 i) := by
  refine ⟨_, _, rfl, rfl, ?_, ?_⟩
  · intro i hi
    obtain ⟨s, c, hs, hc, rfl⟩ := index_split spatial channels0 i hi
    obtain ⟨k0, hk0⟩ := h0
    obtain ⟨k1, hk1⟩ := h1
    obtain ⟨j1, -, -, -, -, -, -, -⟩ := shuffle1_spec
      (Sse41.SynetShuffleLayerForward0 x0 x1 channels0 channels1 spatial d0 d1).1.data
      (Sse41.SynetShuffleLayerForward0 x0 x1 channels0 channels1 spatial d0 d1).2.1.data
      channels0 channels1 spatial ⟨k0, hk0⟩ ⟨k1, hk1⟩ e0 e1
    obtain ⟨s1, s2, -⟩ := shuffle0_spec x0 x1 channels0 channels1 spatial ⟨k0, hk0⟩
      ⟨k1, hk1⟩ d0 d1
    have hlt : c / 2 < channels0 / 2 := by omega
    rw [j1 s c hs hc, s1 s (c / 2) hs (by omega), s2 s (c / 2) hs (by omega),
      if_pos hlt, if_pos hlt]
    by_cases c2 : c % 2 = 0
    · rw [if_pos c2]
      congr 1
      omega
    · rw [if_neg c2]
      congr 1
      omega
  · intro i hi
    obtain ⟨s, c, hs, hc, rfl⟩ := index_split spatial channels1 i hi
    obtain ⟨k0, hk0⟩ := h0
    obtain ⟨k1, hk1⟩ := h1
    obtain ⟨-, j2, -, -, -, -, -, -⟩ := shuffle1_spec
      (Sse41.SynetShuffleLayerForward0 x0 x1 channels0 channels1 spatial d0 d1).1.data
      (Sse41.SynetShuffleLayerForward0 x0 x1 channels0 channels1 spatial d0 d1).2.1.data
      channels0 channels1 spatial ⟨k0, hk0⟩ ⟨k1, hk1⟩ e0 e1
    obtain ⟨s1, s2, -⟩ := shuffle0_spec x0 x1 channels0 channels1 spatial ⟨k0, hk0⟩
      ⟨k1, hk1⟩ d0 d1
    have hlt : ¬ (channels0 / 2 + c / 2 < channels0 / 2) := by omega
    rw [j2 s c hs hc, s1 s (channels0 / 2 + c / 2) hs (by omega),
      s2 s (channels0 / 2 + c / 2) hs (by omega), if_neg hlt, if_neg hlt]
    by_cases c2 : c % 2 = 0
    · rw [if_pos c2]
      congr 1
      omega
    · rw [if_neg c2]
      congr 1
      omega

/-- C12, amended, at `channels0 = 10`, `channels1 = 2`, two spatial samples. -/
theorem C12_split_join_witness :
    2 ∣ 10 ∧ 2 ∣ 2 ∧ ∃ a b,
      Sse41.SynetShuffleLayerForward shufX0 shufX1 10 2 2 zeroBufN zeroBufN 0 = some a ∧
      Sse41.SynetShuffleLayerForward a.1.data a.2.1.data 10 2 2 zeroBufN zeroBufN 1 =
        some b ∧
      (∀ i, i < 2 * 10 → b.1.data i = shufX0 i) ∧
      (∀ i, i < 2 * 2 → b.2.1.data i = shufX1 i) :=
  ⟨by decide, by decide,
    C12_split_join shufX0 shufX1 10 2 2 (by decide) (by decide) zeroBufN zeroBufN zeroBufN
      zeroBufN⟩

/-- C13, as stated, fails for odd channel counts: with `channels0 = channels1 = 1` (one
channel per group), two spatial samples, `y0 = [100, 101]` and `y1 = [200, 201]`, the call
with `type = 1` followed by the call with `type = 0` returns `101` in element 0 of the
second output, where `y1` has `200`. -/
theorem C13_join_split_refuted :
    ((Sse41.SynetShuffleLayerForward shufX0 shufX1 1 1 2 zeroBufN zeroBufN 1).bind
        (fun a => Sse41.SynetShuffleLayerForward a.1.data a.2.1.data 1 1 2
          zeroBufN zeroBufN 0)).map (fun b => b.2.1.data 0) = some 101 ∧
      shufX1 0 = 200 := by
  decide

/-- C13, amended with even channel counts: for every even `channels0` and `channels1`,
every `spatial` and every pair of inputs `y0`, `y1`, each of `(channels0 + channels1) / 2`
channels per sample, `SynetShuffleLayerForward` with `type = 1` and then with `type = 0`
on the two outputs returns `y0` and `y1`, element for element, whatever the four output
buffers held before. -/
theorem C13_join_split {α : Type} (y0 y1 : Nat → α) (channels0 channels1 spatial : Nat)
    (h0 : 2 ∣ channels0) (h1 : 2 ∣ channels1) (d0 d1 e0 e1 : Buf α) :
    ∃ a b,
      Sse41.SynetShuffleLayerForward y0 y1 channels0 channels1 spatial d0 d1 1 = some a ∧
      Sse41.SynetShuffleLayerForward a.1.data a.2.1.data channels0 channels1 spatial
        e0 e1 0 = some b ∧
      (∀ i, i < spatial * ((channels0 + channels1) / 2) → b.1.data i = y0 i) ∧
      (∀ i, i < spatial * ((channels0 + channels1) / 2) → b.2.1.data i = y1 i) := by
  refine ⟨_, _, rfl, rfl, ?_, ?_⟩
  · intro i hi
    obtain ⟨s, c, hs, hc, rfl⟩ := index_split spatial _ i hi
    obtain ⟨k0, hk0⟩ := h0
    obtain ⟨k1, hk1⟩ := h1
    obtain ⟨j1, -⟩ := shuffle0_spec
      (Sse41.SynetShuffleLayerForward1 y0 y1 channels0 channels1 spatial d0 d1).1.data
      (Sse41.SynetShuffleLayerForward1 y0 y1 channels0 channels1 spatial d0 d1).2.1.data
      channels0 channels1 spatial ⟨k0, hk0⟩ ⟨k1, hk1⟩ e0 e1
    obtain ⟨s1, s2, -⟩ := shuffle1_spec y0 y1 channels0 channels1 spatial ⟨k0, hk0⟩
      ⟨k1, hk1⟩ d0 d1
    rw [j1 s c hs hc]
    by_cases c2 : c < channels0 / 2
    · rw [if_pos c2, s1 s (2 * c) hs (by omega), if_pos (by omega)]
      congr 1
      omega
    · rw [if_neg c2, s2 s (2 * (c - channels0 / 2)) hs (by omega), if_pos (by omega)]
      congr 1
      omega
  · intro i hi
    obtain ⟨s, c, hs, hc, rfl⟩ := index_split spatial _ i hi
    obtain ⟨k0, hk0⟩ := h0
    obtain ⟨k1, hk1⟩ := h1
    obtain ⟨-, j2, -⟩ := shuffle0_spec
      (Sse41.SynetShuffleLayerForward1 y0 y1 channels0 channels1 spatial d0 d1).1.data
      (Sse41.SynetShuffleLayerForward1 y0 y1 channels0 channels1 spatial d0 d1).2.1.data
      channels0 channels1 spatial ⟨k0, hk0⟩ ⟨k1, hk1⟩ e0 e1
    obtain ⟨s1, s2, -⟩ := shuffle1_spec y0 y1 channels0 channels1 spatial ⟨k0, hk0⟩
      ⟨k1, hk1⟩ d0 d1
    rw [j2 s c hs hc]
    by_cases c2 : c < channels0 / 2
    · rw [if_pos c2, Nat.add_assoc, s1 s (2 * c + 1) hs (by omega), if_neg (by omega)]
      congr 1
      omega
    · rw [if_neg c2, Nat.add_assoc, s2 s (2 * (c - channels0 / 2) + 1) hs (by omega),
        if_neg (by omega)]
      congr 1
      omega

/-- C13, amended, at `channels0 = 10`, `channels1 = 2`, two spatial samples. -/
theorem C13_join_split_witness :
    2 ∣ 10 ∧ 2 ∣ 2 ∧ ∃ a b,
      Sse41.SynetShuffleLayerForward shufX0 shufX1 10 2 2 zeroBufN zeroBufN 1 = some a ∧
      Sse41.SynetShuffleLayerForward a.1.data a.2.1.data 10 2 2 zeroBufN zeroBufN 0 =
        some b ∧
      (∀ i, i < 2 * ((10 + 2) / 2) → b.1.data i = shufX0 i) ∧
      (∀ i, i < 2 * ((10 + 2) / 2) → b.2.1.data i = shufX1 i) :=
  ⟨by decide, by decide,
    C13_join_split shufX0 shufX1 10 2 2 (by decide) (by decide) zeroBufN zeroBufN zeroBufN
      zeroBufN⟩

/-- C19, as stated, fails for odd channel counts: with `channels0 = channels1 = 1` and one
spatial sample every buffer has one element (index 0) per sample, and both directions load
index 1 of `src0` and store to index 1 of `dst0`. -/
theorem C19_shuffle_extents_refuted :
    (Sse41.SynetShuffleLayerForward shufX0 shufX1 1 1 1 zeroBufN zeroBufN 0).map
        (fun a => (a.2.2.1, a.1.writes)) = some ([0, 1], [0, 1]) ∧
      (Sse41.SynetShuffleLayerForward shufX0 shufX1 1 1 1 zeroBufN zeroBufN 1).map
        (fun a => (a.2.2.1, a.1.writes)) = some ([0, 1], [0, 1]) ∧
      ¬ (1 < 1 * 1) ∧ ¬ (1 < 1 * ((1 + 1) / 2)) := by
  decide

/-- C19, amended with even channel counts: for the interleaved layout, both directions and
every even `channels0`, `channels1` and every `spatial`, the loads from `src0` and `src1`
and the stores to `dst0` and `dst1` are exactly the indices `0, ..., spatial * w - 1` of
that buffer, each once and in increasing order (so sample after sample, each sample within
its own `w` channels), where `w` is `channels0` and `channels1` on the concatenated side
and `(channels0 + channels1) / 2` on each group side. -/
theorem C19_shuffle_extents {α : Type} (x0 x1 : Nat → α)
    (channels0 channels1 spatial : Nat) (h0 : 2 ∣ channels0) (h1 : 2 ∣ channels1)
    (d0 d1 : Buf α) :
    ∃ a b,
      Sse41.SynetShuffleLayerForward x0 x1 channels0 channels1 spatial d0 d1 0 = some a ∧
      Sse41.SynetShuffleLayerForward x0 x1 channels0 channels1 spatial d0 d1 1 = some b ∧
      (a.2.2.1 = List.range (spatial * channels0) ∧
        a.2.2.2 = List.range (spatial * channels1) ∧
        a.1.writes = d0.writes ++ List.range (spatial * ((channels0 + channels1) / 2)) ∧
        a.2.1.writes = d1.writes ++ List.range (spatial * ((channels0 + channels1) / 2))) ∧
      (b.2.2.1 = List.range (spatial * ((channels0 + channels1) / 2)) ∧
        b.2.2.2 = List.range (spatial * ((channels0 + channels1) / 2)) ∧
        b.1.writes = d0.writes ++ List.range (spatial * channels0) ∧
        b.2.1.writes = d1.writes ++ List.range (spatial * channels1)) := by
  obtain ⟨-, -, -, a4, a5, a6, a7⟩ := shuffle0_spec x0 x1 channels0 channels1 spatial h0 h1
    d0 d1
  obtain ⟨-, -, -, -, b5, b6, b7, b8⟩ := shuffle1_spec x0 x1 channels0 channels1 spatial h0
    h1 d0 d1
  simp only [List.range_eq_range']
  exact ⟨_, _, rfl, rfl, ⟨a6, a7, a4, a5⟩, ⟨b7, b8, b5, b6⟩⟩

/-- C19, amended, at `channels0 = 10`, `channels1 = 2`, two spatial samples. -/
theorem C19_shuffle_extents_witness :
    2 ∣ 10 ∧ 2 ∣ 2 ∧ ∃ a b,
      Sse41.SynetShuffleLayerForward shufX0 shufX1 10 2 2 zeroBufN zeroBufN 0 = some a ∧
      Sse41.SynetShuffleLayerForward shufX0 shufX1 10 2 2 zeroBufN zeroBufN 1 = some b ∧
      (a.2.2.1 = List.range (2 * 10) ∧
        a.2.2.2 = List.range (2 * 2) ∧
        a.1.writes = zeroBufN.writes ++ List.range (2 * ((10 + 2) / 2)) ∧
        a.2.1.writes = zeroBufN.writes ++ List.range (2 * ((10 + 2) / 2))) ∧
      (b.2.2.1 = List.range (2 * ((10 + 2) / 2)) ∧
        b.2.2.2 = List.range (2 * ((10 + 2) / 2)) ∧
        b.1.writes = zeroBufN.writes ++ List.range (2 * 10) ∧
        b.2.1.writes = zeroBufN.writes ++ List.range (2 * 2)) :=
  ⟨by decide, by decide,
    C19_shuffle_extents shufX0 shufX1 10 2 2 (by decide) (by decide) zeroBufN zeroBufN⟩

/-! ## Planar normalization: loads and stores -/

theorem mem_srcReads (p : Option Nat) (s n a : Nat) (h : a ∈ srcReads p s n) :
    ∃ b, p = some b ∧ b + s ≤ a ∧ a < b + s + n := by
  cases p with
  | none => simp [srcReads] at h
  | some b =>
    refine ⟨b, rfl, ?_⟩
    simp only [srcReads, List.mem_range'_1] at h
    exact h

/-- For `half ≤ channels` the planar kernel loads only elements of `src` below
`channels * spatial`. -/
theorem lrn_nchw_reads_bound (F half channels spatial : Nat) (hF : 0 < F)
    (hh : half ≤ channels) (a : Nat)
    (h : a ∈ SynetLrnLayerCrossChannelsNchwReads F half channels spatial) :
    a < channels * spatial := by
  have hsub : subSizeT channels half = channels - half := by
    unfold subSizeT
    rw [if_pos hh]
  have hle := AlignLo_le spatial F
  have hdv := AlignLo_dvd spatial F
  have hmul : ∀ c, c < channels → c * spatial + spatial ≤ channels * spatial := by
    intro c hc
    have h1 : (c + 1) * spatial ≤ channels * spatial := Nat.mul_le_mul_right _ hc
    rw [Nat.add_mul, Nat.one_mul] at h1
    exact h1
  unfold SynetLrnLayerCrossChannelsNchwReads at h
  simp only [] at h
  rw [hsub] at h
  refine (forLoop_one channels _
    (fun c (st : Nat × List Nat) => st.1 = c * spatial ∧ ∀ a ∈ st.2, a < channels * spatial)
    0 _ ?_ (Nat.zero_le _) ?_ channels (by omega)).2 a h
  · refine ⟨(Nat.zero_mul _).symm, ?_⟩
    refine forLoop_one half _ (fun _ (reads : List Nat) => ∀ a ∈ reads, a < channels * spatial)
      0 _ ?_ (Nat.zero_le _) ?_ half (by omega)
    · intro a ha
      simp at ha
    · intro c reads _ hc hP
      have hc2 := hmul c (by omega)
      refine forLoop_then_one F (AlignLo spatial F) spatial _ _
        (fun _ (reads : List Nat) => ∀ a ∈ reads, a < channels * spatial) hF reads hP hdv hle
        ?_ ?_
      · intro j l hj hl a ha
        rw [List.mem_append, List.mem_range'_1] at ha
        rcases ha with ha | ha
        · exact hl a ha
        · omega
      · intro j l _ hj hl a ha
        rw [List.mem_append, List.mem_singleton] at ha
        rcases ha with ha | ha
        · exact hl a ha
        · omega
  · rintro c ⟨sOff, reads⟩ _ hc ⟨h1, h2⟩
    simp only at h1 h2
    subst h1
    refine ⟨?_, ?_⟩
    · show c * spatial + spatial = (c + 1) * spatial
      rw [Nat.add_mul, Nat.one_mul]
    · have hc2 := hmul c hc
      have hpos : ∀ b, (if c < channels - half then some (c * spatial + half * spatial)
          else none) = some b → b + spatial ≤ channels * spatial := by
        intro b hb
        by_cases c1 : c < channels - half
        · rw [if_pos c1] at hb
          have h3 := hmul (c + half) (by omega)
          rw [Nat.add_mul] at h3
          have := Option.some.inj hb
          omega
        · rw [if_neg c1] at hb
          exact absurd hb (by simp)
      have hneg : ∀ b, (if c > half then some (c * spatial - (half + 1) * spatial)
          else none) = some b → b + spatial ≤ channels * spatial := by
        intro b hb
        by_cases c1 : c > half
        · rw [if_pos c1] at hb
          have h3 : 1 * spatial ≤ (half + 1) * spatial := Nat.mul_le_mul_right _ (by omega)
          have h4 : 1 * spatial ≤ c * spatial := Nat.mul_le_mul_right _ (by omega)
          rw [Nat.one_mul] at h3 h4
          have := Option.some.inj hb
          omega
        · rw [if_neg c1] at hb
          exact absurd hb (by simp)
      refine forLoop_then_one F (AlignLo spatial F) spatial _ _
        (fun _ (reads : List Nat) => ∀ a ∈ reads, a < channels * spatial) hF reads h2 hdv hle
        ?_ ?_
      · intro j l hj hl a ha
        rw [List.mem_append, List.mem_append, List.mem_append, List.mem_range'_1] at ha
        rcases ha with ((ha | ha) | ha) | ha
        · exact hl a ha
        · obtain ⟨b, hb, hb1, hb2⟩ := mem_srcReads _ _ _ _ ha
          have := hpos b hb
          omega
        · obtain ⟨b, hb, hb1, hb2⟩ := mem_srcReads _ _ _ _ ha
          have := hneg b hb
          omega
        · omega
      · intro j l _ hj hl a ha
        rw [List.mem_append, List.mem_append, List.mem_append, List.mem_singleton] at ha
        rcases ha with ((ha | ha) | ha) | ha
        · exact hl a ha
        · obtain ⟨b, hb, hb1, hb2⟩ := mem_srcReads _ _ _ _ ha
          have := hpos b hb
          omega
        · obtain ⟨b, hb, hb1, hb2⟩ := mem_srcReads _ _ _ _ ha
          have := hneg b hb
          omega
        · omega

/-- The planar kernel stores to the indices `0, ..., channels * spatial - 1` of `dst`, each
once and in this order, for every `half`. -/
theorem lrn_nchw_writes {α : Type} [CommRing α] (F : Nat) (hF : 0 < F) (pow : α → α → α)
    (align : Bool) (src : Nat → α) (half channels spatial : Nat) (k : Nat → α)
    (dst : Buf α) :
    (SynetLrnLayerCrossChannelsNchwF F pow align src half channels spatial k dst).writes =
      dst.writes ++ List.range' 0 (channels * spatial) := by
  have hle := AlignLo_le spatial F
  have hdv := AlignLo_dvd spatial F
  unfold SynetLrnLayerCrossChannelsNchwF
  simp only []
  refine (forLoop_one channels _
    (fun c (st : Nat × Nat × Buf α × Buf α) => st.2.1 = c * spatial ∧
      st.2.2.2.writes = dst.writes ++ List.range' 0 (c * spatial))
    0 _ ?_ (Nat.zero_le _) ?_ channels (by omega)).2
  · refine ⟨(Nat.zero_mul _).symm, ?_⟩
    simp
  · rintro c ⟨sOff, dOff, sum, d⟩ _ hc ⟨h1, h2⟩
    simp only at h1 h2
    subst h1
    refine ⟨?_, ?_⟩
    · show c * spatial + spatial = (c + 1) * spatial
      rw [Nat.add_mul, Nat.one_mul]
    · refine (forLoop_then_one F (AlignLo spatial F) spatial _ _
        (fun j (sd : Buf α × Buf α) =>
          sd.2.writes = d.writes ++ List.range' (c * spatial) j) hF (sum, d) ?_ hdv hle
        ?_ ?_).trans ?_
      · simp
      · intro j sd hj hsd
        show sd.2.writes ++ List.range' (c * spatial + j) F = _
        rw [hsd, List.append_assoc, range'_append_add]
      · intro j sd _ hj hsd
        show sd.2.writes ++ [c * spatial + j] = _
        rw [hsd, List.append_assoc]
        congr 1
        exact range'_append_add (c * spatial) j 1
      · rw [h2, List.append_assoc, Nat.add_mul, Nat.one_mul]
        congr 1
        have := range'_append_add 0 (c * spatial) spatial
        rw [Nat.zero_add] at this
        exact this

/-- C20, as stated, fails for `half > channels`: with one channel, one spatial position
and `half = 2` the tensor has the single element `src[0]`, and both tiers load the elements
`0, 1, 2, 0` of `src`: the warm-up loop reads the channels `0` and `1`, and the channel loop
reads channel `0 + half`, since `channels - half` wraps around. -/
theorem C20_planar_extents_refuted :
    SynetLrnLayerCrossChannelsNchwReads Sse41.F 2 1 1 = [0, 1, 2, 0] ∧
      SynetLrnLayerCrossChannelsNchwReads Avx2.F 2 1 1 = [0, 1, 2, 0] ∧
      ¬ (2 < 1 * 1) := by
  decide

/-- C20, amended with `half ≤ channels`: for every `half ≤ channels` and every `spatial`,
`SynetLrnLayerCrossChannelsNchw` of either tier loads only elements of `src` with an index
in `[0, channels * spatial)` (its other loads go to its own scratch arrays), and it stores
to exactly the indices `0, ..., channels * spatial - 1` of `dst`, each once (in this
order). -/
theorem C20_planar_extents {α : Type} [CommRing α] (pow : α → α → α) (align : Bool)
    (src : Nat → α) (half channels spatial : Nat) (k : Nat → α) (dst : Buf α)
    (hh : half ≤ channels) :
    (∀ a ∈ SynetLrnLayerCrossChannelsNchwReads Sse41.F half channels spatial,
      a < channels * spatial) ∧
    (∀ a ∈ SynetLrnLayerCrossChannelsNchwReads Avx2.F half channels spatial,
      a < channels * spatial) ∧
    (Sse41.SynetLrnLayerCrossChannelsNchw pow align src half channels spatial k dst).writes =
      dst.writes ++ List.range (channels * spatial) ∧
    (Avx2.SynetLrnLayerCrossChannelsNchw pow align src half channels spatial k dst).writes =
      dst.writes ++ List.range (channels * spatial) := by
  rw [List.range_eq_range']
  exact ⟨fun a ha => lrn_nchw_reads_bound Sse41.F half channels spatial (by decide) hh a ha,
    fun a ha => lrn_nchw_reads_bound Avx2.F half channels spatial (by decide) hh a ha,
    lrn_nchw_writes Sse41.F (by decide) pow align src half channels spatial k dst,
    lrn_nchw_writes Avx2.F (by decide) pow align src half channels spatial k dst⟩

/-- C20, amended, at `half = 1`, three channels, five spatial positions. -/
theorem C20_planar_extents_witness :
    1 ≤ 3 ∧
    (∀ a ∈ SynetLrnLayerCrossChannelsNchwReads Sse41.F 1 3 5, a < 3 * 5) ∧
    (∀ a ∈ SynetLrnLayerCrossChannelsNchwReads Avx2.F 1 3 5, a < 3 * 5) ∧
    (Sse41.SynetLrnLayerCrossChannelsNchw powRat false onesVec 1 3 5 lrnUnitK
        (Buf.ofFn zeroVec)).writes = (Buf.ofFn zeroVec).writes ++ List.range (3 * 5) ∧
    (Avx2.SynetLrnLayerCrossChannelsNchw powRat false onesVec 1 3 5 lrnUnitK
        (Buf.ofFn zeroVec)).writes = (Buf.ofFn zeroVec).writes ++ List.range (3 * 5) :=
  ⟨by decide,
    C20_planar_extents powRat false onesVec 1 3 5 lrnUnitK (Buf.ofFn zeroVec) (by decide)⟩

/-! ## Horizontal reduction and delegation -/

/-- C30: for all four accumulators `sum0, ..., sum3`, `Save4Sums` stores
`dst[n] = (sum of the 8 lanes of sum_n) mod 2^32` (as a signed 32-bit value) for
`n = 0, 1, 2, 3`, in that order, and stores nothing else. -/
theorem C30_save4sums (sum0 sum1 sum2 sum3 : Nat → Int) (dst : Buf Int) (dOff : Nat) :
    (Avx2.Save4Sums sum0 sum1 sum2 sum3 dst dOff).data (dOff + 0) =
        wrap32 (∑ l in Finset.range 8, sum0 l) ∧
      (Avx2.Save4Sums sum0 sum1 sum2 sum3 dst dOff).data (dOff + 1) =
        wrap32 (∑ l in Finset.range 8, sum1 l) ∧
      (Avx2.Save4Sums sum0 sum1 sum2 sum3 dst dOff).data (dOff + 2) =
        wrap32 (∑ l in Finset.range 8, sum2 l) ∧
      (Avx2.Save4Sums sum0 sum1 sum2 sum3 dst dOff).data (dOff + 3) =
        wrap32 (∑ l in Finset.range 8, sum3 l) ∧
      (∀ x, ¬ (dOff ≤ x ∧ x < dOff + 4) →
        (Avx2.Save4Sums sum0 sum1 sum2 sum3 dst dOff).data x = dst.data x) ∧
      (Avx2.Save4Sums sum0 sum1 sum2 sum3 dst dOff).writes =
        dst.writes ++ [dOff, dOff + 1, dOff + 2, dOff + 3] :=
  avx2_Save4Sums_spec sum0 sum1 sum2 sum3 dst dOff

/-- C28: the AVX2 float dense projection delegates short reductions. For every `size < 8`
the AVX2 entry point is the call of the SSE4.1 entry point on the same `src`, `weight`,
`bias`, `count`, `size`, `dst`: its result is the SSE4.1 result and the elements it reads are
those the SSE4.1 call reads, none through its own kernels. For `size ≥ 8` it is the loop over
blocks of four rows with `SynetInnerProductLayerForward4` followed by the loop over single
rows with `SynetInnerProductLayerForward1`, and what it reads does not depend on the SSE4.1
tier. -/
theorem C28_avx2_delegates {α : Type} [CommRing α] (pSrc pWeight pDst : Nat)
    (src weight : Nat → α) (bias : Option (Nat → α)) (count size : Nat) (dst : Buf α) :
    (size < 8 →
      Avx2.SynetInnerProductLayerForward pSrc pWeight pDst src weight bias count size dst =
          Sse41.SynetInnerProductLayerForward pSrc pWeight pDst src weight bias count size
            dst ∧
        ∀ (sse41 : List DenseRead) (hasBias : Bool),
          Avx2.SynetInnerProductLayerForwardReads sse41 hasBias count size = sse41) ∧
    (8 ≤ size →
      Avx2.SynetInnerProductLayerForward pSrc pWeight pDst src weight bias count size dst =
          (forLoop 1 count (fun i dst =>
            Avx2.SynetInnerProductLayerForward1 src (fun x => weight (i * size + x))
              (biasPtr bias i (fun _ => 0)) size dst i) count
            (forLoop 4 (AlignLo count 4) (fun i dst =>
              Avx2.SynetInnerProductLayerForward4 src (fun x => weight (i * size + x))
                (biasPtr bias i (fun _ => 0)) size dst i) (AlignLo count 4) 0 dst).1
            (forLoop 4 (AlignLo count 4) (fun i dst =>
              Avx2.SynetInnerProductLayerForward4 src (fun x => weight (i * size + x))
                (biasPtr bias i (fun _ => 0)) size dst i) (AlignLo count 4) 0 dst).2).2 ∧
        ∀ (sse41 other : List DenseRead) (hasBias : Bool),
          Avx2.SynetInnerProductLayerForwardReads sse41 hasBias count size =
            Avx2.SynetInnerProductLayerForwardReads other hasBias count size) := by
  refine ⟨fun h => ⟨?_, fun sse41 hasBias => ?_⟩, fun h => ⟨?_, fun sse41 other hasBias => ?_⟩⟩
  · unfold Avx2.SynetInnerProductLayerForward
    rw [if_pos (show size < Avx2.F from h)]
  · unfold Avx2.SynetInnerProductLayerForwardReads
    rw [if_pos (show size < Avx2.F from h)]
  · unfold Avx2.SynetInnerProductLayerForward
    rw [if_neg (show ¬ size < Avx2.F from Nat.not_lt.mpr h)]
  · unfold Avx2.SynetInnerProductLayerForwardReads
    rw [if_neg (show ¬ size < Avx2.F from Nat.not_lt.mpr h),
      if_neg (show ¬ size < Avx2.F from Nat.not_lt.mpr h)]

/-- C28 at `size = 7` (delegated) and `size = 9` (not delegated), three rows. -/
theorem C28_avx2_delegates_witness :
    (7 < 8 ∧
      Avx2.SynetInnerProductLayerForward 4 0 0 rampWeight quadWeight (some rampBias) 3 7
          (Buf.ofFn zeroVec) =
        Sse41.SynetInnerProductLayerForward 4 0 0 rampWeight quadWeight (some rampBias) 3 7
          (Buf.ofFn zeroVec)) ∧
    (8 ≤ 9 ∧
      ∀ (sse41 other : List DenseRead) (hasBias : Bool),
        Avx2.SynetInnerProductLayerForwardReads sse41 hasBias 3 9 =
          Avx2.SynetInnerProductLayerForwardReads other hasBias 3 9) :=
  ⟨⟨by norm_num, ((C28_avx2_delegates 4 0 0 rampWeight quadWeight (some rampBias) 3 7
      (Buf.ofFn zeroVec)).1 (by norm_num)).1⟩,
    ⟨by norm_num, ((C28_avx2_delegates 4 0 0 rampWeight quadWeight (some rampBias) 3 9
      (Buf.ofFn zeroVec)).2 (by norm_num)).2⟩⟩

/-! ## Quantized dense projection: tile calls and stores -/

/-- Two loops with the same bounds whose bodies preserve a relation between their states
run in lockstep: equal final counters, related final states. -/
theorem forLoop_sim {σ τ : Type} (step hi : Nat) (b1 : Nat → σ → σ) (b2 : Nat → τ → τ)
    (R : σ → τ → Prop) (hR : ∀ j s t, R s t → R (b1 j s) (b2 j t)) :
    ∀ (fuel j : Nat) (s : σ) (t : τ), R s t →
      (forLoop step hi b1 fuel j s).1 = (forLoop step hi b2 fuel j t).1 ∧
        R (forLoop step hi b1 fuel j s).2 (forLoop step hi b2 fuel j t).2 := by
  intro fuel
  induction fuel with
  | zero =>
    intro j s t h
    exact ⟨rfl, h⟩
  | succ n ih =>
    intro j s t h
    by_cases hj : j < hi
    · have e1 : forLoop step hi b1 (n + 1) j s = forLoop step hi b1 n (j + step) (b1 j s) := by
        simp [forLoop, hj]
      have e2 : forLoop step hi b2 (n + 1) j t = forLoop step hi b2 n (j + step) (b2 j t) := by
        simp [forLoop, hj]
      rw [e1, e2]
      exact ih (j + step) (b1 j s) (b2 j t) (hR j s t h)
    · have e1 : forLoop step hi b1 (n + 1) j s = (j, s) := by
        simp [forLoop, hj]
      have e2 : forLoop step hi b2 (n + 1) j t = (j, t) := by
        simp [forLoop, hj]
      rw [e1, e2]
      exact ⟨rfl, h⟩

/-- Lockstep of a strided loop followed by a counting loop that continues its counter. -/
theorem forLoop_sim_then {σ τ : Type} (step hi1 hi2 : Nat) (a1 a2 : Nat → σ → σ)
    (c1 c2 : Nat → τ → τ) (R : σ → τ → Prop)
    (hR1 : ∀ j s t, R s t → R (a1 j s) (c1 j t))
    (hR2 : ∀ j s t, R s t → R (a2 j s) (c2 j t)) (f1 f2 : Nat) (s : σ) (t : τ) (h : R s t) :
    R (forLoop 1 hi2 a2 f2 (forLoop step hi1 a1 f1 0 s).1 (forLoop step hi1 a1 f1 0 s).2).2
      (forLoop 1 hi2 c2 f2 (forLoop step hi1 c1 f1 0 t).1 (forLoop step hi1 c1 f1 0 t).2).2 := by
  obtain ⟨e, r⟩ := forLoop_sim step hi1 a1 c1 R hR1 f1 0 s t h
  rw [e]
  exact (forLoop_sim 1 hi2 a2 c2 R hR2 f2 _ _ _ r).2

/-- The recorded tile calls are the calls the kernel makes: running them in order on the
output buffer gives the result of `SynetInnerProduct8i<overflow>`. -/
theorem avx2_calls_run (ov : Bool) (M N K : Nat) (src weight : Nat → Int) (dst : Buf Int) :
    Avx2.SynetInnerProduct8iT ov M N K src weight dst =
      (Avx2.SynetInnerProduct8iTCalls ov M N K).foldl (fun d c => c.run src weight d) dst := by
  unfold Avx2.SynetInnerProduct8iT Avx2.SynetInnerProduct8iTCalls
  simp only []
  refine (forLoop_sim_then 2 _ _ _ _ _ _
    (fun (s : (Nat → Int) × Nat × Buf Int) (t : Nat × Nat × List TileCall) =>
      s.1 = (fun x => src (t.1 + x)) ∧ s.2.1 = t.2.1 ∧
        s.2.2 = t.2.2.foldl (fun d c => c.run src weight d) dst)
    ?_ ?_ _ _ (src, 0, dst) (0, 0, []) ?_).2.2
  · rintro i ⟨p, off, d⟩ ⟨s, o, calls⟩ ⟨h1, h2, h3⟩
    simp only [] at h1 h2 h3
    subst h1 h2 h3
    refine ⟨?_, rfl, ?_⟩
    · funext x
      show src (s + (K * 2 + x)) = src (s + K * 2 + x)
      rw [Nat.add_assoc]
    · refine forLoop_sim_then 4 _ _ _ _ _ _
        (fun (d : Buf Int) (calls : List TileCall) =>
          d = calls.foldl (fun d c => c.run src weight d) dst) ?_ ?_ _ _ _ _ rfl
      · intro j d calls h
        rw [List.foldl_append, ← h]
        rfl
      · intro j d calls h
        rw [List.foldl_append, ← h]
        rfl
  · rintro i ⟨p, off, d⟩ ⟨s, o, calls⟩ ⟨h1, h2, h3⟩
    simp only [] at h1 h2 h3
    subst h1 h2 h3
    refine ⟨?_, rfl, ?_⟩
    · funext x
      show src (s + (K + x)) = src (s + K + x)
      rw [Nat.add_assoc]
    · refine forLoop_sim_then 4 _ _ _ _ _ _
        (fun (d : Buf Int) (calls : List TileCall) =>
          d = calls.foldl (fun d c => c.run src weight d) dst) ?_ ?_ _ _ _ _ rfl
      · intro j d calls h
        rw [List.foldl_append, ← h]
        rfl
      · intro j d calls h
        rw [List.foldl_append, ← h]
        rfl
  · refine ⟨?_, rfl, rfl⟩
    funext x
    simp

/-- Every recorded tile call carries the overflow flag of the instantiation and the geometry
of its tile: top-left cell `(i, j)` inside the matrix, activation offset `i * K`, weight
offset `j * K`, output offset `i * N + j`, strides `K`, `K`, `N`. -/
theorem avx2_calls_geometry (ov : Bool) (M N K : Nat) (c : TileCall)
    (hc : c ∈ Avx2.SynetInnerProduct8iTCalls ov M N K) :
    c.overflow = ov ∧ ∃ i j, TileAt M N K c i j := by
  revert c
  unfold Avx2.SynetInnerProduct8iTCalls
  simp only []
  have hN4 : AlignLoAny N 4 ≤ N := Nat.div_mul_le_self N 4
  have hM2 : AlignLoAny M 2 ≤ M := Nat.div_mul_le_self M 2
  refine (forLoop_then_one 2 (AlignLoAny M 2) M _ _
    (fun r (st : Nat × Nat × List TileCall) =>
      st.1 = r * K ∧ st.2.1 = r * N ∧
        ∀ c ∈ st.2.2, c.overflow = ov ∧ ∃ i j, TileAt M N K c i j)
    (by norm_num) (0, 0, []) ?_ (Dvd.intro_left _ rfl) hM2 ?_ ?_).2.2
  · refine ⟨by simp, by simp, ?_⟩
    intro c hc
    simp at hc
  · rintro r ⟨s, o, calls⟩ hr ⟨h1, h2, h3⟩
    simp only [] at h1 h2 h3
    subst h1 h2
    refine ⟨?_, ?_, ?_⟩
    · show r * K + K * 2 = (r + 2) * K
      ring
    · show r * N + N * 2 = (r + 2) * N
      ring
    · refine forLoop_then_one 4 (AlignLoAny N 4) N _ _
        (fun _ (calls : List TileCall) =>
          ∀ c ∈ calls, c.overflow = ov ∧ ∃ i j, TileAt M N K c i j)
        (by norm_num) calls h3 (Dvd.intro_left _ rfl) hN4 ?_ ?_
      · intro j calls hj h c hc
        rcases List.mem_append.mp hc with h1 | h1
        · exact h c h1
        · rw [List.mem_singleton] at h1
          subst h1
          exact ⟨rfl, r, j, by show r + 2 ≤ M; omega, by show j + 4 ≤ N; omega, rfl, rfl,
            rfl, rfl, rfl, rfl, rfl⟩
      · intro j calls hj1 hj2 h c hc
        rcases List.mem_append.mp hc with h1 | h1
        · exact h c h1
        · rw [List.mem_singleton] at h1
          subst h1
          exact ⟨rfl, r, j, by show r + 2 ≤ M; omega, by show j + 1 ≤ N; omega, rfl, rfl,
            rfl, rfl, rfl, rfl, rfl⟩
  · rintro r ⟨s, o, calls⟩ hr1 hr2 ⟨h1, h2, h3⟩
    simp only [] at h1 h2 h3
    subst h1 h2
    refine ⟨?_, ?_, ?_⟩
    · show r * K + K = (r + 1) * K
      ring
    · show r * N + N = (r + 1) * N
      ring
    · refine forLoop_then_one 4 (AlignLoAny N 4) N _ _
        (fun _ (calls : List TileCall) =>
          ∀ c ∈ calls, c.overflow = ov ∧ ∃ i j, TileAt M N K c i j)
        (by norm_num) calls h3 (Dvd.intro_left _ rfl) hN4 ?_ ?_
      · intro j calls hj h c hc
        rcases List.mem_append.mp hc with h1 | h1
        · exact h c h1
        · rw [List.mem_singleton] at h1
          subst h1
          exact ⟨rfl, r, j, by show r + 1 ≤ M; omega, by show j + 4 ≤ N; omega, rfl, rfl,
            rfl, rfl, rfl, rfl, rfl⟩
      · intro j calls hj1 hj2 h c hc
        rcases List.mem_append.mp hc with h1 | h1
        · exact h c h1
        · rw [List.mem_singleton] at h1
          subst h1
          exact ⟨rfl, r, j, by show r + 1 ≤ M; omega, by show j + 1 ≤ N; omega, rfl, rfl,
            rfl, rfl, rfl, rfl, rfl⟩


/-- How often an index occurs among consecutive indices `a, ..., a + n - 1`. -/
theorem count_range'_ite (a n x : Nat) :
    (List.range' a n).count x = if a ≤ x ∧ x < a + n then 1 else 0 := by
  by_cases h : a ≤ x ∧ x < a + n
  · rw [if_pos h]
    exact List.count_eq_one_of_mem (List.nodup_range' a n) (List.mem_range'_1.mpr h)
  · rw [if_neg h]
    exact List.count_eq_zero_of_not_mem (fun hm => h (List.mem_range'_1.mp hm))

theorem avx2_kernel2x4_writes (ov : Bool) (K : Nat) (S : Nat → Int) (lds : Nat)
    (W : Nat → Int) (ldw : Nat) (dst : Buf Int) (dOff ldd : Nat) :
    (Avx2.SynetInnerProduct8i2x4 ov K S lds W ldw dst dOff ldd).writes =
      dst.writes ++ List.range' dOff 4 ++ List.range' (dOff + ldd) 4 := by
  unfold Avx2.SynetInnerProduct8i2x4
  simp only []
  rw [(avx2_Save4Sums_spec _ _ _ _ _ _).2.2.2.2.2, (avx2_Save4Sums_spec _ _ _ _ _ _).2.2.2.2.2,
    Nat.zero_mul, Nat.one_mul, Nat.add_zero]

theorem avx2_kernel1x4_writes (ov : Bool) (K : Nat) (S : Nat → Int) (lds : Nat)
    (W : Nat → Int) (ldw : Nat) (dst : Buf Int) (dOff ldd : Nat) :
    (Avx2.SynetInnerProduct8i1x4 ov K S lds W ldw dst dOff ldd).writes =
      dst.writes ++ List.range' dOff 4 := by
  unfold Avx2.SynetInnerProduct8i1x4
  simp only []
  rw [(avx2_Save4Sums_spec _ _ _ _ _ _).2.2.2.2.2]

theorem avx2_kernel2x1_writes (ov : Bool) (K : Nat) (S : Nat → Int) (lds : Nat)
    (W : Nat → Int) (ldw : Nat) (dst : Buf Int) (dOff ldd : Nat) :
    (Avx2.SynetInnerProduct8i2x1 ov K S lds W ldw dst dOff ldd).writes =
      dst.writes ++ [dOff] ++ [dOff + ldd] := by
  unfold Avx2.SynetInnerProduct8i2x1 Buf.set
  simp only [Nat.zero_mul, Nat.one_mul, Nat.add_zero]

theorem avx2_kernel1x1_writes (ov : Bool) (K : Nat) (S : Nat → Int) (lds : Nat)
    (W : Nat → Int) (ldw : Nat) (dst : Buf Int) (dOff ldd : Nat) :
    (Avx2.SynetInnerProduct8i1x1 ov K S lds W ldw dst dOff ldd).writes =
      dst.writes ++ [dOff] := by
  unfold Avx2.SynetInnerProduct8i1x1 Buf.set
  simp only [Nat.add_zero]

/-- The stores of two output rows `r`, `r + 1`: the 2x4 tiles followed by the 2x1 tiles store
every cell of the two rows once, and nothing else. -/
theorem avx2_two_rows_writes (ov : Bool) (N K : Nat) (src weight : Nat → Int) (r : Nat)
    (d : Buf Int) (x : Nat) :
    (forLoop 1 N (fun j dst => Avx2.SynetInnerProduct8i2x1 ov K src K
        (fun x => weight (j * K + x)) K dst (r * N + j) N) N
      (forLoop 4 (AlignLoAny N 4) (fun j dst => Avx2.SynetInnerProduct8i2x4 ov K src K
        (fun x => weight (j * K + x)) K dst (r * N + j) N) (AlignLoAny N 4) 0 d).1
      (forLoop 4 (AlignLoAny N 4) (fun j dst => Avx2.SynetInnerProduct8i2x4 ov K src K
        (fun x => weight (j * K + x)) K dst (r * N + j) N) (AlignLoAny N 4) 0 d).2).2.writes.count
        x =
      d.writes.count x + if r * N ≤ x ∧ x < (r + 2) * N then 1 else 0 := by
  have hN4 : AlignLoAny N 4 ≤ N := Nat.div_mul_le_self N 4
  have e2 : (r + 2) * N = r * N + N + N := by ring
  have key := forLoop_then_one 4 (AlignLoAny N 4) N
    (fun j dst => Avx2.SynetInnerProduct8i2x4 ov K src K
        (fun x => weight (j * K + x)) K dst (r * N + j) N)
    (fun j dst => Avx2.SynetInnerProduct8i2x1 ov K src K
        (fun x => weight (j * K + x)) K dst (r * N + j) N)
    (fun j (b : Buf Int) => ∀ x,
      b.writes.count x = d.writes.count x +
        if (r * N ≤ x ∧ x < r * N + j) ∨ (r * N + N ≤ x ∧ x < r * N + N + j) then 1 else 0)
    (by norm_num) d ?_ (Dvd.intro_left _ rfl) hN4 ?_ ?_
  · rw [key x, e2]
    congr 1
    split_ifs <;> omega
  · intro x
    rw [if_neg (by omega)]
    rfl
  · intro j b hj h x
    rw [avx2_kernel2x4_writes, List.count_append, List.count_append, h x, count_range'_ite,
      count_range'_ite]
    split_ifs <;> omega
  · intro j b hj1 hj2 h x
    rw [avx2_kernel2x1_writes, List.count_append, List.count_append, h x,
      List.count_singleton, List.count_singleton]
    simp only [beq_iff_eq]
    split_ifs <;> omega

/-- The stores of one output row `r`: the 1x4 tiles followed by the 1x1 tiles store every
cell of the row once, and nothing else. -/
theorem avx2_one_row_writes (ov : Bool) (N K : Nat) (src weight : Nat → Int) (r : Nat)
    (d : Buf Int) (x : Nat) :
    (forLoop 1 N (fun j dst => Avx2.SynetInnerProduct8i1x1 ov K src K
        (fun x => weight (j * K + x)) K dst (r * N + j) N) N
      (forLoop 4 (AlignLoAny N 4) (fun j dst => Avx2.SynetInnerProduct8i1x4 ov K src K
        (fun x => weight (j * K + x)) K dst (r * N + j) N) (AlignLoAny N 4) 0 d).1
      (forLoop 4 (AlignLoAny N 4) (fun j dst => Avx2.SynetInnerProduct8i1x4 ov K src K
        (fun x => weight (j * K + x)) K dst (r * N + j) N) (AlignLoAny N 4) 0 d).2).2.writes.count
        x =
      d.writes.count x + if r * N ≤ x ∧ x < (r + 1) * N then 1 else 0 := by
  have hN4 : AlignLoAny N 4 ≤ N := Nat.div_mul_le_self N 4
  have e2 : (r + 1) * N = r * N + N := by ring
  have key := forLoop_then_one 4 (AlignLoAny N 4) N
    (fun j dst => Avx2.SynetInnerProduct8i1x4 ov K src K
        (fun x => weight (j * K + x)) K dst (r * N + j) N)
    (fun j dst => Avx2.SynetInnerProduct8i1x1 ov K src K
        (fun x => weight (j * K + x)) K dst (r * N + j) N)
    (fun j (b : Buf Int) => ∀ x,
      b.writes.count x = d.writes.count x +
        if r * N ≤ x ∧ x < r * N + j then 1 else 0)
    (by norm_num) d ?_ (Dvd.intro_left _ rfl) hN4 ?_ ?_
  · rw [key x, e2]
  · intro x
    rw [if_neg (by omega)]
    rfl
  · intro j b hj h x
    rw [avx2_kernel1x4_writes, List.count_append, h x, count_range'_ite]
    split_ifs <;> omega
  · intro j b hj1 hj2 h x
    rw [avx2_kernel1x1_writes, List.count_append, h x, List.count_singleton]
    simp only [beq_iff_eq]
    split_ifs <;> omega

/-- The stores of the whole tiling: every cell of the `M x N` output is stored once, no
other index is stored. -/
theorem avx2_innerProduct8i_writes (ov : Bool) (M N K : Nat) (src weight : Nat → Int)
    (dst : Buf Int) (x : Nat) :
    (Avx2.SynetInnerProduct8iT ov M N K src weight dst).writes.count x =
      dst.writes.count x + if x < M * N then 1 else 0 := by
  unfold Avx2.SynetInnerProduct8iT
  simp only []
  refine (forLoop_then_one 2 (AlignLoAny M 2) M _ _
    (fun r (st : (Nat → Int) × Nat × Buf Int) =>
      st.2.1 = r * N ∧
      ∀ x, st.2.2.writes.count x = dst.writes.count x + if x < r * N then 1 else 0)
    (by norm_num) (src, 0, dst) ?_ (Dvd.intro_left _ rfl) (Nat.div_mul_le_self M 2) ?_ ?_).2 x
  · refine ⟨by simp, ?_⟩
    intro x
    rw [if_neg (by omega)]
    rfl
  · rintro r ⟨p, off, d⟩ _ ⟨h2, h3⟩
    simp only [] at h2 h3
    subst h2
    refine ⟨?_, ?_⟩
    · show r * N + N * 2 = (r + 2) * N
      ring
    · intro x
      refine (avx2_two_rows_writes ov N K p weight r d x).trans ?_
      rw [h3 x]
      have e2 : (r + 2) * N = r * N + N + N := by ring
      rw [e2]
      split_ifs <;> omega
  · rintro r ⟨p, off, d⟩ _ _ ⟨h2, h3⟩
    simp only [] at h2 h3
    subst h2
    refine ⟨?_, ?_⟩
    · show r * N + N = (r + 1) * N
      ring
    · intro x
      refine (avx2_one_row_writes ov N K p weight r d x).trans ?_
      rw [h3 x]
      have e2 : (r + 1) * N = r * N + N := by ring
      rw [e2]
      split_ifs <;> omega


/-- One tile call with the geometry of the tile at `(i, j)`: it stores the cells of its tile,
row by row, and the value stored at cell `(i + r, j + c)` is the lane sum of the accumulator
of activation row `i + r` against weight row `j + c`. -/
theorem avx2_tile_run (M N K : Nat) (src weight : Nat → Int) (c : TileCall) (i j : Nat)
    (h : TileAt M N K c i j) (d : Buf Int) :
    (c.run src weight d).writes = d.writes ++ tileCells N i j c.tile.rows c.tile.cols ∧
      ∀ r q, r < c.tile.rows → q < c.tile.cols →
        (c.run src weight d).data ((i + r) * N + (j + q)) =
          cellQ c.overflow K (fun x => src ((i + r) * K + x))
            (fun x => weight ((j + q) * K + x)) := by
  obtain ⟨tile, ov, K', S, lds, W, ldw, D, ldd⟩ := c
  obtain ⟨h1, h2, h3, h4, h5, h6, h7, h8, h9⟩ := h
  simp only [] at h1 h2 h3 h4 h5 h6 h7 h8 h9
  subst K' S lds W ldw D ldd
  have e1 : (i + 1) * N + j = i * N + j + N := by ring
  cases tile
  · refine ⟨?_, ?_⟩
    · show (Avx2.SynetInnerProduct8i2x4 _ _ _ _ _ _ _ _ _).writes = _
      rw [avx2_kernel2x4_writes]
      simp [tileCells, Tile8i.rows, Tile8i.cols, List.range_succ, e1]
    · intro r q hr hq
      have hr2 : r < 2 := hr
      have hq4 : q < 4 := hq
      have hN : 4 ≤ N := by
        have : j + 4 ≤ N := h2
        omega
      obtain ⟨k1, -⟩ := avx2_kernel2x4_spec ov K (fun x => src (i * K + x)) K
        (fun x => weight (j * K + x)) K d (i * N + j) N hN
      show (Avx2.SynetInnerProduct8i2x4 _ _ _ _ _ _ _ _ _).data _ = _
      interval_cases r
      · have q0 := cellQ_rows ov K src weight i 0 j q
        have i1 : (i + 0) * N + (j + q) = i * N + j + q := by ring
        rw [i1, (k1 q hq4).1]
        exact q0
      · have q1 := cellQ_rows ov K src weight i 1 j q
        have i1 : (i + 1) * N + (j + q) = i * N + j + N + q := by ring
        rw [i1, (k1 q hq4).2]
        exact q1
  · refine ⟨?_, ?_⟩
    · show (Avx2.SynetInnerProduct8i2x1 _ _ _ _ _ _ _ _ _).writes = _
      rw [avx2_kernel2x1_writes]
      simp [tileCells, Tile8i.rows, Tile8i.cols, List.range_succ, e1]
    · intro r q hr hq
      have hr2 : r < 2 := hr
      have hq1 : q < 1 := hq
      have hN : 1 ≤ N := by
        have : j + 1 ≤ N := h2
        omega
      obtain ⟨k0, k1, -⟩ := avx2_kernel2x1_spec ov K (fun x => src (i * K + x)) K
        (fun x => weight (j * K + x)) K d (i * N + j) N hN
      show (Avx2.SynetInnerProduct8i2x1 _ _ _ _ _ _ _ _ _).data _ = _
      interval_cases q
      interval_cases r
      · have q0 := cellQ_rows ov K src weight i 0 j 0
        have i1 : (i + 0) * N + (j + 0) = i * N + j := by ring
        rw [i1, k0]
        exact q0
      · have q1 := cellQ_rows ov K src weight i 1 j 0
        have i1 : (i + 1) * N + (j + 0) = i * N + j + N := by ring
        rw [i1, k1]
        exact q1
  · refine ⟨?_, ?_⟩
    · show (Avx2.SynetInnerProduct8i1x4 _ _ _ _ _ _ _ _ N).writes = _
      rw [avx2_kernel1x4_writes]
      simp [tileCells, Tile8i.rows, Tile8i.cols, List.range_succ]
    · intro r q hr hq
      have hr1 : r < 1 := hr
      have hq4 : q < 4 := hq
      obtain ⟨k1, -⟩ := avx2_kernel1x4_spec ov K (fun x => src (i * K + x)) K
        (fun x => weight (j * K + x)) K d (i * N + j) N
      show (Avx2.SynetInnerProduct8i1x4 _ _ _ _ _ _ _ _ N).data _ = _
      interval_cases r
      have q0 := cellQ_rows ov K src weight i 0 j q
      have i1 : (i + 0) * N + (j + q) = i * N + j + q := by ring
      rw [i1, k1 q hq4]
      exact q0
  · refine ⟨?_, ?_⟩
    · show (Avx2.SynetInnerProduct8i1x1 _ _ _ _ _ _ _ _ N).writes = _
      rw [avx2_kernel1x1_writes]
      simp [tileCells, Tile8i.rows, Tile8i.cols, List.range_succ]
    · intro r q hr hq
      have hr1 : r < 1 := hr
      have hq1 : q < 1 := hq
      obtain ⟨k0, -⟩ := avx2_kernel1x1_spec ov K (fun x => src (i * K + x)) K
        (fun x => weight (j * K + x)) K d (i * N + j) N
      show (Avx2.SynetInnerProduct8i1x1 _ _ _ _ _ _ _ _ N).data _ = _
      interval_cases r
      interval_cases q
      have q0 := cellQ_rows ov K src weight i 0 j 0
      have i1 : (i + 0) * N + (j + 0) = i * N + j := by ring
      rw [i1, k0]
      exact q0

/-- C27: the overflow policy of the quantized dense projection is selected once per call.
For all `M`, `N`, `K`, the call `SynetInnerProduct8i(M, N, K, src, weight, dst,
compatibility)` is the sequence of its recorded tile calls (2x4, 2x1, 1x4, 1x1), and every one
of them carries `overflow = false` when the compatibility flag is precise and
`overflow = true` otherwise. -/
theorem C27_overflow_policy (M N K : Nat) (src weight : Nat → Int) (dst : Buf Int)
    (precise : Bool) (c : TileCall) (hc : c ∈ Avx2.SynetInnerProduct8iCalls M N K precise) :
    c.overflow = (!precise) ∧
      Avx2.SynetInnerProduct8i M N K src weight dst precise =
        (Avx2.SynetInnerProduct8iCalls M N K precise).foldl
          (fun d c => c.run src weight d) dst := by
  unfold Avx2.SynetInnerProduct8iCalls at hc ⊢
  unfold Avx2.SynetInnerProduct8i
  cases precise
  · rw [if_neg (by simp)] at hc
    rw [if_neg (by simp), if_neg (by simp)]
    exact ⟨(avx2_calls_geometry true M N K c hc).1, avx2_calls_run true M N K src weight dst⟩
  · rw [if_pos rfl] at hc
    rw [if_pos rfl, if_pos rfl]
    exact ⟨(avx2_calls_geometry false M N K c hc).1, avx2_calls_run false M N K src weight dst⟩

/-- C27 at `M = 3`, `N = 6`, `K = 7` with the precise flag set, for the 2x1 tile call at
cell `(0, 5)`. -/
theorem C27_overflow_policy_witness :
    (⟨Tile8i.k2x1, false, 7, 0, 7, 35, 7, 5, 6⟩ : TileCall) ∈
        Avx2.SynetInnerProduct8iCalls 3 6 7 true ∧
      ((⟨Tile8i.k2x1, false, 7, 0, 7, 35, 7, 5, 6⟩ : TileCall).overflow = (!true) ∧
        Avx2.SynetInnerProduct8i 3 6 7 rampS rampW zeroBufQ true =
          (Avx2.SynetInnerProduct8iCalls 3 6 7 true).foldl
            (fun d c => c.run rampS rampW d) zeroBufQ) :=
  ⟨by decide, C27_overflow_policy 3 6 7 rampS rampW zeroBufQ true
    ⟨Tile8i.k2x1, false, 7, 0, 7, 35, 7, 5, 6⟩ (by decide)⟩

/-- C29: the quantized tiling covers the output matrix exactly. For all `M`, `N`, `K` (odd
`M` and `N` not a multiple of 4 included) the call stores every cell `dst[i*N + j]`,
`i < M`, `j < N`, exactly once and stores no other index; the call is the sequence of its
recorded tile calls; and every tile call is the tile at some cell `(i, j)` inside the matrix:
it is given activation row `i` (offset `i * K`) and weight row `j` (offset `j * K`), it
stores the cells of its tile, and the value it stores at cell `(i + r, j + q)` is that of
activation row `i + r` against weight row `j + q`. -/
theorem C29_tiling_covers (M N K : Nat) (src weight : Nat → Int) (dst : Buf Int)
    (precise : Bool) (x : Nat) (c : TileCall)
    (hc : c ∈ Avx2.SynetInnerProduct8iCalls M N K precise) :
    (Avx2.SynetInnerProduct8i M N K src weight dst precise).writes.count x =
        dst.writes.count x + (if x < M * N then 1 else 0) ∧
      Avx2.SynetInnerProduct8i M N K src weight dst precise =
        (Avx2.SynetInnerProduct8iCalls M N K precise).foldl
          (fun d c => c.run src weight d) dst ∧
      ∃ i j, TileAt M N K c i j ∧
        ∀ d : Buf Int,
          (c.run src weight d).writes =
              d.writes ++ tileCells N i j c.tile.rows c.tile.cols ∧
            ∀ r q, r < c.tile.rows → q < c.tile.cols →
              (c.run src weight d).data ((i + r) * N + (j + q)) =
                cellQ c.overflow K (fun x => src ((i + r) * K + x))
                  (fun x => weight ((j + q) * K + x)) := by
  have key : ∀ ov, c ∈ Avx2.SynetInnerProduct8iTCalls ov M N K →
      (Avx2.SynetInnerProduct8iT ov M N K src weight dst).writes.count x =
          dst.writes.count x + (if x < M * N then 1 else 0) ∧
        Avx2.SynetInnerProduct8iT ov M N K src weight dst =
          (Avx2.SynetInnerProduct8iTCalls ov M N K).foldl
            (fun d c => c.run src weight d) dst ∧
        ∃ i j, TileAt M N K c i j ∧
          ∀ d : Buf Int,
            (c.run src weight d).writes =
                d.writes ++ tileCells N i j c.tile.rows c.tile.cols ∧
              ∀ r q, r < c.tile.rows → q < c.tile.cols →
                (c.run src weight d).data ((i + r) * N + (j + q)) =
                  cellQ c.overflow K (fun x => src ((i + r) * K + x))
                    (fun x => weight ((j + q) * K + x)) := by
    intro ov h
    obtain ⟨-, i, j, hij⟩ := avx2_calls_geometry ov M N K c h
    exact ⟨avx2_innerProduct8i_writes ov M N K src weight dst x,
      avx2_calls_run ov M N K src weight dst, i, j, hij,
      fun d => avx2_tile_run M N K src weight c i j hij d⟩
  cases precise
  · exact key true hc
  · exact key false hc

/-- C29 at `M = 3` (odd), `N = 6` (not a multiple of 4), `K = 7` under the fast policy, for
the cell `17 = 2 * 6 + 5` and the 1x1 tile call that stores it. -/
theorem C29_tiling_covers_witness :
    (⟨Tile8i.k1x1, true, 7, 14, 7, 35, 7, 17, 6⟩ : TileCall) ∈
        Avx2.SynetInnerProduct8iCalls 3 6 7 false ∧
      ((Avx2.SynetInnerProduct8i 3 6 7 rampS rampW zeroBufQ false).writes.count 17 =
          zeroBufQ.writes.count 17 + (if 17 < 3 * 6 then 1 else 0) ∧
        Avx2.SynetInnerProduct8i 3 6 7 rampS rampW zeroBufQ false =
          (Avx2.SynetInnerProduct8iCalls 3 6 7 false).foldl
            (fun d c => c.run rampS rampW d) zeroBufQ ∧
        ∃ i j, TileAt 3 6 7 ⟨Tile8i.k1x1, true, 7, 14, 7, 35, 7, 17, 6⟩ i j ∧
          ∀ d : Buf Int,
            ((⟨Tile8i.k1x1, true, 7, 14, 7, 35, 7, 17, 6⟩ : TileCall).run rampS rampW
                  d).writes =
                d.writes ++ tileCells 6 i j
                  (⟨Tile8i.k1x1, true, 7, 14, 7, 35, 7, 17, 6⟩ : TileCall).tile.rows
                  (⟨Tile8i.k1x1, true, 7, 14, 7, 35, 7, 17, 6⟩ : TileCall).tile.cols ∧
              ∀ r q, r < (⟨Tile8i.k1x1, true, 7, 14, 7, 35, 7, 17, 6⟩ : TileCall).tile.rows →
                q < (⟨Tile8i.k1x1, true, 7, 14, 7, 35, 7, 17, 6⟩ : TileCall).tile.cols →
                ((⟨Tile8i.k1x1, true, 7, 14, 7, 35, 7, 17, 6⟩ : TileCall).run rampS rampW
                    d).data ((i + r) * 6 + (j + q)) =
                  cellQ (⟨Tile8i.k1x1, true, 7, 14, 7, 35, 7, 17, 6⟩ : TileCall).overflow 7
                    (fun x => rampS ((i + r) * 7 + x))
                    (fun x => rampW ((j + q) * 7 + x))) :=
  ⟨by decide, C29_tiling_covers 3 6 7 rampS rampW zeroBufQ false 17
    ⟨Tile8i.k1x1, true, 7, 14, 7, 35, 7, 17, 6⟩ (by decide)⟩

/-! ## Quantized dense projection: zero padding of the tail -/

/-- The copy loop of `LoadTail` reads `ptr[0], ..., ptr[tail - 1]`, in this order. -/
theorem avx2_LoadTailReads_eq (tail : Nat) : Avx2.LoadTailReads tail = List.range tail := by
  unfold Avx2.LoadTailReads
  refine forLoop_one tail _ (fun i (reads : List Nat) => reads = List.range i) 0 []
    (by simp) (Nat.zero_le _) ?_ tail (by omega)
  intro j reads _ _ h
  rw [h, List.range_succ]

/-- The shape shared by the read traces of the four tile kernels: when every whole block and
the tail stay inside the rows, so does the whole trace. -/
theorem tileReads_within (K : Nat) (P : TileRead → Prop) (blk : Nat → List TileRead)
    (tl : List TileRead)
    (hblk : ∀ k, k + 32 ≤ AlignLo K Avx2.A → ∀ e ∈ blk k, P e)
    (htl : AlignLo K Avx2.A < K → ∀ e ∈ tl, P e) :
    ∀ e ∈ (if AlignLo K Avx2.A < K then
        (forLoop Avx2.A (AlignLo K Avx2.A) (fun k (reads : List TileRead) => reads ++ blk k)
          (AlignLo K Avx2.A) 0 []).2 ++ tl
      else (forLoop Avx2.A (AlignLo K Avx2.A) (fun k (reads : List TileRead) => reads ++ blk k)
          (AlignLo K Avx2.A) 0 []).2), P e := by
  have hloop : ∀ e ∈ (forLoop Avx2.A (AlignLo K Avx2.A)
      (fun k (reads : List TileRead) => reads ++ blk k) (AlignLo K Avx2.A) 0 []).2, P e := by
    refine (forLoop_stride Avx2.A (AlignLo K Avx2.A) _
      (fun _ (reads : List TileRead) => ∀ e ∈ reads, P e) (by norm_num [Avx2.A]) 0 []
      (by simp) (Nat.zero_le _) (Dvd.intro_left (K / Avx2.A) rfl) ?_ (AlignLo K Avx2.A)
      (by omega)).2
    intro j reads _ hj h e he
    rcases List.mem_append.mp he with h1 | h1
    · exact h e h1
    · exact hblk j hj e h1
  by_cases c : AlignLo K Avx2.A < K
  · rw [if_pos c]
    intro e he
    rcases List.mem_append.mp he with h1 | h1
    · exact hloop e h1
    · exact htl c e h1
  · rw [if_neg c]
    exact hloop

/-- A whole-block load `_mm256_loadu_si256(p + k)` with `k + 32 ≤ K` stays below `K`. -/
theorem mem_loadu_si256Reads_map (c : Nat → TileRead) (k : Nat) (e : TileRead)
    (he : e ∈ (loadu_si256Reads k).map c) : ∃ x, k ≤ x ∧ x < k + 32 ∧ e = c x := by
  obtain ⟨x, hx, rfl⟩ := List.mem_map.mp he
  exact ⟨x, (List.mem_range'_1.mp hx).1, (List.mem_range'_1.mp hx).2, rfl⟩

theorem mem_LoadTailReads_map (c : Nat → TileRead) (tail : Nat) (e : TileRead)
    (he : e ∈ (Avx2.LoadTailReads tail).map c) : ∃ x, x < tail ∧ e = c x := by
  rw [avx2_LoadTailReads_eq] at he
  obtain ⟨x, hx, rfl⟩ := List.mem_map.mp he
  exact ⟨x, List.mem_range.mp hx, rfl⟩

theorem avx2_reads1x1_within (K : Nat) :
    ∀ e ∈ Avx2.SynetInnerProduct8i1x1Reads K, e.Within 1 1 K := by
  have hKA : AlignLo K Avx2.A ≤ K := Nat.div_mul_le_self K Avx2.A
  unfold Avx2.SynetInnerProduct8i1x1Reads
  simp only [List.append_assoc]
  refine tileReads_within K _ _ _ ?_ ?_
  · intro k hk e he
    simp only [List.mem_append] at he
    rcases he with h | h <;>
      (obtain ⟨x, h1, h2, rfl⟩ := mem_loadu_si256Reads_map _ _ _ h
       exact ⟨by norm_num, by omega⟩)
  · intro hlt e he
    simp only [List.mem_append] at he
    rcases he with h | h <;>
      (obtain ⟨x, h1, rfl⟩ := mem_LoadTailReads_map _ _ _ h
       exact ⟨by norm_num, by omega⟩)

theorem avx2_reads1x4_within (K : Nat) :
    ∀ e ∈ Avx2.SynetInnerProduct8i1x4Reads K, e.Within 1 4 K := by
  have hKA : AlignLo K Avx2.A ≤ K := Nat.div_mul_le_self K Avx2.A
  unfold Avx2.SynetInnerProduct8i1x4Reads
  simp only [List.append_assoc]
  refine tileReads_within K _ _ _ ?_ ?_
  · intro k hk e he
    simp only [List.mem_append] at he
    rcases he with h | h | h | h | h <;>
      (obtain ⟨x, h1, h2, rfl⟩ := mem_loadu_si256Reads_map _ _ _ h
       exact ⟨by norm_num, by omega⟩)
  · intro hlt e he
    simp only [List.mem_append] at he
    rcases he with h | h | h | h | h <;>
      (obtain ⟨x, h1, rfl⟩ := mem_LoadTailReads_map _ _ _ h
       exact ⟨by norm_num, by omega⟩)

theorem avx2_reads2x1_within (K : Nat) :
    ∀ e ∈ Avx2.SynetInnerProduct8i2x1Reads K, e.Within 2 1 K := by
  have hKA : AlignLo K Avx2.A ≤ K := Nat.div_mul_le_self K Avx2.A
  unfold Avx2.SynetInnerProduct8i2x1Reads
  simp only [List.append_assoc]
  refine tileReads_within K _ _ _ ?_ ?_
  · intro k hk e he
    simp only [List.mem_append] at he
    rcases he with h | h | h <;>
      (obtain ⟨x, h1, h2, rfl⟩ := mem_loadu_si256Reads_map _ _ _ h
       exact ⟨by norm_num, by omega⟩)
  · intro hlt e he
    simp only [List.mem_append] at he
    rcases he with h | h | h <;>
      (obtain ⟨x, h1, rfl⟩ := mem_LoadTailReads_map _ _ _ h
       exact ⟨by norm_num, by omega⟩)

theorem avx2_reads2x4_within (K : Nat) :
    ∀ e ∈ Avx2.SynetInnerProduct8i2x4Reads K, e.Within 2 4 K := by
  have hKA : AlignLo K Avx2.A ≤ K := Nat.div_mul_le_self K Avx2.A
  unfold Avx2.SynetInnerProduct8i2x4Reads
  simp only [List.append_assoc]
  refine tileReads_within K _ _ _ ?_ ?_
  · intro k hk e he
    simp only [List.mem_append] at he
    rcases he with h | h | h | h | h | h <;>
      (obtain ⟨x, h1, h2, rfl⟩ := mem_loadu_si256Reads_map _ _ _ h
       exact ⟨by norm_num, by omega⟩)
  · intro hlt e he
    simp only [List.mem_append] at he
    rcases he with h | h | h | h | h | h <;>
      (obtain ⟨x, h1, rfl⟩ := mem_LoadTailReads_map _ _ _ h
       exact ⟨by norm_num, by omega⟩)

/-- A 32-bit lane of `Madd4` all of whose four bytes are padding receives `0`. -/
theorem Madd4_padded_lane (ov : Bool) (d s w : Nat → Int) (tail n : Nat) (hn : n < 8)
    (ht : tail ≤ 4 * n) :
    Madd4 ov d (Avx2.LoadTail s tail) (Avx2.LoadTail w tail) n = wrap32 (d n + 0) := by
  unfold Madd4
  rw [if_pos hn]
  have z : ∀ b, 4 * n ≤ b → Avx2.LoadTail s tail b = 0 := by
    intro b hb
    rw [avx2_LoadTail_lane, if_neg (by omega)]
  rw [z (4 * n) (le_refl _), z (4 * n + 1) (by omega), z (4 * n + 2) (by omega),
    z (4 * n + 3) (by omega)]
  cases ov <;> simp [sat16]


/-- C22: quantized tail handling by zero padding. For every `tail` in `[0, 32)`,
`LoadTail(ptr, tail)` reads exactly the bytes `ptr[0 .. tail)` and returns the 32-byte
register whose byte `i` is `ptr[i]` for `i < tail` and `0` for `tail ≤ i < 32`; for every `K`
each of the four tile kernels reads its activation and weight rows only at offsets in
`[0, K)`; and the padding adds `0` to every accumulator: the product of two padded bytes is
`0`, and a 32-bit lane made of padding only receives `d + 0`. -/
theorem C22_zero_padding (ptr : Nat → Int) (tail : Nat) (_ht : tail < 32) (K : Nat) :
    Avx2.LoadTailReads tail = List.range tail ∧
      (∀ i, i < 32 → Avx2.LoadTail ptr tail i = if i < tail then ptr i else 0) ∧
      (∀ e ∈ Avx2.SynetInnerProduct8i1x1Reads K, e.Within 1 1 K) ∧
      (∀ e ∈ Avx2.SynetInnerProduct8i1x4Reads K, e.Within 1 4 K) ∧
      (∀ e ∈ Avx2.SynetInnerProduct8i2x1Reads K, e.Within 2 1 K) ∧
      (∀ e ∈ Avx2.SynetInnerProduct8i2x4Reads K, e.Within 2 4 K) ∧
      (∀ (w : Nat → Int) (b : Nat), tail ≤ b →
        Avx2.LoadTail ptr tail b * Avx2.LoadTail w tail b = 0) ∧
      ∀ (ov : Bool) (d w : Nat → Int) (n : Nat), n < 8 → tail ≤ 4 * n →
        Madd4 ov d (Avx2.LoadTail ptr tail) (Avx2.LoadTail w tail) n = wrap32 (d n + 0) := by
  refine ⟨avx2_LoadTailReads_eq tail, ?_, avx2_reads1x1_within K, avx2_reads1x4_within K,
    avx2_reads2x1_within K, avx2_reads2x4_within K, ?_, ?_⟩
  · intro i hi
    rw [avx2_LoadTail_lane]
    by_cases c : i < tail
    · rw [if_pos ⟨hi, c⟩, if_pos c]
    · rw [if_neg (fun h => c h.2), if_neg c]
  · intro w b hb
    rw [avx2_LoadTail_lane, if_neg (by omega), zero_mul]
  · intro ov d w n hn h
    exact Madd4_padded_lane ov d ptr w tail n hn h

/-- C22 at `tail = 5`, `K = 70` on the sample activation bytes. -/
theorem C22_zero_padding_witness :
    5 < 32 ∧
      (Avx2.LoadTailReads 5 = List.range 5 ∧
        (∀ i, i < 32 → Avx2.LoadTail rampS 5 i = if i < 5 then rampS i else 0) ∧
        (∀ e ∈ Avx2.SynetInnerProduct8i1x1Reads 70, e.Within 1 1 70) ∧
        (∀ e ∈ Avx2.SynetInnerProduct8i1x4Reads 70, e.Within 1 4 70) ∧
        (∀ e ∈ Avx2.SynetInnerProduct8i2x1Reads 70, e.Within 2 1 70) ∧
        (∀ e ∈ Avx2.SynetInnerProduct8i2x4Reads 70, e.Within 2 4 70) ∧
        (∀ (w : Nat → Int) (b : Nat), 5 ≤ b →
          Avx2.LoadTail rampS 5 b * Avx2.LoadTail w 5 b = 0) ∧
        ∀ (ov : Bool) (d w : Nat → Int) (n : Nat), n < 8 → 5 ≤ 4 * n →
          Madd4 ov d (Avx2.LoadTail rampS 5) (Avx2.LoadTail w 5) n = wrap32 (d n + 0)) :=
  ⟨by norm_num, C22_zero_padding rampS 5 (by norm_num) 70⟩

/-! ## Float dense projection: the elements read -/

theorem mem_loadu_psReads (p : Nat → DenseRead) (off : Nat) (e : DenseRead)
    (he : e ∈ loadu_psReads p off) : ∃ x, off ≤ x ∧ x < off + 8 ∧ e = p x := by
  obtain ⟨x, hx, rfl⟩ := List.mem_map.mp he
  exact ⟨x, (List.mem_range'_1.mp hx).1, (List.mem_range'_1.mp hx).2, rfl⟩

/-- The shape shared by the read traces of the two row kernels: an unrolled loop of stride
`step` (16 or 32), a loop of stride 8 that continues its counter, the masked tail, and the
reads of `B`. -/
theorem denseReads_all (K step : Nat) (hstep : 0 < step) (h8 : 8 ∣ step)
    (P : DenseRead → Prop) (blkU blk8 : Nat → List DenseRead) (tl fin : List DenseRead)
    (hU : ∀ k, k + step ≤ K / step * step → ∀ e ∈ blkU k, P e)
    (hV : ∀ k, k + 8 ≤ K / 8 * 8 → ∀ e ∈ blk8 k, P e)
    (htl : K / 8 * 8 < K → ∀ e ∈ tl, P e) (hfin : ∀ e ∈ fin, P e)
    (R : Nat × List DenseRead)
    (hR : R = if K / step * step ≠ 0 then
        forLoop step (K / step * step) (fun k (reads : List DenseRead) => reads ++ blkU k)
          (K / step * step) 0 []
      else (0, [])) :
    ∀ e ∈ (if K / 8 * 8 < K then
        (forLoop 8 (K / 8 * 8) (fun k (reads : List DenseRead) => reads ++ blk8 k)
          (K / 8 * 8) R.1 R.2).2 ++ tl
      else (forLoop 8 (K / 8 * 8) (fun k (reads : List DenseRead) => reads ++ blk8 k)
          (K / 8 * 8) R.1 R.2).2) ++ fin, P e := by
  have hKs : K / step * step ≤ K := Nat.div_mul_le_self K step
  have hK8 : K / 8 * 8 ≤ K := Nat.div_mul_le_self K 8
  have hdvd : 8 ∣ K / step * step := Dvd.dvd.mul_left h8 _
  have hle : K / step * step ≤ K / 8 * 8 := by
    obtain ⟨m, hm⟩ := hdvd
    have : m ≤ K / 8 := by
      rw [Nat.le_div_iff_mul_le (by norm_num)]
      omega
    omega
  have hR1 : R.1 = K / step * step ∧ ∀ e ∈ R.2, P e := by
    rw [hR]
    by_cases c : K / step * step ≠ 0
    · rw [if_pos c]
      exact forLoop_stride step (K / step * step) _
        (fun _ (reads : List DenseRead) => ∀ e ∈ reads, P e) hstep 0 []
        (by simp) (Nat.zero_le _) (Dvd.intro_left (K / step) rfl)
        (fun j reads _ hj h e he => by
          rcases List.mem_append.mp he with h1 | h1
          · exact h e h1
          · exact hU j hj e h1) (K / step * step) (by omega)
    · rw [if_neg c]
      refine ⟨?_, by simp⟩
      show 0 = K / step * step
      omega
  have hloop : ∀ e ∈ (forLoop 8 (K / 8 * 8)
      (fun k (reads : List DenseRead) => reads ++ blk8 k) (K / 8 * 8) R.1 R.2).2, P e := by
    rw [hR1.1]
    refine (forLoop_stride 8 (K / 8 * 8) _
      (fun _ (reads : List DenseRead) => ∀ e ∈ reads, P e) (by norm_num) (K / step * step)
      R.2 hR1.2 hle ?_ ?_ (K / 8 * 8) (by omega)).2
    · exact (Nat.dvd_sub' (Dvd.intro_left (K / 8) rfl) hdvd)
    · intro j reads _ hj h e he
      rcases List.mem_append.mp he with h1 | h1
      · exact h e h1
      · exact hV j hj e h1
  intro e he
  rcases List.mem_append.mp he with h1 | h1
  · by_cases c : K / 8 * 8 < K
    · rw [if_pos c] at h1
      rcases List.mem_append.mp h1 with h2 | h2
      · exact hloop e h2
      · exact htl c e h2
    · rw [if_neg c] at h1
      exact hloop e h1
  · exact hfin e h1

theorem avx2_forward1Reads_all (P : DenseRead → Prop) (S0 : Nat → DenseRead)
    (W : Nat → Nat → DenseRead) (B : Nat → DenseRead) (K : Nat) (hK : 8 ≤ K)
    (hS : ∀ x, x < K → P (S0 x)) (hW : ∀ r x, r < 1 → x < K → P (W r (r * K + x)))
    (hB : ∀ x, x < 1 → P (B x)) (hM : ∀ x, x < 16 → P (DenseRead.mask x)) :
    ∀ e ∈ Avx2.SynetInnerProductLayerForward1Reads S0 W B K, P e := by
  have hK32 : K / 32 * 32 ≤ K := Nat.div_mul_le_self K 32
  have hK8 : K / 8 * 8 ≤ K := Nat.div_mul_le_self K 8
  have hsub : subSizeT K 8 = K - 8 := by
    unfold subSizeT
    rw [if_pos hK]
  unfold Avx2.SynetInnerProductLayerForward1Reads
  simp only [Avx2.F, List.append_assoc, hsub]
  refine denseReads_all K 32 (by norm_num) ⟨4, rfl⟩ P _ _ _ _ ?_ ?_ ?_ ?_ _ rfl
  · intro k hk e he
    simp only [List.mem_append] at he
    rcases he with h | h | h | h | h | h | h | h <;>
      (obtain ⟨x, h1, h2, rfl⟩ := mem_loadu_psReads _ _ _ h
       first
         | exact hS x (by omega)
         | exact hW 0 x (by norm_num) (by omega))
  · intro k hk e he
    simp only [List.mem_append] at he
    rcases he with h | h <;>
      (obtain ⟨x, h1, h2, rfl⟩ := mem_loadu_psReads _ _ _ h
       first
         | exact hS x (by omega)
         | exact hW 0 x (by norm_num) (by omega))
  · intro hlt e he
    unfold Avx2.TailReads at he
    simp only [List.mem_append] at he
    rcases he with h | h | h <;>
      (obtain ⟨x, h1, h2, rfl⟩ := mem_loadu_psReads _ _ _ h
       first
         | exact hM x (by omega)
         | exact hS x (by omega)
         | exact hW 0 x (by norm_num) (by omega))
  · intro e he
    rw [List.mem_singleton] at he
    subst he
    exact hB 0 (by norm_num)

theorem avx2_forward4Reads_all (P : DenseRead → Prop) (S0 : Nat → DenseRead)
    (W : Nat → Nat → DenseRead) (B : Nat → DenseRead) (K : Nat) (hK : 8 ≤ K)
    (hS : ∀ x, x < K → P (S0 x)) (hW : ∀ r x, r < 4 → x < K → P (W r (r * K + x)))
    (hB : ∀ x, x < 4 → P (B x)) (hM : ∀ x, x < 16 → P (DenseRead.mask x)) :
    ∀ e ∈ Avx2.SynetInnerProductLayerForward4Reads S0 W B K, P e := by
  have hK16 : K / 16 * 16 ≤ K := Nat.div_mul_le_self K 16
  have hK8 : K / 8 * 8 ≤ K := Nat.div_mul_le_self K 8
  have hsub : subSizeT K 8 = K - 8 := by
    unfold subSizeT
    rw [if_pos hK]
  unfold Avx2.SynetInnerProductLayerForward4Reads
  simp only [Avx2.F, List.append_assoc, hsub]
  refine denseReads_all K 16 (by norm_num) ⟨2, rfl⟩ P _ _ _ _ ?_ ?_ ?_ ?_ _ rfl
  · intro k hk e he
    simp only [List.mem_append] at he
    rcases he with h | h | h | h | h | h | h | h | h | h <;>
      (obtain ⟨x, h1, h2, rfl⟩ := mem_loadu_psReads _ _ _ h
       first
         | exact hS x (by omega)
         | exact hW 0 x (by norm_num) (by omega)
         | exact hW 1 x (by norm_num) (by omega)
         | exact hW 2 x (by norm_num) (by omega)
         | exact hW 3 x (by norm_num) (by omega))
  · intro k hk e he
    simp only [List.mem_append] at he
    rcases he with h | h | h | h | h <;>
      (obtain ⟨x, h1, h2, rfl⟩ := mem_loadu_psReads _ _ _ h
       first
         | exact hS x (by omega)
         | exact hW 0 x (by norm_num) (by omega)
         | exact hW 1 x (by norm_num) (by omega)
         | exact hW 2 x (by norm_num) (by omega)
         | exact hW 3 x (by norm_num) (by omega))
  · intro hlt e he
    unfold Avx2.TailReads at he
    simp only [List.mem_append] at he
    rcases he with h | h | h | h | h | h <;>
      (obtain ⟨x, h1, h2, rfl⟩ := mem_loadu_psReads _ _ _ h
       first
         | exact hM x (by omega)
         | exact hS x (by omega)
         | exact hW 0 x (by norm_num) (by omega)
         | exact hW 1 x (by norm_num) (by omega)
         | exact hW 2 x (by norm_num) (by omega)
         | exact hW 3 x (by norm_num) (by omega))
  · intro e he
    obtain ⟨x, hx, rfl⟩ := List.mem_map.mp he
    exact hB x (by have := (List.mem_range'_1.mp hx).2; omega)

/-- The reads of rows `i, ..., i + rows - 1` handed to a row kernel are in range. -/
theorem dense_row_inRange (hasBias : Bool) (count size i rows : Nat) (hi : i + rows ≤ count)
    (hrows : rows ≤ 4) :
    (∀ x, x < size → (DenseRead.src x).InRange hasBias count size) ∧
      (∀ r x, r < rows → x < size →
        (DenseRead.weight (i + r) (i * size + (r * size + x))).InRange hasBias count size) ∧
      (∀ x, x < rows →
        ((if hasBias then fun x => DenseRead.bias (i + x) else DenseRead.localBias) x).InRange
          hasBias count size) ∧
      ∀ x, x < 16 → (DenseRead.mask x).InRange hasBias count size := by
  refine ⟨fun x hx => hx, ?_, ?_, fun x hx => hx⟩
  · intro r x hr hx
    have e1 : (i + r) * size = i * size + r * size := by ring
    have e2 : (i + r + 1) * size = i * size + r * size + size := by ring
    refine ⟨by omega, ?_, ?_⟩
    · rw [e1]
      omega
    · rw [e2]
      omega
  · intro x hx
    cases hasBias
    · exact ⟨rfl, by show x < 4; omega⟩
    · exact ⟨rfl, by show i + x < count; omega⟩


/-- C21: the AVX2 float dense projection never touches out-of-range memory. For every
`count` and every `size ≥ 8`, every element it reads is in range: every read of `src` is at
an index in `[0, size)`, every read of `weight` for output row `i` is at an index in
`[i * size, (i + 1) * size)` with `i < count`, `bias` is read only when present and only at
indices in `[0, count)` (the local `_bias` only inside its 4 entries), and the tail mask
table only inside its 16 entries. -/
theorem C21_dense_reads_in_range (sse41 : List DenseRead) (hasBias : Bool) (count size : Nat)
    (hs : 8 ≤ size) (e : DenseRead)
    (he : e ∈ Avx2.SynetInnerProductLayerForwardReads sse41 hasBias count size) :
    e.InRange hasBias count size := by
  revert e
  unfold Avx2.SynetInnerProductLayerForwardReads
  rw [if_neg (show ¬ size < Avx2.F from Nat.not_lt.mpr hs)]
  simp only []
  refine forLoop_then_one 4 (AlignLo count 4) count _ _
    (fun _ (reads : List DenseRead) => ∀ e ∈ reads, e.InRange hasBias count size)
    (by norm_num) [] (by simp) (Dvd.intro_left _ rfl) (Nat.div_mul_le_self count 4) ?_ ?_
  · intro i reads hi h e he
    rcases List.mem_append.mp he with h1 | h1
    · exact h e h1
    · obtain ⟨q1, q2, q3, q4⟩ := dense_row_inRange hasBias count size i 4
        (by have := Nat.div_mul_le_self count 4; unfold AlignLo at hi; omega) (le_refl _)
      exact avx2_forward4Reads_all _ _ _ _ size hs q1 q2 q3 q4 e h1
  · intro i reads hi1 hi2 h e he
    rcases List.mem_append.mp he with h1 | h1
    · exact h e h1
    · obtain ⟨q1, q2, q3, q4⟩ := dense_row_inRange hasBias count size i 1 (by omega)
        (by norm_num)
      exact avx2_forward1Reads_all _ _ _ _ size hs q1 q2 q3 q4 e h1

/-- C21 at `count = 5`, `size = 9` with a bias: the last weight element of row 4, read by
the masked tail load of the single-row kernel. -/
theorem C21_dense_reads_in_range_witness :
    8 ≤ 9 ∧ DenseRead.weight 4 44 ∈ Avx2.SynetInnerProductLayerForwardReads [] true 5 9 ∧
      (DenseRead.weight 4 44).InRange true 5 9 :=
  ⟨by norm_num, by decide,
    C21_dense_reads_in_range [] true 5 9 (by norm_num) (DenseRead.weight 4 44) (by decide)⟩

/-! ## Entry points: assertions and dispatch -/

/-- C23: the multi-input combine rejects `count < 2`. For every operator tag the SSE4.1
entry point, and for the weighted-sum tag the AVX2 entry point, stops at the assertion
`count >= 2` with `dst` as it was on entry (no element stored), whatever the inputs, the
weights and the addresses are; the call has no return value that could report the
violation. -/
theorem C23_count_below_two {α : Type} [LinearOrderedCommRing α]
    (avx : (Nat → Nat → α) → (Nat → α) → Nat → Nat → CEnum SimdSynetEltwiseOperationType →
      Buf α → Run (Buf α))
    (pSrc : Nat → Nat) (pDst : Nat) (src : Nat → Nat → α) (weight : Nat → α)
    (count size : Nat) (type : CEnum SimdSynetEltwiseOperationType) (dst : Buf α)
    (hc : count < 2) :
    Sse41.SynetEltwiseLayerForwardEntry pSrc pDst src weight count size type dst =
        Run.assertFailed dst ∧
      Avx2.SynetEltwiseLayerForwardEntry avx pSrc pDst src weight count size
          (CEnum.enumerator SimdSynetEltwiseOperationType.Sum) dst =
        Run.assertFailed dst := by
  refine ⟨?_, ?_⟩
  · unfold Sse41.SynetEltwiseLayerForwardEntry
    rw [if_pos (by omega)]
  · unfold Avx2.SynetEltwiseLayerForwardEntry
    rw [if_neg (fun h => h rfl), if_pos (by omega)]

/-- C23 at `count = 1` with the maximum tag on the sample inputs. -/
theorem C23_count_below_two_witness :
    1 < 2 ∧
      (Sse41.SynetEltwiseLayerForwardEntry sampleSrcAddr 0 rampSrc rampWeight 1 11
            (CEnum.enumerator SimdSynetEltwiseOperationType.Max) (Buf.ofFn (fun _ => (0 : ℚ))) =
          Run.assertFailed (Buf.ofFn (fun _ => (0 : ℚ))) ∧
        Avx2.SynetEltwiseLayerForwardEntry sampleAvxEltwise sampleSrcAddr 0 rampSrc rampWeight 1
            11 (CEnum.enumerator SimdSynetEltwiseOperationType.Sum)
            (Buf.ofFn (fun _ => (0 : ℚ))) =
          Run.assertFailed (Buf.ofFn (fun _ => (0 : ℚ)))) :=
  ⟨by norm_num, C23_count_below_two sampleAvxEltwise sampleSrcAddr 0 rampSrc rampWeight 1 11
    (CEnum.enumerator SimdSynetEltwiseOperationType.Max) (Buf.ofFn (fun _ => (0 : ℚ)))
    (by norm_num)⟩

/-- C24: the unary transform with an unrecognized tag is a fatal contract violation in both
tiers. For every value of the tag other than the eight enumerators the entry point stops at
`assert(0)` with `dst` as it was on entry (no element stored); for each of the eight
enumerators it returns the result of the specialization of that very tag (with the alignment
flag of the call) and does not reach the assertion. -/
theorem C24_unary_dispatch {α : Type} [LinearOrderedCommRing α] (V B : UnaryFns α)
    (pSrc pDst : Nat) (src : Nat → α) (size : Nat) (dst : Buf α) :
    (∀ v : Int,
      Sse41.SynetUnaryOperation32fLayerForwardEntry V B pSrc pDst src size (CEnum.other v)
          dst = Run.assertFailed dst ∧
        Avx2.SynetUnaryOperation32fLayerForwardEntry V B pSrc pDst src size (CEnum.other v)
          dst = Run.assertFailed dst) ∧
      ∀ t : SimdSynetUnaryOperation32fType,
        Sse41.SynetUnaryOperation32fLayerForwardEntry V B pSrc pDst src size
            (CEnum.enumerator t) dst =
          Run.done (Sse41.SynetUnaryOperation32fLayerForward V B t
            (Aligned pSrc Sse41.A && Aligned pDst Sse41.A) src size dst) ∧
        Avx2.SynetUnaryOperation32fLayerForwardEntry V B pSrc pDst src size
            (CEnum.enumerator t) dst =
          Run.done (Avx2.SynetUnaryOperation32fLayerForward V B t
            (Aligned pSrc Avx2.A && Aligned pDst Avx2.A) src size dst) := by
  refine ⟨fun v => ⟨?_, ?_⟩, fun t => ⟨?_, ?_⟩⟩
  · unfold Sse41.SynetUnaryOperation32fLayerForwardEntry
    cases (Aligned pSrc Sse41.A && Aligned pDst Sse41.A) <;> rfl
  · unfold Avx2.SynetUnaryOperation32fLayerForwardEntry
    cases (Aligned pSrc Avx2.A && Aligned pDst Avx2.A) <;> rfl
  · unfold Sse41.SynetUnaryOperation32fLayerForwardEntry
    cases (Aligned pSrc Sse41.A && Aligned pDst Sse41.A) <;> cases t <;> rfl
  · unfold Avx2.SynetUnaryOperation32fLayerForwardEntry
    cases (Aligned pSrc Avx2.A && Aligned pDst Avx2.A) <;> cases t <;> rfl

/-- C26: dispatch of the interleaved cross-channel normalization. With the interleaved
format tag, each tier runs its radius-2 specialization if and only if `half = 2` and
`channels ≥ F + half` (`F = 4` for SSE4.1, `F = 8` for AVX2); for every other
`(half, channels)` the AVX2 entry point is the call of the SSE4.1 entry point on the
unchanged arguments, and the SSE4.1 entry point is the call of the scalar `Base`
implementation on the unchanged arguments; a format tag that is neither planar nor
interleaved stops at `assert(0)` with `dst` as it was. -/
theorem C26_lrn_dispatch {α : Type} [CommRing α]
    (base : (Int → α) → Nat → Nat → Nat → (Nat → α) → Buf α → CEnum SimdTensorFormatType →
      Run (Buf α))
    (powSse pow : α → α → α) (pSrc pDst : Nat) (src : Int → α) (half channels spatial : Nat)
    (k : Nat → α) (dst : Buf α) :
    Sse41.SynetLrnLayerCrossChannels base powSse pSrc pDst src half channels spatial k dst
        (CEnum.enumerator SimdTensorFormatType.Nhwc) =
      (if half = 2 ∧ 4 + half ≤ channels then
        Run.done (Sse41.SynetLrnLayerCrossChannelsNhwc2h powSse
          (Aligned pSrc Sse41.A && Aligned pDst Sse41.A && Aligned channels Sse41.F) src half
          channels spatial k dst)
      else base src half channels spatial k dst
        (CEnum.enumerator SimdTensorFormatType.Nhwc)) ∧
    Avx2.SynetLrnLayerCrossChannels base powSse pow pSrc pDst src half channels spatial k dst
        (CEnum.enumerator SimdTensorFormatType.Nhwc) =
      (if half = 2 ∧ 8 + half ≤ channels then
        Run.done (Avx2.SynetLrnLayerCrossChannelsNhwc2h pow
          (Aligned pSrc Avx2.A && Aligned pDst Avx2.A && Aligned channels Avx2.F) src half
          channels spatial k dst)
      else Sse41.SynetLrnLayerCrossChannels base powSse pSrc pDst src half channels spatial k
        dst (CEnum.enumerator SimdTensorFormatType.Nhwc)) ∧
    ∀ v : Int,
      Sse41.SynetLrnLayerCrossChannels base powSse pSrc pDst src half channels spatial k dst
          (CEnum.other v) = Run.assertFailed dst ∧
        Avx2.SynetLrnLayerCrossChannels base powSse pow pSrc pDst src half channels spatial k
          dst (CEnum.other v) = Run.assertFailed dst := by
  refine ⟨?_, ?_, fun v => ⟨?_, ?_⟩⟩
  · unfold Sse41.SynetLrnLayerCrossChannels Sse41.SynetLrnLayerCrossChannelsNhwc
    rw [if_neg (by decide), if_pos rfl]
    by_cases c : half = 2 ∧ 4 + half ≤ channels
    · rw [if_pos c, if_pos (show half = 2 ∧ channels ≥ Sse41.F + half from c)]
      cases (Aligned pSrc Sse41.A && Aligned pDst Sse41.A && Aligned channels Sse41.F) <;> rfl
    · rw [if_neg c, if_neg (show ¬ (half = 2 ∧ channels ≥ Sse41.F + half) from c)]
  · unfold Avx2.SynetLrnLayerCrossChannels Avx2.SynetLrnLayerCrossChannelsNhwc
    rw [if_neg (by decide), if_pos rfl]
    by_cases c : half = 2 ∧ 8 + half ≤ channels
    · rw [if_pos c, if_pos (show half = 2 ∧ channels ≥ Avx2.F + half from c)]
      cases (Aligned pSrc Avx2.A && Aligned pDst Avx2.A && Aligned channels Avx2.F) <;> rfl
    · rw [if_neg c, if_neg (show ¬ (half = 2 ∧ channels ≥ Avx2.F + half) from c)]
  · unfold Sse41.SynetLrnLayerCrossChannels
    rw [if_neg (by simp), if_neg (by simp)]
  · unfold Avx2.SynetLrnLayerCrossChannels
    rw [if_neg (by simp), if_neg (by simp)]

/-! ## Channel shuffle against the reference functions -/

/-- C34: the split direction as a reference function. For the interleaved layout,
`type = 0`, every `spatial` and every even `channels0` and `channels1`, with `cat(s)` the
concatenation of sample `s` of `src0` and sample `s` of `src1`, the kernel returns and leaves
`dst0[s][i] = cat(s)[2i]` and `dst1[s][i] = cat(s)[2i + 1]` for every `s < spatial` and
`i < (channels0 + channels1) / 2`, whatever part of the channels the vector chunks and the
scalar loop handle. -/
theorem C34_split_reference {α : Type} (src0 src1 : Nat → α)
    (channels0 channels1 spatial : Nat) (h0 : 2 ∣ channels0) (h1 : 2 ∣ channels1)
    (dst0 dst1 : Buf α) (s i : Nat) (hs : s < spatial)
    (hi : i < (channels0 + channels1) / 2) :
    ∃ out,
      Sse41.SynetShuffleLayerForward src0 src1 channels0 channels1 spatial dst0 dst1 0 =
        some out ∧
      out.1.data (s * ((channels0 + channels1) / 2) + i) =
        catSample src0 src1 channels0 channels1 s (2 * i) ∧
      out.2.1.data (s * ((channels0 + channels1) / 2) + i) =
        catSample src0 src1 channels0 channels1 s (2 * i + 1) := by
  obtain ⟨s1, s2, -⟩ := shuffle0_spec src0 src1 channels0 channels1 spatial h0 h1 dst0 dst1
  obtain ⟨k0, hk0⟩ := h0
  refine ⟨_, rfl, ?_, ?_⟩
  · rw [s1 s i hs hi]
    unfold catSample
    by_cases c : i < channels0 / 2
    · rw [if_pos c, if_pos (by omega)]
    · rw [if_neg c, if_neg (by omega)]
      exact congrArg src1 (by omega)
  · rw [s2 s i hs hi]
    unfold catSample
    by_cases c : i < channels0 / 2
    · rw [if_pos c, if_pos (by omega)]
      exact congrArg src0 (by omega)
    · rw [if_neg c, if_neg (by omega)]
      exact congrArg src1 (by omega)

/-- C34 at `channels0 = 10` (one vector chunk of eight and a scalar pair), `channels1 = 2`,
two samples: sample 1, channel 5. -/
theorem C34_split_reference_witness :
    2 ∣ 10 ∧ 2 ∣ 2 ∧ 1 < 2 ∧ 5 < (10 + 2) / 2 ∧
      ∃ out,
        Sse41.SynetShuffleLayerForward shufX0 shufX1 10 2 2 zeroBufN zeroBufN 0 = some out ∧
        out.1.data (1 * ((10 + 2) / 2) + 5) = catSample shufX0 shufX1 10 2 1 (2 * 5) ∧
        out.2.1.data (1 * ((10 + 2) / 2) + 5) = catSample shufX0 shufX1 10 2 1 (2 * 5 + 1) :=
  ⟨by decide, by decide, by decide, by decide,
    C34_split_reference shufX0 shufX1 10 2 2 (by decide) (by decide) zeroBufN zeroBufN 1 5
      (by decide) (by decide)⟩

/-- C35: the join direction as a reference function. For the interleaved layout,
`type = 1`, every `spatial` and every even `channels0` and `channels1`, with `out(s)` the
concatenation of sample `s` of `dst0` (`channels0` values) and sample `s` of `dst1`
(`channels1` values), the kernel returns and leaves `out(s)[2i] = src0[s][i]` and
`out(s)[2i + 1] = src1[s][i]` for every `s < spatial` and
`i < (channels0 + channels1) / 2`, whatever part of the channels the vector chunks and the
scalar loop handle. -/
theorem C35_join_reference {α : Type} (src0 src1 : Nat → α)
    (channels0 channels1 spatial : Nat) (h0 : 2 ∣ channels0) (h1 : 2 ∣ channels1)
    (dst0 dst1 : Buf α) (s i : Nat) (hs : s < spatial)
    (hi : i < (channels0 + channels1) / 2) :
    ∃ out,
      Sse41.SynetShuffleLayerForward src0 src1 channels0 channels1 spatial dst0 dst1 1 =
        some out ∧
      catSample out.1.data out.2.1.data channels0 channels1 s (2 * i) =
        src0 (s * ((channels0 + channels1) / 2) + i) ∧
      catSample out.1.data out.2.1.data channels0 channels1 s (2 * i + 1) =
        src1 (s * ((channels0 + channels1) / 2) + i) := by
  obtain ⟨j1, j2, -⟩ := shuffle1_spec src0 src1 channels0 channels1 spatial h0 h1 dst0 dst1
  obtain ⟨k0, hk0⟩ := h0
  obtain ⟨k1, hk1⟩ := h1
  refine ⟨_, rfl, ?_, ?_⟩
  · unfold catSample
    by_cases c : 2 * i < channels0
    · rw [if_pos c, j1 s (2 * i) hs c, if_pos (by omega)]
      exact congrArg src0 (by omega)
    · rw [if_neg c, j2 s (2 * i - channels0) hs (by omega), if_pos (by omega)]
      exact congrArg src0 (by omega)
  · unfold catSample
    by_cases c : 2 * i + 1 < channels0
    · rw [if_pos c, j1 s (2 * i + 1) hs c, if_neg (by omega)]
      exact congrArg src1 (by omega)
    · rw [if_neg c, j2 s (2 * i + 1 - channels0) hs (by omega), if_neg (by omega)]
      exact congrArg src1 (by omega)

/-- C35 at `channels0 = 10`, `channels1 = 2`, two samples: sample 1, channel 5. -/
theorem C35_join_reference_witness :
    2 ∣ 10 ∧ 2 ∣ 2 ∧ 1 < 2 ∧ 5 < (10 + 2) / 2 ∧
      ∃ out,
        Sse41.SynetShuffleLayerForward shufX0 shufX1 10 2 2 zeroBufN zeroBufN 1 = some out ∧
        catSample out.1.data out.2.1.data 10 2 1 (2 * 5) = shufX0 (1 * ((10 + 2) / 2) + 5) ∧
        catSample out.1.data out.2.1.data 10 2 1 (2 * 5 + 1) =
          shufX1 (1 * ((10 + 2) / 2) + 5) :=
  ⟨by decide, by decide, by decide, by decide,
    C35_join_reference shufX0 shufX1 10 2 2 (by decide) (by decide) zeroBufN zeroBufN 1 5
      (by decide) (by decide)⟩

/-! ## Quantized dense projection: the precise policy under wrap-around -/

/-- The exact dot product of `K` byte products is at most `K * 255 * 128` in absolute
value. -/
theorem dotExact_bound (K : Nat) (S W : Nat → Int) (i j : Nat)
    (hS : ∀ x, 0 ≤ S x ∧ S x ≤ 255) (hW : ∀ x, -128 ≤ W x ∧ W x ≤ 127) :
    |dotExact K S W i j| ≤ (K : Int) * 255 * 128 := by
  unfold dotExact
  refine (Finset.abs_sum_le_sum_abs _ _).trans ?_
  have hterm : ∀ k ∈ Finset.range K, |S (i * K + k) * W (j * K + k)| ≤ 255 * 128 := by
    intro k _
    rw [abs_mul]
    have a1 : |S (i * K + k)| ≤ 255 := abs_le.mpr ⟨by linarith [(hS (i * K + k)).1],
      (hS (i * K + k)).2⟩
    have a2 : |W (j * K + k)| ≤ 128 := abs_le.mpr ⟨by linarith [(hW (j * K + k)).1],
      by linarith [(hW (j * K + k)).2]⟩
    exact mul_le_mul a1 a2 (abs_nonneg _) (by norm_num)
  refine (Finset.sum_le_sum hterm).trans ?_
  rw [Finset.sum_const, Finset.card_range, nsmul_eq_mul]
  linarith

/-- C37: the precise quantized projection under 32-bit wrap-around. For all `M`, `N`, `K`
and all byte inputs (activations in `[0, 255]`, weights in `[-128, 127]`), the stored
`dst[i*N + j]` is congruent modulo `2^32` to the integer dot product
`Σ_k S[i,k] * W[j,k]`, and it equals that dot product whenever `K * 255 * 128 < 2^31`. -/
theorem C37_precise_wraparound (M N K : Nat) (S W : Nat → Int) (dst : Buf Int) (i j : Nat)
    (hi : i < M) (hj : j < N) (hS : ∀ x, 0 ≤ S x ∧ S x ≤ 255)
    (hW : ∀ x, -128 ≤ W x ∧ W x ≤ 127) :
    (((Avx2.SynetInnerProduct8i M N K S W dst true).data (i * N + j) : Int) :
        ZMod (2 ^ 32)) = ((dotExact K S W i j : Int) : ZMod (2 ^ 32)) ∧
      (K * 255 * 128 < 2 ^ 31 →
        (Avx2.SynetInnerProduct8i M N K S W dst true).data (i * N + j) =
          dotExact K S W i j) := by
  have h : (Avx2.SynetInnerProduct8i M N K S W dst true).data (i * N + j) =
      wrap32 (dotExact K S W i j) := avx2_precise_cell M N K S W dst i j hi hj
  refine ⟨by rw [h, wrap32_cast], fun hK => ?_⟩
  have hb := abs_le.mp (dotExact_bound K S W i j hS hW)
  have hK2 : (K : Int) * 255 * 128 < 2 ^ 31 := by exact_mod_cast hK
  rw [h, wrap32_of_range _ (by linarith [hb.1]) (by linarith [hb.2])]

/-- C37 at a 3 x 5 output with `K = 33`, cell `(2, 4)`, on the sample bytes. -/
theorem C37_precise_wraparound_witness :
    2 < 3 ∧ 4 < 5 ∧ (∀ x, 0 ≤ rampS x ∧ rampS x ≤ 255) ∧
      (∀ x, -128 ≤ rampW x ∧ rampW x ≤ 127) ∧ 33 * 255 * 128 < 2 ^ 31 ∧
      (Avx2.SynetInnerProduct8i 3 5 33 rampS rampW zeroBufQ true).data (2 * 5 + 4) =
        dotExact 33 rampS rampW 2 4 :=
  ⟨by norm_num, by norm_num, fun x => by unfold rampS; omega, fun x => by unfold rampW; omega,
    by norm_num,
    (C37_precise_wraparound 3 5 33 rampS rampW zeroBufQ 2 4 (by norm_num) (by norm_num)
      (fun x => by unfold rampS; omega) (fun x => by unfold rampW; omega)).2 (by norm_num)⟩

/-! ## The two mask tables -/

/-- C38: the AVX2 tail mask. For every `tail` in `[0, 8]`, `Tail(tail)` reads the entries
`[tail, tail + 8)` of the 16-entry table and returns the register whose lanes
`[8 - tail, 8)` are all-ones and whose lanes `[0, 8 - tail)` are zero; combined with the load
at offset `K - 8` with `tail = K mod 8` (`K ≥ 8`), the lanes kept are exactly the reduction
indices `[K - K mod 8, K)`. -/
theorem C38_tail_mask {α : Type} [CommRing α] (tail : Nat) (ht : tail ≤ 8) (p : Nat → α)
    (K : Nat) (hK : 8 ≤ K) :
    Avx2.TailReads tail = (List.range' tail 8).map DenseRead.mask ∧
      tail + 8 ≤ Avx2.TailMask.length ∧ Avx2.TailMask.length = 16 ∧
      (∀ l, l < 8 → Avx2.Tail tail l = if 8 - tail ≤ l then -1 else 0) ∧
      K - K / 8 * 8 = K % 8 ∧
      ∀ l, l < 8 →
        and_ps (Avx2.Tail (K - K / 8 * 8)) (Load false p (subSizeT K 8)) l =
          if K - K % 8 ≤ K - 8 + l then p (K - 8 + l) else 0 := by
  have hsub : subSizeT K 8 = K - 8 := by
    unfold subSizeT
    rw [if_pos hK]
  refine ⟨rfl, by simpa [Avx2.TailMask] using Nat.add_le_add_right ht 8, rfl, ?_, ?_, ?_⟩
  · intro l hl
    rw [avx2_Tail_lane tail l ht hl]
    by_cases c : 8 ≤ tail + l
    · rw [if_pos c, if_pos (by omega)]
    · rw [if_neg c, if_neg (by omega)]
  · have h1 := Nat.div_add_mod K 8
    omega
  · intro l hl
    rw [hsub]
    exact avx2_tail_load_lane p K l hK hl

/-- C38 at `tail = 3` and `K = 19` on the sample operand. -/
theorem C38_tail_mask_witness :
    3 ≤ 8 ∧ 8 ≤ 19 ∧
      ∀ l, l < 8 →
        and_ps (Avx2.Tail (19 - 19 / 8 * 8)) (Load false quadWeight (subSizeT 19 8)) l =
          if 19 - 19 % 8 ≤ 19 - 8 + l then quadWeight (19 - 8 + l) else 0 :=
  ⟨by norm_num, by norm_num,
    (C38_tail_mask 3 (by norm_num) quadWeight 19 (by norm_num)).2.2.2.2.2⟩

/-- C39: the mask of `LoadAtEdge`. For `shift` in `{-2, -1, 1, 2}` and both tiers
(`F = 4`, `F = 8`), the mask loaded from table offset `F + shift` keeps lane `i` (all-ones)
if and only if `0 ≤ i + shift < F` and zeroes it otherwise; `LoadAtEdge<shift>(p)` has lane
`i` equal to `p[i + shift]` when `0 ≤ i + shift < F` and to `0` otherwise, whatever the
discarded positions hold: two memories that agree on `p[0 .. F)` give the same register; and
the table read stays inside the `3F` entries. -/
theorem C39_load_at_edge_mask {α : Type} [Zero α] (shift : Int)
    (hshift : shift ∈ ([-2, -1, 1, 2] : List Int)) (p p2 : Int → α) (q : Int) (i : Nat) :
    (i < Sse41.F →
      Sse41.EdgeMask.getD ((Sse41.F : Int) + shift + i).toNat 0 =
          (if 0 ≤ (i : Int) + shift ∧ (i : Int) + shift < Sse41.F then -1 else 0) ∧
        0 ≤ (Sse41.F : Int) + shift + i ∧
        ((Sse41.F : Int) + shift + i).toNat < Sse41.EdgeMask.length ∧
        Sse41.EdgeMask.length = 3 * Sse41.F ∧
        LoadAtEdgeF Sse41.F Sse41.EdgeMask shift p q i =
          (if 0 ≤ (i : Int) + shift ∧ (i : Int) + shift < Sse41.F then p (q + (i + shift))
            else 0) ∧
        ((∀ a : Int, 0 ≤ a → a < Sse41.F → p (q + a) = p2 (q + a)) →
          LoadAtEdgeF Sse41.F Sse41.EdgeMask shift p q i =
            LoadAtEdgeF Sse41.F Sse41.EdgeMask shift p2 q i)) ∧
    (i < Avx2.F →
      Avx2.EdgeMask.getD ((Avx2.F : Int) + shift + i).toNat 0 =
          (if 0 ≤ (i : Int) + shift ∧ (i : Int) + shift < Avx2.F then -1 else 0) ∧
        0 ≤ (Avx2.F : Int) + shift + i ∧
        ((Avx2.F : Int) + shift + i).toNat < Avx2.EdgeMask.length ∧
        Avx2.EdgeMask.length = 3 * Avx2.F ∧
        LoadAtEdgeF Avx2.F Avx2.EdgeMask shift p q i =
          (if 0 ≤ (i : Int) + shift ∧ (i : Int) + shift < Avx2.F then p (q + (i + shift))
            else 0) ∧
        ((∀ a : Int, 0 ≤ a → a < Avx2.F → p (q + a) = p2 (q + a)) →
          LoadAtEdgeF Avx2.F Avx2.EdgeMask shift p q i =
            LoadAtEdgeF Avx2.F Avx2.EdgeMask shift p2 q i)) := by
  have m4 : ∀ sh ∈ ([-2, -1, 1, 2] : List Int), ∀ l, l < Sse41.F →
      Sse41.EdgeMask.getD ((Sse41.F : Int) + sh + l).toNat 0 =
          (if 0 ≤ (l : Int) + sh ∧ (l : Int) + sh < Sse41.F then -1 else 0) ∧
        0 ≤ (Sse41.F : Int) + sh + l ∧
        ((Sse41.F : Int) + sh + l).toNat < Sse41.EdgeMask.length := by decide
  have m8 : ∀ sh ∈ ([-2, -1, 1, 2] : List Int), ∀ l, l < Avx2.F →
      Avx2.EdgeMask.getD ((Avx2.F : Int) + sh + l).toNat 0 =
          (if 0 ≤ (l : Int) + sh ∧ (l : Int) + sh < Avx2.F then -1 else 0) ∧
        0 ≤ (Avx2.F : Int) + sh + l ∧
        ((Avx2.F : Int) + sh + l).toNat < Avx2.EdgeMask.length := by decide
  have lane4 : ∀ (r : Int → α), i < Sse41.F →
      LoadAtEdgeF Sse41.F Sse41.EdgeMask shift r q i =
        (if 0 ≤ (i : Int) + shift ∧ (i : Int) + shift < Sse41.F then r (q + (i + shift))
          else 0) := by
    intro r hl
    rw [(LoadAtEdge_lane r q shift hshift i).1 hl]
    by_cases c : 0 ≤ shift + i ∧ shift + (i : Int) < Sse41.F
    · rw [if_pos c, if_pos (by omega)]
      congr 1
      ring
    · rw [if_neg c, if_neg (by omega)]
  have lane8 : ∀ (r : Int → α), i < Avx2.F →
      LoadAtEdgeF Avx2.F Avx2.EdgeMask shift r q i =
        (if 0 ≤ (i : Int) + shift ∧ (i : Int) + shift < Avx2.F then r (q + (i + shift))
          else 0) := by
    intro r hl
    rw [(LoadAtEdge_lane r q shift hshift i).2 hl]
    by_cases c : 0 ≤ shift + i ∧ shift + (i : Int) < Avx2.F
    · rw [if_pos c, if_pos (by omega)]
      congr 1
      ring
    · rw [if_neg c, if_neg (by omega)]
  refine ⟨fun hl => ?_, fun hl => ?_⟩
  · obtain ⟨a1, a2, a3⟩ := m4 shift hshift i hl
    refine ⟨a1, a2, a3, rfl, lane4 p hl, fun hagree => ?_⟩
    rw [lane4 p hl, lane4 p2 hl]
    by_cases c : 0 ≤ (i : Int) + shift ∧ (i : Int) + shift < Sse41.F
    · rw [if_pos c, if_pos c]
      exact hagree _ c.1 c.2
    · rw [if_neg c, if_neg c]
  · obtain ⟨a1, a2, a3⟩ := m8 shift hshift i hl
    refine ⟨a1, a2, a3, rfl, lane8 p hl, fun hagree => ?_⟩
    rw [lane8 p hl, lane8 p2 hl]
    by_cases c : 0 ≤ (i : Int) + shift ∧ (i : Int) + shift < Avx2.F
    · rw [if_pos c, if_pos c]
      exact hagree _ c.1 c.2
    · rw [if_neg c, if_neg c]

/-- C39 at `shift = -2`, lane 0 of the SSE4.1 tier: the lane is zero whatever `p[-2]`
holds. -/
theorem C39_load_at_edge_mask_witness :
    (-2 : Int) ∈ ([-2, -1, 1, 2] : List Int) ∧ 0 < Sse41.F ∧
      LoadAtEdgeF Sse41.F Sse41.EdgeMask (-2) (onesTensor 6) 0 0 =
        (if 0 ≤ ((0 : Nat) : Int) + (-2) ∧ ((0 : Nat) : Int) + (-2) < Sse41.F then
          onesTensor 6 (0 + (((0 : Nat) : Int) + (-2)))
        else 0) :=
  ⟨by decide, by decide,
    ((C39_load_at_edge_mask (-2) (by decide) (onesTensor 6) (onesTensor 6) 0 0).1
      (by decide)).2.2.2.2.1⟩

/-! ## Interleaved radius-2 normalization: the stores -/

/-- A strided loop whose iterations each log the stores `[off + j, off + j + step)` logs
`[off + j0, off + hi)` in order. -/
theorem forLoop_writes_off {α : Type} (step hi off : Nat) (body : Nat → Buf α → Buf α)
    (hstep : 0 < step)
    (hb : ∀ j d, (body j d).writes = d.writes ++ List.range' (off + j) step)
    (j0 : Nat) (d0 : Buf α) (hj0 : j0 ≤ hi) (hdvd : step ∣ hi - j0) (fuel : Nat)
    (hfuel : hi ≤ j0 + fuel) :
    (forLoop step hi body fuel j0 d0).2.writes =
      d0.writes ++ List.range' (off + j0) (hi - j0) := by
  refine (forLoop_stride step hi body
    (fun j d => d.writes = d0.writes ++ List.range' (off + j0) (j - j0)) hstep j0 d0 ?_ hj0
    hdvd ?_ fuel hfuel).2
  · simp
  · intro j d h1 _ h3
    show (body j d).writes = _
    rw [hb, h3, List.append_assoc]
    congr 1
    have e1 : off + j = off + j0 + (j - j0) := by omega
    have e2 : j + step - j0 = (j - j0) + step := by omega
    rw [e1, e2]
    exact range'_append_add (off + j0) (j - j0) step

/-- Every index stored for a sample lies inside the sample, and every index of the sample is
stored. -/
theorem nhwc2hSampleStores_mem (F channels base : Nat) (hF : 2 ≤ F)
    (hch : F + 2 ≤ channels) (x : Nat) :
    x ∈ nhwc2hSampleStores F channels base ↔ base ≤ x ∧ x < base + channels := by
  have hle : AlignLo (channels - 2) F ≤ channels - 2 := AlignLo_le (channels - 2) F
  have hlow : channels - 2 < AlignLo (channels - 2) F + F := by
    unfold AlignLo
    have h1 := Nat.div_add_mod (channels - 2) F
    have h2 := Nat.mod_lt (channels - 2) (show F > 0 by omega)
    rw [Nat.mul_comm] at h1
    omega
  have hFle : F ≤ AlignLo (channels - 2) F := by
    unfold AlignLo
    have : 1 ≤ (channels - 2) / F := (Nat.one_le_div_iff (by omega)).mpr (by omega)
    calc F = 1 * F := (Nat.one_mul F).symm
      _ ≤ (channels - 2) / F * F := Nat.mul_le_mul_right F this
  unfold nhwc2hSampleStores
  simp only [List.mem_append, List.mem_range'_1]
  by_cases c : AlignLo (channels - 2) F ≠ channels - 2
  · rw [if_pos c]
    simp only [List.mem_range'_1]
    omega
  · rw [if_neg c]
    simp only [List.not_mem_nil, false_or]
    omega

/-- The store log of the interleaved radius-2 kernel: the stores of the samples
`0, ..., spatial - 1`, each in program order. -/
theorem nhwc2h_writes {α : Type} [CommRing α] (F : Nat) (mask : List Int) (hF : 0 < F)
    (pow : α → α → α) (align : Bool) (src : Int → α) (channels spatial : Nat)
    (k : Nat → α) (dst : Buf α) (hch : F + 2 ≤ channels) :
    (SynetLrnLayerCrossChannelsNhwc2hF F mask pow align src 2 channels spatial k dst).writes =
      dst.writes ++
        (List.range spatial).flatMap (fun s => nhwc2hSampleStores F channels (s * channels)) := by
  have hs2 : subSizeT channels 2 = channels - 2 := by
    unfold subSizeT
    rw [if_pos (by omega)]
  have hs3 : subSizeT (channels - 2) F = channels - 2 - F := by
    unfold subSizeT
    rw [if_pos (by omega)]
  have hs4 : subSizeT channels F = channels - F := by
    unfold subSizeT
    rw [if_pos (by omega)]
  have hFle : F ≤ AlignLo (channels - 2) F := by
    unfold AlignLo
    have : 1 ≤ (channels - 2) / F := (Nat.one_le_div_iff hF).mpr (by omega)
    calc F = 1 * F := (Nat.one_mul F).symm
      _ ≤ (channels - 2) / F * F := Nat.mul_le_mul_right F this
  have hdv : F ∣ AlignLo (channels - 2) F - F :=
    Nat.dvd_sub' (AlignLo_dvd (channels - 2) F) (dvd_refl F)
  unfold SynetLrnLayerCrossChannelsNhwc2hF
  simp only [hs2, hs3, hs4]
  refine (forLoop_one spatial _
    (fun s (st : Int × Nat × Buf α) => st.2.1 = s * channels ∧
      st.2.2.writes = dst.writes ++
        (List.range s).flatMap (fun s => nhwc2hSampleStores F channels (s * channels)))
    0 _ ?_ (Nat.zero_le _) ?_ spatial (by omega)).2
  · exact ⟨by simp, by simp⟩
  · rintro s ⟨sOff, dOff, d⟩ _ _ ⟨h1, h2⟩
    simp only [] at h1 h2
    subst h1
    refine ⟨?_, ?_⟩
    · show s * channels + channels = (s + 1) * channels
      ring
    · rw [List.range_succ, List.flatMap_append, ← List.append_assoc, ← h2]
      unfold nhwc2hSampleStores
      by_cases c : AlignLo (channels - 2) F ≠ channels - 2
      · simp only [if_pos c, Store]
        rw [forLoop_writes_off F (AlignLo (channels - 2) F) (s * channels) _ hF
          (fun _ _ => rfl) F _ hFle hdv (AlignLo (channels - 2) F) (by omega)]
        simp only [List.append_assoc, List.append_cancel_left_eq, Nat.add_zero,
          List.flatMap_cons, List.flatMap_nil, List.append_nil, List.nil_append]
      · simp only [if_neg c, Store]
        rw [forLoop_writes_off F (AlignLo (channels - 2) F) (s * channels) _ hF
          (fun _ _ => rfl) F _ hFle hdv (AlignLo (channels - 2) F) (by omega)]
        simp only [List.append_assoc, List.append_cancel_left_eq, Nat.add_zero,
          List.flatMap_cons, List.flatMap_nil, List.append_nil, List.nil_append]

/-- The stores of all samples together: exactly the indices below `spatial * channels`. -/
theorem nhwc2h_stores_cover (F channels spatial : Nat) (hF : 2 ≤ F) (hch : F + 2 ≤ channels)
    (x : Nat) :
    x ∈ (List.range spatial).flatMap (fun s => nhwc2hSampleStores F channels (s * channels)) ↔
      x < spatial * channels := by
  rw [List.mem_flatMap]
  constructor
  · rintro ⟨s, hs, hx⟩
    rw [List.mem_range] at hs
    rw [nhwc2hSampleStores_mem F channels _ hF hch] at hx
    have h1 : (s + 1) * channels ≤ spatial * channels := Nat.mul_le_mul_right _ hs
    have h2 : (s + 1) * channels = s * channels + channels := by ring
    omega
  · intro hx
    obtain ⟨s, c, hs, hc, rfl⟩ := index_split spatial channels x hx
    refine ⟨s, List.mem_range.mpr hs, ?_⟩
    rw [nhwc2hSampleStores_mem F channels _ hF hch]
    omega

/-- C36: store coverage of the interleaved radius-2 kernel. For every `channels ≥ F + 2`
(`F = 4` on SSE4.1, `F = 8` on AVX2) the kernel stores, sample by sample, the channel ranges
`[0, F)` (nose), `[F, AlignLo(channels - 2, F))` (body loop),
`[channels - 2 - F, channels - 2)` (shifted body block, when
`AlignLo(channels - 2, F) ≠ channels - 2`) and `[channels - F, channels)` (tail); these lie
inside the sample and cover it, so the indices stored are exactly those below
`spatial * channels`. -/
theorem C36_nhwc_store_coverage {α : Type} [CommRing α] (pow : α → α → α) (align : Bool)
    (src : Int → α) (channels spatial : Nat) (k : Nat → α) (dst : Buf α) (x : Nat) :
    (Sse41.F + 2 ≤ channels →
      (Sse41.SynetLrnLayerCrossChannelsNhwc2h pow align src 2 channels spatial k dst).writes =
          dst.writes ++ (List.range spatial).flatMap
            (fun s => nhwc2hSampleStores Sse41.F channels (s * channels)) ∧
        (∀ s, x ∈ nhwc2hSampleStores Sse41.F channels (s * channels) ↔
          s * channels ≤ x ∧ x < s * channels + channels) ∧
        (x ∈ (List.range spatial).flatMap
            (fun s => nhwc2hSampleStores Sse41.F channels (s * channels)) ↔
          x < spatial * channels)) ∧
    (Avx2.F + 2 ≤ channels →
      (Avx2.SynetLrnLayerCrossChannelsNhwc2h pow align src 2 channels spatial k dst).writes =
          dst.writes ++ (List.range spatial).flatMap
            (fun s => nhwc2hSampleStores Avx2.F channels (s * channels)) ∧
        (∀ s, x ∈ nhwc2hSampleStores Avx2.F channels (s * channels) ↔
          s * channels ≤ x ∧ x < s * channels + channels) ∧
        (x ∈ (List.range spatial).flatMap
            (fun s => nhwc2hSampleStores Avx2.F channels (s * channels)) ↔
          x < spatial * channels)) := by
  refine ⟨fun h => ⟨?_, fun s => ?_, ?_⟩, fun h => ⟨?_, fun s => ?_, ?_⟩⟩
  · exact nhwc2h_writes Sse41.F Sse41.EdgeMask (by decide) pow align src channels spatial k
      dst h
  · exact nhwc2hSampleStores_mem Sse41.F channels _ (by decide) h x
  · exact nhwc2h_stores_cover Sse41.F channels spatial (by decide) h x
  · exact nhwc2h_writes Avx2.F Avx2.EdgeMask (by decide) pow align src channels spatial k
      dst h
  · exact nhwc2hSampleStores_mem Avx2.F channels _ (by decide) h x
  · exact nhwc2h_stores_cover Avx2.F channels spatial (by decide) h x

/-- C36 at `channels = 11`, two samples, index 15 (channel 4 of sample 1), on both tiers. -/
theorem C36_nhwc_store_coverage_witness :
    (Sse41.F + 2 ≤ 11 ∧
      (15 ∈ (List.range 2).flatMap (fun s => nhwc2hSampleStores Sse41.F 11 (s * 11)) ↔
        15 < 2 * 11)) ∧
    (Avx2.F + 2 ≤ 11 ∧
      (15 ∈ (List.range 2).flatMap (fun s => nhwc2hSampleStores Avx2.F 11 (s * 11)) ↔
        15 < 2 * 11)) :=
  ⟨⟨by decide, ((C36_nhwc_store_coverage powRat false (rampTensor 22) 11 2 lrnUnitK
      (Buf.ofFn zeroVec) 15).1 (by decide)).2.2⟩,
    ⟨by decide, ((C36_nhwc_store_coverage powRat false (rampTensor 22) 11 2 lrnUnitK
      (Buf.ofFn zeroVec) 15).2 (by decide)).2.2⟩⟩

/-! ## Planar cross-channel normalization: the sliding window -/

/-- One more unit of fuel runs one more iteration, when the loop has not ended. -/
theorem forLoop_fuel_succ {σ : Type} (step hi : Nat) (body : Nat → σ → σ) :
    ∀ (n j : Nat) (st : σ),
      forLoop step hi body (n + 1) j st =
        if (forLoop step hi body n j st).1 < hi then
          ((forLoop step hi body n j st).1 + step,
            body (forLoop step hi body n j st).1 (forLoop step hi body n j st).2)
        else forLoop step hi body n j st := by
  intro n
  induction n with
  | zero =>
    intro j st
    rfl
  | succ n ih =>
    intro j st
    by_cases hj : j < hi
    · have e1 : forLoop step hi body (n + 1 + 1) j st =
          forLoop step hi body (n + 1) (j + step) (body j st) := by
        simp [forLoop, hj]
      have e2 : forLoop step hi body (n + 1) j st =
          forLoop step hi body n (j + step) (body j st) := by
        simp [forLoop, hj]
      rw [e1, e2]
      exact ih (j + step) (body j st)
    · have e1 : forLoop step hi body (n + 1 + 1) j st = (j, st) := by
        simp [forLoop, hj]
      have e2 : forLoop step hi body (n + 1) j st = (j, st) := by
        simp [forLoop, hj]
      rw [e1, e2, if_neg hj]

/-- The kernel is its channel loop run to the end on the `sum` of the warm-up loop. -/
theorem lrn_nchw_steps_link {α : Type} [CommRing α] (F : Nat) (pow : α → α → α)
    (align : Bool) (src : Nat → α) (half channels spatial : Nat) (k : Nat → α)
    (dst : Buf α) :
    SynetLrnLayerCrossChannelsNchwF F pow align src half channels spatial k dst =
      (SynetLrnLayerCrossChannelsNchwSteps F pow align src half channels spatial k dst
        channels).2.2.2.2 := rfl

/-- The warm-up loop leaves in `sum[x]` the squares of the channels `[0, half)`. -/
theorem lrn_nchw_warmup {α : Type} [CommRing α] (F : Nat) (hF : 0 < F) (align : Bool)
    (src : Nat → α) (half spatial : Nat) (x : Nat) (hx : x < spatial) :
    (SynetLrnLayerCrossChannelsNchwWarmup F align src half spatial).data x =
      ∑ c2 in Finset.range half, src (c2 * spatial + x) * src (c2 * spatial + x) := by
  unfold SynetLrnLayerCrossChannelsNchwWarmup
  simp only []
  refine forLoop_one half _
    (fun c (sum : Buf α) => ∀ x, x < spatial → sum.data x =
      ∑ c2 in Finset.range c, src (c2 * spatial + x) * src (c2 * spatial + x))
    0 _ ?_ (Nat.zero_le _) ?_ half (by omega) x hx
  · intro x _
    rw [Finset.sum_range_zero]
    rfl
  · intro c sum _ _ hP x hx
    refine (twoTier_data F hF
      (fun x old => old + src (c * spatial + x) * src (c * spatial + x)) _ _ ?_ ?_
      spatial sum x).trans ?_
    · exact Pointwise_store F true _ _ (fun _ _ _ => rfl)
    · exact Pointwise_set _ _ (fun _ _ => rfl)
    · rw [if_pos hx, hP x hx, Finset.sum_range_succ]

/-- One iteration of the channel loop at channel `c`: the pointers advance by one channel
and `sum[x]` gains the square of the entering element and loses that of the leaving one. -/
theorem lrn_nchw_channel_sum {α : Type} [CommRing α] (F : Nat) (hF : 0 < F)
    (pow : α → α → α) (align : Bool) (src : Nat → α) (half channels spatial : Nat)
    (k : Nat → α) (c : Nat) (sum d : Buf α) :
    (SynetLrnLayerCrossChannelsNchwChannel F pow align src half channels spatial k c
        (c * spatial, c * spatial, sum, d)).1 = (c + 1) * spatial ∧
      (SynetLrnLayerCrossChannelsNchwChannel F pow align src half channels spatial k c
        (c * spatial, c * spatial, sum, d)).2.1 = (c + 1) * spatial ∧
      ∀ x, x < spatial →
      (SynetLrnLayerCrossChannelsNchwChannel F pow align src half channels spatial k c
        (c * spatial, c * spatial, sum, d)).2.2.1.data x =
        sum.data x +
          ((if c < subSizeT channels half then
              (fun x => src (c * spatial + half * spatial + x)) else fun _ => 0) x *
            (if c < subSizeT channels half then
              (fun x => src (c * spatial + half * spatial + x)) else fun _ => 0) x -
           (if c > half then (fun x => src (c * spatial - (half + 1) * spatial + x))
              else fun _ => 0) x *
            (if c > half then (fun x => src (c * spatial - (half + 1) * spatial + x))
              else fun _ => 0) x) := by
  have T := twoTier_data2 F (c * spatial) hF _ _ _ _
    (lrn_vec_body F (c * spatial) (c * spatial) pow align src
      (if c < subSizeT channels half then (fun x => src (c * spatial + half * spatial + x))
        else fun _ => 0)
      (if c > half then (fun x => src (c * spatial - (half + 1) * spatial + x))
        else fun _ => 0) k)
    (lrn_scalar_body (c * spatial) (c * spatial) pow src
      (if c < subSizeT channels half then (fun x => src (c * spatial + half * spatial + x))
        else fun _ => 0)
      (if c > half then (fun x => src (c * spatial - (half + 1) * spatial + x))
        else fun _ => 0) k)
    spatial (sum, d)
  obtain ⟨T1, -⟩ := T
  refine ⟨?_, ?_, ?_⟩
  · show c * spatial + spatial = (c + 1) * spatial
    ring
  · show c * spatial + spatial = (c + 1) * spatial
    ring
  · intro x hx
    refine (T1 x).trans ?_
    rw [if_pos hx]

/-- The state of the channel loop after `n ≤ channels` iterations: the counter is `n`, the
pointers have advanced by `n` channels, and `sum[x]` holds the squares of the channels of the
window that precedes channel `n`. -/
theorem lrn_nchw_steps_inv {α : Type} [CommRing α] (F : Nat) (hF : 0 < F)
    (pow : α → α → α) (align : Bool) (src : Nat → α) (half channels spatial : Nat)
    (k : Nat → α) (dst : Buf α) (hh : half ≤ channels) :
    ∀ n, n ≤ channels →
      (SynetLrnLayerCrossChannelsNchwSteps F pow align src half channels spatial k dst n).1 =
          n ∧
        (SynetLrnLayerCrossChannelsNchwSteps F pow align src half channels spatial k dst
          n).2.1 = n * spatial ∧
        (SynetLrnLayerCrossChannelsNchwSteps F pow align src half channels spatial k dst
          n).2.2.1 = n * spatial ∧
        ∀ x, x < spatial →
          (SynetLrnLayerCrossChannelsNchwSteps F pow align src half channels spatial k dst
            n).2.2.2.1.data x =
            ∑ c2 in Finset.Ico (n - half - 1) (min (n + half) channels),
              src (c2 * spatial + x) * src (c2 * spatial + x) := by
  intro n
  induction n with
  | zero =>
    intro _
    refine ⟨rfl, (Nat.zero_mul _).symm, (Nat.zero_mul _).symm, fun x hx => ?_⟩
    have e : Finset.Ico (0 - half - 1) (min (0 + half) channels) = Finset.range half := by
      rw [Finset.range_eq_Ico]
      congr 1 <;> omega
    rw [e]
    exact lrn_nchw_warmup F hF align src half spatial x hx
  | succ n ih =>
    intro hn
    obtain ⟨i1, i2, i3, i4⟩ := ih (by omega)
    have hstep : SynetLrnLayerCrossChannelsNchwSteps F pow align src half channels spatial k
        dst (n + 1) =
        (n + 1, SynetLrnLayerCrossChannelsNchwChannel F pow align src half channels spatial k
          n (SynetLrnLayerCrossChannelsNchwSteps F pow align src half channels spatial k dst
            n).2) := by
      unfold SynetLrnLayerCrossChannelsNchwSteps at i1 ⊢
      rw [forLoop_fuel_succ, i1, if_pos (by omega)]
    obtain ⟨q, hq⟩ : ∃ q, (SynetLrnLayerCrossChannelsNchwSteps F pow align src half channels
        spatial k dst n).2 = q := ⟨_, rfl⟩
    rw [hq] at i2 i3 i4
    obtain ⟨sOff, dOff, sum, d⟩ := q
    simp only [] at i2 i3 i4
    subst i2 i3
    rw [hstep, hq]
    have e1 : n + 1 - half - 1 = n - half := by omega
    have e2 : n + 1 + half = n + half + 1 := by omega
    obtain ⟨p1, p2, p3⟩ := lrn_nchw_channel_sum F hF pow align src half channels spatial k n
      sum d
    refine ⟨rfl, p1, p2, fun x hx => ?_⟩
    show (SynetLrnLayerCrossChannelsNchwChannel F pow align src half channels spatial k n
      (n * spatial, n * spatial, sum, d)).2.2.1.data x = _
    rw [p3 x hx, i4 x hx, e1, e2]
    exact lrn_window_step src half channels spatial n x hh (by omega)


/-- C33: the sliding-window invariant of the planar normalization, for a tier of `F` lanes
(4 on SSE4.1, 8 on AVX2). For every `half ≤ channels` and every spatial position `s`: the
kernel is its channel loop run on the `sum` of the warm-up loop; after the warm-up loop
`sum[s]` is the sum of `src[c'][s]^2` over `c'` in `[0, half)`; after the channel loop has
processed channel `c`, `sum[s]` is the sum of `src[c'][s]^2` over `c'` in
`[max(0, c - half), min(channels - 1, c + half)]`; and step `c` adds channel `c + half`
exactly when `c + half < channels` and subtracts channel `c - half - 1` exactly when
`c > half` (exact arithmetic). -/
theorem C33_sliding_window {α : Type} [CommRing α] (F : Nat) (hF : 0 < F)
    (pow : α → α → α) (align : Bool) (src : Nat → α) (half channels spatial : Nat)
    (k : Nat → α) (dst : Buf α) (hh : half ≤ channels) (c s : Nat) (hc : c < channels)
    (hs : s < spatial) :
    SynetLrnLayerCrossChannelsNchwF F pow align src half channels spatial k dst =
        (SynetLrnLayerCrossChannelsNchwSteps F pow align src half channels spatial k dst
          channels).2.2.2.2 ∧
      (SynetLrnLayerCrossChannelsNchwSteps F pow align src half channels spatial k dst
          0).2.2.2.1.data s =
        ∑ c2 in Finset.range half, src (c2 * spatial + s) ^ 2 ∧
      (SynetLrnLayerCrossChannelsNchwSteps F pow align src half channels spatial k dst
          (c + 1)).2.2.2.1.data s =
        ∑ c2 in Finset.Icc (c - half) (min (channels - 1) (c + half)),
          src (c2 * spatial + s) ^ 2 ∧
      (SynetLrnLayerCrossChannelsNchwSteps F pow align src half channels spatial k dst
          (c + 1)).2.2.2.1.data s =
        (SynetLrnLayerCrossChannelsNchwSteps F pow align src half channels spatial k dst
            c).2.2.2.1.data s +
          (if c + half < channels then src ((c + half) * spatial + s) ^ 2 else 0) -
          (if c > half then src ((c - half - 1) * spatial + s) ^ 2 else 0) := by
  have inv := lrn_nchw_steps_inv F hF pow align src half channels spatial k dst hh
  refine ⟨rfl, ?_, ?_, ?_⟩
  · show (SynetLrnLayerCrossChannelsNchwWarmup F align src half spatial).data s = _
    rw [lrn_nchw_warmup F hF align src half spatial s hs]
    exact Finset.sum_congr rfl (fun _ _ => (pow_two _).symm)
  · rw [(inv (c + 1) (by omega)).2.2.2 s hs]
    have e : Finset.Ico (c + 1 - half - 1) (min (c + 1 + half) channels) =
        Finset.Icc (c - half) (min (channels - 1) (c + half)) := by
      ext y
      simp only [Finset.mem_Ico, Finset.mem_Icc]
      omega
    rw [e]
    exact Finset.sum_congr rfl (fun _ _ => (pow_two _).symm)
  · obtain ⟨i1, i2, i3, i4⟩ := inv c (by omega)
    have hstep : SynetLrnLayerCrossChannelsNchwSteps F pow align src half channels spatial k
        dst (c + 1) =
        (c + 1, SynetLrnLayerCrossChannelsNchwChannel F pow align src half channels spatial k
          c (SynetLrnLayerCrossChannelsNchwSteps F pow align src half channels spatial k dst
            c).2) := by
      unfold SynetLrnLayerCrossChannelsNchwSteps at i1 ⊢
      rw [forLoop_fuel_succ, i1, if_pos hc]
    obtain ⟨q, hq⟩ : ∃ q, (SynetLrnLayerCrossChannelsNchwSteps F pow align src half channels
        spatial k dst c).2 = q := ⟨_, rfl⟩
    rw [hq] at i2 i3
    rw [hstep, hq]
    obtain ⟨sOff, dOff, sum, d⟩ := q
    simp only [] at i2 i3
    subst i2 i3
    obtain ⟨-, -, p3⟩ := lrn_nchw_channel_sum F hF pow align src half channels spatial k c
      sum d
    show (SynetLrnLayerCrossChannelsNchwChannel F pow align src half channels spatial k c
      (c * spatial, c * spatial, sum, d)).2.2.1.data s = sum.data s + _ - _
    rw [p3 s hs]
    have hsub : subSizeT channels half = channels - half := by
      unfold subSizeT
      rw [if_pos hh]
    rw [hsub]
    have eP : (if c < channels - half then
          (fun x => src (c * spatial + half * spatial + x)) else fun _ => 0) s =
        if c + half < channels then src ((c + half) * spatial + s) else 0 := by
      by_cases c1 : c < channels - half
      · rw [if_pos c1, if_pos (by omega)]
        exact congrArg src (by ring)
      · rw [if_neg c1, if_neg (by omega)]
    have eN : (if c > half then
          (fun x => src (c * spatial - (half + 1) * spatial + x)) else fun _ => 0) s =
        if c > half then src ((c - half - 1) * spatial + s) else 0 := by
      by_cases c1 : c > half
      · rw [if_pos c1, if_pos c1]
        exact congrArg src (by rw [Nat.sub_sub, Nat.sub_mul])
      · rw [if_neg c1, if_neg c1]
    rw [eP, eN]
    by_cases c1 : c + half < channels <;> by_cases c2 : c > half <;>
      simp only [c1, c2, if_true, if_false] <;> ring

/-- C33 on the SSE4.1 lane count at `half = 1`, three channels of two positions:
channel 1, position 1. -/
theorem C33_sliding_window_witness :
    0 < Sse41.F ∧ 1 ≤ 3 ∧ 1 < 3 ∧ 1 < 2 ∧
      (SynetLrnLayerCrossChannelsNchwSteps Sse41.F powRat false quadWeight 1 3 2 lrnUnitK
          (Buf.ofFn zeroVec) (1 + 1)).2.2.2.1.data 1 =
        ∑ c2 in Finset.Icc (1 - 1) (min (3 - 1) (1 + 1)), quadWeight (c2 * 2 + 1) ^ 2 :=
  ⟨by decide, by decide, by decide, by decide,
    (C33_sliding_window Sse41.F (by decide) powRat false quadWeight 1 3 2 lrnUnitK
      (Buf.ofFn zeroVec) (by decide) 1 1 (by decide) (by decide)).2.2.1⟩

/-! ## The three-tier decomposition of the element-wise and the unary loops -/

/-- The unary kernel by stages: the single-vector loop continues the block loop. -/
theorem unary_blocks_link {α : Type} [LinearOrderedCommRing α] (F QF : Nat) (V : UnaryFns α)
    (type : SimdSynetUnaryOperation32fType) (align : Bool) (src : Nat → α) (size : Nat)
    (dst : Buf α) :
    SynetUnaryOperation32fLayerForwardBlocks F QF V type align src size dst =
      forLoop F (AlignLo size F) (fun i dst =>
        Store F align dst i (SynetUnaryOperation32f V type (Load align src i)))
        (AlignLo size F)
        (SynetUnaryOperation32fLayerForwardQuads F QF V type align src size dst).1
        (SynetUnaryOperation32fLayerForwardQuads F QF V type align src size dst).2 := rfl

/-- The typed element-wise kernel is the pass for the inputs 0 and 1 followed by one pass
for every further input. -/
theorem sse41_eltwise_passes {α : Type} (opV : (Nat → α) → (Nat → α) → Nat → α)
    (opS : α → α → α) (align : Bool) (src : Nat → Nat → α) (count size : Nat)
    (dst : Buf α) :
    Sse41.SynetEltwiseLayerForwardT opV opS align src count size dst =
      (forLoop 1 count (fun i dst =>
        Sse41.SynetEltwiseLayerForwardPass opV opS align (fun d => d.data) (src i) size dst)
        count 2
        (Sse41.SynetEltwiseLayerForwardPass opV opS align (fun _ => src 0) (src 1) size
          dst)).2 := by
  unfold Sse41.SynetEltwiseLayerForwardT Sse41.SynetEltwiseLayerForwardPass
    Sse41.SynetEltwiseLayerForwardPassVectors Sse41.SynetEltwiseLayerForwardPassQuads
  by_cases c : AlignLo size Sse41.F ≠ 0
  · simp only [if_pos c]
  · simp only [if_neg c]

/-- A loop that logs the offsets `blk j` of its iteration `j`: when the accesses of an
iteration cover exactly the indices `[j, j + step)`, those of the whole loop cover exactly
`[j0, hi)`, and each of them ends at or below `hi`. -/
theorem logLoop_cover (step hi w : Nat) (blk : Nat → List Nat) (hstep : 0 < step)
    (hblk : ∀ j x, Covered w (blk j) x ↔ j ≤ x ∧ x < j + step)
    (hend : ∀ j, ∀ o ∈ blk j, j ≤ o ∧ o + w ≤ j + step)
    (j0 : Nat) (hj0 : j0 ≤ hi) (hdvd : step ∣ hi - j0) (fuel : Nat) (hfuel : hi ≤ j0 + fuel) :
    (forLoop step hi (fun j (log : List Nat) => log ++ blk j) fuel j0 []).1 = hi ∧
      (∀ x, Covered w (forLoop step hi (fun j (log : List Nat) => log ++ blk j) fuel j0 []).2
        x ↔ j0 ≤ x ∧ x < hi) ∧
      ∀ o ∈ (forLoop step hi (fun j (log : List Nat) => log ++ blk j) fuel j0 []).2,
        j0 ≤ o ∧ o + w ≤ hi := by
  have key := forLoop_stride step hi (fun j (log : List Nat) => log ++ blk j)
    (fun j (log : List Nat) => (∀ x, Covered w log x ↔ j0 ≤ x ∧ x < j) ∧
      ∀ o ∈ log, j0 ≤ o ∧ o + w ≤ j) hstep j0 [] ?_ hj0 hdvd ?_ fuel hfuel
  · exact ⟨key.1, key.2.1, key.2.2⟩
  · refine ⟨fun x => ?_, fun o ho => ?_⟩
    · unfold Covered
      simp only [List.not_mem_nil, false_and, exists_false, false_iff]
      omega
    · simp at ho
  · rintro j log hj1 hj2 ⟨h1, h2⟩
    refine ⟨fun x => ?_, fun o ho => ?_⟩
    · have hc : Covered w (log ++ blk j) x ↔ Covered w log x ∨ Covered w (blk j) x := by
        unfold Covered
        constructor
        · rintro ⟨o, ho, hx⟩
          rcases List.mem_append.mp ho with h | h
          · exact Or.inl ⟨o, h, hx⟩
          · exact Or.inr ⟨o, h, hx⟩
        · rintro (⟨o, ho, hx⟩ | ⟨o, ho, hx⟩)
          · exact ⟨o, List.mem_append.mpr (Or.inl ho), hx⟩
          · exact ⟨o, List.mem_append.mpr (Or.inr ho), hx⟩
      rw [hc, h1 x, hblk j x]
      omega
    · rcases List.mem_append.mp ho with h | h
      · have := h2 o h
        omega
      · have := hend j o h
        omega

/-- The four statements of a block iteration cover `[j, j + 4F)`. -/
theorem covered_quad (F j a b c d x : Nat) (ha : a = j) (hb : b = j + F) (hc : c = j + 2 * F)
    (hd : d = j + 3 * F) :
    Covered F [a, b, c, d] x ↔ j ≤ x ∧ x < j + 4 * F := by
  subst a b c d
  unfold Covered
  simp only [List.mem_cons, List.mem_singleton, List.not_mem_nil, or_false]
  constructor
  · rintro ⟨o, ho, h1, h2⟩
    rcases ho with h | h | h | h <;> subst h <;> omega
  · intro h
    by_cases c1 : x < j + F
    · exact ⟨_, Or.inl rfl, by omega, by omega⟩
    · by_cases c2 : x < j + F + F
      · exact ⟨_, Or.inr (Or.inl rfl), by omega, by omega⟩
      · by_cases c3 : x < j + 2 * F + F
        · exact ⟨_, Or.inr (Or.inr (Or.inl rfl)), by omega, by omega⟩
        · exact ⟨_, Or.inr (Or.inr (Or.inr rfl)), by omega, by omega⟩

theorem covered_single (w j x : Nat) : Covered w [j] x ↔ j ≤ x ∧ x < j + w := by
  unfold Covered
  simp only [List.mem_singleton]
  constructor
  · rintro ⟨o, rfl, h⟩
    exact h
  · intro h
    exact ⟨j, rfl, h⟩

/-- The shape shared by the offset traces of the two kernels. -/
theorem threeTier_offsets (F QF size : Nat) (hF : 0 < F) (hQF : QF = 4 * F)
    (blk4 : Nat → List Nat)
    (h4 : ∀ j x, Covered F (blk4 j) x ↔ j ≤ x ∧ x < j + QF)
    (h4e : ∀ j, ∀ o ∈ blk4 j, j ≤ o ∧ o + F ≤ j + QF) :
    (∀ x, Covered F (forLoop QF (AlignLo size QF) (fun j (log : List Nat) => log ++ blk4 j)
        (AlignLo size QF) 0 []).2 x ↔ x < AlignLo size QF) ∧
      (∀ o ∈ (forLoop QF (AlignLo size QF) (fun j (log : List Nat) => log ++ blk4 j)
        (AlignLo size QF) 0 []).2, o + F ≤ size) ∧
      (∀ x, Covered F (forLoop F (AlignLo size F) (fun j (log : List Nat) => log ++ [j])
          (AlignLo size F)
          (forLoop QF (AlignLo size QF) (fun j (log : List Nat) => log ++ blk4 j)
            (AlignLo size QF) 0 []).1 []).2 x ↔
        AlignLo size QF ≤ x ∧ x < AlignLo size F) ∧
      (∀ o ∈ (forLoop F (AlignLo size F) (fun j (log : List Nat) => log ++ [j])
          (AlignLo size F)
          (forLoop QF (AlignLo size QF) (fun j (log : List Nat) => log ++ blk4 j)
            (AlignLo size QF) 0 []).1 []).2, o + F ≤ size) ∧
      (∀ x, x ∈ (forLoop 1 size (fun j (log : List Nat) => log ++ [j]) size
          (forLoop F (AlignLo size F) (fun j (log : List Nat) => log ++ [j])
            (AlignLo size F)
            (forLoop QF (AlignLo size QF) (fun j (log : List Nat) => log ++ blk4 j)
              (AlignLo size QF) 0 []).1 []).1 []).2 ↔
        AlignLo size F ≤ x ∧ x < size) := by
  have hle1 : AlignLo size QF ≤ AlignLo size F := by
    rw [hQF]
    exact AlignLo_quad_le size F
  have hle2 := AlignLo_le size F
  have hQ0 : 0 < QF := by omega
  obtain ⟨a1, a2, a3⟩ := logLoop_cover QF (AlignLo size QF) F blk4 hQ0 h4 h4e 0
    (Nat.zero_le _) (AlignLo_dvd size QF) (AlignLo size QF) (by omega)
  rw [a1]
  obtain ⟨b1, b2, b3⟩ := logLoop_cover F (AlignLo size F) F (fun j => [j]) hF
    (fun j x => covered_single F j x)
    (fun j o ho => by rw [List.mem_singleton] at ho; subst ho; omega)
    (AlignLo size QF) hle1 (by rw [hQF]; exact AlignLo_quad_dvd size F) (AlignLo size F)
    (by omega)
  rw [b1]
  obtain ⟨c1, c2, c3⟩ := logLoop_cover 1 size 1 (fun j => [j]) (by omega)
    (fun j x => covered_single 1 j x)
    (fun j o ho => by rw [List.mem_singleton] at ho; subst ho; omega)
    (AlignLo size F) hle2 (one_dvd _) size (by omega)
  refine ⟨fun x => ?_, fun o ho => ?_, b2, fun o ho => ?_, fun x => ?_⟩
  · rw [a2 x]
    omega
  · have := a3 o ho
    omega
  · have := b3 o ho
    omega
  · rw [← c2 x]
    unfold Covered
    constructor
    · intro h
      exact ⟨x, h, le_refl _, by omega⟩
    · rintro ⟨o, ho, h1, h2⟩
      have : o = x := by omega
      rw [← this]
      exact ho

/-- From the three coverage statements to the partition. -/
theorem threeTier_partition_of (F QF size : Nat) (hQF : QF = 4 * F)
    (offsets : List Nat × List Nat × List Nat)
    (h1 : ∀ x, Covered F offsets.1 x ↔ x < AlignLo size QF)
    (h1e : ∀ o ∈ offsets.1, o + F ≤ size)
    (h2 : ∀ x, Covered F offsets.2.1 x ↔ AlignLo size QF ≤ x ∧ x < AlignLo size F)
    (h2e : ∀ o ∈ offsets.2.1, o + F ≤ size)
    (h3 : ∀ x, x ∈ offsets.2.2 ↔ AlignLo size F ≤ x ∧ x < size) :
    ThreeTierPartition F QF size offsets := by
  have hle1 : AlignLo size QF ≤ AlignLo size F := by
    rw [hQF]
    exact AlignLo_quad_le size F
  have hle2 := AlignLo_le size F
  refine ⟨h1, h2, h3, ?_, fun x => ?_, fun x => ?_⟩
  · intro o ho
    rcases List.mem_append.mp ho with h | h
    · exact h1e o h
    · exact h2e o h
  · rw [h1 x, h2 x, h3 x]
    omega
  · rw [h1 x, h2 x, h3 x]
    omega

theorem unary_offsets_partition (F QF size : Nat) (hF : 0 < F) (hQF : QF = 4 * F) :
    ThreeTierPartition F QF size (SynetUnaryOperation32fLayerForwardOffsets F QF size) := by
  obtain ⟨a1, a2, a3, a4, a5⟩ := threeTier_offsets F QF size hF hQF
    (fun i => [i + 0 * F, i + 1 * F, i + 2 * F, i + 3 * F])
    (fun j x => by
      rw [hQF]
      exact covered_quad F j _ _ _ _ x (by omega) (by omega) (by omega) (by omega))
    (fun j o ho => by
      simp only [List.mem_cons, List.mem_singleton, List.not_mem_nil, or_false] at ho
      rcases ho with h | h | h | h <;> subst h <;> omega)
  exact threeTier_partition_of F QF size hQF _ a1 a2 a3 a4 a5

theorem sse41_eltwise_offsets_partition (size : Nat) :
    ThreeTierPartition Sse41.F Sse41.QF size (Sse41.SynetEltwiseLayerForwardOffsets size) := by
  have hF : 0 < Sse41.F := by decide
  have hQF : Sse41.QF = 4 * Sse41.F := rfl
  have hle1 : AlignLo size Sse41.QF ≤ AlignLo size Sse41.F := by
    rw [hQF]
    exact AlignLo_quad_le size Sse41.F
  by_cases c : AlignLo size Sse41.F ≠ 0
  · obtain ⟨a1, a2, a3, a4, a5⟩ := threeTier_offsets Sse41.F Sse41.QF size hF hQF
      (fun j => [j + Sse41.F * 0, j + Sse41.F * 1, j + Sse41.F * 2, j + Sse41.F * 3])
      (fun j x => by
        rw [hQF]
        exact covered_quad Sse41.F j _ _ _ _ x (by omega) (by omega) (by omega) (by omega))
      (fun j o ho => by
        simp only [List.mem_cons, List.mem_singleton, List.not_mem_nil, or_false] at ho
        have e : Sse41.QF = 4 * Sse41.F := rfl
        rcases ho with h | h | h | h <;> subst h <;> omega)
    refine threeTier_partition_of Sse41.F Sse41.QF size hQF _ ?_ ?_ ?_ ?_ ?_
    · unfold Sse41.SynetEltwiseLayerForwardOffsets
      simp only [if_pos c]
      exact a1
    · unfold Sse41.SynetEltwiseLayerForwardOffsets
      simp only [if_pos c]
      exact a2
    · unfold Sse41.SynetEltwiseLayerForwardOffsets
      simp only [if_pos c]
      exact a3
    · unfold Sse41.SynetEltwiseLayerForwardOffsets
      simp only [if_pos c]
      exact a4
    · unfold Sse41.SynetEltwiseLayerForwardOffsets
      simp only [if_pos c]
      exact a5
  · have hz : AlignLo size Sse41.F = 0 := by
      simp only [ne_eq, not_not] at c
      exact c
    have hz4 : AlignLo size Sse41.QF = 0 := by omega
    obtain ⟨c1, c2, c3⟩ := logLoop_cover 1 size 1 (fun j => [j]) (by omega)
      (fun j x => covered_single 1 j x)
      (fun j o ho => by rw [List.mem_singleton] at ho; subst ho; omega)
      0 (Nat.zero_le _) (one_dvd _) size (by omega)
    refine threeTier_partition_of Sse41.F Sse41.QF size hQF _ ?_ ?_ ?_ ?_ ?_
    · intro x
      unfold Sse41.SynetEltwiseLayerForwardOffsets
      simp only [if_neg c]
      unfold Covered
      simp only [List.not_mem_nil, false_and, exists_false, false_iff]
      omega
    · intro o ho
      unfold Sse41.SynetEltwiseLayerForwardOffsets at ho
      simp only [if_neg c] at ho
      simp at ho
    · intro x
      unfold Sse41.SynetEltwiseLayerForwardOffsets
      simp only [if_neg c]
      unfold Covered
      simp only [List.not_mem_nil, false_and, exists_false, false_iff]
      omega
    · intro o ho
      unfold Sse41.SynetEltwiseLayerForwardOffsets at ho
      simp only [if_neg c] at ho
      simp at ho
    · intro x
      unfold Sse41.SynetEltwiseLayerForwardOffsets
      simp only [if_neg c]
      rw [hz, ← c2 x]
      unfold Covered
      constructor
      · intro h
        exact ⟨x, h, le_refl _, by omega⟩
      · rintro ⟨o, ho, h1, h2⟩
        have : o = x := by omega
        rw [← this]
        exact ho

/-- The stores of four consecutive vector statements. -/
theorem quad_ranges (w : List Nat) (j F : Nat) :
    w ++ List.range' (j + 0 * F) F ++ List.range' (j + 1 * F) F ++
      List.range' (j + 2 * F) F ++ List.range' (j + 3 * F) F =
      w ++ List.range' j (4 * F) := by
  have e1 : j + 0 * F = j := by ring
  have e2 : j + 1 * F = j + F := by ring
  have e3 : j + 2 * F = j + (F + F) := by ring
  have e4 : j + 3 * F = j + (F + F + F) := by ring
  have e5 : 4 * F = F + F + F + F := by ring
  rw [e1, e2, e3, e4, e5, List.append_assoc, List.append_assoc, List.append_assoc]
  congr 1
  rw [← List.append_assoc, ← List.append_assoc, range'_append_add j F F,
    range'_append_add j (F + F) F, range'_append_add j (F + F + F) F]

/-- The counter of a strided loop that runs to its bound. -/
theorem forLoop_counter {σ : Type} (step hi : Nat) (body : Nat → σ → σ) (hstep : 0 < step)
    (j0 : Nat) (st : σ) (hj0 : j0 ≤ hi) (hdvd : step ∣ hi - j0) (fuel : Nat)
    (hfuel : hi ≤ j0 + fuel) : (forLoop step hi body fuel j0 st).1 = hi :=
  (forLoop_stride step hi body (fun _ _ => True) hstep j0 st trivial hj0 hdvd
    (fun _ _ _ _ _ => trivial) fuel hfuel).1

/-- The store logs of three loops in a row, by stage. -/
theorem threeTier_stage_writes {α : Type} (F QF size : Nat) (hF : 0 < F) (hQF : QF = 4 * F)
    (b4 b1 bs : Nat → Buf α → Buf α)
    (h4 : ∀ j d, (b4 j d).writes = d.writes ++ List.range' j QF)
    (h1 : ∀ j d, (b1 j d).writes = d.writes ++ List.range' j F)
    (hs : ∀ j d, (bs j d).writes = d.writes ++ List.range' j 1) (d : Buf α) :
    (forLoop QF (AlignLo size QF) b4 (AlignLo size QF) 0 d).1 = AlignLo size QF ∧
      (forLoop F (AlignLo size F) b1 (AlignLo size F) (AlignLo size QF)
        (forLoop QF (AlignLo size QF) b4 (AlignLo size QF) 0 d).2).1 = AlignLo size F ∧
      ThreeTierStores F QF size d.writes
        (forLoop QF (AlignLo size QF) b4 (AlignLo size QF) 0 d).2.writes
        (forLoop F (AlignLo size F) b1 (AlignLo size F) (AlignLo size QF)
          (forLoop QF (AlignLo size QF) b4 (AlignLo size QF) 0 d).2).2.writes
        (forLoop 1 size bs size (AlignLo size F)
          (forLoop F (AlignLo size F) b1 (AlignLo size F) (AlignLo size QF)
            (forLoop QF (AlignLo size QF) b4 (AlignLo size QF) 0 d).2).2).2.writes := by
  have hle1 : AlignLo size QF ≤ AlignLo size F := by
    rw [hQF]
    exact AlignLo_quad_le size F
  have hdv1 : F ∣ AlignLo size F - AlignLo size QF := by
    rw [hQF]
    exact AlignLo_quad_dvd size F
  have hle2 := AlignLo_le size F
  have hQ0 : 0 < QF := by omega
  refine ⟨?_, ?_, ?_, ?_, ?_⟩
  · exact forLoop_counter QF (AlignLo size QF) b4 hQ0 0 d (Nat.zero_le _)
      (AlignLo_dvd size QF) (AlignLo size QF) (by omega)
  · exact forLoop_counter F (AlignLo size F) b1 hF (AlignLo size QF) _ hle1 hdv1
      (AlignLo size F) (by omega)
  · have h := forLoop_writes QF (AlignLo size QF) b4 hQ0 h4 0 d (Nat.zero_le _)
      (AlignLo_dvd size QF) (AlignLo size QF) (by omega)
    rw [Nat.sub_zero] at h
    exact h
  · exact forLoop_writes F (AlignLo size F) b1 hF h1 (AlignLo size QF) _ hle1 hdv1
      (AlignLo size F) (by omega)
  · exact forLoop_writes 1 size bs (by omega) hs (AlignLo size F) _ hle2 (one_dvd _) size
      (by omega)

/-- The store logs of the unary kernel, by stage. -/
theorem unary_stage_writes {α : Type} [LinearOrderedCommRing α] (F QF : Nat) (hF : 0 < F)
    (hQF : QF = 4 * F) (V B : UnaryFns α) (type : SimdSynetUnaryOperation32fType)
    (align : Bool) (src : Nat → α) (size : Nat) (dst : Buf α) :
    ThreeTierStores F QF size dst.writes
      (SynetUnaryOperation32fLayerForwardQuads F QF V type align src size dst).2.writes
      (SynetUnaryOperation32fLayerForwardBlocks F QF V type align src size dst).2.writes
      (SynetUnaryOperation32fLayerForwardF F QF V B type align src size dst).writes := by
  obtain ⟨k1, k2, k3⟩ := threeTier_stage_writes F QF size hF hQF
    (fun i dst =>
      Store F align (Store F align (Store F align (Store F align dst (i + 0 * F)
        (SynetUnaryOperation32f V type (Load align src (i + 0 * F)))) (i + 1 * F)
        (SynetUnaryOperation32f V type (Load align src (i + 1 * F)))) (i + 2 * F)
        (SynetUnaryOperation32f V type (Load align src (i + 2 * F)))) (i + 3 * F)
        (SynetUnaryOperation32f V type (Load align src (i + 3 * F))))
    (fun i dst => Store F align dst i (SynetUnaryOperation32f V type (Load align src i)))
    (fun i dst => dst.set i (Base.SynetUnaryOperation32f B type (src i)))
    (fun j d => by
      rw [hQF]
      exact quad_ranges d.writes j F)
    (fun _ _ => rfl) (fun _ _ => rfl) dst
  have eQ : SynetUnaryOperation32fLayerForwardQuads F QF V type align src size dst =
      forLoop QF (AlignLo size QF) (fun i dst =>
        Store F align (Store F align (Store F align (Store F align dst (i + 0 * F)
          (SynetUnaryOperation32f V type (Load align src (i + 0 * F)))) (i + 1 * F)
          (SynetUnaryOperation32f V type (Load align src (i + 1 * F)))) (i + 2 * F)
          (SynetUnaryOperation32f V type (Load align src (i + 2 * F)))) (i + 3 * F)
          (SynetUnaryOperation32f V type (Load align src (i + 3 * F))))
        (AlignLo size QF) 0 dst := rfl
  have eB : SynetUnaryOperation32fLayerForwardBlocks F QF V type align src size dst =
      forLoop F (AlignLo size F) (fun i dst =>
        Store F align dst i (SynetUnaryOperation32f V type (Load align src i)))
        (AlignLo size F) (AlignLo size QF)
        (SynetUnaryOperation32fLayerForwardQuads F QF V type align src size dst).2 := by
    rw [unary_blocks_link, eQ, k1]
  have eR : SynetUnaryOperation32fLayerForwardF F QF V B type align src size dst =
      (forLoop 1 size (fun i dst => dst.set i (Base.SynetUnaryOperation32f B type (src i)))
        size (AlignLo size F)
        (SynetUnaryOperation32fLayerForwardBlocks F QF V type align src size dst).2).2 := by
    unfold SynetUnaryOperation32fLayerForwardF
    simp only []
    rw [eB, eQ, k2]
  rw [eR, eB, eQ]
  exact k3

/-- The store logs of one pass of the typed element-wise kernel, by stage. -/
theorem sse41_eltwise_stage_writes {α : Type} (opV : (Nat → α) → (Nat → α) → Nat → α)
    (opS : α → α → α) (align : Bool) (fst : Buf α → Nat → α) (snd : Nat → α) (size : Nat)
    (dst : Buf α) :
    ThreeTierStores Sse41.F Sse41.QF size dst.writes
      (Sse41.SynetEltwiseLayerForwardPassQuads opV align fst snd size dst).2.writes
      (Sse41.SynetEltwiseLayerForwardPassVectors opV align fst snd size dst).2.writes
      (Sse41.SynetEltwiseLayerForwardPass opV opS align fst snd size dst).writes := by
  have hQF : Sse41.QF = 4 * Sse41.F := rfl
  have hle1 : AlignLo size Sse41.QF ≤ AlignLo size Sse41.F := by
    rw [hQF]
    exact AlignLo_quad_le size Sse41.F
  obtain ⟨k1, k2, k3⟩ := threeTier_stage_writes Sse41.F Sse41.QF size (by decide) hQF
    (fun j dst =>
      Sse41.SynetEltwiseLayerForwardAt opV align
        (fst (Sse41.SynetEltwiseLayerForwardAt opV align
          (fst (Sse41.SynetEltwiseLayerForwardAt opV align
            (fst (Sse41.SynetEltwiseLayerForwardAt opV align (fst dst) snd dst
              (j + Sse41.F * 0))) snd
            (Sse41.SynetEltwiseLayerForwardAt opV align (fst dst) snd dst
              (j + Sse41.F * 0)) (j + Sse41.F * 1))) snd
          (Sse41.SynetEltwiseLayerForwardAt opV align
            (fst (Sse41.SynetEltwiseLayerForwardAt opV align (fst dst) snd dst
              (j + Sse41.F * 0))) snd
            (Sse41.SynetEltwiseLayerForwardAt opV align (fst dst) snd dst
              (j + Sse41.F * 0)) (j + Sse41.F * 1)) (j + Sse41.F * 2))) snd
        (Sse41.SynetEltwiseLayerForwardAt opV align
          (fst (Sse41.SynetEltwiseLayerForwardAt opV align
            (fst (Sse41.SynetEltwiseLayerForwardAt opV align (fst dst) snd dst
              (j + Sse41.F * 0))) snd
            (Sse41.SynetEltwiseLayerForwardAt opV align (fst dst) snd dst
              (j + Sse41.F * 0)) (j + Sse41.F * 1))) snd
          (Sse41.SynetEltwiseLayerForwardAt opV align
            (fst (Sse41.SynetEltwiseLayerForwardAt opV align (fst dst) snd dst
              (j + Sse41.F * 0))) snd
            (Sse41.SynetEltwiseLayerForwardAt opV align (fst dst) snd dst
              (j + Sse41.F * 0)) (j + Sse41.F * 1)) (j + Sse41.F * 2))
        (j + Sse41.F * 3))
    (fun j dst => Sse41.SynetEltwiseLayerForwardAt opV align (fst dst) snd dst j)
    (fun j dst => dst.set j (opS (fst dst j) (snd j)))
    (fun j d => by
      have q := quad_ranges d.writes j Sse41.F
      rw [Nat.mul_comm 0, Nat.mul_comm 1, Nat.mul_comm 2, Nat.mul_comm 3] at q
      exact q)
    (fun _ _ => rfl) (fun _ _ => rfl) dst
  by_cases c : AlignLo size Sse41.F ≠ 0
  · unfold ThreeTierStores at k3 ⊢
    unfold Sse41.SynetEltwiseLayerForwardPass Sse41.SynetEltwiseLayerForwardPassVectors
      Sse41.SynetEltwiseLayerForwardPassQuads
    simp only [if_pos c]
    rw [k1, k2]
    exact k3
  · have hz : AlignLo size Sse41.F = 0 := by
      simp only [ne_eq, not_not] at c
      exact c
    have hz4 : AlignLo size Sse41.QF = 0 := by omega
    have eQ : Sse41.SynetEltwiseLayerForwardPassQuads opV align fst snd size dst =
        (0, dst) := by
      unfold Sse41.SynetEltwiseLayerForwardPassQuads
      simp only [if_neg c]
    have eB : Sse41.SynetEltwiseLayerForwardPassVectors opV align fst snd size dst =
        (0, dst) := by
      unfold Sse41.SynetEltwiseLayerForwardPassVectors
      simp only [if_neg c]
      exact eQ
    have w := forLoop_writes 1 size (fun j (dst : Buf α) => dst.set j (opS (fst dst j) (snd j)))
      (by omega) (fun _ _ => rfl) 0 dst (Nat.zero_le _) (one_dvd _) size (by omega)
    unfold ThreeTierStores
    rw [hz, hz4]
    refine ⟨?_, ?_, ?_⟩
    · rw [eQ]
      simp
    · rw [eB, eQ]
      simp
    · unfold Sse41.SynetEltwiseLayerForwardPass
      simp only []
      rw [eB]
      exact w

/-- C32: the three-tier block / single-vector / scalar decomposition of the element-wise and
the unary loops. For every `size` and every vector width `F` (with `QF = 4F`), in the unary
kernel and in every pass of the SSE4.1 element-wise kernel: the statements of the
four-vector loop handle exactly the indices `[0, AlignLo(size, 4F))`, those of the
one-vector loop exactly `[AlignLo(size, 4F), AlignLo(size, F))`, and those of the scalar loop
exactly `[AlignLo(size, F), size)`; the three ranges are disjoint, their union is
`[0, size)`, and every vector load or store covers `F` indices that lie below `size`; the
store log of the kernel grows, stage by stage, by exactly these ranges. -/
theorem C32_three_tier {α : Type} [LinearOrderedCommRing α] (F QF : Nat) (hF : 0 < F)
    (hQF : QF = 4 * F) (V B : UnaryFns α) (type : SimdSynetUnaryOperation32fType)
    (align : Bool) (src : Nat → α) (size : Nat) (dst : Buf α)
    (opV : (Nat → α) → (Nat → α) → Nat → α) (opS : α → α → α) (fst : Buf α → Nat → α)
    (snd : Nat → α) :
    ThreeTierPartition F QF size (SynetUnaryOperation32fLayerForwardOffsets F QF size) ∧
      ThreeTierStores F QF size dst.writes
        (SynetUnaryOperation32fLayerForwardQuads F QF V type align src size dst).2.writes
        (SynetUnaryOperation32fLayerForwardBlocks F QF V type align src size dst).2.writes
        (SynetUnaryOperation32fLayerForwardF F QF V B type align src size dst).writes ∧
      ThreeTierPartition Sse41.F Sse41.QF size (Sse41.SynetEltwiseLayerForwardOffsets size) ∧
      ThreeTierStores Sse41.F Sse41.QF size dst.writes
        (Sse41.SynetEltwiseLayerForwardPassQuads opV align fst snd size dst).2.writes
        (Sse41.SynetEltwiseLayerForwardPassVectors opV align fst snd size dst).2.writes
        (Sse41.SynetEltwiseLayerForwardPass opV opS align fst snd size dst).writes :=
  ⟨unary_offsets_partition F QF size hF hQF,
    unary_stage_writes F QF hF hQF V B type align src size dst,
    sse41_eltwise_offsets_partition size,
    sse41_eltwise_stage_writes opV opS align fst snd size dst⟩

/-- C32 on the AVX2 unary kernel (`F = 8`) and an SSE4.1 element-wise pass, 45 elements. -/
theorem C32_three_tier_witness :
    0 < Avx2.F ∧ Avx2.QF = 4 * Avx2.F ∧
      ThreeTierPartition Avx2.F Avx2.QF 45
        (SynetUnaryOperation32fLayerForwardOffsets Avx2.F Avx2.QF 45) ∧
      ThreeTierPartition Sse41.F Sse41.QF 45 (Sse41.SynetEltwiseLayerForwardOffsets 45) :=
  ⟨by decide, rfl,
    (C32_three_tier Avx2.F Avx2.QF (by decide) rfl idFns idFns
      SimdSynetUnaryOperation32fType.Abs false quadWeight 45 (Buf.ofFn zeroVec)
      Sse41.SynetEltwiseLayerForwardProduct Base.SynetEltwiseLayerForwardProduct
      (fun _ => quadWeight) rampWeight).1,
    (C32_three_tier Avx2.F Avx2.QF (by decide) rfl idFns idFns
      SimdSynetUnaryOperation32fType.Abs false quadWeight 45 (Buf.ofFn zeroVec)
      Sse41.SynetEltwiseLayerForwardProduct Base.SynetEltwiseLayerForwardProduct
      (fun _ => quadWeight) rampWeight).2.2.1⟩

/-- The one-row kernel is its single-vector loop and its masked tail, entered with the counter
and the register that the block `if (K32) { ... }` leaves. -/
theorem avx2_forward1_merged_link {α : Type} [CommRing α] (S0 W : Nat → α) (K : Nat) :
    Avx2.SynetInnerProductLayerForward1Sum S0 W K =
      (fun (r : Nat × (Nat → α)) =>
        if K / 8 * 8 < K then
          fmadd_ps (and_ps (Avx2.Tail (K - K / 8 * 8)) (Load false S0 (subSizeT K 8)))
            (and_ps (Avx2.Tail (K - K / 8 * 8))
              (Load false (fun x => W (0 * K + x)) (subSizeT K 8))) r.2
        else r.2)
      (forLoop 8 (K / 8 * 8) (fun k d00 =>
        fmadd_ps (Load false S0 k) (Load false (fun x => W (0 * K + x)) k) d00) (K / 8 * 8)
        (Avx2.SynetInnerProductLayerForward1Merged S0 W K).1
        (Avx2.SynetInnerProductLayerForward1Merged S0 W K).2) := by
  unfold Avx2.SynetInnerProductLayerForward1Sum Avx2.SynetInnerProductLayerForward1Merged
    Avx2.SynetInnerProductLayerForward1Main
  by_cases c : K / 32 * 32 ≠ 0
  · simp only [if_pos c]
  · simp only [if_neg c]

/-- The four-row kernel is its single-vector loop and its masked tail, entered with the
counter and the registers that the block `if (K16) { ... }` leaves. -/
theorem avx2_forward4_merged_link {α : Type} [CommRing α] (S0 W : Nat → α) (K : Nat) :
    Avx2.SynetInnerProductLayerForward4Sums S0 W K =
      (fun (r : Nat × ((Nat → α) × (Nat → α) × (Nat → α) × (Nat → α))) =>
        if K / 8 * 8 < K then
          (fmadd_ps (and_ps (Avx2.Tail (K - K / 8 * 8)) (Load false S0 (subSizeT K 8)))
              (and_ps (Avx2.Tail (K - K / 8 * 8))
                (Load false (fun x => W (0 * K + x)) (subSizeT K 8 + 0 * Avx2.F))) r.2.1,
            fmadd_ps (and_ps (Avx2.Tail (K - K / 8 * 8)) (Load false S0 (subSizeT K 8)))
              (and_ps (Avx2.Tail (K - K / 8 * 8))
                (Load false (fun x => W (1 * K + x)) (subSizeT K 8 + 0 * Avx2.F))) r.2.2.1,
            fmadd_ps (and_ps (Avx2.Tail (K - K / 8 * 8)) (Load false S0 (subSizeT K 8)))
              (and_ps (Avx2.Tail (K - K / 8 * 8))
                (Load false (fun x => W (2 * K + x)) (subSizeT K 8 + 0 * Avx2.F))) r.2.2.2.1,
            fmadd_ps (and_ps (Avx2.Tail (K - K / 8 * 8)) (Load false S0 (subSizeT K 8)))
              (and_ps (Avx2.Tail (K - K / 8 * 8))
                (Load false (fun x => W (3 * K + x)) (subSizeT K 8 + 0 * Avx2.F))) r.2.2.2.2)
        else r.2)
      (forLoop 8 (K / 8 * 8)
        (fun k (d : (Nat → α) × (Nat → α) × (Nat → α) × (Nat → α)) =>
          (fmadd_ps (Load false S0 (k + 0 * Avx2.F))
              (Load false (fun x => W (0 * K + x)) (k + 0 * Avx2.F)) d.1,
            fmadd_ps (Load false S0 (k + 0 * Avx2.F))
              (Load false (fun x => W (1 * K + x)) (k + 0 * Avx2.F)) d.2.1,
            fmadd_ps (Load false S0 (k + 0 * Avx2.F))
              (Load false (fun x => W (2 * K + x)) (k + 0 * Avx2.F)) d.2.2.1,
            fmadd_ps (Load false S0 (k + 0 * Avx2.F))
              (Load false (fun x => W (3 * K + x)) (k + 0 * Avx2.F)) d.2.2.2)) (K / 8 * 8)
        (Avx2.SynetInnerProductLayerForward4Merged S0 W K).1
        (Avx2.SynetInnerProductLayerForward4Merged S0 W K).2) := by
  unfold Avx2.SynetInnerProductLayerForward4Sums Avx2.SynetInnerProductLayerForward4Merged
    Avx2.SynetInnerProductLayerForward4Main
  by_cases c : K / 16 * 16 ≠ 0
  · simp only [if_pos c]
  · simp only [if_neg c]

/-- A strided loop over `Q` whole blocks, started at `0`: a lane function of the state that
every iteration `k` increases by `g k` on every lane, and that starts at zero, ends as the
sum of `g` over the block starts `0, step, ..., (Q - 1) * step`. -/
theorem forLoop_lane_acc {α σ : Type} [CommRing α] (step Q : Nat) (body : Nat → σ → σ)
    (val : σ → Nat → α) (g : Nat → Nat → α) (hstep : 0 < step)
    (hbody : ∀ k d l, val (body k d) l = g k l + val d l) (st : σ)
    (h0 : ∀ l, val st l = 0) :
    (forLoop step (Q * step) body (Q * step) 0 st).1 = Q * step ∧
      ∀ l, val (forLoop step (Q * step) body (Q * step) 0 st).2 l =
        ∑ q in Finset.range Q, g (q * step) l := by
  have key := forLoop_stride step (Q * step) body
    (fun j d => ∃ q, j = q * step ∧ ∀ l, val d l = ∑ i in Finset.range q, g (i * step) l)
    hstep 0 st ⟨0, by simp, by simpa using h0⟩ (Nat.zero_le _) ⟨Q, by simp [Nat.mul_comm]⟩
    ?_ (Q * step) (by omega)
  · obtain ⟨h1, q, hq, h⟩ := key
    have e : q = Q := (Nat.eq_of_mul_eq_mul_right hstep hq).symm
    subst e
    exact ⟨h1, h⟩
  · rintro j d - - ⟨q, rfl, h⟩
    refine ⟨q + 1, by ring, fun l => ?_⟩
    rw [hbody, h, Finset.sum_range_succ, add_comm]

/-- The main loop of the one-row kernel: it stops at `K / 32 * 32`, and accumulator `m` holds
in lane `l` the products at the indices `32 q + 8 m + l`, `q < K / 32`. -/
theorem avx2_forward1_main_acc {α : Type} [CommRing α] (S0 W : Nat → α) (K : Nat) :
    (Avx2.SynetInnerProductLayerForward1Main S0 W K).1 = K / 32 * 32 ∧
      ∀ l,
        (Avx2.SynetInnerProductLayerForward1Main S0 W K).2.1 l =
            ∑ q in Finset.range (K / 32),
              S0 (q * 32 + 0 * 8 + l) * W (0 * K + (q * 32 + 0 * 8 + l)) ∧
          (Avx2.SynetInnerProductLayerForward1Main S0 W K).2.2.1 l =
            ∑ q in Finset.range (K / 32),
              S0 (q * 32 + 1 * 8 + l) * W (0 * K + (q * 32 + 1 * 8 + l)) ∧
          (Avx2.SynetInnerProductLayerForward1Main S0 W K).2.2.2.1 l =
            ∑ q in Finset.range (K / 32),
              S0 (q * 32 + 2 * 8 + l) * W (0 * K + (q * 32 + 2 * 8 + l)) ∧
          (Avx2.SynetInnerProductLayerForward1Main S0 W K).2.2.2.2 l =
            ∑ q in Finset.range (K / 32),
              S0 (q * 32 + 3 * 8 + l) * W (0 * K + (q * 32 + 3 * 8 + l)) := by
  unfold Avx2.SynetInnerProductLayerForward1Main
  refine ⟨(forLoop_lane_acc 32 (K / 32) _
    (fun (d : (Nat → α) × (Nat → α) × (Nat → α) × (Nat → α)) => d.1)
    (fun k l => S0 (k + 0 * 8 + l) * W (0 * K + (k + 0 * 8 + l))) (by norm_num)
    (fun _ _ _ => rfl) _ (fun _ => rfl)).1, fun l => ⟨?_, ?_, ?_, ?_⟩⟩
  · exact (forLoop_lane_acc 32 (K / 32) _ (fun (d : (Nat → α) × (Nat → α) × (Nat → α) × (Nat → α)) => d.1)
      (fun k l => S0 (k + 0 * 8 + l) * W (0 * K + (k + 0 * 8 + l))) (by norm_num)
      (fun _ _ _ => rfl) _ (fun _ => rfl)).2 l
  · exact (forLoop_lane_acc 32 (K / 32) _ (fun (d : (Nat → α) × (Nat → α) × (Nat → α) × (Nat → α)) => d.2.1)
      (fun k l => S0 (k + 1 * 8 + l) * W (0 * K + (k + 1 * 8 + l))) (by norm_num)
      (fun _ _ _ => rfl) _ (fun _ => rfl)).2 l
  · exact (forLoop_lane_acc 32 (K / 32) _ (fun (d : (Nat → α) × (Nat → α) × (Nat → α) × (Nat → α)) => d.2.2.1)
      (fun k l => S0 (k + 2 * 8 + l) * W (0 * K + (k + 2 * 8 + l))) (by norm_num)
      (fun _ _ _ => rfl) _ (fun _ => rfl)).2 l
  · exact (forLoop_lane_acc 32 (K / 32) _ (fun (d : (Nat → α) × (Nat → α) × (Nat → α) × (Nat → α)) => d.2.2.2)
      (fun k l => S0 (k + 3 * 8 + l) * W (0 * K + (k + 3 * 8 + l))) (by norm_num)
      (fun _ _ _ => rfl) _ (fun _ => rfl)).2 l

/-- The main loop of the four-row kernel: it stops at `K / 16 * 16`, and accumulator `m` of
row `n` holds in lane `l` the products of the activations with weight row `n` at the indices
`16 q + 8 m + l`, `q < K / 16`. -/
theorem avx2_forward4_main_acc {α : Type} [CommRing α] (S0 W : Nat → α) (K : Nat) :
    (Avx2.SynetInnerProductLayerForward4Main S0 W K).1 = K / 16 * 16 ∧
      ∀ l,
        (Avx2.SynetInnerProductLayerForward4Main S0 W K).2.1.1 l =
            ∑ q in Finset.range (K / 16),
              S0 (q * 16 + 0 * 8 + l) * W (0 * K + (q * 16 + 0 * 8 + l)) ∧
        (Avx2.SynetInnerProductLayerForward4Main S0 W K).2.1.2 l =
            ∑ q in Finset.range (K / 16),
              S0 (q * 16 + 1 * 8 + l) * W (0 * K + (q * 16 + 1 * 8 + l)) ∧
        (Avx2.SynetInnerProductLayerForward4Main S0 W K).2.2.1.1 l =
            ∑ q in Finset.range (K / 16),
              S0 (q * 16 + 0 * 8 + l) * W (1 * K + (q * 16 + 0 * 8 + l)) ∧
        (Avx2.SynetInnerProductLayerForward4Main S0 W K).2.2.1.2 l =
            ∑ q in Finset.range (K / 16),
              S0 (q * 16 + 1 * 8 + l) * W (1 * K + (q * 16 + 1 * 8 + l)) ∧
        (Avx2.SynetInnerProductLayerForward4Main S0 W K).2.2.2.1.1 l =
            ∑ q in Finset.range (K / 16),
              S0 (q * 16 + 0 * 8 + l) * W (2 * K + (q * 16 + 0 * 8 + l)) ∧
        (Avx2.SynetInnerProductLayerForward4Main S0 W K).2.2.2.1.2 l =
            ∑ q in Finset.range (K / 16),
              S0 (q * 16 + 1 * 8 + l) * W (2 * K + (q * 16 + 1 * 8 + l)) ∧
        (Avx2.SynetInnerProductLayerForward4Main S0 W K).2.2.2.2.1 l =
            ∑ q in Finset.range (K / 16),
              S0 (q * 16 + 0 * 8 + l) * W (3 * K + (q * 16 + 0 * 8 + l)) ∧
        (Avx2.SynetInnerProductLayerForward4Main S0 W K).2.2.2.2.2 l =
            ∑ q in Finset.range (K / 16),
              S0 (q * 16 + 1 * 8 + l) * W (3 * K + (q * 16 + 1 * 8 + l)) := by
  unfold Avx2.SynetInnerProductLayerForward4Main
  refine ⟨(forLoop_lane_acc 16 (K / 16) _
    (fun (d : ((Nat → α) × (Nat → α)) × ((Nat → α) × (Nat → α)) ×
        ((Nat → α) × (Nat → α)) × ((Nat → α) × (Nat → α))) => d.1.1)
    (fun k l => S0 (k + 0 * 8 + l) * W (0 * K + (k + 0 * 8 + l))) (by norm_num)
    (fun _ _ _ => rfl) _ (fun _ => rfl)).1, fun l => ⟨?_, ?_, ?_, ?_, ?_, ?_, ?_, ?_⟩⟩
  · exact (forLoop_lane_acc 16 (K / 16) _
      (fun (d : ((Nat → α) × (Nat → α)) × ((Nat → α) × (Nat → α)) ×
        ((Nat → α) × (Nat → α)) × ((Nat → α) × (Nat → α))) => d.1.1)
      (fun k l => S0 (k + 0 * 8 + l) * W (0 * K + (k + 0 * 8 + l))) (by norm_num)
      (fun _ _ _ => rfl) _ (fun _ => rfl)).2 l
  · exact (forLoop_lane_acc 16 (K / 16) _
      (fun (d : ((Nat → α) × (Nat → α)) × ((Nat → α) × (Nat → α)) ×
        ((Nat → α) × (Nat → α)) × ((Nat → α) × (Nat → α))) => d.1.2)
      (fun k l => S0 (k + 1 * 8 + l) * W (0 * K + (k + 1 * 8 + l))) (by norm_num)
      (fun _ _ _ => rfl) _ (fun _ => rfl)).2 l
  · exact (forLoop_lane_acc 16 (K / 16) _
      (fun (d : ((Nat → α) × (Nat → α)) × ((Nat → α) × (Nat → α)) ×
        ((Nat → α) × (Nat → α)) × ((Nat → α) × (Nat → α))) => d.2.1.1)
      (fun k l => S0 (k + 0 * 8 + l) * W (1 * K + (k + 0 * 8 + l))) (by norm_num)
      (fun _ _ _ => rfl) _ (fun _ => rfl)).2 l
  · exact (forLoop_lane_acc 16 (K / 16) _
      (fun (d : ((Nat → α) × (Nat → α)) × ((Nat → α) × (Nat → α)) ×
        ((Nat → α) × (Nat → α)) × ((Nat → α) × (Nat → α))) => d.2.1.2)
      (fun k l => S0 (k + 1 * 8 + l) * W (1 * K + (k + 1 * 8 + l))) (by norm_num)
      (fun _ _ _ => rfl) _ (fun _ => rfl)).2 l
  · exact (forLoop_lane_acc 16 (K / 16) _
      (fun (d : ((Nat → α) × (Nat → α)) × ((Nat → α) × (Nat → α)) ×
        ((Nat → α) × (Nat → α)) × ((Nat → α) × (Nat → α))) => d.2.2.1.1)
      (fun k l => S0 (k + 0 * 8 + l) * W (2 * K + (k + 0 * 8 + l))) (by norm_num)
      (fun _ _ _ => rfl) _ (fun _ => rfl)).2 l
  · exact (forLoop_lane_acc 16 (K / 16) _
      (fun (d : ((Nat → α) × (Nat → α)) × ((Nat → α) × (Nat → α)) ×
        ((Nat → α) × (Nat → α)) × ((Nat → α) × (Nat → α))) => d.2.2.1.2)
      (fun k l => S0 (k + 1 * 8 + l) * W (2 * K + (k + 1 * 8 + l))) (by norm_num)
      (fun _ _ _ => rfl) _ (fun _ => rfl)).2 l
  · exact (forLoop_lane_acc 16 (K / 16) _
      (fun (d : ((Nat → α) × (Nat → α)) × ((Nat → α) × (Nat → α)) ×
        ((Nat → α) × (Nat → α)) × ((Nat → α) × (Nat → α))) => d.2.2.2.1)
      (fun k l => S0 (k + 0 * 8 + l) * W (3 * K + (k + 0 * 8 + l))) (by norm_num)
      (fun _ _ _ => rfl) _ (fun _ => rfl)).2 l
  · exact (forLoop_lane_acc 16 (K / 16) _
      (fun (d : ((Nat → α) × (Nat → α)) × ((Nat → α) × (Nat → α)) ×
        ((Nat → α) × (Nat → α)) × ((Nat → α) × (Nat → α))) => d.2.2.2.2)
      (fun k l => S0 (k + 1 * 8 + l) * W (3 * K + (k + 1 * 8 + l))) (by norm_num)
      (fun _ _ _ => rfl) _ (fun _ => rfl)).2 l

/-- C31, as stated, fails on the code. With all-ones data: at `K = 16` the main loop of the
one-row kernel consumes nothing (its counter stays `0`) while the main loop of the four-row
kernel consumes all `16` elements, so the strides differ; at `K = 32` the one-row kernel runs
one iteration that fills four accumulators (the third and the fourth hold `1` in lane `0`),
and the register entering the single-width loop holds `4` in lane `0`, not the sum `2` of two
accumulators. -/
theorem C31_two_way_refuted :
    (Avx2.SynetInnerProductLayerForward1Main onesVec onesVec 16).1 = 0 ∧
      (Avx2.SynetInnerProductLayerForward4Main onesVec onesVec 16).1 = 16 ∧
      (Avx2.SynetInnerProductLayerForward1Main onesVec onesVec 32).2.2.2.1 0 = 1 ∧
      (Avx2.SynetInnerProductLayerForward1Main onesVec onesVec 32).2.2.2.2 0 = 1 ∧
      (Avx2.SynetInnerProductLayerForward1Merged onesVec onesVec 32).2 0 = 4 ∧
      add_ps (Avx2.SynetInnerProductLayerForward1Main onesVec onesVec 32).2.1
        (Avx2.SynetInnerProductLayerForward1Main onesVec onesVec 32).2.2.1 0 = 2 := by
  refine ⟨?_, ?_, ?_, ?_, ?_, ?_⟩
  · simp [Avx2.SynetInnerProductLayerForward1Main, forLoop]
  · simp [Avx2.SynetInnerProductLayerForward4Main, forLoop]
  · simp [Avx2.SynetInnerProductLayerForward1Main, forLoop, fmadd_ps, Load, setzero_ps,
      onesVec]
  · simp [Avx2.SynetInnerProductLayerForward1Main, forLoop, fmadd_ps, Load, setzero_ps,
      onesVec]
  · simp [Avx2.SynetInnerProductLayerForward1Merged, Avx2.SynetInnerProductLayerForward1Main,
      forLoop, fmadd_ps, add_ps, Load, setzero_ps, onesVec]
    norm_num
  · simp [Avx2.SynetInnerProductLayerForward1Main, forLoop, fmadd_ps, add_ps, Load,
      setzero_ps, onesVec]
    norm_num

/-- C31, amended to four-way: for every `K`, `S0` and `W`, the main loop of
`SynetInnerProductLayerForward1` consumes the reduction dimension in steps of `32` (twice the
stride `16` of the four-row kernel), stopping at `K / 32 * 32`, and keeps four partial-sum
accumulators for the row: accumulator `m` holds in lane `l` the sum of the products at the
indices `32 q + 8 m + l`, `q < K / 32`. The four are added together before the single-width
loop, which is entered at `k = K / 32 * 32`. The main loop of `SynetInnerProductLayerForward4`
steps by `16`, stops at `K / 16 * 16` and keeps two accumulators per row (accumulator `m` of
row `n` holds the products with weight row `n` at `16 q + 8 m + l`), added together row by
row before its single-width loop. -/
theorem C31_four_way {α : Type} [CommRing α] (S0 W : Nat → α) (K : Nat) :
    ((Avx2.SynetInnerProductLayerForward1Main S0 W K).1 = K / 32 * 32 ∧
      ∀ l,
        (Avx2.SynetInnerProductLayerForward1Main S0 W K).2.1 l =
            ∑ q in Finset.range (K / 32), S0 (q * 32 + 0 * 8 + l) * W (q * 32 + 0 * 8 + l) ∧
          (Avx2.SynetInnerProductLayerForward1Main S0 W K).2.2.1 l =
            ∑ q in Finset.range (K / 32), S0 (q * 32 + 1 * 8 + l) * W (q * 32 + 1 * 8 + l) ∧
          (Avx2.SynetInnerProductLayerForward1Main S0 W K).2.2.2.1 l =
            ∑ q in Finset.range (K / 32), S0 (q * 32 + 2 * 8 + l) * W (q * 32 + 2 * 8 + l) ∧
          (Avx2.SynetInnerProductLayerForward1Main S0 W K).2.2.2.2 l =
            ∑ q in Finset.range (K / 32), S0 (q * 32 + 3 * 8 + l) * W (q * 32 + 3 * 8 + l)) ∧
      ((Avx2.SynetInnerProductLayerForward1Merged S0 W K).1 = K / 32 * 32 ∧
        ∀ l, (Avx2.SynetInnerProductLayerForward1Merged S0 W K).2 l =
          ((Avx2.SynetInnerProductLayerForward1Main S0 W K).2.1 l +
              (Avx2.SynetInnerProductLayerForward1Main S0 W K).2.2.1 l) +
            ((Avx2.SynetInnerProductLayerForward1Main S0 W K).2.2.2.1 l +
              (Avx2.SynetInnerProductLayerForward1Main S0 W K).2.2.2.2 l)) ∧
      ((Avx2.SynetInnerProductLayerForward4Main S0 W K).1 = K / 16 * 16 ∧
        ∀ l,
          (Avx2.SynetInnerProductLayerForward4Main S0 W K).2.1.1 l =
              ∑ q in Finset.range (K / 16),
                S0 (q * 16 + 0 * 8 + l) * W (0 * K + (q * 16 + 0 * 8 + l)) ∧
          (Avx2.SynetInnerProductLayerForward4Main S0 W K).2.1.2 l =
              ∑ q in Finset.range (K / 16),
                S0 (q * 16 + 1 * 8 + l) * W (0 * K + (q * 16 + 1 * 8 + l)) ∧
          (Avx2.SynetInnerProductLayerForward4Main S0 W K).2.2.1.1 l =
              ∑ q in Finset.range (K / 16),
                S0 (q * 16 + 0 * 8 + l) * W (1 * K + (q * 16 + 0 * 8 + l)) ∧
          (Avx2.SynetInnerProductLayerForward4Main S0 W K).2.2.1.2 l =
              ∑ q in Finset.range (K / 16),
                S0 (q * 16 + 1 * 8 + l) * W (1 * K + (q * 16 + 1 * 8 + l)) ∧
          (Avx2.SynetInnerProductLayerForward4Main S0 W K).2.2.2.1.1 l =
              ∑ q in Finset.range (K / 16),
                S0 (q * 16 + 0 * 8 + l) * W (2 * K + (q * 16 + 0 * 8 + l)) ∧
          (Avx2.SynetInnerProductLayerForward4Main S0 W K).2.2.2.1.2 l =
              ∑ q in Finset.range (K / 16),
                S0 (q * 16 + 1 * 8 + l) * W (2 * K + (q * 16 + 1 * 8 + l)) ∧
          (Avx2.SynetInnerProductLayerForward4Main S0 W K).2.2.2.2.1 l =
              ∑ q in Finset.range (K / 16),
                S0 (q * 16 + 0 * 8 + l) * W (3 * K + (q * 16 + 0 * 8 + l)) ∧
          (Avx2.SynetInnerProductLayerForward4Main S0 W K).2.2.2.2.2 l =
              ∑ q in Finset.range (K / 16),
                S0 (q * 16 + 1 * 8 + l) * W (3 * K + (q * 16 + 1 * 8 + l))) ∧
      ((Avx2.SynetInnerProductLayerForward4Merged S0 W K).1 = K / 16 * 16 ∧
        ∀ l,
          (Avx2.SynetInnerProductLayerForward4Merged S0 W K).2.1 l =
              (Avx2.SynetInnerProductLayerForward4Main S0 W K).2.1.1 l +
                (Avx2.SynetInnerProductLayerForward4Main S0 W K).2.1.2 l ∧
            (Avx2.SynetInnerProductLayerForward4Merged S0 W K).2.2.1 l =
              (Avx2.SynetInnerProductLayerForward4Main S0 W K).2.2.1.1 l +
                (Avx2.SynetInnerProductLayerForward4Main S0 W K).2.2.1.2 l ∧
            (Avx2.SynetInnerProductLayerForward4Merged S0 W K).2.2.2.1 l =
              (Avx2.SynetInnerProductLayerForward4Main S0 W K).2.2.2.1.1 l +
                (Avx2.SynetInnerProductLayerForward4Main S0 W K).2.2.2.1.2 l ∧
            (Avx2.SynetInnerProductLayerForward4Merged S0 W K).2.2.2.2 l =
              (Avx2.SynetInnerProductLayerForward4Main S0 W K).2.2.2.2.1 l +
                (Avx2.SynetInnerProductLayerForward4Main S0 W K).2.2.2.2.2 l) := by
  have h1 := avx2_forward1_main_acc S0 W K
  have h4 := avx2_forward4_main_acc S0 W K
  refine ⟨?_, ⟨?_, ?_⟩, h4, ?_, ?_⟩
  · simp only [Nat.zero_mul, Nat.zero_add] at h1 ⊢
    exact h1
  · unfold Avx2.SynetInnerProductLayerForward1Merged
    by_cases c : K / 32 * 32 ≠ 0
    · simp only [if_pos c]
      exact h1.1
    · simp only [if_neg c]
      omega
  · intro l
    unfold Avx2.SynetInnerProductLayerForward1Merged
    by_cases c : K / 32 * 32 ≠ 0
    · simp only [if_pos c]
      rfl
    · have z : K / 32 = 0 := by omega
      obtain ⟨e0, e1, e2, e3⟩ := h1.2 l
      simp only [if_neg c]
      rw [e0, e1, e2, e3, z]
      simp [setzero_ps]
  · unfold Avx2.SynetInnerProductLayerForward4Merged
    by_cases c : K / 16 * 16 ≠ 0
    · simp only [if_pos c]
      exact h4.1
    · simp only [if_neg c]
      omega
  · intro l
    unfold Avx2.SynetInnerProductLayerForward4Merged
    by_cases c : K / 16 * 16 ≠ 0
    · simp only [if_pos c]
      exact ⟨rfl, rfl, rfl, rfl⟩
    · have z : K / 16 = 0 := by omega
      obtain ⟨e0, e1, e2, e3, e4, e5, e6, e7⟩ := h4.2 l
      simp only [if_neg c]
      rw [e0, e1, e2, e3, e4, e5, e6, e7, z]
      simp [setzero_ps]

end Simd
